import Mathlib

/-!
# Snowflake kernel: thread core and synchronisation

A shallow embedding of `libraries/kernel/threads.c` (with the declarations of
`libraries/include/threads.h`): the scheduler, the thread operations, the
reaper, and the mutex and condition-variable primitives built on wait-queues.

The kernel's global variables become the fields of one record, `Kernel`; every
C function becomes a function on that record.  A function that can hit a
failing `assert` (which prints and halts for ever) returns `Option Kernel`,
with `none` for the halt.

A thread that blocks inside `mutex_lock` or `cond_wait` is suspended in the
middle of a C function.  What is left of that function is kept, per thread, as
a list of pending frames (`frame_t`); the step `resume` runs the innermost one
when the thread is the current thread again.
-/

namespace Snowflake

/-! ## Data model (threads.h) -/

/-- A thread handle, `thread_t`: the address of a `real_thread_t`; `0` is `NULL`. -/
abbrev thread_t := Nat

/-- Status value `RUNNABLE` of threads.h. -/
def RUNNABLE : Nat := 0
/-- Status value `BLOCKED` of threads.h. -/
def BLOCKED : Nat := 1
/-- Status value `KILLED` of threads.h. -/
def KILLED : Nat := 2
/-- Status value `EXITED` of threads.h. -/
def EXITED : Nat := 4

/-- What `_thread_switch_stacks` resumes when it loads a thread's saved `esp`:
the trampoline primed by `thread_create`, or a `schedule` call suspended with
the given value of its local `intr_state`. -/
inductive context_t
  | trampoline
  | schedule (intr_state : Nat)
  deriving DecidableEq, Repr

/-- The rest of a C function in which a thread called `schedule`, kept on the
thread's stack while other threads run.
* `mutex_lock m i`: inside the `while` loop of `mutex_lock(m)`, local `istate = i`;
* `mutex_unsafe_lock m i`: the same loop in `mutex_unsafe_lock(m)`;
* `cond_wait m i`: in `cond_wait(_, m)` after `wait_on`, about to call `mutex_lock(m)`;
* `cond_wait_restore i`: in `cond_wait` after `mutex_lock`, about to `interrupts_restore(i)`;
* `thread_exit`: in `thread_exit` after `schedule`, about to `assert(0)`. -/
inductive frame_t
  | mutex_lock (mutex : Nat) (istate : Nat)
  | mutex_unsafe_lock (mutex : Nat) (istate : Nat)
  | cond_wait (mutex : Nat) (istate : Nat)
  | cond_wait_restore (istate : Nat)
  | thread_exit
  deriving DecidableEq, Repr

/-- The record `real_thread_t`.  The stack memory is represented by what it
holds for the scheduler: the context saved at `esp` and the pending frames.
The two `link_t` fields are represented by the lists the thread is linked in. -/
structure real_thread_t where
  esp : context_t
  slot : Nat
  id : Nat
  status : Nat
  frames : List frame_t
  deriving DecidableEq, Repr

/-- The record `mutex_t`; `waitqueue_head` lists the threads of the queued
`waitqueue_node_t` records, first node first; `owner = 0` is `NULL`. -/
structure mutex_t where
  waitqueue_head : List thread_t
  owner : thread_t
  id : Nat
  deriving DecidableEq, Repr

/-- The record `cond_t`. -/
structure cond_t where
  waitqueue_head : List thread_t
  id : Nat
  deriving DecidableEq, Repr

/-- The `link_t *head` handed to `wait_on`, `wake_first` and `wake_all`: the
wait-queue of the mutex, or of the condition variable, at the given address. -/
inductive head_t
  | mutex (m : Nat)
  | cond (c : Nat)
  deriving DecidableEq, Repr

/-- The global state of threads.c, the interrupt-enable flag of EFLAGS, the
thread, mutex and condition-variable records in memory (by address), and the
log of thread records handed to `free`. -/
structure Kernel where
  next_id : Nat
  all_threads : List thread_t
  run_queue : List thread_t
  zombie_list : List thread_t
  current : thread_t
  idle_thread : thread_t
  reaper_thread : thread_t
  eflags_if : Bool
  threads : thread_t → real_thread_t
  mutexes : Nat → mutex_t
  conds : Nat → cond_t
  freed : List thread_t

/-- The address of the static `kernel_thread` record. -/
def kernel_thread : thread_t := 1

/-! ## Lists (list.h) -/

/-- Modelled from the spec: `list.h` (`link_t`, `list_append`, `list_remove`,
`list_empty`, `list_insert_prev`, the head's `next`) is not among the sources.
The spec describes every kernel list as a FIFO to which threads are appended
and from which they are removed; a list is the sequence of its members, first
member first, and `list_append` adds at the tail. -/
def list_append (link : thread_t) (head : List thread_t) : List thread_t :=
  head ++ [link]

/-- Modelled from the spec: `list_insert_prev(link, head)` links `link` in
front of the head of the circular list, that is, as its last member.  It is
used once, on the empty global list. -/
def list_insert_prev (link : thread_t) (head : List thread_t) : List thread_t :=
  head ++ [link]

/-- Modelled from the spec: `list_remove(link)` unlinks a member from the list
it is in. -/
def list_remove (link : thread_t) (head : List thread_t) : List thread_t :=
  head.erase link

/-- Modelled from the spec: `list_empty(head)`. -/
def list_empty (head : List thread_t) : Bool :=
  head.isEmpty

/-! ## Interrupt flag (threads.h) -/

/-- The function `interrupts_disable`: `pushf; cli; pop`, returning `eflags & 0x200`. -/
def interrupts_disable (s : Kernel) : Nat × Kernel :=
  (if s.eflags_if then 0x200 else 0, { s with eflags_if := false })

/-- The function `interrupts_enable`: `sti`. -/
def interrupts_enable (s : Kernel) : Kernel :=
  { s with eflags_if := true }

/-- The function `interrupts_restore`. -/
def interrupts_restore (state : Nat) (s : Kernel) : Kernel :=
  if state ≠ 0 then interrupts_enable s else s

/-! ## Field updates -/

/-- Assignment `t->status = v`. -/
def set_status (s : Kernel) (t : thread_t) (v : Nat) : Kernel :=
  { s with threads := Function.update s.threads t { s.threads t with status := v } }

/-- Assignment `t->slot = v`. -/
def set_slot (s : Kernel) (t : thread_t) (v : Nat) : Kernel :=
  { s with threads := Function.update s.threads t { s.threads t with slot := v } }

/-- Store of the saved context of `t` (`*old_esp` in `_thread_switch_stacks`). -/
def set_esp (s : Kernel) (t : thread_t) (c : context_t) : Kernel :=
  { s with threads := Function.update s.threads t { s.threads t with esp := c } }

/-- Replace the pending frames of `t`. -/
def set_frames (s : Kernel) (t : thread_t) (f : List frame_t) : Kernel :=
  { s with threads := Function.update s.threads t { s.threads t with frames := f } }

/-- The current thread enters a call that may block: its frame goes on the stack. -/
def push_frame (f : frame_t) (s : Kernel) : Kernel :=
  set_frames s s.current (f :: (s.threads s.current).frames)

/-- The members of a wait-queue. -/
def waitqueue (s : Kernel) : head_t → List thread_t
  | .mutex m => (s.mutexes m).waitqueue_head
  | .cond c => (s.conds c).waitqueue_head

/-- Replace the members of a wait-queue. -/
def set_waitqueue (s : Kernel) (h : head_t) (q : List thread_t) : Kernel :=
  match h with
  | .mutex m =>
    { s with mutexes := Function.update s.mutexes m { s.mutexes m with waitqueue_head := q } }
  | .cond c =>
    { s with conds := Function.update s.conds c { s.conds c with waitqueue_head := q } }

/-- Assignment `mutex->owner = t`. -/
def set_owner (s : Kernel) (m : Nat) (t : thread_t) : Kernel :=
  { s with mutexes := Function.update s.mutexes m { s.mutexes m with owner := t } }

/-! ## Thread core (threads.c, lines 26-217) -/

/-- First part of `schedule` (lines 48-72): the previous thread is put on the
run queue, left alone, or put on the zombie list with the reaper woken;
`none` is the `assert(0)` of the `default` case. -/
def schedule_dispose (s : Kernel) : Option Kernel :=
  if s.current ≠ s.idle_thread then
    let st := (s.threads s.current).status
    if st = RUNNABLE then
      some { s with run_queue := list_append s.current s.run_queue }
    else if st = BLOCKED then
      some s
    else if st = KILLED ∨ st = EXITED then
      let s1 := { s with zombie_list := list_append s.current s.zombie_list }
      if (s1.threads s1.reaper_thread).status = BLOCKED then
        let s2 := set_status s1 s1.reaper_thread RUNNABLE
        some { s2 with run_queue := list_append s2.reaper_thread s2.run_queue }
      else
        some s1
    else
      none
  else
    some s

/-- Second part of `schedule` (lines 74-88): the idle thread if the run queue
is empty, otherwise its first member, which is unlinked. -/
def schedule_pick (s : Kernel) : Kernel :=
  match s.run_queue with
  | [] => { s with current := s.idle_thread }
  | t :: _ => { s with current := t, run_queue := list_remove t s.run_queue }

/-- Last part of `schedule` (lines 90-106): return at once if the same thread
was picked; otherwise `_thread_switch_stacks` saves the context of `previous`
(suspended in this call, with its `intr_state`) and resumes the context saved
for the new current thread, which either returns from its own `schedule` call
with `interrupts_restore` of its own `intr_state`, or starts in
`thread_entry_trampoline` with `interrupts_enable`. -/
def schedule_switch (previous : thread_t) (intr_state : Nat) (s : Kernel) : Kernel :=
  if previous = s.current then
    interrupts_restore intr_state s
  else
    let s1 := set_esp s previous (.schedule intr_state)
    match (s1.threads s1.current).esp with
    | .trampoline => interrupts_enable s1
    | .schedule i => interrupts_restore i s1

/-- The function `schedule`. -/
def schedule (s : Kernel) : Option Kernel :=
  let r := interrupts_disable s
  let previous := r.2.current
  match schedule_dispose r.2 with
  | none => none
  | some s1 => some (schedule_switch previous r.1 (schedule_pick s1))

/-- The function `thread_yield`. -/
def thread_yield (s : Kernel) : Option Kernel :=
  schedule s

/-- The function `thread_exit`; the `assert(0)` after `schedule` stays behind
as a frame of the exiting thread. -/
def thread_exit (s : Kernel) : Option Kernel :=
  schedule (push_frame .thread_exit (set_status s s.current EXITED))

/-- The function `thread_create`; `h` is the address `malloc` returns for the
thread record, which is also what is stored in `*thread`. -/
def thread_create (h : thread_t) (s : Kernel) : Kernel :=
  let s1 : Kernel :=
    { s with
      threads := Function.update s.threads h
        { esp := .trampoline, slot := 0, id := s.next_id, status := RUNNABLE, frames := [] }
      next_id := (s.next_id + 1) % 2 ^ 32 }
  let r := interrupts_disable s1
  let s2 := { r.2 with all_threads := list_append h r.2.all_threads }
  let s3 := { s2 with run_queue := list_append h s2.run_queue }
  interrupts_restore r.1 s3

/-- The static initial values of the globals of threads.c before `thread_init`:
`next_id = 0`, three empty lists, null pointers, zeroed records.  The
interrupt flag is whatever the boot code left, here clear. -/
def boot : Kernel where
  next_id := 0
  all_threads := []
  run_queue := []
  zombie_list := []
  current := 0
  idle_thread := 0
  reaper_thread := 0
  eflags_if := false
  threads := fun _ => { esp := .schedule 0, slot := 0, id := 0, status := 0, frames := [] }
  mutexes := fun _ => { waitqueue_head := [], owner := 0, id := 0 }
  conds := fun _ => { waitqueue_head := [], id := 0 }
  freed := []

/-- The function `thread_init`; `idle` and `reaper` are the addresses `malloc`
returns for the two thread records it creates. -/
def thread_init (idle reaper : thread_t) (s : Kernel) : Kernel :=
  let s1 : Kernel :=
    { s with
      threads := Function.update s.threads kernel_thread
        { s.threads kernel_thread with id := s.next_id, status := RUNNABLE, slot := 0 }
      next_id := (s.next_id + 1) % 2 ^ 32 }
  let s2 := { s1 with all_threads := list_insert_prev kernel_thread s1.all_threads }
  let s3 := { s2 with current := kernel_thread }
  let s4 := thread_create idle { s3 with idle_thread := idle }
  thread_create reaper { s4 with reaper_thread := reaper }

/-- The function `thread_self`. -/
def thread_self (s : Kernel) : thread_t :=
  s.current

/-- The function `thread_setspecific`. -/
def thread_setspecific (data : Nat) (s : Kernel) : Kernel :=
  set_slot s s.current data

/-- The function `thread_getspecific`. -/
def thread_getspecific (s : Kernel) : Nat :=
  (s.threads s.current).slot

/-- The function `thread_sleep`. -/
def thread_sleep (s : Kernel) : Option Kernel :=
  schedule (set_status s s.current BLOCKED)

/-- The function `thread_wake`. -/
def thread_wake (t : thread_t) (s : Kernel) : Kernel :=
  let s1 := set_status s t RUNNABLE
  { s1 with run_queue := list_append t s1.run_queue }

/-- The inner `while` loop of `do_reaper` (lines 205-212), run for at most
`fuel` iterations; `none` when the fuel runs out with zombies left. -/
def do_reaper_loop : Nat → Kernel → Option Kernel
  | 0, s => if list_empty s.zombie_list then some s else none
  | fuel + 1, s =>
    match s.zombie_list with
    | [] => some s
    | t :: _ =>
      do_reaper_loop fuel
        { s with
          zombie_list := list_remove t s.zombie_list
          all_threads := list_remove t s.all_threads
          freed := t :: s.freed }

/-- One pass of the outer loop of `do_reaper` (lines 205-215): reap every
zombie, then block and call `schedule`. -/
def do_reaper_pass (s : Kernel) : Option Kernel :=
  match do_reaper_loop s.zombie_list.length s with
  | none => none
  | some s1 => schedule (set_status s1 s1.current BLOCKED)

/-- The function `do_reaper` from its entry to its first `schedule` call. -/
def do_reaper (s : Kernel) : Option Kernel :=
  do_reaper_pass (interrupts_disable s).2

/-! ## Synchronisation (threads.c, lines 221-413) -/

/-- The function `wait_on`. -/
def wait_on (head : head_t) (s : Kernel) : Option Kernel :=
  let s1 := set_waitqueue s head (list_append s.current (waitqueue s head))
  schedule (set_status s1 s1.current BLOCKED)

/-- The function `wake_first`; `none` is the failing assertion that the woken
thread is blocked. -/
def wake_first (head : head_t) (s : Kernel) : Option Kernel :=
  match waitqueue s head with
  | [] => some s
  | t :: _ =>
    let s1 := set_waitqueue s head (list_remove t (waitqueue s head))
    if (s1.threads t).status = BLOCKED then
      let s2 := set_status s1 t RUNNABLE
      some { s2 with run_queue := list_append t s2.run_queue }
    else
      none

/-- The loop of `wake_all`, run for at most `fuel` iterations. -/
def wake_all_loop (head : head_t) : Nat → Kernel → Option Kernel
  | 0, s => if list_empty (waitqueue s head) then some s else none
  | fuel + 1, s =>
    match waitqueue s head with
    | [] => some s
    | t :: _ =>
      let s1 := set_waitqueue s head (list_remove t (waitqueue s head))
      if (s1.threads t).status = BLOCKED then
        let s2 := set_status s1 t RUNNABLE
        wake_all_loop head fuel { s2 with run_queue := list_append t s2.run_queue }
      else
        none

/-- The function `wake_all`. -/
def wake_all (head : head_t) (s : Kernel) : Option Kernel :=
  wake_all_loop head (waitqueue s head).length s

/-- The function `mutex_init`. -/
def mutex_init (m : Nat) (s : Kernel) : Kernel :=
  { s with
    mutexes := Function.update s.mutexes m { waitqueue_head := [], owner := 0, id := s.next_id }
    next_id := (s.next_id + 1) % 2 ^ 32 }

/-- The function `mutex_destroy`. -/
def mutex_destroy (m : Nat) (s : Kernel) : Option Kernel :=
  if list_empty (s.mutexes m).waitqueue_head then some s else none

/-- The `while` loop of `mutex_lock` and what follows it (lines 301-313),
entered at the loop test. -/
def mutex_lock_loop (m : Nat) (istate : Nat) (s : Kernel) : Option Kernel :=
  if (s.mutexes m).owner ≠ 0 then
    wait_on (.mutex m) (push_frame (.mutex_lock m istate) s)
  else
    some (interrupts_restore istate (set_owner s m s.current))

/-- The function `mutex_lock`. -/
def mutex_lock (m : Nat) (s : Kernel) : Option Kernel :=
  let r := interrupts_disable s
  if (r.2.mutexes m).owner = r.2.current then none
  else mutex_lock_loop m r.1 r.2

/-- The `while` loop of `mutex_unsafe_lock` and what follows it. -/
def mutex_unsafe_lock_loop (m : Nat) (istate : Nat) (s : Kernel) : Option Kernel :=
  if (s.mutexes m).owner ≠ 0 then
    wait_on (.mutex m) (push_frame (.mutex_unsafe_lock m istate) s)
  else
    some (interrupts_restore istate (set_owner s m s.current))

/-- The function `mutex_unsafe_lock`. -/
def mutex_unsafe_lock (m : Nat) (s : Kernel) : Option Kernel :=
  let r := interrupts_disable s
  mutex_unsafe_lock_loop m r.1 r.2

/-- The function `mutex_unlock`. -/
def mutex_unlock (m : Nat) (s : Kernel) : Option Kernel :=
  let r := interrupts_disable s
  if (r.2.mutexes m).owner = r.2.current then
    match wake_first (.mutex m) r.2 with
    | none => none
    | some s1 => some (interrupts_restore r.1 (set_owner s1 m 0))
  else
    none

/-- The function `mutex_unsafe_unlock`. -/
def mutex_unsafe_unlock (m : Nat) (s : Kernel) : Option Kernel :=
  let r := interrupts_disable s
  match wake_first (.mutex m) r.2 with
  | none => none
  | some s1 => some (interrupts_restore r.1 (set_owner s1 m 0))

/-- The function `mutex_trylock`: the return code and the new state. -/
def mutex_trylock (m : Nat) (s : Kernel) : Int × Kernel :=
  let r := interrupts_disable s
  if (r.2.mutexes m).owner = 0 then
    (0, interrupts_restore r.1 (set_owner r.2 m r.2.current))
  else
    (-1, interrupts_restore r.1 r.2)

/-- The function `cond_init`. -/
def cond_init (c : Nat) (s : Kernel) : Kernel :=
  { s with
    conds := Function.update s.conds c { waitqueue_head := [], id := s.next_id }
    next_id := (s.next_id + 1) % 2 ^ 32 }

/-- The function `cond_destroy`. -/
def cond_destroy (c : Nat) (s : Kernel) : Option Kernel :=
  if list_empty (s.conds c).waitqueue_head then some s else none

/-- The function `cond_wait` up to the `schedule` call inside `wait_on`; the
rest (`mutex_lock`, `interrupts_restore`) stays behind as a frame. -/
def cond_wait (c : Nat) (m : Nat) (s : Kernel) : Option Kernel :=
  let r := interrupts_disable s
  match mutex_unlock m r.2 with
  | none => none
  | some s1 => wait_on (.cond c) (push_frame (.cond_wait m r.1) s1)

/-- The function `cond_signal`. -/
def cond_signal (c : Nat) (s : Kernel) : Option Kernel :=
  let r := interrupts_disable s
  match wake_first (.cond c) r.2 with
  | none => none
  | some s1 => some (interrupts_restore r.1 s1)

/-- The function `cond_broadcast`. -/
def cond_broadcast (c : Nat) (s : Kernel) : Option Kernel :=
  let r := interrupts_disable s
  match wake_all (.cond c) r.2 with
  | none => none
  | some s1 => some (interrupts_restore r.1 s1)

/-- The current thread, back from `schedule`, runs the innermost pending frame. -/
def resume (s : Kernel) : Option Kernel :=
  match (s.threads s.current).frames with
  | [] => none
  | f :: rest =>
    let s1 := set_frames s s.current rest
    match f with
    | .mutex_lock m i => mutex_lock_loop m i s1
    | .mutex_unsafe_lock m i => mutex_unsafe_lock_loop m i s1
    | .cond_wait m i => mutex_lock m (push_frame (.cond_wait_restore i) s1)
    | .cond_wait_restore i => some (interrupts_restore i s1)
    | .thread_exit => none

/-! ## The kernel as a transition system -/

/-- The calls that change the kernel state.  `thread_create h` carries the
address returned by `malloc`; `idle_loop` is one turn of `do_idle`
(`thread_yield(); hlt`); `reaper_entry` and `reaper_pass` are `do_reaper`
from its entry and from the head of its outer loop; `resume` continues a call
that blocked. -/
inductive call_t
  | thread_create (h : thread_t)
  | thread_yield
  | thread_exit
  | thread_sleep
  | thread_wake (t : thread_t)
  | thread_setspecific (data : Nat)
  | idle_loop
  | reaper_entry
  | reaper_pass
  | mutex_init (m : Nat)
  | mutex_destroy (m : Nat)
  | mutex_lock (m : Nat)
  | mutex_unsafe_lock (m : Nat)
  | mutex_unlock (m : Nat)
  | mutex_unsafe_unlock (m : Nat)
  | mutex_trylock (m : Nat)
  | cond_init (c : Nat)
  | cond_destroy (c : Nat)
  | cond_wait (c : Nat) (m : Nat)
  | cond_signal (c : Nat)
  | cond_broadcast (c : Nat)
  | resume
  deriving DecidableEq, Repr

/-- The current thread is running code of a thread body other than `do_idle`
and `do_reaper`, and is not in the middle of a call that blocked. -/
def in_thread_body (s : Kernel) : Bool :=
  s.current != s.idle_thread && s.current != s.reaper_thread &&
    (s.threads s.current).frames.isEmpty

/-- The body of a call, without the test of who may issue it. -/
def run (c : call_t) (s : Kernel) : Option Kernel :=
  match c with
  | .thread_create h => some (thread_create h s)
  | .thread_yield => thread_yield s
  | .thread_exit => thread_exit s
  | .thread_sleep => thread_sleep s
  | .thread_wake t => some (thread_wake t s)
  | .thread_setspecific d => some (thread_setspecific d s)
  | .idle_loop => thread_yield s
  | .reaper_entry => do_reaper s
  | .reaper_pass => do_reaper_pass s
  | .mutex_init m => some (mutex_init m s)
  | .mutex_destroy m => mutex_destroy m s
  | .mutex_lock m => mutex_lock m s
  | .mutex_unsafe_lock m => mutex_unsafe_lock m s
  | .mutex_unlock m => mutex_unlock m s
  | .mutex_unsafe_unlock m => mutex_unsafe_unlock m s
  | .mutex_trylock m => some (mutex_trylock m s).2
  | .cond_init c => some (cond_init c s)
  | .cond_destroy c => cond_destroy c s
  | .cond_wait c m => cond_wait c m s
  | .cond_signal c => cond_signal c s
  | .cond_broadcast c => cond_broadcast c s
  | .resume => resume s

/-- Who may issue a call: `do_idle` and `do_reaper` run on the idle and the
reaper thread, which call nothing else; `thread_wake` may also come from an
interrupt handler, whatever the current thread; a pending frame is resumed by
the thread whose call blocked; all other calls come from thread bodies. -/
def enabled (c : call_t) (s : Kernel) : Bool :=
  match c with
  | .thread_wake _ => true
  | .idle_loop => s.current == s.idle_thread
  | .reaper_entry => s.current == s.reaper_thread
  | .reaper_pass => s.current == s.reaper_thread
  | .resume => s.current != s.idle_thread && s.current != s.reaper_thread
  | _ => in_thread_body s

/-- One step of the kernel: `none` when the call is not enabled, or halts in a
failing assertion. -/
def exec (c : call_t) (s : Kernel) : Option Kernel :=
  if enabled c s then run c s else none

/-- What `malloc` guarantees for the record of a new thread: the address is
not null, is not the static kernel thread, and is not a live thread record. -/
def malloc_ok (s : Kernel) : call_t → Prop
  | .thread_create h => h ≠ 0 ∧ h ≠ kernel_thread ∧ h ∉ s.all_threads
  | _ => True

/-- The states reachable from `thread_init` by calls that satisfy `ok`. -/
inductive Reachable (ok : Kernel → call_t → Prop) : Kernel → Prop
  | init (idle reaper : thread_t) :
      idle ≠ 0 → idle ≠ kernel_thread → reaper ≠ 0 → reaper ≠ kernel_thread →
      idle ≠ reaper → Reachable ok (thread_init idle reaper boot)
  | step {s s1 : Kernel} (c : call_t) :
      Reachable ok s → malloc_ok s c → ok s c → exec c s = some s1 → Reachable ok s1

/-- No restriction on the calls. -/
def any_call : Kernel → call_t → Prop :=
  fun _ _ => True

/-- A test for `malloc_ok`. -/
def malloc_check (s : Kernel) : call_t → Bool
  | .thread_create h => h != 0 && h != kernel_thread && !(s.all_threads.contains h)
  | _ => true

/-- The state after a list of calls, `none` if one of them fails the test
`chk`, is not enabled, halts, or is a `thread_create` on an address `malloc`
cannot return. -/
def trace_with (chk : Kernel → call_t → Bool) : List call_t → Kernel → Option Kernel
  | [], s => some s
  | c :: cs, s =>
    if malloc_check s c && chk s c then
      match exec c s with
      | none => none
      | some s1 => trace_with chk cs s1
    else none

/-- The state after a list of calls, with no test on the calls. -/
def trace (cs : List call_t) (s : Kernel) : Option Kernel :=
  trace_with (fun _ _ => true) cs s

/-- A test for `kernel_stays`. -/
def kernel_stays_check (s : Kernel) (c : call_t) : Bool :=
  c != .thread_exit || s.current != kernel_thread

/-- The state `thread_init` leaves when `malloc` returns the addresses 2 and 3. -/
def init_state : Kernel :=
  thread_init 2 3 boot

/-- The state after the kernel thread has yielded once and the idle and the
reaper thread have each had their first turn: the kernel thread is current and
Runnable, the ready queue is empty, the reaper is Blocked. -/
def settled_state : Kernel :=
  (trace [.thread_yield, .idle_loop, .reaper_entry] init_state).getD boot

/-- The settled state after the kernel thread has called `thread_exit`: the
reaper is current, the kernel thread is on the zombie list. -/
def exited_state : Kernel :=
  (trace [.thread_yield, .idle_loop, .reaper_entry, .thread_exit] init_state).getD boot

/-! ## Queues and the invariants of the thread core -/

/-- The lists a thread's `run_link`, or a wait-queue node of the thread, can
be linked in: the ready queue, the zombie list, and the wait-queue of each
mutex and condition variable. -/
inductive queue_t
  | run
  | zombie
  | wait (h : head_t)
  deriving DecidableEq, Repr

/-- The members of a queue. -/
def queue (s : Kernel) : queue_t → List thread_t
  | .run => s.run_queue
  | .zombie => s.zombie_list
  | .wait h => waitqueue s h

/-- A family of queues in which no thread occurs twice: not twice in one queue,
and not in two queues. -/
def Apart (f : queue_t → List thread_t) : Prop :=
  (∀ q, (f q).Nodup) ∧ ∀ q1 q2 t, t ∈ f q1 → t ∈ f q2 → q1 = q2

/-- The restriction on `thread_wake(t)` under which the queues stay apart: `t`
is a live thread, is not the current thread, and is on no queue. -/
def wake_ok (s : Kernel) : call_t → Prop
  | .thread_wake t => t ∈ s.all_threads ∧ t ≠ s.current ∧ ∀ q, t ∉ queue s q
  | _ => True

/-- Every thread is on at most one queue, and at most once; the idle and the
reaper thread are on no wait-queue and not on the zombie list; a blocked
reaper is not on the ready queue; queued threads are live. -/
structure Separated (s : Kernel) : Prop where
  apart : Apart (queue s)
  special : ∀ q, q ≠ .run → s.idle_thread ∉ queue s q ∧ s.reaper_thread ∉ queue s q
  reaper_blocked : (s.threads s.reaper_thread).status = BLOCKED →
    s.reaper_thread ∉ s.run_queue
  live : ∀ q t, t ∈ queue s q → t ∈ s.all_threads
  idle_live : s.idle_thread ∈ s.all_threads
  reaper_live : s.reaper_thread ∈ s.all_threads
  current_live : s.current ∈ s.all_threads

/-- The current thread is on no queue. -/
def CurrentFree (s : Kernel) : Prop :=
  ∀ q, s.current ∉ queue s q

/-- A state with a waiter: the kernel thread has created thread 4 and locked
mutex 7; after a round of the idle and the reaper thread, thread 4 has called
`mutex_lock(7)` and sits in the mutex's wait-queue; the kernel thread is current. -/
def contended_state : Kernel :=
  (trace [.thread_create 4, .mutex_init 7, .mutex_lock 7, .thread_yield, .idle_loop,
    .reaper_entry, .mutex_lock 7] init_state).getD boot

/-- The restriction under which the kernel thread is never reaped: the kernel
thread does not call `thread_exit`. -/
def kernel_stays (s : Kernel) : call_t → Prop
  | .thread_exit => s.current ≠ kernel_thread
  | _ => True

/-- The kernel thread is in the global list, is not a zombie, has not been
handed to `free`, and is neither Killed nor Exited. -/
def KernelAlive (s : Kernel) : Prop :=
  kernel_thread ∈ s.all_threads ∧ kernel_thread ∉ s.zombie_list ∧
  kernel_thread ∉ s.freed ∧ (s.threads kernel_thread).status ≠ KILLED ∧
  (s.threads kernel_thread).status ≠ EXITED

/-- The restriction under which a blocked thread is on a wait-queue:
`thread_wake` as in `wake_ok`, no `thread_sleep` (which blocks the caller on no
queue), and `mutex_init` and `cond_init` only on an object whose wait-queue is
empty (they empty it). -/
def block_ok (s : Kernel) : call_t → Prop
  | .thread_wake t => t ∈ s.all_threads ∧ t ≠ s.current ∧ ∀ q, t ∉ queue s q
  | .thread_sleep => False
  | .mutex_init m => (s.mutexes m).waitqueue_head = []
  | .cond_init c => (s.conds c).waitqueue_head = []
  | _ => True

/-- Every blocked thread other than the reaper is in a wait-queue. -/
def BlockedWaits (s : Kernel) : Prop :=
  ∀ t, (s.threads t).status = BLOCKED → t = s.reaper_thread ∨ ∃ k, t ∈ waitqueue s k

/-- A test for `block_ok` on calls other than `thread_wake`. -/
def block_ok_check (s : Kernel) : call_t → Bool
  | .thread_wake _ => false
  | .thread_sleep => false
  | .mutex_init m => (s.mutexes m).waitqueue_head.isEmpty
  | .cond_init c => (s.conds c).waitqueue_head.isEmpty
  | _ => true

/-- The restriction under which the id counter has not wrapped round: each
call that issues an id finds the counter below `2 ^ 32 - 1`. -/
def id_ok (s : Kernel) : call_t → Prop
  | .thread_create _ => s.next_id + 1 < 2 ^ 32
  | .mutex_init _ => s.next_id + 1 < 2 ^ 32
  | .cond_init _ => s.next_id + 1 < 2 ^ 32
  | _ => True

/-- Every id held by a thread, mutex or condition-variable record is below
the id counter. -/
def IdsBelow (s : Kernel) : Prop :=
  (∀ t, (s.threads t).id < s.next_id) ∧ (∀ m, (s.mutexes m).id < s.next_id) ∧
  (∀ c, (s.conds c).id < s.next_id)

/-- A test for `id_ok`. -/
def id_ok_check (s : Kernel) (_ : call_t) : Bool :=
  decide (s.next_id + 1 < 2 ^ 32)

/-- The successive states of a run of calls, `none` if one of them is not
enabled or halts. -/
def path : List call_t → Kernel → Option (List Kernel)
  | [], _ => some []
  | c :: cs, s =>
    match exec c s with
    | none => none
    | some s1 =>
      match path cs s1 with
      | none => none
      | some ss => some (s1 :: ss)

/-- The state after the kernel thread has initialised and locked mutex 7: the
owner is the kernel thread, nobody waits. -/
def locked_state : Kernel :=
  (trace [.mutex_init 7, .mutex_lock 7] init_state).getD boot

/-- A state with two waiters: the kernel thread has created threads 4 and 5 and
locked mutex 7; after a round of the idle and the reaper thread, threads 4 and 5
have each called `mutex_lock(7)` and wait, in that order; the kernel thread is
current and owns the mutex. -/
def two_waiters_state : Kernel :=
  (trace [.thread_create 4, .thread_create 5, .mutex_init 7, .mutex_lock 7, .thread_yield,
    .idle_loop, .reaper_entry, .mutex_lock 7, .mutex_lock 7] init_state).getD boot

/-- The outcome of a call that can fail an assertion: the state in which the
call returns (or, for a call that blocks, in which the next thread runs), or
the line of `threads.c` of the `assert` that fails together with the state at
that line, where `exit(-1)` halts the machine. -/
inductive result_t
  | returned (s : Kernel)
  | halted (line : Nat) (s : Kernel)

/-- The state a call returns in, `none` if it halts. -/
def result_t.returns : result_t → Option Kernel
  | .returned s => some s
  | .halted _ _ => none

/-- The function `schedule`, with the state at the `assert(0)` of line 70. -/
def schedule_result (s : Kernel) : result_t :=
  let r := interrupts_disable s
  match schedule_dispose r.2 with
  | none => .halted 70 r.2
  | some s1 => .returned (schedule_switch r.2.current r.1 (schedule_pick s1))

/-- The function `wait_on`, with the state at a failing assertion. -/
def wait_on_result (head : head_t) (s : Kernel) : result_t :=
  let s1 := set_waitqueue s head (list_append s.current (waitqueue s head))
  schedule_result (set_status s1 s1.current BLOCKED)

/-- The function `wake_first`, with the state at the `assert` of line 250. -/
def wake_first_result (head : head_t) (s : Kernel) : result_t :=
  match waitqueue s head with
  | [] => .returned s
  | t :: _ =>
    let s1 := set_waitqueue s head (list_remove t (waitqueue s head))
    if (s1.threads t).status = BLOCKED then
      let s2 := set_status s1 t RUNNABLE
      .returned { s2 with run_queue := list_append t s2.run_queue }
    else
      .halted 250 s1

/-- The function `mutex_lock`, with the state at a failing assertion: the
`assert(mutex->owner != current)` of line 299 comes right after
`interrupts_disable`. -/
def mutex_lock_result (m : Nat) (s : Kernel) : result_t :=
  let r := interrupts_disable s
  if (r.2.mutexes m).owner = r.2.current then .halted 299 r.2
  else if (r.2.mutexes m).owner ≠ 0 then
    wait_on_result (.mutex m) (push_frame (.mutex_lock m r.1) r.2)
  else
    .returned (interrupts_restore r.1 (set_owner r.2 m r.2.current))

/-- The function `mutex_unlock`, with the state at a failing assertion: the
`assert(mutex->owner == current)` of line 329 comes right after
`interrupts_disable`, before `wake_first`. -/
def mutex_unlock_result (m : Nat) (s : Kernel) : result_t :=
  let r := interrupts_disable s
  if (r.2.mutexes m).owner = r.2.current then
    match wake_first_result (.mutex m) r.2 with
    | .halted l s1 => .halted l s1
    | .returned s1 => .returned (interrupts_restore r.1 (set_owner s1 m 0))
  else
    .halted 329 r.2

/-- The state with two waiters after the kernel thread has called
`mutex_unlock(7)`: the mutex has no owner, thread 4 has been woken and thread 5
still waits. -/
def released_state : Kernel :=
  (trace [.thread_create 4, .thread_create 5, .mutex_init 7, .mutex_lock 7, .thread_yield,
    .idle_loop, .reaper_entry, .mutex_lock 7, .mutex_lock 7, .mutex_unlock 7]
    init_state).getD boot

/-- Following the spec's words for `wake_all` ("repeat `wake_first` until
empty"): while the wait-queue is not empty, call `wake_first`, for at most
`fuel` calls. -/
def wake_first_until_empty (head : head_t) : Nat → Kernel → Option Kernel
  | 0, s => if list_empty (waitqueue s head) then some s else none
  | fuel + 1, s =>
    if list_empty (waitqueue s head) then some s
    else
      match wake_first head s with
      | none => none
      | some s1 => wake_first_until_empty head fuel s1

/-- A state with two waiters on a condition variable: threads 4 and 5 have
each locked mutex 7 and called `cond_wait(9, 7)`, in that order; the kernel
thread is current. -/
def cond_waiters_state : Kernel :=
  (trace [.thread_create 4, .thread_create 5, .mutex_init 7, .cond_init 9, .thread_yield,
    .idle_loop, .reaper_entry, .mutex_lock 7, .cond_wait 9 7, .mutex_lock 7, .cond_wait 9 7]
    init_state).getD boot

/-- The states `wake_first` passes through, one after each statement that
changes the state (`list_remove`, the status, `list_append`); `none` where the
assertion fails. -/
def wake_first_steps (head : head_t) (s : Kernel) : Option (List Kernel) :=
  match waitqueue s head with
  | [] => some []
  | t :: _ =>
    let s1 := set_waitqueue s head (list_remove t (waitqueue s head))
    if (s1.threads t).status = BLOCKED then
      let s2 := set_status s1 t RUNNABLE
      some [s1, s2, { s2 with run_queue := list_append t s2.run_queue }]
    else
      none

/-- The states `cond_wait` passes through from its `interrupts_disable` to the
call of `schedule` in `wait_on`, one after each statement: after
`interrupts_disable`; in `mutex_unlock`, after its own `interrupts_disable`,
along `wake_first`, after `mutex->owner = NULL` and after `interrupts_restore`;
in `wait_on`, after `list_append` and after `current->status = BLOCKED`.
The value is `none` where an assertion fails. -/
def cond_wait_steps (c m : Nat) (s : Kernel) : Option (List Kernel) :=
  let r := interrupts_disable s
  let u := interrupts_disable r.2
  if (u.2.mutexes m).owner = u.2.current then
    match wake_first_steps (.mutex m) u.2 with
    | none => none
    | some l =>
      let u1 := set_owner (l.getLastD u.2) m 0
      let u2 := interrupts_restore u.1 u1
      let w0 := push_frame (.cond_wait m r.1) u2
      let w1 := set_waitqueue w0 (.cond c) (list_append w0.current (waitqueue w0 (.cond c)))
      let w2 := set_status w1 w1.current BLOCKED
      some ([r.2, u.2] ++ l ++ [u1, u2, w1, w2])
  else
    none

/-- A state in which interrupts are enabled: thread 4, started through
`thread_entry_trampoline`, is current and has locked mutex 7. -/
def worker_locked_state : Kernel :=
  (trace [.thread_create 4, .mutex_init 7, .thread_yield, .idle_loop, .reaper_entry,
    .mutex_lock 7] init_state).getD boot

/-- The frame `cond_wait` leaves for its final `interrupts_restore`: the only
frame under which a thread runs on as the owner of a mutex. -/
def frame_t.is_restore : frame_t → Bool
  | .cond_wait_restore _ => true
  | _ => false

/-- The current thread owns no mutex. -/
def holds_none (s : Kernel) : Prop :=
  ∀ m, (s.mutexes m).owner ≠ 0 → (s.mutexes m).owner ≠ s.current

/-- The restriction under which the owner of a mutex stays Runnable:
`thread_wake` as in `wake_ok`; a thread calls `thread_sleep` or `thread_exit`
only while it owns no mutex; it calls `mutex_lock` or `mutex_unsafe_lock` on a
mutex that has an owner, where it will block, only while it owns no mutex; and
it calls `cond_wait(c, m)` only while it owns no mutex other than `m`. -/
def hold_ok (s : Kernel) : call_t → Prop
  | .thread_wake t => t ∈ s.all_threads ∧ t ≠ s.current ∧ ∀ q, t ∉ queue s q
  | .thread_sleep => holds_none s
  | .thread_exit => holds_none s
  | .mutex_lock m => (s.mutexes m).owner ≠ 0 → holds_none s
  | .mutex_unsafe_lock m => (s.mutexes m).owner ≠ 0 → holds_none s
  | .cond_wait _ m => ∀ n, n ≠ m → (s.mutexes n).owner ≠ 0 → (s.mutexes n).owner ≠ s.current
  | _ => True

/-- A test that implies `hold_ok`: no `thread_wake`, `thread_sleep`,
`thread_exit` or `cond_wait`, and `mutex_lock` only on a mutex without owner. -/
def hold_ok_check (s : Kernel) : call_t → Bool
  | .thread_wake _ => false
  | .thread_sleep => false
  | .thread_exit => false
  | .mutex_lock m => (s.mutexes m).owner == 0
  | .mutex_unsafe_lock m => (s.mutexes m).owner == 0
  | .cond_wait _ _ => false
  | _ => true

/-- What holds of the threads at the call of `schedule`: the threads on the
ready queue and the idle thread are Runnable; the owner of a mutex is Runnable,
is neither the idle nor the reaper thread, and has no pending frame but the
final `interrupts_restore` of `cond_wait`; and below its innermost frame a
thread has no other frame than that. -/
structure Pending (s : Kernel) : Prop where
  ready : ∀ t ∈ s.run_queue, (s.threads t).status = RUNNABLE
  idle_run : (s.threads s.idle_thread).status = RUNNABLE
  owner_run : ∀ m, (s.mutexes m).owner ≠ 0 →
    (s.threads (s.mutexes m).owner).status = RUNNABLE
  owner_body : ∀ m, (s.mutexes m).owner ≠ 0 →
    (s.mutexes m).owner ≠ s.idle_thread ∧ (s.mutexes m).owner ≠ s.reaper_thread ∧
    ∀ f ∈ (s.threads (s.mutexes m).owner).frames, frame_t.is_restore f = true
  frames_tail : ∀ t, ∀ f ∈ ((s.threads t).frames).tail, frame_t.is_restore f = true

/-- What holds between calls: `Pending`, and the current thread is Runnable. -/
def Disciplined (s : Kernel) : Prop :=
  Pending s ∧ (s.threads s.current).status = RUNNABLE

/-- The state in which the kernel thread has locked mutex 7 and then called
`thread_sleep`. -/
def sleeping_owner_state : Kernel :=
  (trace [.mutex_init 7, .mutex_lock 7, .thread_sleep] init_state).getD boot

/-- The state in which thread 4 has locked mutex 7 and then called
`thread_exit`. -/
def exited_owner_state : Kernel :=
  (trace [.thread_create 4, .mutex_init 7, .thread_yield, .idle_loop, .reaper_entry,
    .mutex_lock 7, .thread_exit] init_state).getD boot

/-- The state in which the kernel thread owns mutex 7 and thread 4, which owns
no mutex, is the current thread, about to call `mutex_lock(7)`. -/
def worker_ready_state : Kernel :=
  (trace [.thread_create 4, .mutex_init 7, .mutex_lock 7, .thread_yield, .idle_loop,
    .reaper_entry] init_state).getD boot

/-! ## Interrupt descriptors, the PIC mask and signals (idt.c, idt.h, asm.h, signal.h, libc.c) -/

/-- The vector base of the master PIC (idt.h). -/
def MASTER : Nat := 32

/-- The vector base of the slave PIC (idt.h). -/
def SLAVE : Nat := 40

/-- The command port of the master PIC. -/
def PICM : Nat := 0x20

/-- The data port of the master PIC. -/
def PICMI : Nat := 0x21

/-- The command port of the slave PIC. -/
def PICS : Nat := 0xA0

/-- The data port of the slave PIC. -/
def PICSI : Nat := 0xA1

/-- The first initialisation command word. -/
def ICW1 : Nat := 0x11

/-- The fourth initialisation command word. -/
def ICW4 : Nat := 0x01

/-- The handler value `(sighandler_t)0` of signal.h. -/
def SIG_DFL : Nat := 0

/-- The handler value `(sighandler_t)1` of signal.h. -/
def SIG_IGN : Nat := 1

/-- The enumeration `gate_type` of idt.h. -/
inductive gate_type
  | interrupt
  | trap
  deriving DecidableEq, Repr

/-- The enumeration `mask_t` of signal.h. -/
inductive mask_t
  | SIG_BLOCK
  | SIG_UNBLOCK
  | SIG_SETMASK
  deriving DecidableEq, Repr

/-- The record `struct gate` of idt.c: four 16-bit fields. -/
structure gate where
  offset_lo : Nat
  selector : Nat
  flags : Nat
  offset_hi : Nat
  deriving DecidableEq, Repr

/-- The record `struct sigaction` of signal.h; a handler is the 32-bit address
of a function, or `SIG_DFL`, or `SIG_IGN`. -/
structure sigaction_t where
  sa_handler : Nat
  sa_flags : Int
  sa_mask : Nat
  deriving DecidableEq, Repr

/-- The addresses the linker gives to the functions that idt.c stores in its
tables: `default_handler`, `ignore_handler`, the exception handlers
`exception0` to `exception16` and the interrupt stubs `irq0` to `irq15`. -/
structure symbols_t where
  default_handler : Nat
  ignore_handler : Nat
  exception : Nat → Nat
  irq : Nat → Nat

/-- The globals of idt.c, and what has been written to the I/O ports: the
shadow mask `signal_mask` (an `unsigned short`), the two bytes that follow it
in memory (`mask_high`), the 256 `descriptors`, the 16 `signal_handlers`
(addresses), the bytes written by `out8` with their ports, oldest first, and
the limit loaded by `lidt`.  libc.c declares `signal_mask` as `unsigned int`,
so `sigprocmask` reads and writes four bytes at the address of the
`unsigned short`: `signal_mask` is their low half and `mask_high` their high
half; the two bytes of `mask_high` are taken to belong to no other object. -/
structure Irq where
  signal_mask : Nat
  mask_high : Nat
  descriptors : Nat → gate
  signal_handlers : Nat → Nat
  port_log : List (Nat × Nat)
  idtr_limit : Option Nat

/-- The static initial values of the globals of idt.c: `signal_mask = 0xFFFF`,
zeroed descriptors, every signal handler `default_handler`; the two bytes
after `signal_mask` are padding of the data section, which is zero. -/
def irq_boot (sym : symbols_t) : Irq where
  signal_mask := 0xFFFF
  mask_high := 0
  descriptors := fun _ => { offset_lo := 0, selector := 0, flags := 0, offset_hi := 0 }
  signal_handlers := fun _ => sym.default_handler
  port_log := []
  idtr_limit := none

/-- The operator `~` on a 32-bit `int` or `unsigned int`. -/
def bitnot32 (x : Nat) : Nat :=
  (2 ^ 32 - 1) ^^^ (x % 2 ^ 32)

/-- The function `out8` of asm.h: the low byte of `byte` goes to the port. -/
def out8 (port byte : Nat) (s : Irq) : Irq :=
  { s with port_log := s.port_log ++ [(port % 2 ^ 16, byte % 2 ^ 8)] }

/-- The byte most recently written to a port, if any. -/
def last_write (port : Nat) (s : Irq) : Option Nat :=
  (s.port_log.reverse.find? (fun w => w.1 == port)).map (fun w => w.2)

/-- The function `update_mask`. -/
def update_mask (s : Irq) : Irq :=
  out8 PICSI (s.signal_mask >>> 8) (out8 PICMI (s.signal_mask &&& 0xFF) s)

/-- The function `unmask_irq`; the result of each `&=` is stored in the
`unsigned short`. -/
def unmask_irq (irq : Nat) (s : Irq) : Irq :=
  let s1 := { s with signal_mask := (s.signal_mask &&& bitnot32 (1 <<< irq)) % 2 ^ 16 }
  if irq ≥ 8 then
    { s1 with signal_mask := (s1.signal_mask &&& bitnot32 (1 <<< 2)) % 2 ^ 16 }
  else
    s1

/-- The function `mask_irq`. -/
def mask_irq (irq : Nat) (s : Irq) : Irq :=
  { s with signal_mask := (s.signal_mask ||| (1 <<< irq) % 2 ^ 32) % 2 ^ 16 }

/-- The function `set_vector`; the parameter `vector` is an `unsigned char`,
and the union splits the 32-bit address into its two halves. -/
def set_vector (vector handler : Nat) (type : gate_type) (s : Irq) : Irq :=
  { s with
    descriptors := Function.update s.descriptors (vector % 256)
      { offset_lo := handler % 2 ^ 16
        selector := 0x08
        flags := if type = .interrupt then 0x8E00 else 0x8F00
        offset_hi := handler / 2 ^ 16 % 2 ^ 16 } }

/-- The function `set_irq`. -/
def set_irq (irq handler : Nat) (s : Irq) : Irq :=
  let s1 :=
    if irq ≥ 8 then set_vector (irq + SLAVE - 8) handler .interrupt s
    else set_vector (irq + MASTER) handler .interrupt s
  update_mask { s1 with signal_mask := (s1.signal_mask &&& bitnot32 (1 <<< irq)) % 2 ^ 16 }

/-- The function `set_signal_handler`: the new state and, when `oldsa` is not
null, the record it points to with its handler field written; `none` stands
for a null pointer. -/
def set_signal_handler (sym : symbols_t) (signum : Nat) (sa oldsa : Option sigaction_t)
    (s : Irq) : Irq × Option sigaction_t :=
  let old :=
    oldsa.map (fun o =>
      if s.signal_handlers signum = sym.default_handler then { o with sa_handler := SIG_DFL }
      else if s.signal_handlers signum = sym.ignore_handler then { o with sa_handler := SIG_IGN }
      else { o with sa_handler := s.signal_handlers signum })
  let h :=
    match sa with
    | some a =>
      if a.sa_handler = SIG_DFL then sym.default_handler
      else if a.sa_handler = SIG_IGN then sym.ignore_handler
      else a.sa_handler
    | none => sym.default_handler
  ({ s with signal_handlers := Function.update s.signal_handlers signum h }, old)

/-- The function `sigemptyset` of libc.c. -/
def sigemptyset : Nat := 0

/-- The function `sigaddset` of libc.c, on the value of the set. -/
def sigaddset (set signum : Nat) : Nat :=
  let s1 := (set ||| (1 <<< signum) % 2 ^ 32) % 2 ^ 32
  if signum ≥ 8 then (s1 ||| 1 <<< 2) % 2 ^ 32 else s1

/-- The function `sigdelset` of libc.c, on the value of the set. -/
def sigdelset (set signum : Nat) : Nat :=
  let s1 := (set &&& bitnot32 (1 <<< signum)) % 2 ^ 32
  if signum ≥ 8 then (s1 &&& bitnot32 (1 <<< 2)) % 2 ^ 32 else s1

/-- The value libc.c reads from `signal_mask`, which it declares as
`unsigned int`: the four bytes at the address of the `unsigned short` of
idt.c, the low half first. -/
def mask_word (s : Irq) : Nat :=
  s.signal_mask % 2 ^ 16 + 2 ^ 16 * (s.mask_high % 2 ^ 16)

/-- The function `sigprocmask` of libc.c: the new state and what `*oldset`
receives when `oldset` is not null (`oldset = true`); `set` is the value
`*set`, in an object other than `*oldset`.  Every access to `signal_mask` is
an access to the `unsigned int` of libc.c: the read gives `mask_word`, and the
store writes the low half of the new word to the `unsigned short` of idt.c and
the high half to the two bytes after it. -/
def sigprocmask (mask : mask_t) (set : Nat) (oldset : Bool) (s : Irq) : Irq × Option Nat :=
  let old := if oldset then some (mask_word s) else none
  let m :=
    match mask with
    | .SIG_BLOCK => (mask_word s ||| set) % 2 ^ 32
    | .SIG_UNBLOCK => (mask_word s &&& bitnot32 set) % 2 ^ 32
    | .SIG_SETMASK => set % 2 ^ 32
  (update_mask
    { s with
      signal_mask := m % 2 ^ 16
      mask_high := m / 2 ^ 16 }, old)

/-- The function `sigaction` of libc.c: the value returned, the new state and
what `*oldsa` holds afterwards when `oldsa` is not null. -/
def sigaction (sym : symbols_t) (signum : Nat) (sa oldsa : Option sigaction_t) (s : Irq) :
    Int × Irq × Option sigaction_t :=
  let r := set_signal_handler sym signum sa oldsa s
  let set := sigaddset sigemptyset signum
  (0, (sigprocmask .SIG_UNBLOCK set false r.1).1, r.2)

/-- The macro `E(n)` of idt.c: `set_vector(n, exception##n, trap)`. -/
def E (sym : symbols_t) (n : Nat) (s : Irq) : Irq :=
  set_vector n (sym.exception n) .trap s

/-- The macro `I(n)` of idt.c: `set_irq(n, (interrupt_handler)irq##n)`. -/
def I (sym : symbols_t) (n : Nat) (s : Irq) : Irq :=
  set_irq n (sym.irq n) s

/-- The function `idt_init`: the ten bytes that program the two PICs, the
exception vectors (the loop over 17..31 repeats `E(15)`), the default handler
in vectors 32..255, the sixteen `I(n)`, `signal_mask = 0xFFFF`, and `lidt`. -/
def idt_init (sym : symbols_t) (s : Irq) : Irq :=
  let s1 := out8 PICSI 0xFF (out8 PICMI 0xFB (out8 PICSI ICW4 (out8 PICMI ICW4
    (out8 PICSI 2 (out8 PICMI 4 (out8 PICSI SLAVE (out8 PICMI MASTER
    (out8 PICS ICW1 (out8 PICM ICW1 s)))))))))
  let s2 := (List.range 13).foldl (fun x n => E sym n x) s1
  let s3 := set_vector 14 (sym.exception 14) .trap (set_vector 13 (sym.exception 13) .trap s2)
  let s4 := E sym 16 (E sym 15 s3)
  let s5 := (List.range' 17 15).foldl (fun x _ => E sym 15 x) s4
  let s6 := (List.range' 32 224).foldl
    (fun x i => set_vector i sym.default_handler .interrupt x) s5
  let s7 := (List.range 16).foldl (fun x n => I sym n x) s6
  { s7 with signal_mask := 0xFFFF, idtr_limit := some (256 * 8 - 1) }

/-- The operations on the shadow mask, the descriptors and the signal
handlers. -/
inductive irq_call_t
  | unmask_irq (irq : Nat)
  | mask_irq (irq : Nat)
  | update_mask
  | set_irq (irq handler : Nat)
  | sigprocmask (mask : mask_t) (set : Nat) (oldset : Bool)
  | sigaction (signum : Nat) (sa oldsa : Option sigaction_t)
  | idt_init
  deriving DecidableEq, Repr

/-- The state an operation leaves. -/
def irq_run (sym : symbols_t) (c : irq_call_t) (s : Irq) : Irq :=
  match c with
  | .unmask_irq irq => unmask_irq irq s
  | .mask_irq irq => mask_irq irq s
  | .update_mask => update_mask s
  | .set_irq irq handler => set_irq irq handler s
  | .sigprocmask mask set oldset => (sigprocmask mask set oldset s).1
  | .sigaction signum sa oldsa => (sigaction sym signum sa oldsa s).2.1
  | .idt_init => idt_init sym s

/-- The arguments are in range: IRQ and signal numbers in 0..15, handler
addresses and signal sets of 32 bits. -/
def irq_in_range : irq_call_t → Prop
  | .unmask_irq irq => irq < 16
  | .mask_irq irq => irq < 16
  | .update_mask => True
  | .set_irq irq handler => irq < 16 ∧ handler < 2 ^ 32
  | .sigprocmask _ set _ => set < 2 ^ 32
  | .sigaction signum _ _ => signum < 16
  | .idt_init => True

/-- The states reachable from the static initial state by operations with
arguments in range that satisfy `ok`. -/
inductive IrqReachable (sym : symbols_t) (ok : Irq → irq_call_t → Prop) : Irq → Prop
  | init : IrqReachable sym ok (irq_boot sym)
  | step {s : Irq} (c : irq_call_t) :
      IrqReachable sym ok s → irq_in_range c → ok s c → IrqReachable sym ok (irq_run sym c s)

/-- The operations named for the mask invariant: `unmask_irq`, `mask_irq`,
`set_irq`, `sigprocmask` and `sigaction`. -/
def mask_op (_ : Irq) : irq_call_t → Prop
  | .unmask_irq _ => True
  | .mask_irq _ => True
  | .set_irq _ _ => True
  | .sigprocmask _ _ _ => True
  | .sigaction _ _ _ => True
  | _ => False

/-- The state after a list of operations. -/
def irq_trace (sym : symbols_t) (cs : List irq_call_t) (s : Irq) : Irq :=
  cs.foldl (fun x c => irq_run sym c x) s

/-- Addresses for the functions of idt.c, for concrete runs. -/
def example_symbols : symbols_t where
  default_handler := 0x100000
  ignore_handler := 0x100020
  exception := fun n => 0x100100 + 0x20 * n
  irq := fun n => 0x100400 + 0x20 * n

/-- The OR of bits 8..15 of a mask. -/
def or_bits_8_15 (m : Nat) : Bool :=
  m.testBit 8 || m.testBit 9 || m.testBit 10 || m.testBit 11 ||
    m.testBit 12 || m.testBit 13 || m.testBit 14 || m.testBit 15

/-- A mask in which the cascade line is open whenever a line of the slave PIC
is: if one of bits 8..15 is clear then bit 2 is clear. -/
def CascadeOpen (m : Nat) : Prop :=
  ∀ i, 8 ≤ i → i < 16 → m.testBit i = false → m.testBit 2 = false

/-- The restriction under which the cascade line stays open for the lines of
the slave PIC: `mask_irq` not on line 2; `set_irq` only on the lines of the
master PIC; `sigprocmask` with `SIG_BLOCK` of a set without bit 2, with
`SIG_UNBLOCK` of a set that has bit 2 if it has one of bits 8..15, and with
`SIG_SETMASK` of a mask that is itself of this form. -/
def cascade_ok (_ : Irq) : irq_call_t → Prop
  | .mask_irq irq => irq ≠ 2
  | .set_irq irq _ => irq < 8
  | .sigprocmask .SIG_BLOCK set _ => set.testBit 2 = false
  | .sigprocmask .SIG_UNBLOCK set _ =>
      (∃ i, 8 ≤ i ∧ i < 16 ∧ set.testBit i = true) → set.testBit 2 = true
  | .sigprocmask .SIG_SETMASK set _ => CascadeOpen set
  | _ => True

/-- The hardware mask follows the shadow mask: the bytes most recently written
to the data ports of the master and the slave PIC are the low and the high
byte of `signal_mask`. -/
def Lockstep (s : Irq) : Prop :=
  last_write PICMI s = some (s.signal_mask % 2 ^ 8) ∧
  last_write PICSI s = some (s.signal_mask / 2 ^ 8 % 2 ^ 8)

/-- The set built by `sigemptyset` followed by `sigaddset` for each signal
number of a list, in order. -/
def sigset_of (l : List Nat) : Nat :=
  l.foldl sigaddset sigemptyset

/-- The function `default_handler` of idt.c, called with the number `n` (an
`int`): for `n < 16` it calls `out8(0x20, 0x20)`, and for `n > 7` it then
calls `out8(0x20, 0xA0)`; the first argument of `out8` is the port. -/
def default_handler (n : Int) (s : Irq) : Irq :=
  if n < 16 then
    let s1 := out8 0x20 0x20 s
    if n > 7 then out8 0x20 0xA0 s1 else s1
  else
    s

/-- The function `ignore_handler` of idt.c: its body is empty. -/
def ignore_handler (_ : Int) (s : Irq) : Irq :=
  s

/-- The descriptor that `set_vector` stores for a handler address and a gate
type: the two halves of the address, the selector 0x08, and the flags 0x8E00
for an interrupt gate and 0x8F00 for a trap gate. -/
def gate_of (handler : Nat) (type : gate_type) : gate where
  offset_lo := handler % 2 ^ 16
  selector := 0x08
  flags := if type = .interrupt then 0x8E00 else 0x8F00
  offset_hi := handler / 2 ^ 16 % 2 ^ 16

/-- The calls that can set the owner of mutex `m` back to none: `mutex_unlock`
and `mutex_unsafe_unlock` of `m`, `cond_wait` with `m`, and `mutex_init` of
`m`. -/
def releases (c : call_t) (m : Nat) : Prop :=
  match c with
  | .mutex_unlock n => n = m
  | .mutex_unsafe_unlock n => n = m
  | .cond_wait _ n => n = m
  | .mutex_init n => n = m
  | _ => False

/-- The calls by which the current thread can take mutex `m`: `mutex_lock`,
`mutex_unsafe_lock` and `mutex_trylock` of `m`, and the step that continues
one of the first two, or a `cond_wait` with `m`, after it blocked. -/
def acquires (c : call_t) (m : Nat) (s : Kernel) : Prop :=
  match c with
  | .mutex_lock n => n = m
  | .mutex_unsafe_lock n => n = m
  | .mutex_trylock n => n = m
  | .resume =>
    match (s.threads s.current).frames with
    | .mutex_lock n _ :: _ => n = m
    | .mutex_unsafe_lock n _ :: _ => n = m
    | .cond_wait n _ :: _ => n = m
    | _ => False
  | _ => False

/-! ## Field updates leave the other fields alone -/

@[simp] theorem set_status_next_id (s : Kernel) (t : thread_t) (v : Nat) :
    (set_status s t v).next_id = s.next_id := rfl

@[simp] theorem set_status_all_threads (s : Kernel) (t : thread_t) (v : Nat) :
    (set_status s t v).all_threads = s.all_threads := rfl

@[simp] theorem set_status_run_queue (s : Kernel) (t : thread_t) (v : Nat) :
    (set_status s t v).run_queue = s.run_queue := rfl

@[simp] theorem set_status_zombie_list (s : Kernel) (t : thread_t) (v : Nat) :
    (set_status s t v).zombie_list = s.zombie_list := rfl

@[simp] theorem set_status_current (s : Kernel) (t : thread_t) (v : Nat) :
    (set_status s t v).current = s.current := rfl

@[simp] theorem set_status_idle_thread (s : Kernel) (t : thread_t) (v : Nat) :
    (set_status s t v).idle_thread = s.idle_thread := rfl

@[simp] theorem set_status_reaper_thread (s : Kernel) (t : thread_t) (v : Nat) :
    (set_status s t v).reaper_thread = s.reaper_thread := rfl

@[simp] theorem set_status_eflags_if (s : Kernel) (t : thread_t) (v : Nat) :
    (set_status s t v).eflags_if = s.eflags_if := rfl

@[simp] theorem set_status_mutexes (s : Kernel) (t : thread_t) (v : Nat) :
    (set_status s t v).mutexes = s.mutexes := rfl

@[simp] theorem set_status_conds (s : Kernel) (t : thread_t) (v : Nat) :
    (set_status s t v).conds = s.conds := rfl

@[simp] theorem set_status_freed (s : Kernel) (t : thread_t) (v : Nat) :
    (set_status s t v).freed = s.freed := rfl

@[simp] theorem set_slot_next_id (s : Kernel) (t : thread_t) (v : Nat) :
    (set_slot s t v).next_id = s.next_id := rfl

@[simp] theorem set_slot_all_threads (s : Kernel) (t : thread_t) (v : Nat) :
    (set_slot s t v).all_threads = s.all_threads := rfl

@[simp] theorem set_slot_run_queue (s : Kernel) (t : thread_t) (v : Nat) :
    (set_slot s t v).run_queue = s.run_queue := rfl

@[simp] theorem set_slot_zombie_list (s : Kernel) (t : thread_t) (v : Nat) :
    (set_slot s t v).zombie_list = s.zombie_list := rfl

@[simp] theorem set_slot_current (s : Kernel) (t : thread_t) (v : Nat) :
    (set_slot s t v).current = s.current := rfl

@[simp] theorem set_slot_idle_thread (s : Kernel) (t : thread_t) (v : Nat) :
    (set_slot s t v).idle_thread = s.idle_thread := rfl

@[simp] theorem set_slot_reaper_thread (s : Kernel) (t : thread_t) (v : Nat) :
    (set_slot s t v).reaper_thread = s.reaper_thread := rfl

@[simp] theorem set_slot_eflags_if (s : Kernel) (t : thread_t) (v : Nat) :
    (set_slot s t v).eflags_if = s.eflags_if := rfl

@[simp] theorem set_slot_mutexes (s : Kernel) (t : thread_t) (v : Nat) :
    (set_slot s t v).mutexes = s.mutexes := rfl

@[simp] theorem set_slot_conds (s : Kernel) (t : thread_t) (v : Nat) :
    (set_slot s t v).conds = s.conds := rfl

@[simp] theorem set_slot_freed (s : Kernel) (t : thread_t) (v : Nat) :
    (set_slot s t v).freed = s.freed := rfl

@[simp] theorem set_esp_next_id (s : Kernel) (t : thread_t) (c : context_t) :
    (set_esp s t c).next_id = s.next_id := rfl

@[simp] theorem set_esp_all_threads (s : Kernel) (t : thread_t) (c : context_t) :
    (set_esp s t c).all_threads = s.all_threads := rfl

@[simp] theorem set_esp_run_queue (s : Kernel) (t : thread_t) (c : context_t) :
    (set_esp s t c).run_queue = s.run_queue := rfl

@[simp] theorem set_esp_zombie_list (s : Kernel) (t : thread_t) (c : context_t) :
    (set_esp s t c).zombie_list = s.zombie_list := rfl

@[simp] theorem set_esp_current (s : Kernel) (t : thread_t) (c : context_t) :
    (set_esp s t c).current = s.current := rfl

@[simp] theorem set_esp_idle_thread (s : Kernel) (t : thread_t) (c : context_t) :
    (set_esp s t c).idle_thread = s.idle_thread := rfl

@[simp] theorem set_esp_reaper_thread (s : Kernel) (t : thread_t) (c : context_t) :
    (set_esp s t c).reaper_thread = s.reaper_thread := rfl

@[simp] theorem set_esp_eflags_if (s : Kernel) (t : thread_t) (c : context_t) :
    (set_esp s t c).eflags_if = s.eflags_if := rfl

@[simp] theorem set_esp_mutexes (s : Kernel) (t : thread_t) (c : context_t) :
    (set_esp s t c).mutexes = s.mutexes := rfl

@[simp] theorem set_esp_conds (s : Kernel) (t : thread_t) (c : context_t) :
    (set_esp s t c).conds = s.conds := rfl

@[simp] theorem set_esp_freed (s : Kernel) (t : thread_t) (c : context_t) :
    (set_esp s t c).freed = s.freed := rfl

@[simp] theorem set_frames_next_id (s : Kernel) (t : thread_t) (f : List frame_t) :
    (set_frames s t f).next_id = s.next_id := rfl

@[simp] theorem set_frames_all_threads (s : Kernel) (t : thread_t) (f : List frame_t) :
    (set_frames s t f).all_threads = s.all_threads := rfl

@[simp] theorem set_frames_run_queue (s : Kernel) (t : thread_t) (f : List frame_t) :
    (set_frames s t f).run_queue = s.run_queue := rfl

@[simp] theorem set_frames_zombie_list (s : Kernel) (t : thread_t) (f : List frame_t) :
    (set_frames s t f).zombie_list = s.zombie_list := rfl

@[simp] theorem set_frames_current (s : Kernel) (t : thread_t) (f : List frame_t) :
    (set_frames s t f).current = s.current := rfl

@[simp] theorem set_frames_idle_thread (s : Kernel) (t : thread_t) (f : List frame_t) :
    (set_frames s t f).idle_thread = s.idle_thread := rfl

@[simp] theorem set_frames_reaper_thread (s : Kernel) (t : thread_t) (f : List frame_t) :
    (set_frames s t f).reaper_thread = s.reaper_thread := rfl

@[simp] theorem set_frames_eflags_if (s : Kernel) (t : thread_t) (f : List frame_t) :
    (set_frames s t f).eflags_if = s.eflags_if := rfl

@[simp] theorem set_frames_mutexes (s : Kernel) (t : thread_t) (f : List frame_t) :
    (set_frames s t f).mutexes = s.mutexes := rfl

@[simp] theorem set_frames_conds (s : Kernel) (t : thread_t) (f : List frame_t) :
    (set_frames s t f).conds = s.conds := rfl

@[simp] theorem set_frames_freed (s : Kernel) (t : thread_t) (f : List frame_t) :
    (set_frames s t f).freed = s.freed := rfl

@[simp] theorem push_frame_next_id (f : frame_t) (s : Kernel) :
    (push_frame f s).next_id = s.next_id := rfl

@[simp] theorem push_frame_all_threads (f : frame_t) (s : Kernel) :
    (push_frame f s).all_threads = s.all_threads := rfl

@[simp] theorem push_frame_run_queue (f : frame_t) (s : Kernel) :
    (push_frame f s).run_queue = s.run_queue := rfl

@[simp] theorem push_frame_zombie_list (f : frame_t) (s : Kernel) :
    (push_frame f s).zombie_list = s.zombie_list := rfl

@[simp] theorem push_frame_current (f : frame_t) (s : Kernel) :
    (push_frame f s).current = s.current := rfl

@[simp] theorem push_frame_idle_thread (f : frame_t) (s : Kernel) :
    (push_frame f s).idle_thread = s.idle_thread := rfl

@[simp] theorem push_frame_reaper_thread (f : frame_t) (s : Kernel) :
    (push_frame f s).reaper_thread = s.reaper_thread := rfl

@[simp] theorem push_frame_eflags_if (f : frame_t) (s : Kernel) :
    (push_frame f s).eflags_if = s.eflags_if := rfl

@[simp] theorem push_frame_mutexes (f : frame_t) (s : Kernel) :
    (push_frame f s).mutexes = s.mutexes := rfl

@[simp] theorem push_frame_conds (f : frame_t) (s : Kernel) :
    (push_frame f s).conds = s.conds := rfl

@[simp] theorem push_frame_freed (f : frame_t) (s : Kernel) :
    (push_frame f s).freed = s.freed := rfl

@[simp] theorem set_owner_next_id (s : Kernel) (m : Nat) (t : thread_t) :
    (set_owner s m t).next_id = s.next_id := rfl

@[simp] theorem set_owner_all_threads (s : Kernel) (m : Nat) (t : thread_t) :
    (set_owner s m t).all_threads = s.all_threads := rfl

@[simp] theorem set_owner_run_queue (s : Kernel) (m : Nat) (t : thread_t) :
    (set_owner s m t).run_queue = s.run_queue := rfl

@[simp] theorem set_owner_zombie_list (s : Kernel) (m : Nat) (t : thread_t) :
    (set_owner s m t).zombie_list = s.zombie_list := rfl

@[simp] theorem set_owner_current (s : Kernel) (m : Nat) (t : thread_t) :
    (set_owner s m t).current = s.current := rfl

@[simp] theorem set_owner_idle_thread (s : Kernel) (m : Nat) (t : thread_t) :
    (set_owner s m t).idle_thread = s.idle_thread := rfl

@[simp] theorem set_owner_reaper_thread (s : Kernel) (m : Nat) (t : thread_t) :
    (set_owner s m t).reaper_thread = s.reaper_thread := rfl

@[simp] theorem set_owner_eflags_if (s : Kernel) (m : Nat) (t : thread_t) :
    (set_owner s m t).eflags_if = s.eflags_if := rfl

@[simp] theorem set_owner_threads (s : Kernel) (m : Nat) (t : thread_t) :
    (set_owner s m t).threads = s.threads := rfl

@[simp] theorem set_owner_conds (s : Kernel) (m : Nat) (t : thread_t) :
    (set_owner s m t).conds = s.conds := rfl

@[simp] theorem set_owner_freed (s : Kernel) (m : Nat) (t : thread_t) :
    (set_owner s m t).freed = s.freed := rfl

@[simp] theorem set_waitqueue_next_id (s : Kernel) (h : head_t) (q : List thread_t) :
    (set_waitqueue s h q).next_id = s.next_id := by cases h <;> rfl

@[simp] theorem set_waitqueue_all_threads (s : Kernel) (h : head_t) (q : List thread_t) :
    (set_waitqueue s h q).all_threads = s.all_threads := by cases h <;> rfl

@[simp] theorem set_waitqueue_run_queue (s : Kernel) (h : head_t) (q : List thread_t) :
    (set_waitqueue s h q).run_queue = s.run_queue := by cases h <;> rfl

@[simp] theorem set_waitqueue_zombie_list (s : Kernel) (h : head_t) (q : List thread_t) :
    (set_waitqueue s h q).zombie_list = s.zombie_list := by cases h <;> rfl

@[simp] theorem set_waitqueue_current (s : Kernel) (h : head_t) (q : List thread_t) :
    (set_waitqueue s h q).current = s.current := by cases h <;> rfl

@[simp] theorem set_waitqueue_idle_thread (s : Kernel) (h : head_t) (q : List thread_t) :
    (set_waitqueue s h q).idle_thread = s.idle_thread := by cases h <;> rfl

@[simp] theorem set_waitqueue_reaper_thread (s : Kernel) (h : head_t) (q : List thread_t) :
    (set_waitqueue s h q).reaper_thread = s.reaper_thread := by cases h <;> rfl

@[simp] theorem set_waitqueue_eflags_if (s : Kernel) (h : head_t) (q : List thread_t) :
    (set_waitqueue s h q).eflags_if = s.eflags_if := by cases h <;> rfl

@[simp] theorem set_waitqueue_threads (s : Kernel) (h : head_t) (q : List thread_t) :
    (set_waitqueue s h q).threads = s.threads := by cases h <;> rfl

@[simp] theorem set_waitqueue_freed (s : Kernel) (h : head_t) (q : List thread_t) :
    (set_waitqueue s h q).freed = s.freed := by cases h <;> rfl

@[simp] theorem interrupts_enable_next_id (s : Kernel) :
    (interrupts_enable s).next_id = s.next_id := rfl

@[simp] theorem interrupts_enable_all_threads (s : Kernel) :
    (interrupts_enable s).all_threads = s.all_threads := rfl

@[simp] theorem interrupts_enable_run_queue (s : Kernel) :
    (interrupts_enable s).run_queue = s.run_queue := rfl

@[simp] theorem interrupts_enable_zombie_list (s : Kernel) :
    (interrupts_enable s).zombie_list = s.zombie_list := rfl

@[simp] theorem interrupts_enable_current (s : Kernel) :
    (interrupts_enable s).current = s.current := rfl

@[simp] theorem interrupts_enable_idle_thread (s : Kernel) :
    (interrupts_enable s).idle_thread = s.idle_thread := rfl

@[simp] theorem interrupts_enable_reaper_thread (s : Kernel) :
    (interrupts_enable s).reaper_thread = s.reaper_thread := rfl

@[simp] theorem interrupts_enable_threads (s : Kernel) :
    (interrupts_enable s).threads = s.threads := rfl

@[simp] theorem interrupts_enable_mutexes (s : Kernel) :
    (interrupts_enable s).mutexes = s.mutexes := rfl

@[simp] theorem interrupts_enable_conds (s : Kernel) :
    (interrupts_enable s).conds = s.conds := rfl

@[simp] theorem interrupts_enable_freed (s : Kernel) :
    (interrupts_enable s).freed = s.freed := rfl

@[simp] theorem interrupts_restore_next_id (i : Nat) (s : Kernel) :
    (interrupts_restore i s).next_id = s.next_id := by unfold interrupts_restore; split <;> rfl

@[simp] theorem interrupts_restore_all_threads (i : Nat) (s : Kernel) :
    (interrupts_restore i s).all_threads = s.all_threads := by unfold interrupts_restore; split <;> rfl

@[simp] theorem interrupts_restore_run_queue (i : Nat) (s : Kernel) :
    (interrupts_restore i s).run_queue = s.run_queue := by unfold interrupts_restore; split <;> rfl

@[simp] theorem interrupts_restore_zombie_list (i : Nat) (s : Kernel) :
    (interrupts_restore i s).zombie_list = s.zombie_list := by unfold interrupts_restore; split <;> rfl

@[simp] theorem interrupts_restore_current (i : Nat) (s : Kernel) :
    (interrupts_restore i s).current = s.current := by unfold interrupts_restore; split <;> rfl

@[simp] theorem interrupts_restore_idle_thread (i : Nat) (s : Kernel) :
    (interrupts_restore i s).idle_thread = s.idle_thread := by unfold interrupts_restore; split <;> rfl

@[simp] theorem interrupts_restore_reaper_thread (i : Nat) (s : Kernel) :
    (interrupts_restore i s).reaper_thread = s.reaper_thread := by unfold interrupts_restore; split <;> rfl

@[simp] theorem interrupts_restore_threads (i : Nat) (s : Kernel) :
    (interrupts_restore i s).threads = s.threads := by unfold interrupts_restore; split <;> rfl

@[simp] theorem interrupts_restore_mutexes (i : Nat) (s : Kernel) :
    (interrupts_restore i s).mutexes = s.mutexes := by unfold interrupts_restore; split <;> rfl

@[simp] theorem interrupts_restore_conds (i : Nat) (s : Kernel) :
    (interrupts_restore i s).conds = s.conds := by unfold interrupts_restore; split <;> rfl

@[simp] theorem interrupts_restore_freed (i : Nat) (s : Kernel) :
    (interrupts_restore i s).freed = s.freed := by unfold interrupts_restore; split <;> rfl

@[simp] theorem set_status_threads_slot (s : Kernel) (t : thread_t) (v : Nat) (u : thread_t) :
    ((set_status s t v).threads u).slot = (s.threads u).slot := by
  by_cases h : u = t <;> simp [set_status, Function.update, h]

@[simp] theorem set_status_threads_id (s : Kernel) (t : thread_t) (v : Nat) (u : thread_t) :
    ((set_status s t v).threads u).id = (s.threads u).id := by
  by_cases h : u = t <;> simp [set_status, Function.update, h]

@[simp] theorem set_status_threads_frames (s : Kernel) (t : thread_t) (v : Nat) (u : thread_t) :
    ((set_status s t v).threads u).frames = (s.threads u).frames := by
  by_cases h : u = t <;> simp [set_status, Function.update, h]

@[simp] theorem set_status_threads_esp (s : Kernel) (t : thread_t) (v : Nat) (u : thread_t) :
    ((set_status s t v).threads u).esp = (s.threads u).esp := by
  by_cases h : u = t <;> simp [set_status, Function.update, h]

@[simp] theorem set_slot_threads_status (s : Kernel) (t : thread_t) (v : Nat) (u : thread_t) :
    ((set_slot s t v).threads u).status = (s.threads u).status := by
  by_cases h : u = t <;> simp [set_slot, Function.update, h]

@[simp] theorem set_slot_threads_id (s : Kernel) (t : thread_t) (v : Nat) (u : thread_t) :
    ((set_slot s t v).threads u).id = (s.threads u).id := by
  by_cases h : u = t <;> simp [set_slot, Function.update, h]

@[simp] theorem set_slot_threads_frames (s : Kernel) (t : thread_t) (v : Nat) (u : thread_t) :
    ((set_slot s t v).threads u).frames = (s.threads u).frames := by
  by_cases h : u = t <;> simp [set_slot, Function.update, h]

@[simp] theorem set_slot_threads_esp (s : Kernel) (t : thread_t) (v : Nat) (u : thread_t) :
    ((set_slot s t v).threads u).esp = (s.threads u).esp := by
  by_cases h : u = t <;> simp [set_slot, Function.update, h]

@[simp] theorem set_esp_threads_status (s : Kernel) (t : thread_t) (c : context_t) (u : thread_t) :
    ((set_esp s t c).threads u).status = (s.threads u).status := by
  by_cases h : u = t <;> simp [set_esp, Function.update, h]

@[simp] theorem set_esp_threads_slot (s : Kernel) (t : thread_t) (c : context_t) (u : thread_t) :
    ((set_esp s t c).threads u).slot = (s.threads u).slot := by
  by_cases h : u = t <;> simp [set_esp, Function.update, h]

@[simp] theorem set_esp_threads_id (s : Kernel) (t : thread_t) (c : context_t) (u : thread_t) :
    ((set_esp s t c).threads u).id = (s.threads u).id := by
  by_cases h : u = t <;> simp [set_esp, Function.update, h]

@[simp] theorem set_esp_threads_frames (s : Kernel) (t : thread_t) (c : context_t) (u : thread_t) :
    ((set_esp s t c).threads u).frames = (s.threads u).frames := by
  by_cases h : u = t <;> simp [set_esp, Function.update, h]

@[simp] theorem set_frames_threads_status (s : Kernel) (t : thread_t) (f : List frame_t) (u : thread_t) :
    ((set_frames s t f).threads u).status = (s.threads u).status := by
  by_cases h : u = t <;> simp [set_frames, Function.update, h]

@[simp] theorem set_frames_threads_slot (s : Kernel) (t : thread_t) (f : List frame_t) (u : thread_t) :
    ((set_frames s t f).threads u).slot = (s.threads u).slot := by
  by_cases h : u = t <;> simp [set_frames, Function.update, h]

@[simp] theorem set_frames_threads_id (s : Kernel) (t : thread_t) (f : List frame_t) (u : thread_t) :
    ((set_frames s t f).threads u).id = (s.threads u).id := by
  by_cases h : u = t <;> simp [set_frames, Function.update, h]

@[simp] theorem set_frames_threads_esp (s : Kernel) (t : thread_t) (f : List frame_t) (u : thread_t) :
    ((set_frames s t f).threads u).esp = (s.threads u).esp := by
  by_cases h : u = t <;> simp [set_frames, Function.update, h]

@[simp] theorem set_status_threads_status (s : Kernel) (t : thread_t) (v : Nat) (u : thread_t) :
    ((set_status s t v).threads u).status = if u = t then v else (s.threads u).status := by
  by_cases h : u = t <;> simp [set_status, Function.update, h]

@[simp] theorem set_frames_threads_frames (s : Kernel) (t : thread_t) (f : List frame_t)
    (u : thread_t) :
    ((set_frames s t f).threads u).frames = if u = t then f else (s.threads u).frames := by
  by_cases h : u = t <;> simp [set_frames, Function.update, h]

@[simp] theorem push_frame_threads_status (f : frame_t) (s : Kernel) (u : thread_t) :
    ((push_frame f s).threads u).status = (s.threads u).status := by
  simp [push_frame]

@[simp] theorem push_frame_threads_slot (f : frame_t) (s : Kernel) (u : thread_t) :
    ((push_frame f s).threads u).slot = (s.threads u).slot := by
  simp [push_frame]

@[simp] theorem push_frame_threads_id (f : frame_t) (s : Kernel) (u : thread_t) :
    ((push_frame f s).threads u).id = (s.threads u).id := by
  simp [push_frame]

@[simp] theorem push_frame_threads_esp (f : frame_t) (s : Kernel) (u : thread_t) :
    ((push_frame f s).threads u).esp = (s.threads u).esp := by
  simp [push_frame]

@[simp] theorem waitqueue_set_waitqueue (s : Kernel) (h : head_t) (q : List thread_t)
    (k : head_t) :
    waitqueue (set_waitqueue s h q) k = if k = h then q else waitqueue s k := by
  cases h <;> cases k <;> simp [waitqueue, set_waitqueue, Function.update]
  all_goals (split <;> simp_all)

@[simp] theorem waitqueue_set_status (s : Kernel) (t : thread_t) (v : Nat) (k : head_t) :
    waitqueue (set_status s t v) k = waitqueue s k := by
  cases k <;> simp [waitqueue]

@[simp] theorem waitqueue_set_slot (s : Kernel) (t : thread_t) (v : Nat) (k : head_t) :
    waitqueue (set_slot s t v) k = waitqueue s k := by
  cases k <;> simp [waitqueue]

@[simp] theorem waitqueue_set_esp (s : Kernel) (t : thread_t) (c : context_t) (k : head_t) :
    waitqueue (set_esp s t c) k = waitqueue s k := by
  cases k <;> simp [waitqueue]

@[simp] theorem waitqueue_set_frames (s : Kernel) (t : thread_t) (f : List frame_t) (k : head_t) :
    waitqueue (set_frames s t f) k = waitqueue s k := by
  cases k <;> simp [waitqueue]

@[simp] theorem waitqueue_push_frame (f : frame_t) (s : Kernel) (k : head_t) :
    waitqueue (push_frame f s) k = waitqueue s k := by
  cases k <;> simp [waitqueue]

@[simp] theorem waitqueue_interrupts_enable (s : Kernel) (k : head_t) :
    waitqueue (interrupts_enable s) k = waitqueue s k := by
  cases k <;> simp [waitqueue]

@[simp] theorem waitqueue_interrupts_restore (i : Nat) (s : Kernel) (k : head_t) :
    waitqueue (interrupts_restore i s) k = waitqueue s k := by
  cases k <;> simp [waitqueue]

@[simp] theorem waitqueue_set_owner (s : Kernel) (m : Nat) (t : thread_t) (k : head_t) :
    waitqueue (set_owner s m t) k = waitqueue s k := by
  cases k with
  | mutex n => by_cases h : n = m <;> simp [waitqueue, set_owner, Function.update, h]
  | cond c => rfl

@[simp] theorem interrupts_restore_threads_status (i : Nat) (s : Kernel) (u : thread_t) :
    ((interrupts_restore i s).threads u).status = (s.threads u).status := by
  simp

@[simp] theorem interrupts_restore_threads_slot (i : Nat) (s : Kernel) (u : thread_t) :
    ((interrupts_restore i s).threads u).slot = (s.threads u).slot := by
  simp

@[simp] theorem interrupts_restore_threads_id (i : Nat) (s : Kernel) (u : thread_t) :
    ((interrupts_restore i s).threads u).id = (s.threads u).id := by
  simp

@[simp] theorem interrupts_restore_threads_frames (i : Nat) (s : Kernel) (u : thread_t) :
    ((interrupts_restore i s).threads u).frames = (s.threads u).frames := by
  simp

@[simp] theorem interrupts_restore_threads_esp (i : Nat) (s : Kernel) (u : thread_t) :
    ((interrupts_restore i s).threads u).esp = (s.threads u).esp := by
  simp

@[simp] theorem set_waitqueue_mutexes_owner (s : Kernel) (h : head_t) (q : List thread_t)
    (m : Nat) : ((set_waitqueue s h q).mutexes m).owner = (s.mutexes m).owner := by
  cases h with
  | mutex n => by_cases e : m = n <;> simp [set_waitqueue, Function.update, e]
  | cond c => rfl

@[simp] theorem set_waitqueue_mutexes_id (s : Kernel) (h : head_t) (q : List thread_t)
    (m : Nat) : ((set_waitqueue s h q).mutexes m).id = (s.mutexes m).id := by
  cases h with
  | mutex n => by_cases e : m = n <;> simp [set_waitqueue, Function.update, e]
  | cond c => rfl

@[simp] theorem set_waitqueue_conds_id (s : Kernel) (h : head_t) (q : List thread_t)
    (c : Nat) : ((set_waitqueue s h q).conds c).id = (s.conds c).id := by
  cases h with
  | mutex n => rfl
  | cond d => by_cases e : c = d <;> simp [set_waitqueue, Function.update, e]

@[simp] theorem set_owner_mutexes_owner (s : Kernel) (m : Nat) (t : thread_t) (n : Nat) :
    ((set_owner s m t).mutexes n).owner = if n = m then t else (s.mutexes n).owner := by
  by_cases e : n = m <;> simp [set_owner, Function.update, e]

@[simp] theorem set_owner_mutexes_id (s : Kernel) (m : Nat) (t : thread_t) (n : Nat) :
    ((set_owner s m t).mutexes n).id = (s.mutexes n).id := by
  by_cases e : n = m <;> simp [set_owner, Function.update, e]

/-! ## Basic facts about the scheduler -/

section basic

variable (s : Kernel) (p : thread_t) (i : Nat)

/-- The stack switch changes the interrupt flag and the saved context of the
previous thread, and nothing else. -/
theorem schedule_switch_eq :
    ∃ (b : Bool) (thr : thread_t → real_thread_t),
      schedule_switch p i s = { s with eflags_if := b, threads := thr } ∧
      ∀ t, (thr t).status = (s.threads t).status ∧ (thr t).slot = (s.threads t).slot ∧
        (thr t).id = (s.threads t).id ∧ (thr t).frames = (s.threads t).frames := by
  unfold schedule_switch
  by_cases h : p = s.current
  · rw [if_pos h]
    unfold interrupts_restore interrupts_enable
    by_cases hi : i ≠ 0
    · rw [if_pos hi]
      exact ⟨true, s.threads, rfl, fun t => ⟨rfl, rfl, rfl, rfl⟩⟩
    · rw [if_neg hi]
      exact ⟨s.eflags_if, s.threads, rfl, fun t => ⟨rfl, rfl, rfl, rfl⟩⟩
  · rw [if_neg h]
    have key : ∀ t, ((set_esp s p (.schedule i)).threads t).status = (s.threads t).status ∧
        ((set_esp s p (.schedule i)).threads t).slot = (s.threads t).slot ∧
        ((set_esp s p (.schedule i)).threads t).id = (s.threads t).id ∧
        ((set_esp s p (.schedule i)).threads t).frames = (s.threads t).frames := by
      intro t
      by_cases ht : t = p <;> simp [set_esp, Function.update, ht]
    dsimp only
    cases (set_esp s p (.schedule i)).threads (set_esp s p (.schedule i)).current |>.esp with
    | trampoline => exact ⟨true, (set_esp s p (.schedule i)).threads, rfl, key⟩
    | schedule j =>
      dsimp only
      unfold interrupts_restore interrupts_enable
      by_cases hj : j ≠ 0
      · rw [if_pos hj]
        exact ⟨true, (set_esp s p (.schedule i)).threads, rfl, key⟩
      · rw [if_neg hj]
        exact ⟨s.eflags_if, (set_esp s p (.schedule i)).threads, rfl, key⟩

@[simp] theorem schedule_switch_run_queue :
    (schedule_switch p i s).run_queue = s.run_queue := by
  obtain ⟨b, thr, h, _⟩ := schedule_switch_eq s p i
  rw [h]

@[simp] theorem schedule_switch_zombie_list :
    (schedule_switch p i s).zombie_list = s.zombie_list := by
  obtain ⟨b, thr, h, _⟩ := schedule_switch_eq s p i
  rw [h]

@[simp] theorem schedule_switch_all_threads :
    (schedule_switch p i s).all_threads = s.all_threads := by
  obtain ⟨b, thr, h, _⟩ := schedule_switch_eq s p i
  rw [h]

@[simp] theorem schedule_switch_current :
    (schedule_switch p i s).current = s.current := by
  obtain ⟨b, thr, h, _⟩ := schedule_switch_eq s p i
  rw [h]

@[simp] theorem schedule_switch_idle_thread :
    (schedule_switch p i s).idle_thread = s.idle_thread := by
  obtain ⟨b, thr, h, _⟩ := schedule_switch_eq s p i
  rw [h]

@[simp] theorem schedule_switch_reaper_thread :
    (schedule_switch p i s).reaper_thread = s.reaper_thread := by
  obtain ⟨b, thr, h, _⟩ := schedule_switch_eq s p i
  rw [h]

@[simp] theorem schedule_switch_mutexes :
    (schedule_switch p i s).mutexes = s.mutexes := by
  obtain ⟨b, thr, h, _⟩ := schedule_switch_eq s p i
  rw [h]

@[simp] theorem schedule_switch_conds :
    (schedule_switch p i s).conds = s.conds := by
  obtain ⟨b, thr, h, _⟩ := schedule_switch_eq s p i
  rw [h]

@[simp] theorem schedule_switch_freed :
    (schedule_switch p i s).freed = s.freed := by
  obtain ⟨b, thr, h, _⟩ := schedule_switch_eq s p i
  rw [h]

@[simp] theorem schedule_switch_next_id :
    (schedule_switch p i s).next_id = s.next_id := by
  obtain ⟨b, thr, h, _⟩ := schedule_switch_eq s p i
  rw [h]

@[simp] theorem schedule_switch_status (t : thread_t) :
    ((schedule_switch p i s).threads t).status = (s.threads t).status := by
  obtain ⟨b, thr, h, k⟩ := schedule_switch_eq s p i
  rw [h]
  exact (k t).1

@[simp] theorem schedule_switch_slot (t : thread_t) :
    ((schedule_switch p i s).threads t).slot = (s.threads t).slot := by
  obtain ⟨b, thr, h, k⟩ := schedule_switch_eq s p i
  rw [h]
  exact (k t).2.1

@[simp] theorem schedule_switch_id (t : thread_t) :
    ((schedule_switch p i s).threads t).id = (s.threads t).id := by
  obtain ⟨b, thr, h, k⟩ := schedule_switch_eq s p i
  rw [h]
  exact (k t).2.2.1

@[simp] theorem schedule_switch_frames (t : thread_t) :
    ((schedule_switch p i s).threads t).frames = (s.threads t).frames := by
  obtain ⟨b, thr, h, k⟩ := schedule_switch_eq s p i
  rw [h]
  exact (k t).2.2.2

@[simp] theorem schedule_switch_waitqueue (h : head_t) :
    waitqueue (schedule_switch p i s) h = waitqueue s h := by
  cases h <;> simp [waitqueue]

theorem schedule_pick_current :
    (schedule_pick s).current = s.run_queue.head?.getD s.idle_thread := by
  unfold schedule_pick
  split <;> simp_all

theorem schedule_pick_run_queue :
    (schedule_pick s).run_queue = s.run_queue.tail := by
  unfold schedule_pick list_remove
  split <;> simp_all

@[simp] theorem schedule_pick_zombie_list :
    (schedule_pick s).zombie_list = s.zombie_list := by
  unfold schedule_pick
  split <;> rfl

@[simp] theorem schedule_pick_all_threads :
    (schedule_pick s).all_threads = s.all_threads := by
  unfold schedule_pick
  split <;> rfl

@[simp] theorem schedule_pick_idle_thread :
    (schedule_pick s).idle_thread = s.idle_thread := by
  unfold schedule_pick
  split <;> rfl

@[simp] theorem schedule_pick_reaper_thread :
    (schedule_pick s).reaper_thread = s.reaper_thread := by
  unfold schedule_pick
  split <;> rfl

@[simp] theorem schedule_pick_threads :
    (schedule_pick s).threads = s.threads := by
  unfold schedule_pick
  split <;> rfl

@[simp] theorem schedule_pick_mutexes :
    (schedule_pick s).mutexes = s.mutexes := by
  unfold schedule_pick
  split <;> rfl

@[simp] theorem schedule_pick_conds :
    (schedule_pick s).conds = s.conds := by
  unfold schedule_pick
  split <;> rfl

@[simp] theorem schedule_pick_freed :
    (schedule_pick s).freed = s.freed := by
  unfold schedule_pick
  split <;> rfl

@[simp] theorem schedule_pick_next_id :
    (schedule_pick s).next_id = s.next_id := by
  unfold schedule_pick
  split <;> rfl

@[simp] theorem schedule_pick_eflags_if :
    (schedule_pick s).eflags_if = s.eflags_if := by
  unfold schedule_pick
  split <;> rfl

@[simp] theorem schedule_pick_waitqueue (h : head_t) :
    waitqueue (schedule_pick s) h = waitqueue s h := by
  cases h <;> simp [waitqueue]

/-- The function `schedule` as its three parts in sequence. -/
theorem schedule_eq :
    schedule s =
      (schedule_dispose { s with eflags_if := false }).map
        (fun s1 => schedule_switch s.current (if s.eflags_if then 0x200 else 0)
          (schedule_pick s1)) := by
  unfold schedule interrupts_disable
  dsimp only
  cases schedule_dispose { s with eflags_if := false } <;> rfl

end basic

/-! ## The scheduler on a runnable or blocked thread -/

/-- With an empty run queue a runnable thread that calls `schedule` is put on
the queue, taken off again, and the call returns with nothing changed. -/
theorem schedule_same_thread (s : Kernel) (hp : s.current ≠ s.idle_thread)
    (hr : (s.threads s.current).status = RUNNABLE) (hq : s.run_queue = []) :
    schedule s = some s := by
  rw [schedule_eq]
  simp only [schedule_dispose, hp, hr, ne_eq, not_false_eq_true, if_true, Option.map_some',
    schedule_pick, hq, list_append, List.nil_append, schedule_switch, list_remove,
    List.erase_cons_head, interrupts_restore, interrupts_enable]
  cases s with
  | mk a b c d e f g h i j k l =>
    cases h <;> simp_all

/-- A runnable thread other than the idle thread that calls `schedule` goes to
the tail of the run queue, and the head of the queue becomes current. -/
theorem schedule_runnable (s : Kernel) (hp : s.current ≠ s.idle_thread)
    (hr : (s.threads s.current).status = RUNNABLE) :
    ∃ s1, schedule s = some s1 ∧
      some s1.current = (s.run_queue ++ [s.current]).head? ∧
      s1.run_queue = (s.run_queue ++ [s.current]).tail ∧
      s1.zombie_list = s.zombie_list ∧
      (∀ h, waitqueue s1 h = waitqueue s h) := by
  have hd : schedule_dispose { s with eflags_if := false } =
      some { s with eflags_if := false, run_queue := s.run_queue ++ [s.current] } := by
    simp [schedule_dispose, hp, hr, list_append]
  refine ⟨_, by rw [schedule_eq, hd]; rfl, ?_, ?_, ?_, ?_⟩
  · simp [schedule_pick_current]
    cases s.run_queue <;> simp
  · simp [schedule_pick_run_queue]
  · simp
  · intro h
    cases h <;> simp [waitqueue]

/-- A blocked thread other than the idle thread that calls `schedule` is
linked nowhere, and the head of the run queue, or the idle thread, becomes
current. -/
theorem schedule_blocked (s : Kernel) (hp : s.current ≠ s.idle_thread)
    (hb : (s.threads s.current).status = BLOCKED) :
    ∃ s1, schedule s = some s1 ∧
      s1.current = s.run_queue.head?.getD s.idle_thread ∧
      s1.run_queue = s.run_queue.tail ∧
      s1.zombie_list = s.zombie_list ∧
      (∀ h, waitqueue s1 h = waitqueue s h) := by
  have hd : schedule_dispose { s with eflags_if := false } =
      some { s with eflags_if := false } := by
    simp [schedule_dispose, hp, hb, RUNNABLE, BLOCKED]
  refine ⟨_, by rw [schedule_eq, hd]; rfl, ?_, ?_, ?_, ?_⟩
  · simp [schedule_pick_current]
  · simp [schedule_pick_run_queue]
  · simp
  · intro h
    cases h <;> simp [waitqueue]

/-- C3. For a current thread `p` other than the idle thread and ready queue `q`:
`schedule` with `p` Runnable makes the head of `q ++ [p]` the current thread and
the tail of `q ++ [p]` the ready queue, and returns the state unchanged when `q`
is empty; `schedule` with `p` Blocked makes the head of `q`, or the idle thread
when `q` is empty, the current thread, the tail of `q` the ready queue, and
links `p` in no list: zombie list and wait-queues are as before. -/
theorem schedule_runnable_blocked (s : Kernel) (hp : s.current ≠ s.idle_thread) :
    ((s.threads s.current).status = RUNNABLE →
      ∃ s1, schedule s = some s1 ∧
        some s1.current = (s.run_queue ++ [s.current]).head? ∧
        s1.run_queue = (s.run_queue ++ [s.current]).tail ∧
        s1.zombie_list = s.zombie_list ∧
        (∀ h, waitqueue s1 h = waitqueue s h)) ∧
    ((s.threads s.current).status = RUNNABLE → s.run_queue = [] → schedule s = some s) ∧
    ((s.threads s.current).status = BLOCKED →
      ∃ s1, schedule s = some s1 ∧
        s1.current = s.run_queue.head?.getD s.idle_thread ∧
        s1.run_queue = s.run_queue.tail ∧
        s1.zombie_list = s.zombie_list ∧
        (∀ h, waitqueue s1 h = waitqueue s h)) :=
  ⟨schedule_runnable s hp, schedule_same_thread s hp, schedule_blocked s hp⟩

/-- The three cases of `schedule_runnable_blocked` at concrete states: after
`thread_init` (kernel thread Runnable, queue `[2, 3]`), with the queue emptied,
and with the kernel thread marked Blocked. -/
theorem schedule_runnable_blocked_witness :
    (∃ s1, schedule init_state = some s1 ∧ s1.current = 2 ∧ s1.run_queue = [3, 1]) ∧
    schedule { init_state with run_queue := [] } = some { init_state with run_queue := [] } ∧
    (∃ s1, schedule (set_status init_state 1 BLOCKED) = some s1 ∧ s1.current = 2 ∧
      s1.run_queue = [3]) := by
  refine ⟨?_, ?_, ?_⟩
  · obtain ⟨s1, h1, h2, h3, _⟩ :=
      (schedule_runnable_blocked init_state (by decide)).1 (by decide)
    exact ⟨s1, h1, Option.some.inj h2, h3⟩
  · exact (schedule_runnable_blocked { init_state with run_queue := [] } (by decide)).2.1
      (by decide) rfl
  · obtain ⟨s1, h1, h2, h3, _⟩ :=
      (schedule_runnable_blocked (set_status init_state 1 BLOCKED) (by decide)).2.2 (by decide)
    exact ⟨s1, h1, h2, h3⟩

/-! ## The reaper -/

/-- The inner loop of the reaper with enough fuel: the zombie list is emptied,
its members are unlinked from the global list and handed to `free`. -/
theorem reaper_loop_eq : ∀ (z : List thread_t) (s : Kernel), s.zombie_list = z →
    ∀ n, z.length ≤ n → do_reaper_loop n s = some { s with
      zombie_list := [], all_threads := s.all_threads.diff z, freed := z.reverse ++ s.freed } := by
  intro z
  induction z with
  | nil =>
    intro s hz n _
    cases s with
    | mk a b c d e f g h i j k l =>
      simp only at hz
      subst hz
      cases n <;> simp [do_reaper_loop, list_empty]
  | cons t z ih =>
    intro s hz n hn
    cases n with
    | zero => simp at hn
    | succ n =>
      simp only [do_reaper_loop, hz, list_remove, List.erase_cons_head]
      rw [ih _ rfl n (by simpa using hn)]
      simp [List.diff_cons]

/-- C9. One pass of the reaper: the inner loop returns for every zombie list
(with as many iterations as the list is long, or more) and leaves it empty; the
global list loses the zombies and keeps its other entries in order (when no
thread is linked in it twice, exactly the zombies are gone); ready queue, current
thread, thread records, mutexes and condition variables are untouched; then the
current thread, the reaper, is marked Blocked and `schedule` is called. -/
theorem do_reaper_pass_reaps (s : Kernel) :
    ∃ s1, (∀ n, s.zombie_list.length ≤ n → do_reaper_loop n s = some s1) ∧
      s1.zombie_list = [] ∧
      s1.all_threads = s.all_threads.diff s.zombie_list ∧
      s1.all_threads.Sublist s.all_threads ∧
      (s.all_threads.Nodup →
        (∀ t ∈ s.zombie_list, t ∉ s1.all_threads) ∧
        s1.all_threads = s.all_threads.filter (fun t => t ∉ s.zombie_list)) ∧
      s1.run_queue = s.run_queue ∧ s1.current = s.current ∧ s1.threads = s.threads ∧
      s1.mutexes = s.mutexes ∧ s1.conds = s.conds ∧
      do_reaper_pass s = schedule (set_status s1 s.current BLOCKED) ∧
      ((set_status s1 s.current BLOCKED).threads s.current).status = BLOCKED := by
  refine ⟨_, reaper_loop_eq s.zombie_list s rfl, rfl, rfl, ?_, ?_, rfl, rfl, rfl, rfl, rfl, ?_, ?_⟩
  · exact List.diff_sublist _ _
  · intro hn
    dsimp only
    rw [hn.diff_eq_filter]
    refine ⟨?_, ?_⟩
    · intro t ht hmem
      simp at hmem
      exact hmem.2 ht
    · simp
  · simp [do_reaper_pass, reaper_loop_eq s.zombie_list s rfl _ le_rfl]
  · simp

/-! ## Traces and concrete states -/

theorem malloc_ok_of_check (s : Kernel) (c : call_t) (h : malloc_check s c = true) :
    malloc_ok s c := by
  cases c <;> simp_all [malloc_check, malloc_ok]

/-- A trace whose calls all pass a test that implies `ok` leads from reachable
states to reachable states. -/
theorem reachable_of_trace_with (ok : Kernel → call_t → Prop) (chk : Kernel → call_t → Bool)
    (hchk : ∀ s c, chk s c = true → ok s c) : ∀ (cs : List call_t) (s s1 : Kernel),
    Reachable ok s → trace_with chk cs s = some s1 → Reachable ok s1 := by
  intro cs
  induction cs with
  | nil =>
    intro s s1 hs h
    simp [trace_with] at h
    exact h ▸ hs
  | cons c cs ih =>
    intro s s1 hs h
    unfold trace_with at h
    split at h
    · rename_i hm
      rw [Bool.and_eq_true] at hm
      split at h
      · exact absurd h (by simp)
      · rename_i s2 he
        exact ih s2 s1
          (Reachable.step c hs (malloc_ok_of_check s c hm.1) (hchk s c hm.2) he) h
    · exact absurd h (by simp)

/-- A trace whose calls are all allowed leads from reachable states to
reachable states. -/
theorem reachable_of_trace_ok (ok : Kernel → call_t → Prop) : ∀ (cs : List call_t)
    (_ : ∀ s c, c ∈ cs → ok s c) (s s1 : Kernel),
    Reachable ok s → trace cs s = some s1 → Reachable ok s1 := by
  intro cs
  induction cs with
  | nil =>
    intro _ s s1 hs h
    simp [trace, trace_with] at h
    exact h ▸ hs
  | cons c cs ih =>
    intro hok s s1 hs h
    unfold trace trace_with at h
    split at h
    · rename_i hm
      rw [Bool.and_eq_true] at hm
      split at h
      · exact absurd h (by simp)
      · rename_i s2 he
        exact ih (fun s c hc => hok s c (List.mem_cons_of_mem _ hc)) s2 s1
          (Reachable.step c hs (malloc_ok_of_check s c hm.1) (hok s c (List.mem_cons_self _ _)) he) h
    · exact absurd h (by simp)

theorem reachable_of_trace (cs : List call_t) (s s1 : Kernel)
    (hs : Reachable any_call s) (h : trace cs s = some s1) : Reachable any_call s1 :=
  reachable_of_trace_ok any_call cs (fun _ _ _ => trivial) s s1 hs h

theorem init_state_reachable : Reachable any_call init_state :=
  Reachable.init 2 3 (by decide) (by decide) (by decide) (by decide) (by decide)

theorem schedule_dispose_dead_wake (s : Kernel) (hp : s.current ≠ s.idle_thread)
    (he : (s.threads s.current).status = KILLED ∨ (s.threads s.current).status = EXITED)
    (hb : (s.threads s.reaper_thread).status = BLOCKED) :
    schedule_dispose s =
      some { set_status { s with zombie_list := s.zombie_list ++ [s.current] }
               s.reaper_thread RUNNABLE with
             run_queue := s.run_queue ++ [s.reaper_thread] } := by
  have h1 : (s.threads s.current).status ≠ RUNNABLE := by
    rcases he with he | he <;> rw [he] <;> decide
  have h2 : (s.threads s.current).status ≠ BLOCKED := by
    rcases he with he | he <;> rw [he] <;> decide
  unfold schedule_dispose
  simp only [ne_eq, hp, not_false_eq_true, if_true, h1, h2, if_false, he, hb, list_append]
  rfl

theorem schedule_dispose_dead_nowake (s : Kernel) (hp : s.current ≠ s.idle_thread)
    (he : (s.threads s.current).status = KILLED ∨ (s.threads s.current).status = EXITED)
    (hb : (s.threads s.reaper_thread).status ≠ BLOCKED) :
    schedule_dispose s = some { s with zombie_list := s.zombie_list ++ [s.current] } := by
  have h1 : (s.threads s.current).status ≠ RUNNABLE := by
    rcases he with he | he <;> rw [he] <;> decide
  have h2 : (s.threads s.current).status ≠ BLOCKED := by
    rcases he with he | he <;> rw [he] <;> decide
  unfold schedule_dispose
  simp only [ne_eq, hp, not_false_eq_true, if_true, h1, h2, if_false, he, hb, list_append]

/-! ## Queues under field updates and under the scheduler -/

@[simp] theorem queue_set_status (s : Kernel) (t : thread_t) (v : Nat) (q : queue_t) :
    queue (set_status s t v) q = queue s q := by
  cases q <;> simp [queue]

@[simp] theorem queue_set_slot (s : Kernel) (t : thread_t) (v : Nat) (q : queue_t) :
    queue (set_slot s t v) q = queue s q := by
  cases q <;> simp [queue]

@[simp] theorem queue_set_esp (s : Kernel) (t : thread_t) (c : context_t) (q : queue_t) :
    queue (set_esp s t c) q = queue s q := by
  cases q <;> simp [queue]

@[simp] theorem queue_set_frames (s : Kernel) (t : thread_t) (f : List frame_t) (q : queue_t) :
    queue (set_frames s t f) q = queue s q := by
  cases q <;> simp [queue]

@[simp] theorem queue_push_frame (f : frame_t) (s : Kernel) (q : queue_t) :
    queue (push_frame f s) q = queue s q := by
  cases q <;> simp [queue]

@[simp] theorem queue_set_owner (s : Kernel) (m : Nat) (t : thread_t) (q : queue_t) :
    queue (set_owner s m t) q = queue s q := by
  cases q <;> simp [queue]

@[simp] theorem queue_interrupts_enable (s : Kernel) (q : queue_t) :
    queue (interrupts_enable s) q = queue s q := by
  cases q <;> simp [queue]

@[simp] theorem queue_interrupts_restore (i : Nat) (s : Kernel) (q : queue_t) :
    queue (interrupts_restore i s) q = queue s q := by
  cases q <;> simp [queue]

@[simp] theorem queue_schedule_switch (s : Kernel) (p : thread_t) (i : Nat) (q : queue_t) :
    queue (schedule_switch p i s) q = queue s q := by
  cases q <;> simp [queue]

@[simp] theorem queue_eflags_if (s : Kernel) (b : Bool) (q : queue_t) :
    queue { s with eflags_if := b } q = queue s q := by
  cases q with
  | run => rfl
  | zombie => rfl
  | wait h => cases h <;> rfl

theorem schedule_dispose_idle (s : Kernel) (hp : s.current = s.idle_thread) :
    schedule_dispose s = some s := by
  simp [schedule_dispose, hp]

theorem schedule_dispose_runnable (s : Kernel) (hp : s.current ≠ s.idle_thread)
    (hr : (s.threads s.current).status = RUNNABLE) :
    schedule_dispose s = some { s with run_queue := s.run_queue ++ [s.current] } := by
  simp [schedule_dispose, hp, hr, list_append]

theorem schedule_dispose_blocked (s : Kernel) (hp : s.current ≠ s.idle_thread)
    (hb : (s.threads s.current).status = BLOCKED) :
    schedule_dispose s = some s := by
  simp [schedule_dispose, hp, hb, RUNNABLE, BLOCKED]

theorem schedule_dispose_invalid (s : Kernel) (hp : s.current ≠ s.idle_thread)
    (h1 : (s.threads s.current).status ≠ RUNNABLE) (h2 : (s.threads s.current).status ≠ BLOCKED)
    (h3 : (s.threads s.current).status ≠ KILLED) (h4 : (s.threads s.current).status ≠ EXITED) :
    schedule_dispose s = none := by
  simp [schedule_dispose, hp, h1, h2, h3, h4]

/-- What `schedule` does, case by case: `rq` is the run queue once the previous
thread has been disposed of. -/
theorem schedule_view (s s1 : Kernel) (h : schedule s = some s1) :
    s1.idle_thread = s.idle_thread ∧ s1.reaper_thread = s.reaper_thread ∧
    s1.all_threads = s.all_threads ∧ s1.freed = s.freed ∧ s1.next_id = s.next_id ∧
    s1.mutexes = s.mutexes ∧ s1.conds = s.conds ∧
    (∀ t, (s1.threads t).slot = (s.threads t).slot ∧ (s1.threads t).id = (s.threads t).id ∧
      (s1.threads t).frames = (s.threads t).frames) ∧
    ∃ rq, s1.current = rq.head?.getD s.idle_thread ∧ s1.run_queue = rq.tail ∧
      (((s.current = s.idle_thread ∨ (s.threads s.current).status = BLOCKED) ∧
          rq = s.run_queue ∧ s1.zombie_list = s.zombie_list ∧
          ∀ t, (s1.threads t).status = (s.threads t).status) ∨
       (s.current ≠ s.idle_thread ∧ (s.threads s.current).status = RUNNABLE ∧
          rq = s.run_queue ++ [s.current] ∧ s1.zombie_list = s.zombie_list ∧
          ∀ t, (s1.threads t).status = (s.threads t).status) ∨
       (s.current ≠ s.idle_thread ∧
          ((s.threads s.current).status = KILLED ∨ (s.threads s.current).status = EXITED) ∧
          s1.zombie_list = s.zombie_list ++ [s.current] ∧
          (((s.threads s.reaper_thread).status = BLOCKED ∧
              rq = s.run_queue ++ [s.reaper_thread] ∧
              ∀ t, (s1.threads t).status =
                if t = s.reaper_thread then RUNNABLE else (s.threads t).status) ∨
           ((s.threads s.reaper_thread).status ≠ BLOCKED ∧ rq = s.run_queue ∧
              ∀ t, (s1.threads t).status = (s.threads t).status)))) := by
  rw [schedule_eq] at h
  by_cases hp : s.current = s.idle_thread
  · rw [schedule_dispose_idle { s with eflags_if := false } hp] at h
    obtain rfl := Option.some.inj h
    refine ⟨by simp, by simp, by simp, by simp, by simp, by simp, by simp, by simp, ?_⟩
    exact ⟨s.run_queue, by simp [schedule_pick_current], by simp [schedule_pick_run_queue],
      Or.inl ⟨Or.inl hp, rfl, by simp, by simp⟩⟩
  by_cases hr : (s.threads s.current).status = RUNNABLE
  · rw [schedule_dispose_runnable { s with eflags_if := false } hp hr] at h
    obtain rfl := Option.some.inj h
    refine ⟨by simp, by simp, by simp, by simp, by simp, by simp, by simp, by simp, ?_⟩
    exact ⟨s.run_queue ++ [s.current], by simp [schedule_pick_current],
      by simp [schedule_pick_run_queue], Or.inr (Or.inl ⟨hp, hr, rfl, by simp, by simp⟩)⟩
  by_cases hb : (s.threads s.current).status = BLOCKED
  · rw [schedule_dispose_blocked { s with eflags_if := false } hp hb] at h
    obtain rfl := Option.some.inj h
    refine ⟨by simp, by simp, by simp, by simp, by simp, by simp, by simp, by simp, ?_⟩
    exact ⟨s.run_queue, by simp [schedule_pick_current], by simp [schedule_pick_run_queue],
      Or.inl ⟨Or.inr hb, rfl, by simp, by simp⟩⟩
  by_cases hd : (s.threads s.current).status = KILLED ∨ (s.threads s.current).status = EXITED
  · by_cases hw : (s.threads s.reaper_thread).status = BLOCKED
    · rw [schedule_dispose_dead_wake { s with eflags_if := false } hp hd hw] at h
      obtain rfl := Option.some.inj h
      refine ⟨by simp, by simp, by simp, by simp, by simp, by simp, by simp, by simp, ?_⟩
      exact ⟨s.run_queue ++ [s.reaper_thread], by simp [schedule_pick_current],
        by simp [schedule_pick_run_queue],
        Or.inr (Or.inr ⟨hp, hd, by simp, Or.inl ⟨hw, rfl, by simp⟩⟩)⟩
    · rw [schedule_dispose_dead_nowake { s with eflags_if := false } hp hd hw] at h
      obtain rfl := Option.some.inj h
      refine ⟨by simp, by simp, by simp, by simp, by simp, by simp, by simp, by simp, ?_⟩
      exact ⟨s.run_queue, by simp [schedule_pick_current],
        by simp [schedule_pick_run_queue],
        Or.inr (Or.inr ⟨hp, hd, by simp, Or.inr ⟨hw, rfl, by simp⟩⟩)⟩
  · rw [schedule_dispose_invalid { s with eflags_if := false } hp hr hb (fun h => hd (Or.inl h)) (fun h => hd (Or.inr h))] at h
    simp at h

/-- C7. `thread_exit` by a current thread `p` other than the idle thread that
is not on the ready queue: `p` is marked Exited and appended at the tail of the
zombie list, the wait-queues are untouched; if the reaper's status, as `schedule`
reads it once `p` is marked (for `p` other than the reaper, its status before
the call), is Blocked, the reaper becomes Runnable and is appended once to the
ready queue, otherwise its status stays what it was and the ready queue gets no
new member; the next current thread is the head of the resulting ready queue,
or the idle thread if that is empty, and is not `p`. -/
theorem thread_exit_zombie (s : Kernel) (hp : s.current ≠ s.idle_thread)
    (hq : s.current ∉ s.run_queue) :
    ∃ s1, thread_exit s = some s1 ∧
      (s1.threads s.current).status = EXITED ∧
      s1.zombie_list = s.zombie_list ++ [s.current] ∧
      (∀ h, waitqueue s1 h = waitqueue s h) ∧
      (s.reaper_thread ≠ s.current →
        ((set_status s s.current EXITED).threads s.reaper_thread).status =
          (s.threads s.reaper_thread).status) ∧
      (((set_status s s.current EXITED).threads s.reaper_thread).status = BLOCKED →
        (s1.threads s.reaper_thread).status = RUNNABLE ∧
        some s1.current = (s.run_queue ++ [s.reaper_thread]).head? ∧
        s1.run_queue = (s.run_queue ++ [s.reaper_thread]).tail) ∧
      (((set_status s s.current EXITED).threads s.reaper_thread).status ≠ BLOCKED →
        (s1.threads s.reaper_thread).status =
          ((set_status s s.current EXITED).threads s.reaper_thread).status ∧
        s1.current = s.run_queue.head?.getD s.idle_thread ∧
        s1.run_queue = s.run_queue.tail) ∧
      s1.current ≠ s.current := by
  have hst : ∀ u, (({ push_frame .thread_exit (set_status s s.current EXITED) with
      eflags_if := false } : Kernel).threads u).status =
      ((set_status s s.current EXITED).threads u).status := fun u => by simp
  by_cases hb : ((set_status s s.current EXITED).threads s.reaper_thread).status = BLOCKED
  · have hrp : s.reaper_thread ≠ s.current := by
      intro h
      rw [h] at hb
      simp [EXITED, BLOCKED] at hb
    have hd := schedule_dispose_dead_wake
      { push_frame .thread_exit (set_status s s.current EXITED) with eflags_if := false }
      hp (Or.inr (by simp)) (by simpa using hb)
    refine ⟨_, by rw [thread_exit, schedule_eq, hd]; rfl, ?_, ?_, ?_, ?_, ?_, ?_, ?_⟩
    · simp [Ne.symm hrp]
    · simp
    · intro h
      cases h <;> simp [waitqueue]
    · intro hne
      simp [hne]
    · intro _
      refine ⟨by simp, ?_, ?_⟩
      · simp [schedule_pick_current]
        cases s.run_queue <;> simp
      · simp [schedule_pick_run_queue]
    · intro h
      exact absurd hb h
    · simp [schedule_pick_current]
      cases hrq : s.run_queue with
      | nil => simpa using hrp
      | cons a l =>
        simp
        rintro rfl
        exact hq (by simp [hrq])
  · have hd := schedule_dispose_dead_nowake
      { push_frame .thread_exit (set_status s s.current EXITED) with eflags_if := false }
      hp (Or.inr (by simp)) (by simpa using hb)
    refine ⟨_, by rw [thread_exit, schedule_eq, hd]; rfl, ?_, ?_, ?_, ?_, ?_, ?_, ?_⟩
    · simp
    · simp
    · intro h
      cases h <;> simp [waitqueue]
    · intro hne
      simp [hne]
    · intro h
      exact absurd h hb
    · intro _
      refine ⟨by simp, ?_, ?_⟩
      · simp [schedule_pick_current]
      · simp [schedule_pick_run_queue]
    · simp [schedule_pick_current]
      cases hrq : s.run_queue with
      | nil => simpa using Ne.symm hp
      | cons a l =>
        simp
        rintro rfl
        exact hq (by simp [hrq])

theorem settled_state_reachable : Reachable any_call settled_state :=
  reachable_of_trace [.thread_yield, .idle_loop, .reaper_entry] init_state settled_state
    init_state_reachable rfl

/-- The case of `thread_exit_zombie` with a Blocked reaper, at the settled
state: the kernel thread exits, the reaper (thread 3) is woken and selected. -/
theorem thread_exit_zombie_witness :
    ∃ s1, thread_exit settled_state = some s1 ∧ (s1.threads 1).status = EXITED ∧
      s1.zombie_list = [1] ∧ (s1.threads 3).status = RUNNABLE ∧ s1.current = 3 ∧
      s1.run_queue = [] := by
  obtain ⟨s1, h1, h2, h3, _, _, h5, _, _⟩ :=
    thread_exit_zombie settled_state (by decide) (by decide)
  obtain ⟨h6, h7, h8⟩ := h5 (by decide)
  exact ⟨s1, h1, h2, h3, h6, Option.some.inj h7, h8⟩

/-- A pass of the reaper at a concrete state, where the kernel thread has
exited: the zombie list is `[1]` and the global list `[1, 2, 3]`. -/
theorem do_reaper_pass_reaps_witness :
    ∃ s1, do_reaper_loop 1 exited_state = some s1 ∧ s1.zombie_list = [] ∧
      s1.all_threads = [2, 3] ∧ 1 ∉ s1.all_threads := by
  obtain ⟨s1, h1, h2, h3, _, h5, _⟩ := do_reaper_pass_reaps exited_state
  refine ⟨s1, h1 1 (by decide), h2, ?_, (h5 (by decide)).1 1 (by decide)⟩
  rw [h3]
  decide

theorem exited_state_reachable : Reachable any_call exited_state :=
  reachable_of_trace [.thread_yield, .idle_loop, .reaper_entry, .thread_exit] init_state
    exited_state init_state_reachable rfl

/-! ## Yielding with an empty ready queue -/

/-- C6, counterexample. At the settled state, which is reachable, the kernel
thread is current and Runnable and the ready queue is empty, yet after
`thread_yield` the current thread is the kernel thread and not the idle thread. -/
theorem idle_fallback_counterexample :
    ∃ s, Reachable any_call s ∧ s.current = kernel_thread ∧
      (s.threads s.current).status = RUNNABLE ∧ s.run_queue = [] ∧
      ∃ s1, thread_yield s = some s1 ∧ s1.current = kernel_thread ∧
        s1.current ≠ s1.idle_thread :=
  ⟨settled_state, settled_state_reachable, by decide, by decide, by decide, settled_state,
    schedule_same_thread settled_state (by decide) (by decide) (by decide), by decide, by decide⟩

/-- C6, amended. When the kernel thread is current with status Runnable and
the ready queue is empty, `thread_yield` returns with nothing changed: the
kernel thread is still current.  The idle thread becomes current when the
current thread, instead of yielding, blocks with `thread_sleep`. -/
theorem thread_yield_empty_queue (s : Kernel) (hk : s.current = kernel_thread)
    (hi : s.idle_thread ≠ kernel_thread)
    (hr : (s.threads s.current).status = RUNNABLE) (hq : s.run_queue = []) :
    thread_yield s = some s ∧
    ∃ s1, thread_sleep s = some s1 ∧ s1.current = s.idle_thread ∧ s1.run_queue = [] := by
  have hp : s.current ≠ s.idle_thread := by
    rw [hk]
    exact Ne.symm hi
  refine ⟨schedule_same_thread s hp hr hq, ?_⟩
  obtain ⟨s1, h1, h2, h3, _⟩ :=
    schedule_blocked (set_status s s.current BLOCKED) hp (by simp)
  refine ⟨s1, h1, ?_, ?_⟩
  · simpa [hq] using h2
  · simpa [hq] using h3

theorem thread_yield_empty_queue_witness :
    thread_yield settled_state = some settled_state ∧
    ∃ s1, thread_sleep settled_state = some s1 ∧ s1.current = 2 ∧ s1.run_queue = [] :=
  thread_yield_empty_queue settled_state (by decide) (by decide) (by decide) (by decide)

/-! ## Queues that stay apart -/

theorem Apart.append {f : queue_t → List thread_t} (hf : Apart f) (q0 : queue_t)
    (t : thread_t) (ht : ∀ q, t ∉ f q) :
    Apart (Function.update f q0 (f q0 ++ [t])) := by
  have mem : ∀ q u, u ∈ Function.update f q0 (f q0 ++ [t]) q → u ∈ f q ∨ (u = t ∧ q = q0) := by
    intro q u hu
    by_cases hq : q = q0
    · subst hq
      simp only [Function.update_same, List.mem_append, List.mem_singleton] at hu
      rcases hu with hu | hu
      · exact Or.inl hu
      · exact Or.inr ⟨hu, rfl⟩
    · rw [Function.update_noteq hq] at hu
      exact Or.inl hu
  refine ⟨?_, ?_⟩
  · intro q
    by_cases hq : q = q0
    · subst hq
      rw [Function.update_same]
      refine List.Nodup.append (hf.1 q) (List.nodup_singleton t) ?_
      intro u hu hu2
      rw [List.mem_singleton] at hu2
      subst hu2
      exact ht q hu
    · rw [Function.update_noteq hq]
      exact hf.1 q
  · intro q1 q2 u h1 h2
    rcases mem q1 u h1 with k1 | ⟨k1, e1⟩ <;> rcases mem q2 u h2 with k2 | ⟨k2, e2⟩
    · exact hf.2 q1 q2 u k1 k2
    · subst k2
      exact absurd k1 (ht q1)
    · subst k1
      exact absurd k2 (ht q2)
    · rw [e1, e2]

theorem Apart.sublist {f g : queue_t → List thread_t} (hf : Apart f)
    (h : ∀ q, (g q).Sublist (f q)) : Apart g :=
  ⟨fun q => (hf.1 q).sublist (h q),
    fun q1 q2 t h1 h2 => hf.2 q1 q2 t ((h q1).subset h1) ((h q2).subset h2)⟩

/-- The second half of `schedule` on queues that are apart: when the head of
the run queue, or the idle thread, becomes current, the queues of the new state
are apart and the new current thread is on none of them. -/
theorem separated_of_pick (s1 : Kernel) (f : queue_t → List thread_t) (hf : Apart f)
    (hrq : s1.run_queue = (f .run).tail)
    (hcur : s1.current = (f .run).head?.getD s1.idle_thread)
    (hz : s1.zombie_list = f .zombie)
    (hw : ∀ h, waitqueue s1 h = f (.wait h))
    (hsp : ∀ q, q ≠ .run → s1.idle_thread ∉ f q ∧ s1.reaper_thread ∉ f q)
    (hrb : (s1.threads s1.reaper_thread).status = BLOCKED → s1.reaper_thread ∉ f .run)
    (hlive : ∀ q t, t ∈ f q → t ∈ s1.all_threads)
    (hil : s1.idle_thread ∈ s1.all_threads) (hrl : s1.reaper_thread ∈ s1.all_threads) :
    Separated s1 ∧ CurrentFree s1 := by
  have hsub : ∀ q, (queue s1 q).Sublist (f q) := by
    intro q
    cases q with
    | run => simp only [queue, hrq]; exact List.tail_sublist _
    | zombie => simp only [queue, hz]; exact List.Sublist.refl _
    | wait h => simp only [queue, hw]; exact List.Sublist.refl _
  have hmem : ∀ q t, t ∈ queue s1 q → t ∈ f q := fun q t h => (hsub q).subset h
  have hcf : ∀ q, s1.current ∉ queue s1 q := by
    intro q hq
    cases hrun : f .run with
    | nil =>
      rw [hrun] at hcur
      simp only [List.head?_nil, Option.getD_none] at hcur
      cases q with
      | run => simp [queue, hrq, hrun] at hq
      | zombie => exact (hsp .zombie (by simp)).1 (hcur ▸ hmem _ _ hq)
      | wait h => exact (hsp (.wait h) (by simp)).1 (hcur ▸ hmem _ _ hq)
    | cons a l =>
      rw [hrun] at hcur
      simp only [List.head?_cons, Option.getD_some] at hcur
      have ha : a ∈ f .run := by simp [hrun]
      have hnd := hf.1 .run
      rw [hrun] at hnd
      cases q with
      | run =>
        simp only [queue, hrq, hrun, List.tail_cons] at hq
        rw [hcur] at hq
        exact (List.nodup_cons.mp hnd).1 hq
      | zombie =>
        have := hf.2 .zombie .run a (hcur ▸ hmem _ _ hq) ha
        simp at this
      | wait h =>
        have := hf.2 (.wait h) .run a (hcur ▸ hmem _ _ hq) ha
        simp at this
  refine ⟨⟨hf.sublist hsub, ?_, ?_, ?_, hil, hrl, ?_⟩, hcf⟩
  · intro q hq
    exact ⟨fun h => (hsp q hq).1 (hmem _ _ h), fun h => (hsp q hq).2 (hmem _ _ h)⟩
  · intro hb h
    exact hrb hb (hmem .run _ h)
  · intro q t h
    exact hlive q t (hmem q t h)
  · cases hrun : f .run with
    | nil =>
      rw [hrun] at hcur
      simp only [List.head?_nil, Option.getD_none] at hcur
      rw [hcur]
      exact hil
    | cons a l =>
      rw [hrun] at hcur
      simp only [List.head?_cons, Option.getD_some] at hcur
      rw [hcur]
      exact hlive .run a (by simp [hrun])

/-- The scheduler keeps the queues apart and leaves the new current thread on
no queue, provided the calling thread, unless it is the idle thread or is
blocked, is on no queue, and is not the reaper when it is dead. -/
theorem schedule_separated (s s1 : Kernel) (hs : Separated s)
    (hc : s.current ≠ s.idle_thread → (s.threads s.current).status ≠ BLOCKED →
      CurrentFree s ∧
        ((s.threads s.current).status = RUNNABLE ∨ s.current ≠ s.reaper_thread))
    (h : schedule s = some s1) : Separated s1 ∧ CurrentFree s1 := by
  obtain ⟨hi, hr, ha, _, _, hm, hcd, _, rq, hcur, hrq, hcase⟩ := schedule_view s s1 h
  have hw : ∀ k, waitqueue s1 k = waitqueue s k := by
    intro k
    cases k <;> simp [waitqueue, hm, hcd]
  have hil : s1.idle_thread ∈ s1.all_threads := by rw [hi, ha]; exact hs.idle_live
  have hrl : s1.reaper_thread ∈ s1.all_threads := by rw [hr, ha]; exact hs.reaper_live
  rw [← hi] at hcur
  rcases hcase with ⟨_, rfl, hz, hst⟩ | ⟨hp, hrun, rfl, hz, hst⟩ |
    ⟨hp, hd, hz, ⟨hb, rfl, hst⟩ | ⟨hb, rfl, hst⟩⟩
  · refine separated_of_pick s1 (queue s) hs.apart hrq hcur hz hw ?_ ?_ ?_ hil hrl
    · rw [hi, hr]
      exact hs.special
    · rw [hst, hr]
      exact hs.reaper_blocked
    · rw [ha]
      exact hs.live
  · have hb : (s.threads s.current).status ≠ BLOCKED := by rw [hrun]; decide
    have hfree := (hc hp hb).1
    refine separated_of_pick s1 (Function.update (queue s) .run (queue s .run ++ [s.current]))
      (hs.apart.append .run s.current hfree) (by simpa [queue] using hrq)
      (by simpa [queue] using hcur) (by simpa [queue] using hz)
      (fun k => by simpa [queue] using hw k) ?_ ?_ ?_ hil hrl
    · intro q hq
      rw [Function.update_noteq hq, hi, hr]
      exact hs.special q hq
    · intro hbl
      rw [hst, hr] at hbl
      simp only [Function.update_same, queue, List.mem_append, List.mem_singleton, not_or]
      rw [hr]
      refine ⟨hs.reaper_blocked hbl, ?_⟩
      intro he
      rw [he, hrun] at hbl
      exact absurd hbl (by decide)
    · intro q t ht
      rw [ha]
      by_cases hq : q = .run
      · subst hq
        simp only [Function.update_same, List.mem_append, List.mem_singleton] at ht
        rcases ht with ht | ht
        · exact hs.live _ _ ht
        · rw [ht]
          exact hs.current_live
      · rw [Function.update_noteq hq] at ht
        exact hs.live _ _ ht
  · have hnb : (s.threads s.current).status ≠ BLOCKED := by
      rcases hd with hd | hd <;> rw [hd] <;> decide
    have hnr : (s.threads s.current).status ≠ RUNNABLE := by
      rcases hd with hd | hd <;> rw [hd] <;> decide
    obtain ⟨hfree, hne⟩ := hc hp hnb
    have hne : s.current ≠ s.reaper_thread := hne.resolve_left hnr
    have hrfree : ∀ q, s.reaper_thread ∉ queue s q := by
      intro q
      cases q with
      | run => exact hs.reaper_blocked hb
      | zombie => exact (hs.special .zombie (by simp)).2
      | wait k => exact (hs.special (.wait k) (by simp)).2
    have ap1 := hs.apart.append .zombie s.current hfree
    have ap2 := ap1.append .run s.reaper_thread (by
      intro q
      by_cases hq : q = .zombie
      · subst hq
        simp only [Function.update_same, List.mem_append, List.mem_singleton, not_or]
        exact ⟨hrfree _, Ne.symm hne⟩
      · rw [Function.update_noteq hq]
        exact hrfree q)
    refine separated_of_pick s1 _ ap2 (by simpa [queue] using hrq)
      (by simpa [queue] using hcur) (by simpa [queue] using hz)
      (fun k => by simpa [queue] using hw k) ?_ ?_ ?_ hil hrl
    · intro q hq
      rw [Function.update_noteq hq, hi, hr]
      by_cases hq2 : q = .zombie
      · subst hq2
        simp only [Function.update_same, List.mem_append, List.mem_singleton, not_or]
        exact ⟨⟨(hs.special _ hq).1, Ne.symm hp⟩, ⟨(hs.special _ hq).2, Ne.symm hne⟩⟩
      · rw [Function.update_noteq hq2]
        exact hs.special q hq
    · intro hbl
      rw [hst, hr] at hbl
      simp [RUNNABLE, BLOCKED] at hbl
    · intro q t ht
      rw [ha]
      by_cases hq : q = .run
      · subst hq
        simp only [Function.update_same, Function.update_noteq, ne_eq, not_false_eq_true,
          reduceCtorEq, List.mem_append, List.mem_singleton] at ht
        rcases ht with ht | ht
        · exact hs.live _ _ ht
        · rw [ht]
          exact hs.reaper_live
      · rw [Function.update_noteq hq] at ht
        by_cases hq2 : q = .zombie
        · subst hq2
          simp only [Function.update_same, List.mem_append, List.mem_singleton] at ht
          rcases ht with ht | ht
          · exact hs.live _ _ ht
          · rw [ht]
            exact hs.current_live
        · rw [Function.update_noteq hq2] at ht
          exact hs.live _ _ ht
  · have hnb : (s.threads s.current).status ≠ BLOCKED := by
      rcases hd with hd | hd <;> rw [hd] <;> decide
    have hnr : (s.threads s.current).status ≠ RUNNABLE := by
      rcases hd with hd | hd <;> rw [hd] <;> decide
    obtain ⟨hfree, hne⟩ := hc hp hnb
    have hne : s.current ≠ s.reaper_thread := hne.resolve_left hnr
    refine separated_of_pick s1 _ (hs.apart.append .zombie s.current hfree)
      (by simpa [queue] using hrq) (by simpa [queue] using hcur) (by simpa [queue] using hz)
      (fun k => by simpa [queue] using hw k) ?_ ?_ ?_ hil hrl
    · intro q hq
      rw [hi, hr]
      by_cases hq2 : q = .zombie
      · subst hq2
        simp only [Function.update_same, List.mem_append, List.mem_singleton, not_or]
        exact ⟨⟨(hs.special _ hq).1, Ne.symm hp⟩, ⟨(hs.special _ hq).2, Ne.symm hne⟩⟩
      · rw [Function.update_noteq hq2]
        exact hs.special q hq
    · intro hbl
      rw [hst, hr] at hbl
      exact absurd hbl hb
    · intro q t ht
      rw [ha]
      by_cases hq2 : q = .zombie
      · subst hq2
        simp only [Function.update_same, List.mem_append, List.mem_singleton] at ht
        rcases ht with ht | ht
        · exact hs.live _ _ ht
        · rw [ht]
          exact hs.current_live
      · rw [Function.update_noteq hq2] at ht
        exact hs.live _ _ ht

/-! ## Waking from a wait-queue -/

/-- The state in which `t` has left the head of wait-queue `k`, with the rest
`l` of that queue, and has been made runnable at the tail of the run queue. -/
theorem woken_fields (s : Kernel) (k : head_t) (t : thread_t) (l : List thread_t)
    (s1 : Kernel)
    (h : s1 = { set_status (set_waitqueue s k l) t RUNNABLE with
                run_queue := list_append t (set_status (set_waitqueue s k l) t RUNNABLE).run_queue }) :
    s1.run_queue = s.run_queue ++ [t] ∧
    (∀ j, waitqueue s1 j = if j = k then l else waitqueue s j) ∧
    s1.zombie_list = s.zombie_list ∧ s1.current = s.current ∧
    s1.idle_thread = s.idle_thread ∧ s1.reaper_thread = s.reaper_thread ∧
    s1.all_threads = s.all_threads ∧ s1.freed = s.freed ∧ s1.next_id = s.next_id ∧
    s1.eflags_if = s.eflags_if ∧
    (∀ u, (s1.threads u).status = if u = t then RUNNABLE else (s.threads u).status) ∧
    (∀ u, (s1.threads u).slot = (s.threads u).slot ∧ (s1.threads u).id = (s.threads u).id ∧
      (s1.threads u).frames = (s.threads u).frames ∧ (s1.threads u).esp = (s.threads u).esp) ∧
    (∀ m, (s1.mutexes m).owner = (s.mutexes m).owner ∧ (s1.mutexes m).id = (s.mutexes m).id) ∧
    (∀ c, (s1.conds c).id = (s.conds c).id) := by
  subst h
  refine ⟨by simp [list_append], ?_, by simp, by simp, by simp, by simp, by simp, by simp,
    by simp, by simp, ?_, ?_, ?_, ?_⟩
  · intro j
    have : waitqueue { set_status (set_waitqueue s k l) t RUNNABLE with
        run_queue := list_append t (set_status (set_waitqueue s k l) t RUNNABLE).run_queue } j =
        waitqueue (set_status (set_waitqueue s k l) t RUNNABLE) j := by
      cases j <;> rfl
    rw [this]
    simp
  · intro u
    simp
  · intro u
    simp
  · intro m
    simp
  · intro c
    simp

/-- What `wake_first` does when it returns: nothing on an empty queue; otherwise
the first waiter, which was blocked, leaves the wait-queue, becomes runnable and
joins the run queue at the tail. -/
theorem wake_first_view (k : head_t) (s s1 : Kernel) (h : wake_first k s = some s1) :
    (waitqueue s k = [] ∧ s1 = s) ∨
    ∃ t l, waitqueue s k = t :: l ∧ (s.threads t).status = BLOCKED ∧
      s1.run_queue = s.run_queue ++ [t] ∧
      (∀ j, waitqueue s1 j = if j = k then l else waitqueue s j) ∧
      s1.zombie_list = s.zombie_list ∧ s1.current = s.current ∧
      s1.idle_thread = s.idle_thread ∧ s1.reaper_thread = s.reaper_thread ∧
      s1.all_threads = s.all_threads ∧ s1.freed = s.freed ∧ s1.next_id = s.next_id ∧
      s1.eflags_if = s.eflags_if ∧
      (∀ u, (s1.threads u).status = if u = t then RUNNABLE else (s.threads u).status) ∧
      (∀ u, (s1.threads u).slot = (s.threads u).slot ∧ (s1.threads u).id = (s.threads u).id ∧
        (s1.threads u).frames = (s.threads u).frames ∧ (s1.threads u).esp = (s.threads u).esp) ∧
      (∀ m, (s1.mutexes m).owner = (s.mutexes m).owner ∧ (s1.mutexes m).id = (s.mutexes m).id) ∧
      (∀ c, (s1.conds c).id = (s.conds c).id) := by
  unfold wake_first at h
  split at h
  · rename_i hq
    exact Or.inl ⟨hq, (Option.some.inj h).symm⟩
  · rename_i t l hq
    right
    refine ⟨t, l, hq, ?_⟩
    simp only [hq, list_remove, List.erase_cons_head, set_waitqueue_threads] at h
    split at h
    · rename_i hb
      exact ⟨hb, woken_fields s k t l s1 (Option.some.inj h).symm⟩
    · simp at h

/-- The loop of `wake_all` is `wake_first` repeated while the queue has members. -/
theorem wake_all_loop_succ (k : head_t) (n : Nat) (s : Kernel) :
    wake_all_loop k (n + 1) s =
      match waitqueue s k with
      | [] => some s
      | _ :: _ => (wake_first k s).bind (wake_all_loop k n) := by
  unfold wake_first
  rw [wake_all_loop]
  split
  · rfl
  · rename_i t l hq
    simp only [hq]
    split <;> rfl

/-- A property kept by `wake_first` is kept by the loop of `wake_all`. -/
theorem wake_all_loop_keeps (k : head_t) (P : Kernel → Prop)
    (hP : ∀ s s1, P s → wake_first k s = some s1 → P s1) :
    ∀ n s s1, P s → wake_all_loop k n s = some s1 → P s1 := by
  intro n
  induction n with
  | zero =>
    intro s s1 hs h
    unfold wake_all_loop at h
    split at h
    · exact (Option.some.inj h) ▸ hs
    · simp at h
  | succ n ih =>
    intro s s1 hs h
    rw [wake_all_loop_succ] at h
    split at h
    · exact (Option.some.inj h) ▸ hs
    · cases hw : wake_first k s with
      | none => simp [hw] at h
      | some s2 =>
        rw [hw] at h
        exact ih s2 s1 (hP s s2 hs hw) h

theorem Apart.move_head {f : queue_t → List thread_t} (hf : Apart f) (q0 q1 : queue_t)
    (t : thread_t) (l : List thread_t) (h0 : f q0 = t :: l) (hne : q1 ≠ q0) :
    Apart (Function.update (Function.update f q0 l) q1 (f q1 ++ [t])) := by
  have hsub : Apart (Function.update f q0 l) := by
    refine hf.sublist ?_
    intro q
    by_cases hq : q = q0
    · subst hq
      rw [Function.update_same, h0]
      exact List.sublist_cons_self t l
    · rw [Function.update_noteq hq]
  have ht : ∀ q, t ∉ Function.update f q0 l q := by
    intro q hq
    by_cases hq0 : q = q0
    · subst hq0
      rw [Function.update_same] at hq
      have := hf.1 q
      rw [h0] at this
      exact (List.nodup_cons.mp this).1 hq
    · rw [Function.update_noteq hq0] at hq
      exact hq0 (hf.2 q q0 t hq (by simp [h0]))
  have := hsub.append q1 t ht
  rwa [Function.update_noteq hne] at this

/-- The function `wake_first` keeps the queues apart and the current thread free. -/
theorem wake_first_separated (k : head_t) (s s1 : Kernel)
    (hs : Separated s ∧ CurrentFree s) (h : wake_first k s = some s1) :
    Separated s1 ∧ CurrentFree s1 := by
  rcases wake_first_view k s s1 h with ⟨_, rfl⟩ |
    ⟨t, l, hq, hb, hrq, hwq, hz, hc, hi, hr, ha, _, _, _, hst, _⟩
  · exact hs
  obtain ⟨hs, hcf⟩ := hs
  have htq : t ∈ queue s (.wait k) := by simp [queue, hq]
  have hap := hs.apart.move_head (.wait k) .run t l hq (by simp)
  have hqe : queue s1 = Function.update (Function.update (queue s) (.wait k) l) .run
      (queue s .run ++ [t]) := by
    funext q
    cases q with
    | run => simp [queue, hrq]
    | zombie => simp [queue, hz]
    | wait j =>
      by_cases hj : j = k
      · subst hj
        simp [queue, hwq]
      · have : queue_t.wait j ≠ queue_t.wait k := by simpa using hj
        rw [Function.update_noteq (by simp), Function.update_noteq this]
        simp [queue, hwq, hj]
  have hmem : ∀ q u, u ∈ queue s1 q → u ∈ queue s q ∨ u = t ∧ q = .run := by
    intro q u hu
    rw [hqe] at hu
    by_cases hq1 : q = .run
    · subst hq1
      simp only [Function.update_same, List.mem_append, List.mem_singleton] at hu
      rcases hu with hu | hu
      · exact Or.inl hu
      · exact Or.inr ⟨hu, rfl⟩
    · rw [Function.update_noteq hq1] at hu
      by_cases hq2 : q = .wait k
      · subst hq2
        rw [Function.update_same] at hu
        left
        show u ∈ waitqueue s k
        rw [hq]
        exact List.mem_cons_of_mem _ hu
      · rw [Function.update_noteq hq2] at hu
        exact Or.inl hu
  have hti : t ≠ s.idle_thread := fun e => (hs.special (.wait k) (by simp)).1 (e ▸ htq)
  have htr : t ≠ s.reaper_thread := fun e => (hs.special (.wait k) (by simp)).2 (e ▸ htq)
  have htc : t ≠ s.current := fun e => hcf (.wait k) (e ▸ htq)
  refine ⟨⟨by rw [hqe]; exact hap, ?_, ?_, ?_, ?_, ?_, ?_⟩, ?_⟩
  · intro q hq1
    rw [hi, hr]
    constructor
    · intro hm
      rcases hmem q _ hm with hm | ⟨_, e⟩
      · exact (hs.special q hq1).1 hm
      · exact hq1 e
    · intro hm
      rcases hmem q _ hm with hm | ⟨_, e⟩
      · exact (hs.special q hq1).2 hm
      · exact hq1 e
  · intro hbl hm
    rw [hr, hst, if_neg (Ne.symm htr)] at hbl
    rw [hr, hrq, List.mem_append, List.mem_singleton] at hm
    rcases hm with hm | hm
    · exact hs.reaper_blocked hbl hm
    · exact htr hm.symm
  · intro q u hu
    rw [ha]
    rcases hmem q u hu with hu | ⟨e, _⟩
    · exact hs.live q u hu
    · rw [e]
      exact hs.live _ _ htq
  · rw [hi, ha]
    exact hs.idle_live
  · rw [hr, ha]
    exact hs.reaper_live
  · rw [hc, ha]
    exact hs.current_live
  · intro q hm
    rw [hc] at hm
    rcases hmem q _ hm with hm | ⟨e, _⟩
    · exact hcf q hm
    · exact htc e.symm

/-! ## The calls keep the queues apart -/

/-- Separation only depends on the queues, the global list, the three
distinguished threads and whether the reaper is blocked. -/
theorem separated_congr (s s1 : Kernel) (hs : Separated s)
    (hq : ∀ q, queue s1 q = queue s q) (hc : s1.current = s.current)
    (hi : s1.idle_thread = s.idle_thread) (hr : s1.reaper_thread = s.reaper_thread)
    (ha : s1.all_threads = s.all_threads)
    (hst : (s1.threads s.reaper_thread).status = BLOCKED →
      (s.threads s.reaper_thread).status = BLOCKED) :
    Separated s1 := by
  have hqe : queue s1 = queue s := funext hq
  refine ⟨by rw [hqe]; exact hs.apart, ?_, ?_, ?_, ?_, ?_, ?_⟩
  · rw [hqe, hi, hr]
    exact hs.special
  · intro hb
    rw [hr] at hb ⊢
    have := hs.reaper_blocked (hst hb)
    have e : s1.run_queue = s.run_queue := hq .run
    rwa [e]
  · rw [hqe, ha]
    exact hs.live
  · rw [hi, ha]
    exact hs.idle_live
  · rw [hr, ha]
    exact hs.reaper_live
  · rw [hc, ha]
    exact hs.current_live

theorem good_congr (s s1 : Kernel) (hs : Separated s ∧ CurrentFree s)
    (hq : ∀ q, queue s1 q = queue s q) (hc : s1.current = s.current)
    (hi : s1.idle_thread = s.idle_thread) (hr : s1.reaper_thread = s.reaper_thread)
    (ha : s1.all_threads = s.all_threads)
    (hst : (s1.threads s.reaper_thread).status = BLOCKED →
      (s.threads s.reaper_thread).status = BLOCKED) :
    Separated s1 ∧ CurrentFree s1 := by
  refine ⟨separated_congr s s1 hs.1 hq hc hi hr ha hst, ?_⟩
  intro q
  rw [hq, hc]
  exact hs.2 q

theorem queue_set_waitqueue (s : Kernel) (k : head_t) (l : List thread_t) :
    queue (set_waitqueue s k l) = Function.update (queue s) (.wait k) l := by
  funext q
  cases q with
  | run => simp [queue]
  | zombie => simp [queue]
  | wait j =>
    by_cases hj : j = k
    · subst hj
      simp [queue]
    · have : queue_t.wait j ≠ queue_t.wait k := by simpa using hj
      rw [Function.update_noteq this]
      simp [queue, hj]

/-- The function `wait_on`, called by a thread other than the idle and the
reaper thread, keeps the queues apart and ends with the current thread free. -/
theorem wait_on_good (k : head_t) (s s1 : Kernel) (hs : Separated s ∧ CurrentFree s)
    (hi : s.current ≠ s.idle_thread) (hr : s.current ≠ s.reaper_thread)
    (h : wait_on k s = some s1) : Separated s1 ∧ CurrentFree s1 := by
  unfold wait_on at h
  refine schedule_separated _ s1 ?_ ?_ h
  · have hqe : queue (set_status (set_waitqueue s k (list_append s.current (waitqueue s k)))
        (set_waitqueue s k (list_append s.current (waitqueue s k))).current BLOCKED) =
        Function.update (queue s) (.wait k) (queue s (.wait k) ++ [s.current]) := by
      funext q
      rw [queue_set_status, queue_set_waitqueue]
      rfl
    have hmem : ∀ q u, u ∈ Function.update (queue s) (.wait k) (queue s (.wait k) ++ [s.current]) q →
        u ∈ queue s q ∨ u = s.current ∧ q = .wait k := by
      intro q u hu
      by_cases hq : q = .wait k
      · subst hq
        simp only [Function.update_same, List.mem_append, List.mem_singleton] at hu
        rcases hu with hu | hu
        · exact Or.inl hu
        · exact Or.inr ⟨hu, rfl⟩
      · rw [Function.update_noteq hq] at hu
        exact Or.inl hu
    refine ⟨by rw [hqe]; exact hs.1.apart.append _ _ hs.2, ?_, ?_, ?_, ?_, ?_, ?_⟩
    · intro q hq
      rw [hqe]
      simp only [set_status_idle_thread, set_waitqueue_idle_thread, set_status_reaper_thread,
        set_waitqueue_reaper_thread]
      constructor
      · intro hm
        rcases hmem q _ hm with hm | ⟨e, _⟩
        · exact (hs.1.special q hq).1 hm
        · exact hi e.symm
      · intro hm
        rcases hmem q _ hm with hm | ⟨e, _⟩
        · exact (hs.1.special q hq).2 hm
        · exact hr e.symm
    · intro hb
      simp only [set_status_reaper_thread, set_waitqueue_reaper_thread, set_status_threads_status,
        set_waitqueue_current, set_waitqueue_threads, if_neg (Ne.symm hr)] at hb
      simpa using hs.1.reaper_blocked hb
    · intro q u hu
      rw [hqe] at hu
      simp only [set_status_all_threads, set_waitqueue_all_threads]
      rcases hmem q u hu with hu | ⟨e, _⟩
      · exact hs.1.live q u hu
      · rw [e]
        exact hs.1.current_live
    · simpa using hs.1.idle_live
    · simpa using hs.1.reaper_live
    · simpa using hs.1.current_live
  · intro _ hb
    exact absurd (by simp) hb

/-- One pass of the reaper keeps the queues apart. -/
theorem do_reaper_pass_good (s s1 : Kernel) (hs : Separated s ∧ CurrentFree s)
    (h : do_reaper_pass s = some s1) : Separated s1 ∧ CurrentFree s1 := by
  unfold do_reaper_pass at h
  rw [reaper_loop_eq s.zombie_list s rfl _ le_rfl] at h
  refine schedule_separated _ s1 ?_ ?_ h
  · have hsub : ∀ q, (queue (set_status { s with
        zombie_list := [], all_threads := s.all_threads.diff s.zombie_list,
        freed := s.zombie_list.reverse ++ s.freed } s.current BLOCKED) q).Sublist (queue s q) := by
      intro q
      cases q with
      | run => exact List.Sublist.refl _
      | zombie => exact List.nil_sublist _
      | wait k => cases k <;> exact List.Sublist.refl _
    have hnz : ∀ q u, u ∈ queue (set_status { s with
        zombie_list := [], all_threads := s.all_threads.diff s.zombie_list,
        freed := s.zombie_list.reverse ++ s.freed } s.current BLOCKED) q →
        u ∈ s.all_threads.diff s.zombie_list := by
      intro q u hu
      have hq : q ≠ .zombie := by
        rintro rfl
        simp [queue] at hu
      refine List.mem_diff_of_mem (hs.1.live q u ((hsub q).subset hu)) ?_
      intro hz
      exact hq (hs.1.apart.2 q .zombie u ((hsub q).subset hu) hz)
    refine ⟨hs.1.apart.sublist hsub, ?_, ?_, ?_, ?_, ?_, ?_⟩
    · intro q hq
      exact ⟨fun hm => (hs.1.special q hq).1 ((hsub q).subset hm),
        fun hm => (hs.1.special q hq).2 ((hsub q).subset hm)⟩
    · intro hb hm
      simp only [set_status_reaper_thread, set_status_run_queue] at hm
      simp only [set_status_reaper_thread, set_status_threads_status] at hb
      split at hb
      · rename_i e
        exact hs.2 .run (e ▸ hm)
      · exact hs.1.reaper_blocked hb hm
    · intro q u hu
      exact hnz q u hu
    · exact List.mem_diff_of_mem hs.1.idle_live (hs.1.special .zombie (by simp)).1
    · exact List.mem_diff_of_mem hs.1.reaper_live (hs.1.special .zombie (by simp)).2
    · exact List.mem_diff_of_mem hs.1.current_live (hs.2 .zombie)
  · intro _ hb
    exact absurd (by simp) hb

/-- The fields of the state after `thread_create`. -/
theorem thread_create_view (h : thread_t) (s : Kernel) :
    (thread_create h s).run_queue = s.run_queue ++ [h] ∧
    (thread_create h s).all_threads = s.all_threads ++ [h] ∧
    (thread_create h s).zombie_list = s.zombie_list ∧
    (thread_create h s).current = s.current ∧
    (thread_create h s).idle_thread = s.idle_thread ∧
    (thread_create h s).reaper_thread = s.reaper_thread ∧
    (thread_create h s).freed = s.freed ∧
    (thread_create h s).eflags_if = s.eflags_if ∧
    (thread_create h s).next_id = (s.next_id + 1) % 2 ^ 32 ∧
    (thread_create h s).mutexes = s.mutexes ∧
    (thread_create h s).conds = s.conds ∧
    (thread_create h s).threads = Function.update s.threads h
      { esp := .trampoline, slot := 0, id := s.next_id, status := RUNNABLE, frames := [] } := by
  unfold thread_create interrupts_disable interrupts_restore interrupts_enable
  cases hf : s.eflags_if <;> simp [list_append, hf]

theorem queue_thread_create (h : thread_t) (s : Kernel) :
    queue (thread_create h s) = Function.update (queue s) .run (queue s .run ++ [h]) := by
  obtain ⟨h1, _, h3, _, _, _, _, _, _, h10, h11, _⟩ := thread_create_view h s
  funext q
  cases q with
  | run => simp [queue, h1]
  | zombie => simp [queue, h3]
  | wait k => cases k <;> simp [queue, waitqueue, h10, h11]

theorem mem_update_append {f : queue_t → List thread_t} {q0 q : queue_t} {t u : thread_t}
    (hu : u ∈ Function.update f q0 (f q0 ++ [t]) q) : u ∈ f q ∨ u = t ∧ q = q0 := by
  by_cases hq : q = q0
  · subst hq
    simp only [Function.update_same, List.mem_append, List.mem_singleton] at hu
    rcases hu with hu | hu
    · exact Or.inl hu
    · exact Or.inr ⟨hu, rfl⟩
  · rw [Function.update_noteq hq] at hu
    exact Or.inl hu

/-- Appending a live thread that is on no queue, is not current, and is
runnable afterwards, to the run queue keeps the queues apart. -/
theorem append_run_good (s s1 : Kernel) (t : thread_t) (hs : Separated s ∧ CurrentFree s)
    (hq : queue s1 = Function.update (queue s) .run (queue s .run ++ [t]))
    (ht : ∀ q, t ∉ queue s q) (htc : t ≠ s.current) (htl : t ∈ s1.all_threads)
    (hc : s1.current = s.current) (hi : s1.idle_thread = s.idle_thread)
    (hr : s1.reaper_thread = s.reaper_thread) (ha : ∀ u, u ∈ s.all_threads → u ∈ s1.all_threads)
    (hst : (s1.threads s.reaper_thread).status = BLOCKED →
      t ≠ s.reaper_thread ∧ (s.threads s.reaper_thread).status = BLOCKED) :
    Separated s1 ∧ CurrentFree s1 := by
  refine ⟨⟨by rw [hq]; exact hs.1.apart.append _ _ ht, ?_, ?_, ?_, ?_, ?_, ?_⟩, ?_⟩
  · intro q hq1
    rw [hq, hi, hr, Function.update_noteq hq1]
    exact hs.1.special q hq1
  · intro hb hm
    rw [hr] at hb hm
    have e : s1.run_queue = queue s1 .run := rfl
    rw [e, hq] at hm
    rcases mem_update_append hm with hm | ⟨e2, _⟩
    · exact hs.1.reaper_blocked (hst hb).2 hm
    · exact (hst hb).1 e2.symm
  · intro q u hu
    rw [hq] at hu
    rcases mem_update_append hu with hu | ⟨e, _⟩
    · exact ha u (hs.1.live q u hu)
    · rw [e]
      exact htl
  · rw [hi]
    exact ha _ hs.1.idle_live
  · rw [hr]
    exact ha _ hs.1.reaper_live
  · rw [hc]
    exact ha _ hs.1.current_live
  · intro q hm
    rw [hq, hc] at hm
    rcases mem_update_append hm with hm | ⟨e, _⟩
    · exact hs.2 q hm
    · exact htc e.symm

theorem thread_create_good (h : thread_t) (s : Kernel) (hs : Separated s ∧ CurrentFree s)
    (hf : h ∉ s.all_threads) : Separated (thread_create h s) ∧ CurrentFree (thread_create h s) := by
  obtain ⟨_, h2, _, h4, h5, h6, _, _, _, _, _, h12⟩ := thread_create_view h s
  have hr : h ≠ s.reaper_thread := fun e => hf (e ▸ hs.1.reaper_live)
  refine append_run_good s _ h hs (queue_thread_create h s) ?_ ?_ ?_ h4 h5 h6 ?_ ?_
  · intro q hm
    exact hf (hs.1.live q h hm)
  · intro e
    exact hf (e ▸ hs.1.current_live)
  · rw [h2]
    simp
  · intro u hu
    rw [h2]
    exact List.mem_append_left _ hu
  · intro hb
    rw [h12, Function.update_noteq (Ne.symm hr)] at hb
    exact ⟨hr, hb⟩

theorem thread_wake_good (t : thread_t) (s : Kernel) (hs : Separated s ∧ CurrentFree s)
    (hw : t ∈ s.all_threads ∧ t ≠ s.current ∧ ∀ q, t ∉ queue s q) :
    Separated (thread_wake t s) ∧ CurrentFree (thread_wake t s) := by
  have hq : queue (thread_wake t s) = Function.update (queue s) .run (queue s .run ++ [t]) := by
    funext q
    cases q with
    | run => simp [queue, thread_wake, list_append]
    | zombie => simp [queue, thread_wake]
    | wait k => cases k <;> simp [queue, waitqueue, thread_wake]
  refine append_run_good s _ t hs hq hw.2.2 hw.2.1 (by simpa [thread_wake] using hw.1)
    rfl rfl rfl (fun u hu => by simpa [thread_wake] using hu) ?_
  intro hb
  simp only [thread_wake, set_status_threads_status] at hb
  split at hb
  · simp [RUNNABLE, BLOCKED] at hb
  · rename_i hne
    exact ⟨fun e => hne e.symm, hb⟩

/-- Emptying a wait-queue, as `mutex_init` and `cond_init` do, keeps the
queues apart. -/
theorem clear_waitqueue_good (s s1 : Kernel) (k : head_t) (hs : Separated s ∧ CurrentFree s)
    (hq : queue s1 = Function.update (queue s) (.wait k) [])
    (hc : s1.current = s.current) (hi : s1.idle_thread = s.idle_thread)
    (hr : s1.reaper_thread = s.reaper_thread) (ha : s1.all_threads = s.all_threads)
    (hst : (s1.threads s.reaper_thread).status = (s.threads s.reaper_thread).status) :
    Separated s1 ∧ CurrentFree s1 := by
  have hsub : ∀ q, (queue s1 q).Sublist (queue s q) := by
    intro q
    rw [hq]
    by_cases e : q = .wait k
    · subst e
      rw [Function.update_same]
      exact List.nil_sublist _
    · rw [Function.update_noteq e]
  refine ⟨⟨hs.1.apart.sublist hsub, ?_, ?_, ?_, ?_, ?_, ?_⟩, ?_⟩
  · intro q hq1
    rw [hi, hr]
    exact ⟨fun hm => (hs.1.special q hq1).1 ((hsub q).subset hm),
      fun hm => (hs.1.special q hq1).2 ((hsub q).subset hm)⟩
  · intro hb hm
    rw [hr] at hb hm
    rw [hst] at hb
    exact hs.1.reaper_blocked hb ((hsub .run).subset hm)
  · intro q u hu
    rw [ha]
    exact hs.1.live q u ((hsub q).subset hu)
  · rw [hi, ha]
    exact hs.1.idle_live
  · rw [hr, ha]
    exact hs.1.reaper_live
  · rw [hc, ha]
    exact hs.1.current_live
  · intro q hm
    rw [hc] at hm
    exact hs.2 q ((hsub q).subset hm)

theorem good_eflags_if (s : Kernel) (b : Bool) (hs : Separated s ∧ CurrentFree s) :
    Separated { s with eflags_if := b } ∧ CurrentFree { s with eflags_if := b } :=
  good_congr s _ hs (fun q => by simp) rfl rfl rfl rfl (fun h => h)

theorem good_interrupts_restore (s : Kernel) (i : Nat) (hs : Separated s ∧ CurrentFree s) :
    Separated (interrupts_restore i s) ∧ CurrentFree (interrupts_restore i s) :=
  good_congr s _ hs (fun q => by simp) (by simp) (by simp) (by simp) (by simp)
    (fun h => by simpa using h)

theorem good_set_owner (s : Kernel) (m : Nat) (t : thread_t) (hs : Separated s ∧ CurrentFree s) :
    Separated (set_owner s m t) ∧ CurrentFree (set_owner s m t) :=
  good_congr s _ hs (fun q => by simp) rfl rfl rfl rfl (fun h => h)

theorem good_push_frame (s : Kernel) (f : frame_t) (hs : Separated s ∧ CurrentFree s) :
    Separated (push_frame f s) ∧ CurrentFree (push_frame f s) :=
  good_congr s _ hs (fun q => by simp) rfl rfl rfl rfl (fun h => by simpa using h)

theorem good_set_frames (s : Kernel) (t : thread_t) (f : List frame_t)
    (hs : Separated s ∧ CurrentFree s) :
    Separated (set_frames s t f) ∧ CurrentFree (set_frames s t f) :=
  good_congr s _ hs (fun q => by simp) rfl rfl rfl rfl (fun h => by simpa using h)

theorem mutex_lock_loop_good (m i : Nat) (s s1 : Kernel) (hs : Separated s ∧ CurrentFree s)
    (hi : s.current ≠ s.idle_thread) (hr : s.current ≠ s.reaper_thread)
    (h : mutex_lock_loop m i s = some s1) : Separated s1 ∧ CurrentFree s1 := by
  unfold mutex_lock_loop at h
  split at h
  · exact wait_on_good _ _ s1 (good_push_frame s _ hs) hi hr h
  · obtain rfl := Option.some.inj h
    exact good_interrupts_restore _ _ (good_set_owner s m _ hs)

theorem mutex_unsafe_lock_loop_good (m i : Nat) (s s1 : Kernel)
    (hs : Separated s ∧ CurrentFree s)
    (hi : s.current ≠ s.idle_thread) (hr : s.current ≠ s.reaper_thread)
    (h : mutex_unsafe_lock_loop m i s = some s1) : Separated s1 ∧ CurrentFree s1 := by
  unfold mutex_unsafe_lock_loop at h
  split at h
  · exact wait_on_good _ _ s1 (good_push_frame s _ hs) hi hr h
  · obtain rfl := Option.some.inj h
    exact good_interrupts_restore _ _ (good_set_owner s m _ hs)

theorem mutex_lock_good (m : Nat) (s s1 : Kernel) (hs : Separated s ∧ CurrentFree s)
    (hi : s.current ≠ s.idle_thread) (hr : s.current ≠ s.reaper_thread)
    (h : mutex_lock m s = some s1) : Separated s1 ∧ CurrentFree s1 := by
  unfold mutex_lock interrupts_disable at h
  dsimp only at h
  split at h
  · simp at h
  · exact mutex_lock_loop_good m _ _ s1 (good_eflags_if s false hs) hi hr h

/-- The function `wake_first` leaves the current, idle and reaper thread as
they are. -/
theorem wake_first_same (k : head_t) (s s1 : Kernel) (h : wake_first k s = some s1) :
    s1.current = s.current ∧ s1.idle_thread = s.idle_thread ∧
    s1.reaper_thread = s.reaper_thread := by
  rcases wake_first_view k s s1 h with ⟨_, rfl⟩ |
    ⟨t, l, _, _, _, _, _, hc, hi, hr, _⟩
  · exact ⟨rfl, rfl, rfl⟩
  · exact ⟨hc, hi, hr⟩

theorem mutex_unlock_good (m : Nat) (s s1 : Kernel) (hs : Separated s ∧ CurrentFree s)
    (h : mutex_unlock m s = some s1) :
    (Separated s1 ∧ CurrentFree s1) ∧ s1.current = s.current ∧
    s1.idle_thread = s.idle_thread ∧ s1.reaper_thread = s.reaper_thread := by
  unfold mutex_unlock interrupts_disable at h
  dsimp only at h
  split at h
  · cases hw : wake_first (.mutex m) { s with eflags_if := false } with
    | none => simp [hw] at h
    | some s2 =>
      rw [hw] at h
      obtain rfl := Option.some.inj h
      have hg := wake_first_separated _ _ s2 (good_eflags_if s false hs) hw
      obtain ⟨hc, hi, hr⟩ := wake_first_same _ _ s2 hw
      exact ⟨good_interrupts_restore _ _ (good_set_owner s2 m 0 hg), by simpa using hc,
        by simpa using hi, by simpa using hr⟩
  · simp at h

theorem mutex_unsafe_unlock_good (m : Nat) (s s1 : Kernel) (hs : Separated s ∧ CurrentFree s)
    (h : mutex_unsafe_unlock m s = some s1) : Separated s1 ∧ CurrentFree s1 := by
  unfold mutex_unsafe_unlock interrupts_disable at h
  dsimp only at h
  cases hw : wake_first (.mutex m) { s with eflags_if := false } with
  | none => simp [hw] at h
  | some s2 =>
    rw [hw] at h
    obtain rfl := Option.some.inj h
    have hg := wake_first_separated _ _ s2 (good_eflags_if s false hs) hw
    exact good_interrupts_restore _ _ (good_set_owner s2 m 0 hg)

theorem cond_wait_good (c m : Nat) (s s1 : Kernel) (hs : Separated s ∧ CurrentFree s)
    (hi : s.current ≠ s.idle_thread) (hr : s.current ≠ s.reaper_thread)
    (h : cond_wait c m s = some s1) : Separated s1 ∧ CurrentFree s1 := by
  unfold cond_wait interrupts_disable at h
  dsimp only at h
  cases hu : mutex_unlock m { s with eflags_if := false } with
  | none => simp [hu] at h
  | some s2 =>
    rw [hu] at h
    obtain ⟨hg, hc, hi2, hr2⟩ := mutex_unlock_good m _ s2 (good_eflags_if s false hs) hu
    refine wait_on_good _ _ s1 (good_push_frame s2 _ hg) ?_ ?_ h
    · simpa [hc, hi2] using hi
    · simpa [hc, hr2] using hr

theorem resume_good (s s1 : Kernel) (hs : Separated s ∧ CurrentFree s)
    (hi : s.current ≠ s.idle_thread) (hr : s.current ≠ s.reaper_thread)
    (h : resume s = some s1) : Separated s1 ∧ CurrentFree s1 := by
  unfold resume at h
  split at h
  · simp at h
  · rename_i f rest _
    have hg := good_set_frames s s.current rest hs
    cases f with
    | mutex_lock m i => exact mutex_lock_loop_good m i _ s1 hg hi hr h
    | mutex_unsafe_lock m i => exact mutex_unsafe_lock_loop_good m i _ s1 hg hi hr h
    | cond_wait m i => exact mutex_lock_good m _ s1 (good_push_frame _ _ hg) hi hr h
    | cond_wait_restore i =>
      obtain rfl := Option.some.inj h
      exact good_interrupts_restore _ _ hg
    | thread_exit => simp at h

theorem in_thread_body_ne (s : Kernel) (h : in_thread_body s = true) :
    s.current ≠ s.idle_thread ∧ s.current ≠ s.reaper_thread := by
  simp only [in_thread_body, Bool.and_eq_true, bne_iff_ne, ne_eq] at h
  exact ⟨h.1.1, h.1.2⟩

/-- Every enabled call that satisfies the restriction on `thread_wake` keeps
the queues apart and the current thread free. -/
theorem good_step (s s1 : Kernel) (c : call_t) (hs : Separated s ∧ CurrentFree s)
    (hm : malloc_ok s c) (hw : wake_ok s c) (he : exec c s = some s1) :
    Separated s1 ∧ CurrentFree s1 := by
  unfold exec at he
  split at he
  swap
  · simp at he
  rename_i hen
  cases c with
  | thread_create h =>
    obtain rfl := Option.some.inj he
    exact thread_create_good h s hs hm.2.2
  | thread_yield =>
    have hb := in_thread_body_ne s hen
    exact schedule_separated s s1 hs.1 (fun _ _ => ⟨hs.2, Or.inr hb.2⟩) he
  | thread_exit =>
    have hb := in_thread_body_ne s hen
    refine schedule_separated (push_frame .thread_exit (set_status s s.current EXITED)) s1 ?_
      (fun _ _ => ⟨?_, Or.inr hb.2⟩) he
    · refine separated_congr s _ hs.1 (fun q => by simp) rfl rfl rfl rfl ?_
      intro h
      simpa [Ne.symm hb.2] using h
    · intro q
      simpa using hs.2 q
  | thread_sleep =>
    refine schedule_separated _ s1 ?_ (fun _ hb => absurd (by simp) hb) he
    have hb := in_thread_body_ne s hen
    refine separated_congr s _ hs.1 (fun q => by simp) rfl rfl rfl rfl ?_
    intro h
    simpa [Ne.symm hb.2] using h
  | thread_wake t =>
    obtain rfl := Option.some.inj he
    exact thread_wake_good t s hs hw
  | thread_setspecific d =>
    obtain rfl := Option.some.inj he
    exact good_congr s _ hs (fun q => by simp [thread_setspecific]) rfl rfl rfl rfl
      (fun h => by simpa [thread_setspecific] using h)
  | idle_loop =>
    have hc : s.current = s.idle_thread := by simpa [enabled] using hen
    exact schedule_separated s s1 hs.1 (fun h _ => absurd hc h) he
  | reaper_entry => exact do_reaper_pass_good _ s1 (good_eflags_if s false hs) he
  | reaper_pass => exact do_reaper_pass_good s s1 hs he
  | mutex_init m =>
    obtain rfl := Option.some.inj he
    refine clear_waitqueue_good s _ (.mutex m) hs ?_ rfl rfl rfl rfl rfl
    funext q
    cases q with
    | run => rfl
    | zombie => rfl
    | wait k =>
      cases k with
      | mutex n =>
        by_cases e : n = m
        · subst e
          simp [queue, waitqueue, mutex_init]
        · have : queue_t.wait (.mutex n) ≠ queue_t.wait (.mutex m) := by simpa using e
          rw [Function.update_noteq this]
          simp [queue, waitqueue, mutex_init, Function.update, e]
      | cond c =>
        rw [Function.update_noteq (by simp)]
        rfl
  | mutex_destroy m =>
    simp only [run, mutex_destroy] at he
    split at he
    · obtain rfl := Option.some.inj he
      exact hs
    · simp at he
  | mutex_lock m =>
    have hb := in_thread_body_ne s hen
    exact mutex_lock_good m s s1 hs hb.1 hb.2 he
  | mutex_unsafe_lock m =>
    have hb := in_thread_body_ne s hen
    exact mutex_unsafe_lock_loop_good m _ _ s1 (good_eflags_if s false hs) hb.1 hb.2 he
  | mutex_unlock m => exact (mutex_unlock_good m s s1 hs he).1
  | mutex_unsafe_unlock m => exact mutex_unsafe_unlock_good m s s1 hs he
  | mutex_trylock m =>
    obtain rfl := Option.some.inj he
    unfold mutex_trylock interrupts_disable
    dsimp only
    split
    · exact good_interrupts_restore _ _ (good_set_owner _ m _ (good_eflags_if s false hs))
    · exact good_interrupts_restore _ _ (good_eflags_if s false hs)
  | cond_init c =>
    obtain rfl := Option.some.inj he
    refine clear_waitqueue_good s _ (.cond c) hs ?_ rfl rfl rfl rfl rfl
    funext q
    cases q with
    | run => rfl
    | zombie => rfl
    | wait k =>
      cases k with
      | mutex n =>
        rw [Function.update_noteq (by simp)]
        rfl
      | cond d =>
        by_cases e : d = c
        · subst e
          simp [queue, waitqueue, cond_init]
        · have : queue_t.wait (.cond d) ≠ queue_t.wait (.cond c) := by simpa using e
          rw [Function.update_noteq this]
          simp [queue, waitqueue, cond_init, Function.update, e]
  | cond_destroy c =>
    simp only [run, cond_destroy] at he
    split at he
    · obtain rfl := Option.some.inj he
      exact hs
    · simp at he
  | cond_wait c m =>
    have hb := in_thread_body_ne s hen
    exact cond_wait_good c m s s1 hs hb.1 hb.2 he
  | cond_signal c =>
    simp only [run, cond_signal, interrupts_disable] at he
    cases hw : wake_first (.cond c) { s with eflags_if := false } with
    | none => simp [hw] at he
    | some s2 =>
      rw [hw] at he
      obtain rfl := Option.some.inj he
      exact good_interrupts_restore _ _
        (wake_first_separated _ _ s2 (good_eflags_if s false hs) hw)
  | cond_broadcast c =>
    simp only [run, cond_broadcast, interrupts_disable, wake_all] at he
    cases hw : wake_all_loop (.cond c)
        (waitqueue { s with eflags_if := false } (.cond c)).length
        { s with eflags_if := false } with
    | none => simp [hw] at he
    | some s2 =>
      rw [hw] at he
      obtain rfl := Option.some.inj he
      exact good_interrupts_restore _ _
        (wake_all_loop_keeps (.cond c) (fun s => Separated s ∧ CurrentFree s)
          (fun a b ha hb => wake_first_separated _ a b ha hb) _ _ s2
          (good_eflags_if s false hs) hw)
  | resume =>
    have hc : s.current ≠ s.idle_thread ∧ s.current ≠ s.reaper_thread := by
      simpa [enabled] using hen
    exact resume_good s s1 hs hc.1 hc.2 he

/-! ## A proof rule for properties of every call

Every call is a sequence of a few kinds of state change, with at most one call
of `schedule`, which then comes last.  A property `P` kept by each kind of
change, and turned into `Q` by `schedule`, gives `Q` after every call. -/

theorem interrupts_restore_cases (i : Nat) (s : Kernel) :
    interrupts_restore i s = s ∨ interrupts_restore i s = { s with eflags_if := true } := by
  unfold interrupts_restore interrupts_enable
  split
  · exact Or.inr rfl
  · exact Or.inl rfl

theorem step_rule (P Q : Kernel → Prop) (ok : Kernel → call_t → Prop)
    (hPQ : ∀ s, P s → Q s)
    (h_eflags : ∀ s b, P s → P { s with eflags_if := b })
    (h_owner : ∀ s m t, P s → P (set_owner s m t))
    (h_frames : ∀ s t f, P s → P (set_frames s t f))
    (h_slot : ∀ s t v, P s → P (set_slot s t v))
    (h_wake_first : ∀ k s s1, P s → wake_first k s = some s1 → P s1)
    (h_block : ∀ s k, P s → s.current ≠ s.idle_thread → s.current ≠ s.reaper_thread →
      P (set_status (set_waitqueue s k (list_append s.current (waitqueue s k)))
        (set_waitqueue s k (list_append s.current (waitqueue s k))).current BLOCKED))
    (h_reap : ∀ s, P s → s.current = s.reaper_thread →
      P { s with zombie_list := [], all_threads := s.all_threads.diff s.zombie_list,
                 freed := s.zombie_list.reverse ++ s.freed })
    (h_reaper_block : ∀ s, P s → s.current = s.reaper_thread →
      P (set_status s s.current BLOCKED))
    (h_sleep : ∀ s, P s → ok s .thread_sleep → in_thread_body s = true →
      P (set_status s s.current BLOCKED))
    (h_exit : ∀ s, P s → ok s .thread_exit → in_thread_body s = true →
      P (set_status s s.current EXITED))
    (h_create : ∀ s h, P s → ok s (.thread_create h) → P (thread_create h s))
    (h_wake : ∀ s t, P s → ok s (.thread_wake t) → P (thread_wake t s))
    (h_mutex_init : ∀ s m, P s → ok s (.mutex_init m) → P (mutex_init m s))
    (h_cond_init : ∀ s c, P s → ok s (.cond_init c) → P (cond_init c s))
    (h_schedule : ∀ s s1, P s → schedule s = some s1 → Q s1) :
    ∀ s s1 c, P s → ok s c → exec c s = some s1 → Q s1 := by
  have h_restore : ∀ i s, P s → P (interrupts_restore i s) := by
    intro i s hs
    rcases interrupts_restore_cases i s with e | e <;> rw [e]
    · exact hs
    · exact h_eflags s true hs
  have h_wait : ∀ k s s1, P s → s.current ≠ s.idle_thread → s.current ≠ s.reaper_thread →
      wait_on k s = some s1 → Q s1 := by
    intro k s s1 hs hi hr h
    exact h_schedule _ s1 (h_block s k hs hi hr) h
  have h_loop : ∀ m i s s1, P s → s.current ≠ s.idle_thread → s.current ≠ s.reaper_thread →
      mutex_lock_loop m i s = some s1 → Q s1 := by
    intro m i s s1 hs hi hr h
    unfold mutex_lock_loop at h
    split at h
    · exact h_wait _ _ s1 (h_frames s _ _ hs) hi hr h
    · obtain rfl := Option.some.inj h
      exact hPQ _ (h_restore _ _ (h_owner s m _ hs))
  have h_uloop : ∀ m i s s1, P s → s.current ≠ s.idle_thread → s.current ≠ s.reaper_thread →
      mutex_unsafe_lock_loop m i s = some s1 → Q s1 := by
    intro m i s s1 hs hi hr h
    unfold mutex_unsafe_lock_loop at h
    split at h
    · exact h_wait _ _ s1 (h_frames s _ _ hs) hi hr h
    · obtain rfl := Option.some.inj h
      exact hPQ _ (h_restore _ _ (h_owner s m _ hs))
  have h_lock : ∀ m s s1, P s → s.current ≠ s.idle_thread → s.current ≠ s.reaper_thread →
      mutex_lock m s = some s1 → Q s1 := by
    intro m s s1 hs hi hr h
    unfold mutex_lock interrupts_disable at h
    dsimp only at h
    split at h
    · simp at h
    · exact h_loop m _ _ s1 (h_eflags s false hs) hi hr h
  have h_unlock : ∀ m s s1, P s → mutex_unlock m s = some s1 →
      P s1 ∧ s1.current = s.current ∧ s1.idle_thread = s.idle_thread ∧
        s1.reaper_thread = s.reaper_thread := by
    intro m s s1 hs h
    unfold mutex_unlock interrupts_disable at h
    dsimp only at h
    split at h
    · cases hw : wake_first (.mutex m) { s with eflags_if := false } with
      | none => simp [hw] at h
      | some s2 =>
        rw [hw] at h
        obtain rfl := Option.some.inj h
        obtain ⟨hc, hi, hr⟩ := wake_first_same _ _ s2 hw
        exact ⟨h_restore _ _ (h_owner s2 m 0 (h_wake_first _ _ s2 (h_eflags s false hs) hw)),
          by simpa using hc, by simpa using hi, by simpa using hr⟩
    · simp at h
  have h_pass : ∀ s s1, P s → s.current = s.reaper_thread →
      do_reaper_pass s = some s1 → Q s1 := by
    intro s s1 hs hc h
    unfold do_reaper_pass at h
    rw [reaper_loop_eq s.zombie_list s rfl _ le_rfl] at h
    exact h_schedule _ s1 (h_reaper_block _ (h_reap s hs hc) hc) h
  intro s s1 c hs hk he
  unfold exec at he
  split at he
  swap
  · simp at he
  rename_i hen
  cases c with
  | thread_create h =>
    obtain rfl := Option.some.inj he
    exact hPQ _ (h_create s h hs hk)
  | thread_yield => exact h_schedule s s1 hs he
  | thread_exit =>
    exact h_schedule _ s1 (h_frames _ _ _ (h_exit s hs hk hen)) he
  | thread_sleep => exact h_schedule _ s1 (h_sleep s hs hk hen) he
  | thread_wake t =>
    obtain rfl := Option.some.inj he
    exact hPQ _ (h_wake s t hs hk)
  | thread_setspecific d =>
    obtain rfl := Option.some.inj he
    exact hPQ _ (h_slot s _ d hs)
  | idle_loop => exact h_schedule s s1 hs he
  | reaper_entry =>
    have hc : s.current = s.reaper_thread := by simpa [enabled] using hen
    exact h_pass _ s1 (h_eflags s false hs) hc he
  | reaper_pass =>
    have hc : s.current = s.reaper_thread := by simpa [enabled] using hen
    exact h_pass s s1 hs hc he
  | mutex_init m =>
    obtain rfl := Option.some.inj he
    exact hPQ _ (h_mutex_init s m hs hk)
  | mutex_destroy m =>
    simp only [run, mutex_destroy] at he
    split at he
    · obtain rfl := Option.some.inj he
      exact hPQ _ hs
    · simp at he
  | mutex_lock m =>
    have hb := in_thread_body_ne s hen
    exact h_lock m s s1 hs hb.1 hb.2 he
  | mutex_unsafe_lock m =>
    have hb := in_thread_body_ne s hen
    exact h_uloop m _ _ s1 (h_eflags s false hs) hb.1 hb.2 he
  | mutex_unlock m => exact hPQ _ (h_unlock m s s1 hs he).1
  | mutex_unsafe_unlock m =>
    simp only [run, mutex_unsafe_unlock, interrupts_disable] at he
    cases hw : wake_first (.mutex m) { s with eflags_if := false } with
    | none => simp [hw] at he
    | some s2 =>
      rw [hw] at he
      obtain rfl := Option.some.inj he
      exact hPQ _ (h_restore _ _ (h_owner s2 m 0
        (h_wake_first _ _ s2 (h_eflags s false hs) hw)))
  | mutex_trylock m =>
    obtain rfl := Option.some.inj he
    unfold mutex_trylock interrupts_disable
    dsimp only
    split
    · exact hPQ _ (h_restore _ _ (h_owner _ m _ (h_eflags s false hs)))
    · exact hPQ _ (h_restore _ _ (h_eflags s false hs))
  | cond_init c =>
    obtain rfl := Option.some.inj he
    exact hPQ _ (h_cond_init s c hs hk)
  | cond_destroy c =>
    simp only [run, cond_destroy] at he
    split at he
    · obtain rfl := Option.some.inj he
      exact hPQ _ hs
    · simp at he
  | cond_wait c m =>
    have hb := in_thread_body_ne s hen
    simp only [run, cond_wait, interrupts_disable] at he
    cases hu : mutex_unlock m { s with eflags_if := false } with
    | none => simp [hu] at he
    | some s2 =>
      rw [hu] at he
      obtain ⟨hg, hc, hi2, hr2⟩ := h_unlock m _ s2 (h_eflags s false hs) hu
      refine h_wait _ _ s1 (h_frames s2 _ _ hg) ?_ ?_ he
      · simpa [hc, hi2] using hb.1
      · simpa [hc, hr2] using hb.2
  | cond_signal c =>
    simp only [run, cond_signal, interrupts_disable] at he
    cases hw : wake_first (.cond c) { s with eflags_if := false } with
    | none => simp [hw] at he
    | some s2 =>
      rw [hw] at he
      obtain rfl := Option.some.inj he
      exact hPQ _ (h_restore _ _ (h_wake_first _ _ s2 (h_eflags s false hs) hw))
  | cond_broadcast c =>
    simp only [run, cond_broadcast, interrupts_disable, wake_all] at he
    cases hw : wake_all_loop (.cond c)
        (waitqueue { s with eflags_if := false } (.cond c)).length
        { s with eflags_if := false } with
    | none => simp [hw] at he
    | some s2 =>
      rw [hw] at he
      obtain rfl := Option.some.inj he
      exact hPQ _ (h_restore _ _ (wake_all_loop_keeps (.cond c) P
        (fun a b ha hb => h_wake_first _ a b ha hb) _ _ s2 (h_eflags s false hs) hw))
  | resume =>
    have hc : s.current ≠ s.idle_thread ∧ s.current ≠ s.reaper_thread := by
      simpa [enabled] using hen
    simp only [run, resume] at he
    split at he
    · simp at he
    · rename_i f rest _
      have hg := h_frames s s.current rest hs
      cases f with
      | mutex_lock m i => exact h_loop m i _ s1 hg hc.1 hc.2 he
      | mutex_unsafe_lock m i => exact h_uloop m i _ s1 hg hc.1 hc.2 he
      | cond_wait m i => exact h_lock m _ s1 (h_frames _ _ _ hg) hc.1 hc.2 he
      | cond_wait_restore i =>
        obtain rfl := Option.some.inj he
        exact hPQ _ (h_restore _ _ hg)
      | thread_exit => simp at he

/-! ## Reachable states -/

/-- The fields of the state `thread_init` leaves. -/
theorem thread_init_view (idle reaper : thread_t) :
    (thread_init idle reaper boot).run_queue = [idle, reaper] ∧
    (thread_init idle reaper boot).all_threads = [kernel_thread, idle, reaper] ∧
    (thread_init idle reaper boot).zombie_list = [] ∧
    (thread_init idle reaper boot).current = kernel_thread ∧
    (thread_init idle reaper boot).idle_thread = idle ∧
    (thread_init idle reaper boot).reaper_thread = reaper ∧
    (thread_init idle reaper boot).freed = [] ∧
    (thread_init idle reaper boot).next_id = 3 ∧
    (∀ k, waitqueue (thread_init idle reaper boot) k = []) ∧
    (∀ m, ((thread_init idle reaper boot).mutexes m).owner = 0 ∧
      ((thread_init idle reaper boot).mutexes m).id = 0) ∧
    (∀ c, ((thread_init idle reaper boot).conds c).id = 0) ∧
    (∀ t, ((thread_init idle reaper boot).threads t).status = RUNNABLE ∧
      ((thread_init idle reaper boot).threads t).frames = [] ∧
      ((thread_init idle reaper boot).threads t).id < 3) := by
  unfold thread_init
  simp only [thread_create_view, list_insert_prev, boot]
  refine ⟨by simp, by simp, by simp, by simp, by simp, by simp, by simp, by simp, ?_, ?_, ?_, ?_⟩
  · intro k
    cases k <;> simp [waitqueue, thread_create_view]
  · intro m
    simp [thread_create_view]
  · intro c
    simp [thread_create_view]
  · intro t
    simp only [Function.update]
    split
    · simp [RUNNABLE]
    · split
      · simp [RUNNABLE]
      · split <;> simp [RUNNABLE]

/-- An invariant of the calls that holds after `thread_init` holds in every
reachable state. -/
theorem reachable_rule (P : Kernel → Prop) (ok : Kernel → call_t → Prop)
    (hinit : ∀ idle reaper, idle ≠ 0 → idle ≠ kernel_thread → reaper ≠ 0 →
      reaper ≠ kernel_thread → idle ≠ reaper → P (thread_init idle reaper boot))
    (hstep : ∀ s s1 c, P s → malloc_ok s c → ok s c → exec c s = some s1 → P s1)
    (s : Kernel) (h : Reachable ok s) : P s := by
  induction h with
  | init idle reaper h1 h2 h3 h4 h5 => exact hinit idle reaper h1 h2 h3 h4 h5
  | step c _ hm hk he ih => exact hstep _ _ c ih hm hk he

/-- Fewer calls allowed, fewer states reached. -/
theorem reachable_mono (ok1 ok2 : Kernel → call_t → Prop) (h12 : ∀ s c, ok1 s c → ok2 s c)
    (s : Kernel) (h : Reachable ok1 s) : Reachable ok2 s := by
  induction h with
  | init idle reaper h1 h2 h3 h4 h5 => exact Reachable.init idle reaper h1 h2 h3 h4 h5
  | step c _ hm hk he ih => exact Reachable.step c ih hm (h12 _ _ hk) he

theorem thread_init_good (idle reaper : thread_t) (h2 : idle ≠ kernel_thread)
    (h4 : reaper ≠ kernel_thread) (h5 : idle ≠ reaper) :
    Separated (thread_init idle reaper boot) ∧ CurrentFree (thread_init idle reaper boot) := by
  obtain ⟨hrq, ha, hz, hc, hi, hr, _, _, hw, _, _, hst⟩ := thread_init_view idle reaper
  have hq : ∀ q, queue (thread_init idle reaper boot) q =
      if q = .run then [idle, reaper] else [] := by
    intro q
    cases q with
    | run => simp [queue, hrq]
    | zombie => simp [queue, hz]
    | wait k => simp [queue, hw]
  refine ⟨⟨⟨?_, ?_⟩, ?_, ?_, ?_, ?_, ?_, ?_⟩, ?_⟩
  · intro q
    rw [hq]
    split
    · simp [h5]
    · simp
  · intro q1 q2 t t1 t2
    rw [hq] at t1 t2
    split at t1
    · split at t2
      · simp_all
      · simp at t2
    · simp at t1
  · intro q hne
    rw [hq, if_neg hne]
    simp
  · intro hb
    rw [(hst _).1] at hb
    simp [RUNNABLE, BLOCKED] at hb
  · intro q t ht
    rw [hq] at ht
    rw [ha]
    split at ht
    · simp at ht ⊢
      exact Or.inr ht
    · simp at ht
  · rw [hi, ha]
    simp
  · rw [hr, ha]
    simp
  · rw [hc, ha]
    simp
  · intro q
    rw [hq, hc]
    split
    · simp [Ne.symm h2, Ne.symm h4]
    · simp

/-- In every state reached by calls that respect the restriction on
`thread_wake`, the queues are apart and the current thread is on none. -/
theorem reachable_good (s : Kernel) (h : Reachable wake_ok s) :
    Separated s ∧ CurrentFree s :=
  reachable_rule (fun s => Separated s ∧ CurrentFree s) wake_ok
    (fun idle reaper _ h2 _ h4 h5 => thread_init_good idle reaper h2 h4 h5)
    (fun s s1 c hs hm hk he => good_step s s1 c hs hm hk he) s h

/-! ## Queue membership in reachable states -/

/-- C1, counterexample. After `thread_wake(4)` at the state where thread 4
waits for mutex 7, which is reachable, thread 4 is on the ready queue and still
in the wait-queue of the mutex. -/
theorem one_queue_counterexample :
    ∃ s, Reachable any_call s ∧ 4 ∈ queue s .run ∧ 4 ∈ queue s (.wait (.mutex 7)) :=
  ⟨thread_wake 4 contended_state,
    reachable_of_trace [.thread_create 4, .mutex_init 7, .mutex_lock 7, .thread_yield,
      .idle_loop, .reaper_entry, .mutex_lock 7, .thread_wake 4] init_state _
      init_state_reachable rfl,
    by decide, by decide⟩

/-- C1, amended. In every state reachable from `thread_init` through the
thread, mutex and condition-variable calls, with `thread_wake` applied only to
a live thread that is not the current thread and is on no queue, each thread
is a member of at most one of the ready queue, the zombie list and the mutex
and condition-variable wait-queues, and occurs there at most once. -/
theorem one_queue (s : Kernel) (h : Reachable wake_ok s) :
    (∀ q, (queue s q).Nodup) ∧ ∀ q1 q2 t, t ∈ queue s q1 → t ∈ queue s q2 → q1 = q2 :=
  (reachable_good s h).1.apart

theorem one_queue_witness :
    (∀ q, (queue contended_state q).Nodup) ∧
      ∀ q1 q2 t, t ∈ queue contended_state q1 → t ∈ queue contended_state q2 → q1 = q2 :=
  one_queue contended_state
    (reachable_of_trace_ok wake_ok [.thread_create 4, .mutex_init 7, .mutex_lock 7,
      .thread_yield, .idle_loop, .reaper_entry, .mutex_lock 7]
      (fun s c hc => by
        simp only [List.mem_cons, List.mem_singleton, List.not_mem_nil, or_false] at hc
        rcases hc with rfl | rfl | rfl | rfl | rfl | rfl | rfl <;> trivial)
      init_state contended_state
      (Reachable.init 2 3 (by decide) (by decide) (by decide) (by decide) (by decide)) rfl)

/-- The idle thread and the reaper are two threads, in every reachable state. -/
theorem idle_ne_reaper (ok : Kernel → call_t → Prop) (s : Kernel) (h : Reachable ok s) :
    s.idle_thread ≠ s.reaper_thread := by
  refine reachable_rule (fun s => s.idle_thread ≠ s.reaper_thread) ok ?_ ?_ s h
  · intro idle reaper _ _ _ _ h5
    obtain ⟨_, _, _, _, hi, hr, _⟩ := thread_init_view idle reaper
    rw [hi, hr]
    exact h5
  · intro s s1 c hs _ _ he
    refine step_rule (fun s => s.idle_thread ≠ s.reaper_thread)
      (fun s => s.idle_thread ≠ s.reaper_thread) any_call (fun _ h => h) ?_ ?_ ?_ ?_ ?_ ?_ ?_ ?_
      ?_ ?_ ?_ ?_ ?_ ?_ ?_ s s1 c hs trivial he
    · exact fun _ _ h => h
    · exact fun _ _ _ h => h
    · exact fun _ _ _ h => h
    · exact fun _ _ _ h => h
    · intro k x x1 hx hw
      obtain ⟨_, hi, hr⟩ := wake_first_same k x x1 hw
      rw [hi, hr]
      exact hx
    · intro x k hx _ _
      simpa using hx
    · exact fun _ h _ => h
    · exact fun _ h _ => h
    · exact fun _ h _ _ => h
    · exact fun _ h _ _ => h
    · intro x h0 hx _
      obtain ⟨_, _, _, _, hi, hr, _⟩ := thread_create_view h0 x
      rw [hi, hr]
      exact hx
    · exact fun _ _ h _ => h
    · exact fun _ _ h _ => h
    · exact fun _ _ h _ => h
    · intro x x1 hx hsch
      obtain ⟨hi, hr, _⟩ := schedule_view x x1 hsch
      rw [hi, hr]
      exact hx

/-- The ready queue in the states reachable from `thread_init` with
`thread_wake` applied only to a live thread that is not the current thread and
is on no queue: the current thread is not a member; `schedule` does not add
the idle thread, and makes it the current thread only when the queue is empty
or the idle thread is its head; and when the idle thread is the current thread
and the queue is empty, it stays current. -/
theorem ready_queue_reachable (s : Kernel) (h : Reachable wake_ok s) :
    s.current ∉ s.run_queue ∧
    (∀ s1, schedule s = some s1 →
      s1.run_queue.count s.idle_thread ≤ s.run_queue.count s.idle_thread ∧
      (s1.current = s.idle_thread →
        s.run_queue = [] ∨ s.run_queue.head? = some s.idle_thread)) ∧
    (s.current = s.idle_thread →
      ∃ s1, schedule s = some s1 ∧ s1.run_queue = s.run_queue.tail ∧
        s1.current = s.run_queue.head?.getD s.idle_thread ∧
        (s.run_queue = [] → s1.current = s.idle_thread)) := by
  have hir := idle_ne_reaper wake_ok s h
  refine ⟨(reachable_good s h).2 .run, ?_, ?_⟩
  · intro s1 hsch
    obtain ⟨_, _, _, _, _, _, _, _, rq, hcur, hrq, hcase⟩ := schedule_view s s1 hsch
    have key : ∀ x, x ≠ s.idle_thread → rq = s.run_queue ++ [x] →
        s1.run_queue.count s.idle_thread ≤ s.run_queue.count s.idle_thread ∧
        (s1.current = s.idle_thread →
          s.run_queue = [] ∨ s.run_queue.head? = some s.idle_thread) := by
      intro x hx e
      subst e
      constructor
      · rw [hrq]
        refine le_trans (List.Sublist.count_le (List.tail_sublist _) _) ?_
        simp [List.count_append, List.count_singleton, hx]
      · intro hc
        rw [hc] at hcur
        cases hq : s.run_queue with
        | nil =>
          rw [hq] at hcur
          simp at hcur
          exact absurd hcur.symm hx
        | cons y l =>
          rw [hq] at hcur
          simp at hcur
          right
          simp [hcur]
    have keep : rq = s.run_queue →
        s1.run_queue.count s.idle_thread ≤ s.run_queue.count s.idle_thread ∧
        (s1.current = s.idle_thread →
          s.run_queue = [] ∨ s.run_queue.head? = some s.idle_thread) := by
      intro e
      subst e
      constructor
      · rw [hrq]
        exact List.Sublist.count_le (List.tail_sublist _) _
      · intro hc
        rw [hc] at hcur
        cases hq : s.run_queue with
        | nil => exact Or.inl rfl
        | cons y l =>
          rw [hq] at hcur
          simp at hcur
          right
          simp [hcur]
    rcases hcase with ⟨_, e, _⟩ | ⟨hp, _, e, _⟩ | ⟨_, _, _, ⟨_, e, _⟩ | ⟨_, e, _⟩⟩
    · exact keep e
    · exact key _ hp e
    · exact key _ (Ne.symm hir) e
    · exact keep e
  · intro hc
    refine ⟨_, by rw [schedule_eq, schedule_dispose_idle { s with eflags_if := false } hc]; rfl,
      by simp [schedule_pick_run_queue], by simp [schedule_pick_current], ?_⟩
    intro hq
    simp [schedule_pick_current, hq]

/-- C5. What the code does with the ready queue.  `thread_init` creates the
idle thread with `thread_create`, which appends every new thread to the ready
queue: right after `thread_init`, whatever the addresses of the two thread
records, the kernel thread is current and the ready queue is `[idle, reaper]`,
with the idle thread on it, and the first `thread_yield` makes the idle thread
the current thread while the ready queue is not empty.  In every state
reachable from `thread_init` with `thread_wake` applied only to a live thread
that is not the current thread and is on no queue, the current thread is not a
member of the ready queue, `schedule` does not add the idle thread to the
ready queue, and when the idle thread is current and the ready queue is empty
it stays current. -/
theorem ready_queue_members :
    (∀ idle reaper : thread_t, idle ≠ kernel_thread →
      (thread_init idle reaper boot).idle_thread = idle ∧
      (thread_init idle reaper boot).current = kernel_thread ∧
      (thread_init idle reaper boot).run_queue = [idle, reaper] ∧
      (thread_init idle reaper boot).idle_thread ∈ (thread_init idle reaper boot).run_queue ∧
      ∃ s1, thread_yield (thread_init idle reaper boot) = some s1 ∧ s1.current = idle ∧
        s1.run_queue = [reaper, kernel_thread]) ∧
    (∀ s, Reachable wake_ok s →
      s.current ∉ s.run_queue ∧
      (∀ s1, schedule s = some s1 →
        s1.run_queue.count s.idle_thread ≤ s.run_queue.count s.idle_thread) ∧
      (s.current = s.idle_thread → s.run_queue = [] →
        ∃ s1, schedule s = some s1 ∧ s1.run_queue = [] ∧ s1.current = s.idle_thread)) := by
  constructor
  · intro idle reaper hi
    obtain ⟨hrq, _, _, hcur, hidle, _, _, _, _, _, _, hst⟩ := thread_init_view idle reaper
    have hp : (thread_init idle reaper boot).current ≠ (thread_init idle reaper boot).idle_thread := by
      rw [hcur, hidle]
      exact Ne.symm hi
    obtain ⟨s1, h1, h2, h3, _⟩ :=
      schedule_runnable (thread_init idle reaper boot) hp (hst _).1
    rw [hrq, hcur] at h2 h3
    refine ⟨hidle, hcur, hrq, ?_, s1, h1, ?_, ?_⟩
    · rw [hidle, hrq]
      exact List.mem_cons_self _ _
    · exact Option.some.inj h2
    · exact h3
  · intro s h
    obtain ⟨h1, h2, h3⟩ := ready_queue_reachable s h
    refine ⟨h1, fun s1 hs => (h2 s1 hs).1, ?_⟩
    intro hc hq
    obtain ⟨s1, e1, e2, _, e4⟩ := h3 hc
    refine ⟨s1, e1, ?_, e4 hq⟩
    rw [e2, hq]
    rfl

/-- The theorem `ready_queue_members` at the state right after `thread_init`
with the idle thread at address 2 and the reaper at address 3: the kernel
thread (1) is current, the ready queue is `[2, 3]` with the idle thread on it,
and the first `thread_yield` makes the idle thread current and leaves the
ready queue `[3, 1]`. -/
theorem ready_queue_members_witness :
    init_state.idle_thread = 2 ∧ init_state.current = 1 ∧ init_state.run_queue = [2, 3] ∧
    init_state.idle_thread ∈ init_state.run_queue ∧
    ∃ s1, thread_yield init_state = some s1 ∧ s1.current = 2 ∧ s1.run_queue = [3, 1] :=
  ⟨(ready_queue_members.1 2 3 (by decide)).1, (ready_queue_members.1 2 3 (by decide)).2.1,
    (ready_queue_members.1 2 3 (by decide)).2.2.1, (ready_queue_members.1 2 3 (by decide)).2.2.2.1,
    (ready_queue_members.1 2 3 (by decide)).2.2.2.2⟩

/-- After `thread_wake` of the current thread by itself the current thread is
on the ready queue; the call is not guarded. -/
theorem thread_wake_self_queued :
    Reachable any_call (thread_wake 1 init_state) ∧
    (thread_wake 1 init_state).current ∈ (thread_wake 1 init_state).run_queue :=
  ⟨reachable_of_trace [.thread_wake 1] init_state _ init_state_reachable rfl, by decide⟩

/-! ## The kernel thread and the reaper -/

theorem kernel_alive_status (s s1 : Kernel) (hs : KernelAlive s)
    (ha : s1.all_threads = s.all_threads) (hz : s1.zombie_list = s.zombie_list)
    (hf : s1.freed = s.freed)
    (hst : (s1.threads kernel_thread).status = (s.threads kernel_thread).status ∨
      (s1.threads kernel_thread).status = RUNNABLE ∨
      (s1.threads kernel_thread).status = BLOCKED) : KernelAlive s1 := by
  refine ⟨by rw [ha]; exact hs.1, by rw [hz]; exact hs.2.1, by rw [hf]; exact hs.2.2.1, ?_, ?_⟩
  · rcases hst with e | e | e <;> rw [e]
    · exact hs.2.2.2.1
    · decide
    · decide
  · rcases hst with e | e | e <;> rw [e]
    · exact hs.2.2.2.2
    · decide
    · decide

theorem kernel_alive_step (s s1 : Kernel) (c : call_t) (hs : KernelAlive s)
    (hm : malloc_ok s c) (hk : kernel_stays s c) (he : exec c s = some s1) :
    KernelAlive s1 := by
  refine step_rule KernelAlive KernelAlive (fun s c => malloc_ok s c ∧ kernel_stays s c)
    (fun _ h => h) ?_ ?_ ?_ ?_ ?_ ?_ ?_ ?_ ?_ ?_ ?_ ?_ ?_ ?_ ?_ s s1 c hs ⟨hm, hk⟩ he
  · intro s b h
    exact h
  · intro s m t h
    exact kernel_alive_status s _ h rfl rfl rfl (Or.inl rfl)
  · intro s t f h
    exact kernel_alive_status s _ h rfl rfl rfl (Or.inl (by simp))
  · intro s t v h
    exact kernel_alive_status s _ h rfl rfl rfl (Or.inl (by simp))
  · intro k s s1 h hw
    rcases wake_first_view k s s1 hw with ⟨_, rfl⟩ |
      ⟨t, l, _, _, _, _, hz, _, _, _, ha, hf, _, _, hst, _⟩
    · exact h
    · refine kernel_alive_status s s1 h ha hz hf ?_
      rw [hst]
      split
      · exact Or.inr (Or.inl rfl)
      · exact Or.inl rfl
  · intro s k h _ _
    refine kernel_alive_status s _ h (by simp) (by simp) (by simp) ?_
    simp only [set_status_threads_status, set_waitqueue_threads]
    split
    · exact Or.inr (Or.inr rfl)
    · exact Or.inl rfl
  · intro s h _
    refine ⟨List.mem_diff_of_mem h.1 h.2.1, by simp, ?_, h.2.2.2.1, h.2.2.2.2⟩
    simp only [List.mem_append, List.mem_reverse, not_or]
    exact ⟨h.2.1, h.2.2.1⟩
  · intro s h _
    refine kernel_alive_status s _ h rfl rfl rfl ?_
    simp only [set_status_threads_status]
    split
    · exact Or.inr (Or.inr rfl)
    · exact Or.inl rfl
  · intro s h _ _
    refine kernel_alive_status s _ h rfl rfl rfl ?_
    simp only [set_status_threads_status]
    split
    · exact Or.inr (Or.inr rfl)
    · exact Or.inl rfl
  · intro s h hk _
    refine kernel_alive_status s _ h rfl rfl rfl (Or.inl ?_)
    simp only [set_status_threads_status]
    rw [if_neg (Ne.symm hk.2)]
  · intro s h0 h hm
    have hm := hm.1
    obtain ⟨_, h2, h3, _, _, _, h7, _, _, _, _, h12⟩ := thread_create_view h0 s
    refine ⟨by rw [h2]; exact List.mem_append_left _ h.1, by rw [h3]; exact h.2.1,
      by rw [h7]; exact h.2.2.1, ?_, ?_⟩
    · rw [h12, Function.update_noteq (Ne.symm hm.2.1)]
      exact h.2.2.2.1
    · rw [h12, Function.update_noteq (Ne.symm hm.2.1)]
      exact h.2.2.2.2
  · intro s t h _
    refine kernel_alive_status s _ h rfl rfl rfl ?_
    simp only [thread_wake, set_status_threads_status]
    split
    · exact Or.inr (Or.inl rfl)
    · exact Or.inl rfl
  · intro s m h _
    exact h
  · intro s c h _
    exact h
  · intro s s1 h hsch
    obtain ⟨_, _, ha, hf, _, _, _, _, rq, _, _, hcase⟩ := schedule_view s s1 hsch
    rcases hcase with ⟨_, _, hz, hst⟩ | ⟨_, _, _, hz, hst⟩ |
      ⟨_, hd, hz, ⟨_, _, hst⟩ | ⟨_, _, hst⟩⟩
    · exact kernel_alive_status s s1 h ha hz hf (Or.inl (hst _))
    · exact kernel_alive_status s s1 h ha hz hf (Or.inl (hst _))
    · have hne : s.current ≠ kernel_thread := by
        intro e
        rw [e] at hd
        rcases hd with hd | hd
        · exact h.2.2.2.1 hd
        · exact h.2.2.2.2 hd
      refine ⟨by rw [ha]; exact h.1, ?_, by rw [hf]; exact h.2.2.1, ?_, ?_⟩
      · rw [hz]
        simp only [List.mem_append, List.mem_singleton, not_or]
        exact ⟨h.2.1, Ne.symm hne⟩
      · rw [hst]
        split
        · decide
        · exact h.2.2.2.1
      · rw [hst]
        split
        · decide
        · exact h.2.2.2.2
    · have hne : s.current ≠ kernel_thread := by
        intro e
        rw [e] at hd
        rcases hd with hd | hd
        · exact h.2.2.2.1 hd
        · exact h.2.2.2.2 hd
      refine ⟨by rw [ha]; exact h.1, ?_, by rw [hf]; exact h.2.2.1, ?_, ?_⟩
      · rw [hz]
        simp only [List.mem_append, List.mem_singleton, not_or]
        exact ⟨h.2.1, Ne.symm hne⟩
      · rw [hst]
        exact h.2.2.2.1
      · rw [hst]
        exact h.2.2.2.2

/-- C8, counterexample. The kernel thread calls `thread_exit` at the settled
state, which is reachable: it is on the zombie list; after the next pass of the
reaper it is gone from the global list and has been handed to `free`. -/
theorem kernel_reaped_counterexample :
    (Reachable any_call exited_state ∧ kernel_thread ∈ exited_state.zombie_list) ∧
    ∃ s, Reachable any_call s ∧ kernel_thread ∉ s.all_threads ∧ kernel_thread ∈ s.freed :=
  ⟨⟨exited_state_reachable, by decide⟩,
    (trace [.thread_yield, .idle_loop, .reaper_entry, .thread_exit, .reaper_pass]
      init_state).getD boot,
    reachable_of_trace [.thread_yield, .idle_loop, .reaper_entry, .thread_exit, .reaper_pass]
      init_state _ init_state_reachable rfl,
    by decide, by decide⟩

/-- C8, amended. In every state reachable from `thread_init` through the
calls, made by any thread, in which the kernel thread itself does not call
`thread_exit`, the kernel thread is not on the zombie list, is in the global
list, and has not been handed to `free` by the reaper. -/
theorem kernel_never_reaped (s : Kernel) (h : Reachable kernel_stays s) :
    kernel_thread ∉ s.zombie_list ∧ kernel_thread ∈ s.all_threads ∧
    kernel_thread ∉ s.freed := by
  have := reachable_rule KernelAlive kernel_stays
    (fun idle reaper _ _ _ _ _ => by
      obtain ⟨_, ha, hz, _, _, _, hf, _, _, _, _, hst⟩ := thread_init_view idle reaper
      refine ⟨by rw [ha]; simp, by rw [hz]; simp, by rw [hf]; simp, ?_, ?_⟩
      · rw [(hst _).1]
        decide
      · rw [(hst _).1]
        decide)
    kernel_alive_step s h
  exact ⟨this.2.1, this.1, this.2.2.1⟩

/-- The invariant of `kernel_never_reaped` at a concrete state: the kernel
thread has created thread 4, which has run, called `thread_exit` and been
reaped, while the kernel thread stays in the global list `[1, 2, 3]`. -/
theorem kernel_never_reaped_witness :
    ∃ s : Kernel, s.freed = [4] ∧ s.all_threads = [1, 2, 3] ∧
      kernel_thread ∉ s.zombie_list ∧ kernel_thread ∈ s.all_threads ∧
      kernel_thread ∉ s.freed :=
  ⟨(trace_with kernel_stays_check [.thread_create 4, .thread_yield, .idle_loop, .reaper_entry,
      .thread_exit, .thread_yield, .reaper_pass] init_state).getD boot, by decide, by decide,
    kernel_never_reaped _
      (reachable_of_trace_with kernel_stays kernel_stays_check
        (fun s c hc => by
          cases c <;> simp_all [kernel_stays_check, kernel_stays])
        [.thread_create 4, .thread_yield, .idle_loop, .reaper_entry,
          .thread_exit, .thread_yield, .reaper_pass] init_state _
        (Reachable.init 2 3 (by decide) (by decide) (by decide) (by decide) (by decide)) rfl)⟩

/-! ## Blocked threads and wait-queues -/

theorem blocked_waits_congr (s s1 : Kernel) (hs : BlockedWaits s)
    (hr : s1.reaper_thread = s.reaper_thread)
    (hw : ∀ k t, t ∈ waitqueue s k → t ∈ waitqueue s1 k)
    (hst : ∀ t, (s1.threads t).status = BLOCKED →
      (s.threads t).status = BLOCKED ∨ t = s.reaper_thread ∨ ∃ k, t ∈ waitqueue s1 k) :
    BlockedWaits s1 := by
  intro t hb
  rw [hr]
  rcases hst t hb with h | h | h
  · rcases hs t h with e | ⟨k, hk⟩
    · exact Or.inl e
    · exact Or.inr ⟨k, hw k t hk⟩
  · exact Or.inl h
  · exact Or.inr h

theorem blocked_waits_step (s s1 : Kernel) (c : call_t) (hs : BlockedWaits s)
    (_ : malloc_ok s c) (hk : block_ok s c) (he : exec c s = some s1) :
    BlockedWaits s1 := by
  refine step_rule BlockedWaits BlockedWaits block_ok (fun _ h => h) ?_ ?_ ?_ ?_ ?_ ?_ ?_ ?_
    ?_ ?_ ?_ ?_ ?_ ?_ ?_ s s1 c hs hk he
  · intro s b h
    refine blocked_waits_congr s _ h rfl (fun k t ht => ?_) (fun t ht => Or.inl ht)
    cases k <;> exact ht
  · intro s m t h
    exact blocked_waits_congr s _ h rfl (fun k t ht => by simpa using ht)
      (fun t ht => Or.inl ht)
  · intro s t f h
    exact blocked_waits_congr s _ h rfl (fun k t ht => by simpa using ht)
      (fun t ht => Or.inl (by simpa using ht))
  · intro s t v h
    exact blocked_waits_congr s _ h rfl (fun k t ht => by simpa using ht)
      (fun t ht => Or.inl (by simpa using ht))
  · intro k s s1 h hw
    rcases wake_first_view k s s1 hw with ⟨_, rfl⟩ |
      ⟨t, l, hq, _, _, hwq, _, _, _, hr, _, _, _, _, hst, _⟩
    · exact h
    · intro u hu
      rw [hst] at hu
      split at hu
      · simp [RUNNABLE, BLOCKED] at hu
      · rename_i hne
        rw [hr]
        rcases h u hu with e | ⟨j, hj⟩
        · exact Or.inl e
        · right
          refine ⟨j, ?_⟩
          rw [hwq]
          split
          · rename_i e
            subst e
            rw [hq] at hj
            rcases List.mem_cons.mp hj with e | e
            · exact absurd e hne
            · exact e
          · exact hj
  · intro s k h _ _
    intro u hu
    simp only [set_status_threads_status, set_waitqueue_current, set_waitqueue_threads] at hu
    simp only [set_status_reaper_thread, set_waitqueue_reaper_thread, waitqueue_set_status,
      waitqueue_set_waitqueue]
    split at hu
    · rename_i e
      right
      exact ⟨k, by simp [list_append, e]⟩
    · rcases h u hu with e | ⟨j, hj⟩
      · exact Or.inl e
      · right
        refine ⟨j, ?_⟩
        split
        · rename_i e
          subst e
          simp [list_append, hj]
        · exact hj
  · intro s h _
    refine blocked_waits_congr s _ h rfl (fun k t ht => ?_) (fun t ht => Or.inl ht)
    cases k <;> exact ht
  · intro s h hc
    refine blocked_waits_congr s _ h rfl (fun k t ht => by simpa using ht) ?_
    intro t ht
    simp only [set_status_threads_status] at ht
    split at ht
    · rename_i e
      exact Or.inr (Or.inl (e.trans hc))
    · exact Or.inl ht
  · intro s _ hk _
    exact absurd hk id
  · intro s h _ _
    refine blocked_waits_congr s _ h rfl (fun k t ht => by simpa using ht) ?_
    intro t ht
    simp only [set_status_threads_status] at ht
    split at ht
    · simp [EXITED, BLOCKED] at ht
    · exact Or.inl ht
  · intro s h0 h _
    obtain ⟨_, _, _, _, _, h6, _, _, _, h10, h11, h12⟩ := thread_create_view h0 s
    refine blocked_waits_congr s _ h h6 (fun k t ht => ?_) ?_
    · cases k <;> simpa [waitqueue, h10, h11] using ht
    · intro t ht
      rw [h12] at ht
      by_cases e : t = h0
      · subst e
        simp [RUNNABLE, BLOCKED] at ht
      · rw [Function.update_noteq e] at ht
        exact Or.inl ht
  · intro s t h _
    refine blocked_waits_congr s _ h rfl (fun k u hu => ?_) ?_
    · cases k <;> simpa [waitqueue, thread_wake] using hu
    · intro u hu
      simp only [thread_wake, set_status_threads_status] at hu
      split at hu
      · simp [RUNNABLE, BLOCKED] at hu
      · exact Or.inl hu
  · intro s m h hk
    refine blocked_waits_congr s _ h rfl (fun k t ht => ?_) (fun t ht => Or.inl ht)
    cases k with
    | mutex n =>
      by_cases e : n = m
      · subst e
        have hk2 : (s.mutexes n).waitqueue_head = [] := hk
        simp [waitqueue, hk2] at ht
      · simpa [waitqueue, mutex_init, Function.update, e] using ht
    | cond c => exact ht
  · intro s c h hk
    refine blocked_waits_congr s _ h rfl (fun k t ht => ?_) (fun t ht => Or.inl ht)
    cases k with
    | mutex n => exact ht
    | cond d =>
      by_cases e : d = c
      · subst e
        have hk2 : (s.conds d).waitqueue_head = [] := hk
        simp [waitqueue, hk2] at ht
      · simpa [waitqueue, cond_init, Function.update, e] using ht
  · intro s s1 h hsch
    obtain ⟨_, hr, _, _, _, hmu, hco, _, rq, _, _, hcase⟩ := schedule_view s s1 hsch
    have hw : ∀ k, waitqueue s1 k = waitqueue s k := by
      intro k
      cases k <;> simp [waitqueue, hmu, hco]
    refine blocked_waits_congr s s1 h hr (fun k t ht => by rw [hw]; exact ht) ?_
    intro t ht
    rcases hcase with ⟨_, _, _, hst⟩ | ⟨_, _, _, _, hst⟩ |
      ⟨_, _, _, ⟨_, _, hst⟩ | ⟨_, _, hst⟩⟩
    · exact Or.inl (hst t ▸ ht)
    · exact Or.inl (hst t ▸ ht)
    · rw [hst] at ht
      split at ht
      · simp [RUNNABLE, BLOCKED] at ht
      · exact Or.inl ht
    · exact Or.inl (hst t ▸ ht)

theorem waitqueue_mutex_init (m : Nat) (s : Kernel) (k : head_t) (t : thread_t)
    (h : t ∈ waitqueue (mutex_init m s) k) : t ∈ waitqueue s k ∧ k ≠ .mutex m := by
  cases k with
  | mutex n =>
    by_cases e : n = m
    · subst e
      simp [waitqueue, mutex_init] at h
    · refine ⟨?_, by simpa using e⟩
      simpa [waitqueue, mutex_init, Function.update, e] using h
  | cond c => exact ⟨h, by simp⟩

theorem contended_state_good : Separated contended_state ∧ CurrentFree contended_state :=
  reachable_good contended_state
    (reachable_of_trace_ok wake_ok [.thread_create 4, .mutex_init 7, .mutex_lock 7,
      .thread_yield, .idle_loop, .reaper_entry, .mutex_lock 7]
      (fun s c hc => by
        simp only [List.mem_cons, List.mem_singleton, List.not_mem_nil, or_false] at hc
        rcases hc with rfl | rfl | rfl | rfl | rfl | rfl | rfl <;> trivial)
      init_state contended_state
      (Reachable.init 2 3 (by decide) (by decide) (by decide) (by decide) (by decide)) rfl)

/-- C2, counterexample. Three reachable states with a Blocked thread that is
in no wait-queue: at the settled state, the reaper (thread 3); after
`thread_sleep` by the kernel thread (thread 1) at that state, the kernel thread;
and after `mutex_init(7)` at the state where thread 4 waits for mutex 7,
thread 4. -/
theorem blocked_unqueued_counterexample :
    (Reachable any_call settled_state ∧ (settled_state.threads 3).status = BLOCKED ∧
      ∀ k, 3 ∉ waitqueue settled_state k) ∧
    (∃ s, Reachable any_call s ∧ (s.threads 1).status = BLOCKED ∧ 1 ≠ s.reaper_thread ∧
      ∀ k, 1 ∉ waitqueue s k) ∧
    (∃ s, Reachable any_call s ∧ (s.threads 4).status = BLOCKED ∧ 4 ≠ s.reaper_thread ∧
      ∀ k, 4 ∉ waitqueue s k) := by
  refine ⟨⟨settled_state_reachable, by decide, ?_⟩,
    ⟨(trace [.thread_yield, .idle_loop, .reaper_entry, .thread_sleep] init_state).getD boot,
    reachable_of_trace [.thread_yield, .idle_loop, .reaper_entry, .thread_sleep] init_state _
      init_state_reachable rfl, by decide, by decide, ?_⟩,
    ⟨mutex_init 7 contended_state,
    reachable_of_trace [.thread_create 4, .mutex_init 7, .mutex_lock 7, .thread_yield,
      .idle_loop, .reaper_entry, .mutex_lock 7, .mutex_init 7] init_state _
      init_state_reachable rfl, by decide, by decide, ?_⟩⟩
  · intro k
    cases k <;> exact List.not_mem_nil _
  · intro k
    cases k <;> exact List.not_mem_nil _
  · intro k hk
    obtain ⟨h1, h2⟩ := waitqueue_mutex_init 7 contended_state k 4 hk
    have := contended_state_good.1.apart.2 (.wait k) (.wait (.mutex 7)) 4 h1 (by decide)
    exact h2 (by simpa using this)

/-- C2, amended. In every state reachable from `thread_init` through the
thread, mutex and condition-variable calls and the reaper's loop, with
`thread_wake` applied only to a live thread that is not current and is on no
queue, without `thread_sleep`, and with `mutex_init` and `cond_init` applied
only to objects whose wait-queue is empty, every thread whose status is Blocked,
other than the reaper, is a member of exactly one wait-queue, once. -/
theorem blocked_on_one_queue (s : Kernel) (h : Reachable block_ok s) (t : thread_t)
    (hb : (s.threads t).status = BLOCKED) (hr : t ≠ s.reaper_thread) :
    ∃ k, t ∈ waitqueue s k ∧ (waitqueue s k).count t = 1 ∧
      ∀ j, t ∈ waitqueue s j → j = k := by
  have hJ : BlockedWaits s := reachable_rule BlockedWaits block_ok
    (fun idle reaper _ _ _ _ _ t ht => by
      obtain ⟨_, _, _, _, _, _, _, _, _, _, _, hst⟩ := thread_init_view idle reaper
      rw [(hst t).1] at ht
      simp [RUNNABLE, BLOCKED] at ht)
    blocked_waits_step s h
  have hG := reachable_good s (reachable_mono block_ok wake_ok (fun s c hc => by
    cases c <;> first | exact hc | trivial) s h)
  rcases hJ t hb with e | ⟨k, hk⟩
  · exact absurd e hr
  · refine ⟨k, hk, ?_, ?_⟩
    · exact List.count_eq_one_of_mem (hG.1.apart.1 (.wait k)) hk
    · intro j hj
      have := hG.1.apart.2 (.wait j) (.wait k) t hj hk
      simpa using this

/-- The theorem `blocked_on_one_queue` at the state where thread 4 is blocked
on mutex 7. -/
theorem blocked_on_one_queue_witness :
    ∃ k, 4 ∈ waitqueue contended_state k ∧ (waitqueue contended_state k).count 4 = 1 ∧
      ∀ j, 4 ∈ waitqueue contended_state j → j = k :=
  blocked_on_one_queue contended_state
    (reachable_of_trace_with block_ok block_ok_check
      (fun s c hc => by
        cases c <;> simp_all [block_ok_check, block_ok])
      [.thread_create 4, .mutex_init 7, .mutex_lock 7, .thread_yield, .idle_loop,
        .reaper_entry, .mutex_lock 7] init_state _
      (Reachable.init 2 3 (by decide) (by decide) (by decide) (by decide) (by decide)) rfl)
    4 (by decide) (by decide)

/-! ## Thread creation and ids -/

theorem ids_below_congr (s s1 : Kernel) (hs : IdsBelow s) (hn : s1.next_id = s.next_id)
    (ht : ∀ t, (s1.threads t).id = (s.threads t).id)
    (hm : ∀ m, (s1.mutexes m).id = (s.mutexes m).id)
    (hc : ∀ c, (s1.conds c).id = (s.conds c).id) : IdsBelow s1 := by
  refine ⟨fun t => ?_, fun m => ?_, fun c => ?_⟩
  · rw [ht, hn]
    exact hs.1 t
  · rw [hm, hn]
    exact hs.2.1 m
  · rw [hc, hn]
    exact hs.2.2 c

theorem ids_below_step (s s1 : Kernel) (c : call_t) (hs : IdsBelow s)
    (_ : malloc_ok s c) (hk : id_ok s c) (he : exec c s = some s1) : IdsBelow s1 := by
  refine step_rule IdsBelow IdsBelow id_ok (fun _ h => h) ?_ ?_ ?_ ?_ ?_ ?_ ?_ ?_
    ?_ ?_ ?_ ?_ ?_ ?_ ?_ s s1 c hs hk he
  · intro s b h
    exact h
  · intro s m t h
    exact ids_below_congr s _ h rfl (fun _ => rfl) (fun _ => by simp) (fun _ => rfl)
  · intro s t f h
    exact ids_below_congr s _ h rfl (fun _ => by simp) (fun _ => rfl) (fun _ => rfl)
  · intro s t v h
    exact ids_below_congr s _ h rfl (fun _ => by simp) (fun _ => rfl) (fun _ => rfl)
  · intro k s s1 h hw
    rcases wake_first_view k s s1 hw with ⟨_, rfl⟩ |
      ⟨t, l, _, _, _, _, _, _, _, _, _, _, hn, _, _, hth, hmu, hco⟩
    · exact h
    · exact ids_below_congr s s1 h hn (fun u => (hth u).2.1) (fun m => (hmu m).2) hco
  · intro s k h _ _
    exact ids_below_congr s _ h (by simp) (fun _ => by simp) (fun _ => by simp)
      (fun _ => by simp)
  · intro s h _
    exact h
  · intro s h _
    exact ids_below_congr s _ h rfl (fun _ => by simp) (fun _ => rfl) (fun _ => rfl)
  · intro s h _ _
    exact ids_below_congr s _ h rfl (fun _ => by simp) (fun _ => rfl) (fun _ => rfl)
  · intro s h _ _
    exact ids_below_congr s _ h rfl (fun _ => by simp) (fun _ => rfl) (fun _ => rfl)
  · intro s h0 h hk
    have hk : s.next_id + 1 < 2 ^ 32 := hk
    obtain ⟨_, _, _, _, _, _, _, _, h9, h10, h11, h12⟩ := thread_create_view h0 s
    have hn : (thread_create h0 s).next_id = s.next_id + 1 := by
      rw [h9, Nat.mod_eq_of_lt hk]
    refine ⟨fun t => ?_, fun m => ?_, fun c => ?_⟩
    · rw [h12, hn]
      by_cases e : t = h0
      · subst e
        simp
      · rw [Function.update_noteq e]
        exact Nat.lt_succ_of_lt (h.1 t)
    · rw [h10, hn]
      exact Nat.lt_succ_of_lt (h.2.1 m)
    · rw [h11, hn]
      exact Nat.lt_succ_of_lt (h.2.2 c)
  · intro s t h _
    exact ids_below_congr s _ h rfl (fun _ => by simp [thread_wake]) (fun _ => rfl)
      (fun _ => rfl)
  · intro s m h hk
    have hk : s.next_id + 1 < 2 ^ 32 := hk
    have hn : (mutex_init m s).next_id = s.next_id + 1 := by
      show (s.next_id + 1) % 2 ^ 32 = s.next_id + 1
      exact Nat.mod_eq_of_lt hk
    refine ⟨fun t => ?_, fun n => ?_, fun c => ?_⟩
    · rw [hn]
      exact Nat.lt_succ_of_lt (h.1 t)
    · rw [hn]
      by_cases e : n = m
      · subst e
        simp [mutex_init]
      · simp only [mutex_init, Function.update_noteq e]
        exact Nat.lt_succ_of_lt (h.2.1 n)
    · rw [hn]
      exact Nat.lt_succ_of_lt (h.2.2 c)
  · intro s c h hk
    have hk : s.next_id + 1 < 2 ^ 32 := hk
    have hn : (cond_init c s).next_id = s.next_id + 1 := by
      show (s.next_id + 1) % 2 ^ 32 = s.next_id + 1
      exact Nat.mod_eq_of_lt hk
    refine ⟨fun t => ?_, fun n => ?_, fun d => ?_⟩
    · rw [hn]
      exact Nat.lt_succ_of_lt (h.1 t)
    · rw [hn]
      exact Nat.lt_succ_of_lt (h.2.1 n)
    · rw [hn]
      by_cases e : d = c
      · subst e
        simp [cond_init]
      · simp only [cond_init, Function.update_noteq e]
        exact Nat.lt_succ_of_lt (h.2.2 d)
  · intro s s1 h hsch
    obtain ⟨_, _, _, _, hn, hmu, hco, hth, _⟩ := schedule_view s s1 hsch
    exact ids_below_congr s s1 h hn (fun t => (hth t).2.1) (fun m => by rw [hmu])
      (fun c => by rw [hco])

/-- C10. `thread_create`, with `h` the address of the new record: the new
thread is Runnable, its TLS slot is null, its id is the value of the id counter
before the call, and the counter becomes that value plus one modulo `2 ^ 32`;
`h` is appended at the tail of the global list and of the ready queue, whose
other entries, the zombie list, the current thread, the other thread records and
the interrupt flag are unchanged.  `mutex_init` and `cond_init` draw their ids
from the same counter.  In every state reachable from `thread_init` in which the
counter has not wrapped round, every id issued earlier (held by a thread, a
mutex or a condition variable) is below the counter, that is, below the id the
next `thread_create` gives. -/
theorem thread_create_spec (h : thread_t) (s : Kernel) :
    ((thread_create h s).threads h).status = RUNNABLE ∧
    ((thread_create h s).threads h).slot = 0 ∧
    ((thread_create h s).threads h).id = s.next_id ∧
    (thread_create h s).next_id = (s.next_id + 1) % 2 ^ 32 ∧
    (thread_create h s).all_threads = s.all_threads ++ [h] ∧
    (thread_create h s).run_queue = s.run_queue ++ [h] ∧
    (thread_create h s).zombie_list = s.zombie_list ∧
    (thread_create h s).current = s.current ∧
    (thread_create h s).eflags_if = s.eflags_if ∧
    (∀ t, t ≠ h → (thread_create h s).threads t = s.threads t) ∧
    (∀ m, ((mutex_init m s).mutexes m).id = s.next_id ∧
      (mutex_init m s).next_id = (s.next_id + 1) % 2 ^ 32) ∧
    (∀ c, ((cond_init c s).conds c).id = s.next_id ∧
      (cond_init c s).next_id = (s.next_id + 1) % 2 ^ 32) ∧
    (Reachable id_ok s →
      (∀ t, (s.threads t).id < ((thread_create h s).threads h).id) ∧
      (∀ m, (s.mutexes m).id < ((thread_create h s).threads h).id) ∧
      (∀ c, (s.conds c).id < ((thread_create h s).threads h).id)) := by
  obtain ⟨h1, h2, h3, h4, _, _, _, h8, h9, _, _, h12⟩ := thread_create_view h s
  have hid : ((thread_create h s).threads h).id = s.next_id := by
    rw [h12]
    simp
  refine ⟨by rw [h12]; simp, by rw [h12]; simp, hid, h9, h2, h1, h3, h4, h8, ?_, ?_, ?_, ?_⟩
  · intro t ht
    rw [h12, Function.update_noteq ht]
  · intro m
    simp [mutex_init]
  · intro c
    simp [cond_init]
  · intro hr
    rw [hid]
    exact reachable_rule IdsBelow id_ok
      (fun idle reaper _ _ _ _ _ => by
        obtain ⟨_, _, _, _, _, _, _, hn, _, hmu, hco, hst⟩ := thread_init_view idle reaper
        refine ⟨fun t => ?_, fun m => ?_, fun c => ?_⟩
        · rw [hn]
          exact (hst t).2.2
        · rw [hn, (hmu m).2]
          decide
        · rw [hn, hco c]
          decide)
      ids_below_step s hr

/-- The last part of `thread_create_spec` at the state where the kernel thread
has created thread 4 and initialised and locked mutex 7: the next thread gets
id 5, above the ids 0 to 4 issued so far. -/
theorem thread_create_spec_witness :
    ((thread_create 5 contended_state).threads 5).id = 5 ∧
    (∀ t, (contended_state.threads t).id < ((thread_create 5 contended_state).threads 5).id) ∧
    (∀ m, (contended_state.mutexes m).id < ((thread_create 5 contended_state).threads 5).id) ∧
    (∀ c, (contended_state.conds c).id < ((thread_create 5 contended_state).threads 5).id) :=
  ⟨by decide, (thread_create_spec 5 contended_state).2.2.2.2.2.2.2.2.2.2.2.2
    (reachable_of_trace_with id_ok id_ok_check
      (fun s c hc => by
        have hlt : s.next_id + 1 < 2 ^ 32 := by simpa [id_ok_check] using hc
        cases c <;> first | exact hlt | trivial)
      [.thread_create 4, .mutex_init 7, .mutex_lock 7, .thread_yield, .idle_loop,
        .reaper_entry, .mutex_lock 7] init_state contended_state
      (Reachable.init 2 3 (by decide) (by decide) (by decide) (by decide) (by decide)) rfl)⟩

/-! ## The ready queue is first in, first out -/

/-- What a call does to the ready queue: members are added at the tail, and
either the current thread stays, or `schedule` has taken the head of the queue
(the idle thread if it is empty) as the new current thread. -/
theorem fifo_step (c : call_t) (s s1 : Kernel) (he : exec c s = some s1) :
    ∃ l, (s1.run_queue = s.run_queue ++ l ∧ s1.current = s.current) ∨
      (s1.current = (s.run_queue ++ l).head?.getD s.idle_thread ∧
        s1.run_queue = (s.run_queue ++ l).tail) := by
  refine step_rule
    (fun x => ∃ l, x.run_queue = s.run_queue ++ l ∧ x.current = s.current ∧
      x.idle_thread = s.idle_thread)
    (fun x => ∃ l, (x.run_queue = s.run_queue ++ l ∧ x.current = s.current) ∨
      (x.current = (s.run_queue ++ l).head?.getD s.idle_thread ∧
        x.run_queue = (s.run_queue ++ l).tail))
    any_call ?_ ?_ ?_ ?_ ?_ ?_ ?_ ?_ ?_ ?_ ?_ ?_ ?_ ?_ ?_ ?_ s s1 c ⟨[], by simp⟩ trivial he
  · rintro x ⟨l, h1, h2, _⟩
    exact ⟨l, Or.inl ⟨h1, h2⟩⟩
  · rintro x b ⟨l, h⟩
    exact ⟨l, h⟩
  · rintro x m t ⟨l, h⟩
    exact ⟨l, h⟩
  · rintro x t f ⟨l, h⟩
    exact ⟨l, h⟩
  · rintro x t v ⟨l, h⟩
    exact ⟨l, h⟩
  · rintro k x x1 ⟨l, h1, h2, h3⟩ hw
    rcases wake_first_view k x x1 hw with ⟨_, rfl⟩ |
      ⟨t, _, _, _, hrq, _, _, hc, hi, _⟩
    · exact ⟨l, h1, h2, h3⟩
    · exact ⟨l ++ [t], by rw [hrq, h1, List.append_assoc], by rw [hc, h2], by rw [hi, h3]⟩
  · rintro x k ⟨l, h1, h2, h3⟩ _ _
    exact ⟨l, by simpa using h1, by simpa using h2, by simpa using h3⟩
  · rintro x ⟨l, h⟩ _
    exact ⟨l, h⟩
  · rintro x ⟨l, h⟩ _
    exact ⟨l, h⟩
  · rintro x ⟨l, h⟩ _ _
    exact ⟨l, h⟩
  · rintro x ⟨l, h⟩ _ _
    exact ⟨l, h⟩
  · rintro x h ⟨l, h1, h2, h3⟩ _
    obtain ⟨e1, _, _, e4, e5, _⟩ := thread_create_view h x
    exact ⟨l ++ [h], by rw [e1, h1, List.append_assoc], by rw [e4, h2], by rw [e5, h3]⟩
  · rintro x t ⟨l, h1, h2, h3⟩ _
    refine ⟨l ++ [t], ?_, h2, h3⟩
    show list_append t x.run_queue = _
    rw [list_append, h1, List.append_assoc]
  · rintro x m ⟨l, h⟩ _
    exact ⟨l, h⟩
  · rintro x c ⟨l, h⟩ _
    exact ⟨l, h⟩
  · rintro x x1 ⟨l, h1, h2, h3⟩ hsch
    obtain ⟨_, _, _, _, _, _, _, _, rq, hcur, hrq, hcase⟩ := schedule_view x x1 hsch
    rw [h3] at hcur
    rcases hcase with ⟨_, rfl, _⟩ | ⟨_, _, rfl, _⟩ | ⟨_, _, _, ⟨_, rfl, _⟩ | ⟨_, rfl, _⟩⟩
    · exact ⟨l, Or.inr ⟨by rw [hcur, h1], by rw [hrq, h1]⟩⟩
    · exact ⟨l ++ [x.current], Or.inr ⟨by rw [hcur, h1, List.append_assoc],
        by rw [hrq, h1, List.append_assoc]⟩⟩
    · exact ⟨l ++ [x.reaper_thread], Or.inr ⟨by rw [hcur, h1, List.append_assoc],
        by rw [hrq, h1, List.append_assoc]⟩⟩
    · exact ⟨l, Or.inr ⟨by rw [hcur, h1], by rw [hrq, h1]⟩⟩

/-- Along a run in which `a`, queued ahead of `b`, never is the current thread,
no call makes `b` the current thread. -/
theorem fifo_order : ∀ (cs : List call_t) (s : Kernel) (ss : List Kernel) (a b : thread_t)
    (l1 l2 : List thread_t), s.run_queue = l1 ++ a :: l2 → b ∉ l1 → b ≠ a →
    path cs s = some ss → (∀ y ∈ ss, y.current ≠ a) →
    List.Chain (fun x y => y.current = b → x.current = b) s ss := by
  intro cs
  induction cs with
  | nil =>
    intro s ss a b l1 l2 _ _ _ hp _
    simp only [path, Option.some.injEq] at hp
    subst hp
    exact List.Chain.nil
  | cons c cs ih =>
    intro s ss a b l1 l2 hq hb hba hp hna
    unfold path at hp
    split at hp
    · simp at hp
    · rename_i s1 he
      split at hp
      · simp at hp
      · rename_i ss1 hp1
        obtain rfl := Option.some.inj hp
        have hs1 : s1.current ≠ a := hna s1 (List.mem_cons_self _ _)
        have hrest : ∀ y ∈ ss1, y.current ≠ a := fun y hy => hna y (List.mem_cons_of_mem _ hy)
        obtain ⟨l, h | h⟩ := fifo_step c s s1 he
        · refine List.Chain.cons (fun e => h.2 ▸ e) ?_
          exact ih s1 ss1 a b l1 (l2 ++ l) (by rw [h.1, hq]; simp) hb hba hp1 hrest
        · cases l1 with
          | nil =>
            rw [hq] at h
            simp at h
            exact absurd h.1 hs1
          | cons x l1 =>
            rw [hq] at h
            simp only [List.cons_append, List.head?_cons, Option.getD_some, List.tail_cons] at h
            have hx : x ≠ b := fun e => hb (e ▸ List.mem_cons_self _ _)
            refine List.Chain.cons (fun e => absurd (h.1.symm.trans e) hx) ?_
            exact ih s1 ss1 a b l1 (l2 ++ l) (by rw [h.2]; simp)
              (fun hm => hb (List.mem_cons_of_mem _ hm)) hba hp1 hrest

/-- C4. The ready queue is first in, first out.  `thread_wake(t)` marks `t`
Runnable and appends it at the tail, leaving the other entries and the current
thread as they are; `thread_create`, `wake_first` and `wake_all` also only
append at the tail; `schedule` appends at the tail and then removes the head,
which becomes the current thread (the idle thread if the queue is empty); every
call either appends and keeps the current thread or, through `schedule`,
appends and makes the head current.  Hence, if `a` precedes `b` in the ready
queue, then along every run of calls in which `a` has not been the current
thread, no call makes `b` the current thread. -/
theorem ready_queue_fifo :
    (∀ t s, (thread_wake t s).run_queue = s.run_queue ++ [t] ∧
      ((thread_wake t s).threads t).status = RUNNABLE ∧
      (thread_wake t s).current = s.current) ∧
    (∀ h s, (thread_create h s).run_queue = s.run_queue ++ [h] ∧
      (thread_create h s).current = s.current) ∧
    (∀ k s s1, wake_first k s = some s1 →
      (∃ l, s1.run_queue = s.run_queue ++ l) ∧ s1.current = s.current) ∧
    (∀ k s s1, wake_all k s = some s1 →
      (∃ l, s1.run_queue = s.run_queue ++ l) ∧ s1.current = s.current) ∧
    (∀ s s1, schedule s = some s1 →
      ∃ l, s1.current = (s.run_queue ++ l).head?.getD s.idle_thread ∧
        s1.run_queue = (s.run_queue ++ l).tail) ∧
    (∀ c s s1, exec c s = some s1 →
      ∃ l, (s1.run_queue = s.run_queue ++ l ∧ s1.current = s.current) ∨
        (s1.current = (s.run_queue ++ l).head?.getD s.idle_thread ∧
          s1.run_queue = (s.run_queue ++ l).tail)) ∧
    (∀ (cs : List call_t) (s : Kernel) (ss : List Kernel) (a b : thread_t)
      (l1 l2 : List thread_t), s.run_queue = l1 ++ a :: l2 → b ∉ l1 → b ≠ a →
      path cs s = some ss → (∀ y ∈ ss, y.current ≠ a) →
      List.Chain (fun x y => y.current = b → x.current = b) s ss) := by
  have hwf : ∀ k s s1, wake_first k s = some s1 →
      (∃ l, s1.run_queue = s.run_queue ++ l) ∧ s1.current = s.current := by
    intro k s s1 hw
    rcases wake_first_view k s s1 hw with ⟨_, rfl⟩ | ⟨t, _, _, _, hrq, _, _, hc, _⟩
    · exact ⟨⟨[], by simp⟩, rfl⟩
    · exact ⟨⟨[t], hrq⟩, hc⟩
  refine ⟨?_, ?_, hwf, ?_, ?_, fifo_step, fifo_order⟩
  · intro t s
    refine ⟨by simp [thread_wake, list_append], by simp [thread_wake], rfl⟩
  · intro h s
    obtain ⟨e1, _, _, e4, _⟩ := thread_create_view h s
    exact ⟨e1, e4⟩
  · intro k s s1 hw
    unfold wake_all at hw
    exact wake_all_loop_keeps k
      (fun x => (∃ l, x.run_queue = s.run_queue ++ l) ∧ x.current = s.current)
      (fun x x1 hx hx1 => by
        obtain ⟨⟨l, h1⟩, h2⟩ := hx
        obtain ⟨⟨l', h3⟩, h4⟩ := hwf k x x1 hx1
        exact ⟨⟨l ++ l', by rw [h3, h1, List.append_assoc]⟩, by rw [h4, h2]⟩)
      _ s s1 ⟨⟨[], by simp⟩, rfl⟩ hw
  · intro s s1 hsch
    obtain ⟨_, _, _, _, _, _, _, _, rq, hcur, hrq, hcase⟩ := schedule_view s s1 hsch
    rcases hcase with ⟨_, rfl, _⟩ | ⟨_, _, rfl, _⟩ | ⟨_, _, _, ⟨_, rfl, _⟩ | ⟨_, rfl, _⟩⟩
    · exact ⟨[], by simpa using hcur, by simpa using hrq⟩
    · exact ⟨_, hcur, hrq⟩
    · exact ⟨_, hcur, hrq⟩
    · exact ⟨[], by simpa using hcur, by simpa using hrq⟩

/-- The last part of `ready_queue_fifo` at a concrete run: after `thread_init`
the ready queue is `[2, 3]`; the kernel thread creates thread 4 and yields, the
idle thread runs; while thread 3 has not been current, thread 4, queued behind
it, is not made current. -/
theorem ready_queue_fifo_witness :
    ∃ ss, path [.thread_create 4, .thread_yield] init_state = some ss ∧
      List.Chain (fun x y => y.current = 4 → x.current = 4) init_state ss := by
  obtain ⟨ss, hp⟩ : ∃ ss, path [.thread_create 4, .thread_yield] init_state = some ss :=
    ⟨_, rfl⟩
  refine ⟨ss, hp, ready_queue_fifo.2.2.2.2.2.2 _ init_state ss 3 4 [2] [] (by decide)
    (by decide) (by decide) hp ?_⟩
  intro y hy
  simp only [path] at hp
  obtain rfl := Option.some.inj hp
  simp only [List.mem_cons, List.mem_singleton, List.not_mem_nil, or_false] at hy
  rcases hy with rfl | rfl <;> decide

/-! ## Mutexes: trylock and destroy -/

theorem locked_state_reachable : Reachable any_call locked_state :=
  reachable_of_trace [.mutex_init 7, .mutex_lock 7] init_state locked_state
    init_state_reachable rfl

theorem two_waiters_state_reachable : Reachable any_call two_waiters_state :=
  reachable_of_trace [.thread_create 4, .thread_create 5, .mutex_init 7, .mutex_lock 7,
    .thread_yield, .idle_loop, .reaper_entry, .mutex_lock 7, .mutex_lock 7] init_state
    two_waiters_state init_state_reachable rfl

/-- C11. `mutex_trylock` returns 0 and makes the calling thread the owner
exactly when the owner was none; otherwise, also when the caller is the owner,
it returns -1 and leaves the owner as it was; in both cases the wait-queues, the
other mutexes, the ready queue, the current thread and the interrupt flag are
unchanged. -/
theorem mutex_trylock_spec (m : Nat) (s : Kernel) :
    ((mutex_trylock m s).1 = 0 ↔ (s.mutexes m).owner = 0) ∧
    ((s.mutexes m).owner = 0 →
      (mutex_trylock m s).1 = 0 ∧ ((mutex_trylock m s).2.mutexes m).owner = s.current) ∧
    ((s.mutexes m).owner ≠ 0 →
      (mutex_trylock m s).1 = -1 ∧
      ((mutex_trylock m s).2.mutexes m).owner = (s.mutexes m).owner) ∧
    (∀ k, waitqueue (mutex_trylock m s).2 k = waitqueue s k) ∧
    (∀ n, n ≠ m → (mutex_trylock m s).2.mutexes n = s.mutexes n) ∧
    (mutex_trylock m s).2.run_queue = s.run_queue ∧
    (mutex_trylock m s).2.current = s.current ∧
    (mutex_trylock m s).2.eflags_if = s.eflags_if := by
  unfold mutex_trylock interrupts_disable
  dsimp only
  by_cases h : (s.mutexes m).owner = 0
  · rw [if_pos h]
    refine ⟨by simp [h], fun _ => ⟨rfl, by simp⟩, fun hn => absurd h hn,
      fun k => by
        simp only [waitqueue_interrupts_restore, waitqueue_set_owner]
        cases k <;> rfl, fun n hn => ?_, by simp, by simp, ?_⟩
    · simp [set_owner, Function.update_noteq hn]
    · unfold interrupts_restore interrupts_enable
      cases hf : s.eflags_if <;> simp [hf]
  · rw [if_neg h]
    refine ⟨by simp [h], fun h0 => absurd h0 h, fun _ => ⟨rfl, by simp⟩,
      fun k => by
        simp only [waitqueue_interrupts_restore, waitqueue_set_owner]
        cases k <;> rfl, fun n _ => by simp, by simp, by simp, ?_⟩
    unfold interrupts_restore interrupts_enable
    cases hf : s.eflags_if <;> simp [hf]

/-- The two cases of `mutex_trylock_spec` at the state where the kernel thread
(thread 1) owns mutex 7: on mutex 8, which nobody owns, the call succeeds; on
mutex 7 it fails, although the caller is the owner. -/
theorem mutex_trylock_spec_witness :
    ((mutex_trylock 8 locked_state).1 = 0 ∧
      ((mutex_trylock 8 locked_state).2.mutexes 8).owner = 1) ∧
    ((mutex_trylock 7 locked_state).1 = -1 ∧
      ((mutex_trylock 7 locked_state).2.mutexes 7).owner = 1) :=
  ⟨(mutex_trylock_spec 8 locked_state).2.1 (by decide),
    (mutex_trylock_spec 7 locked_state).2.2.1 (by decide)⟩

/-- C16, counterexample. At the state where the kernel thread has locked mutex
7 and not unlocked it, which is reachable, the mutex has an owner and an empty
wait-queue, and `mutex_destroy` returns without an assertion failure. -/
theorem destroy_held_counterexample :
    Reachable any_call locked_state ∧ (locked_state.mutexes 7).owner ≠ 0 ∧
    (locked_state.mutexes 7).waitqueue_head = [] ∧
    mutex_destroy 7 locked_state = some locked_state :=
  ⟨locked_state_reachable, by decide, by decide, by
    have h : (locked_state.mutexes 7).waitqueue_head = [] := by decide
    simp [mutex_destroy, list_empty, h]⟩

/-- C16, amended. Calling `mutex_destroy` on a mutex that is locked (owner not
none) and has not been unlocked fires the assertion exactly when the wait-queue
is not empty; when the wait-queue is empty the call returns with nothing
changed: the assertion tests the wait-queue only, not the owner. -/
theorem mutex_destroy_held (m : Nat) (s : Kernel) (_ : (s.mutexes m).owner ≠ 0) :
    ((s.mutexes m).waitqueue_head = [] → mutex_destroy m s = some s) ∧
    ((s.mutexes m).waitqueue_head ≠ [] → mutex_destroy m s = none) := by
  unfold mutex_destroy list_empty
  constructor
  · intro h
    simp [h]
  · intro h
    cases hq : (s.mutexes m).waitqueue_head with
    | nil => exact absurd hq h
    | cons a l => simp

/-- The two cases of `mutex_destroy_held`: mutex 7 held by the kernel thread
with nobody waiting, and with threads 4 and 5 waiting. -/
theorem mutex_destroy_held_witness :
    mutex_destroy 7 locked_state = some locked_state ∧
    mutex_destroy 7 two_waiters_state = none :=
  ⟨(mutex_destroy_held 7 locked_state (by decide)).1 (by decide),
    (mutex_destroy_held 7 two_waiters_state (by decide)).2 (by decide)⟩

/-- C17. `mutex_destroy` and `cond_destroy` return, without assertion failure,
if and only if the wait-queue of the object is empty at the call, and then the
state they return is the state they were called in. -/
theorem destroy_spec (a : Nat) (s : Kernel) :
    ((∃ s1, mutex_destroy a s = some s1) ↔ (s.mutexes a).waitqueue_head = []) ∧
    (∀ s1, mutex_destroy a s = some s1 → s1 = s) ∧
    ((∃ s1, cond_destroy a s = some s1) ↔ (s.conds a).waitqueue_head = []) ∧
    (∀ s1, cond_destroy a s = some s1 → s1 = s) := by
  unfold mutex_destroy cond_destroy list_empty
  refine ⟨?_, ?_, ?_, ?_⟩
  · cases hq : (s.mutexes a).waitqueue_head <;> simp
  · intro s1 h
    split at h
    · exact (Option.some.inj h).symm
    · simp at h
  · cases hq : (s.conds a).waitqueue_head <;> simp
  · intro s1 h
    split at h
    · exact (Option.some.inj h).symm
    · simp at h

/-- The theorem `destroy_spec` at the state with two waiters on mutex 7:
`mutex_destroy(7)` halts; a call that returns, here `cond_destroy(9)`, returns
the same state. -/
theorem destroy_spec_witness :
    (¬ ∃ s1, mutex_destroy 7 two_waiters_state = some s1) ∧
    cond_destroy 9 two_waiters_state = some two_waiters_state := by
  refine ⟨?_, ?_⟩
  · rw [(destroy_spec 7 two_waiters_state).1]
    decide
  · obtain ⟨s1, h1⟩ := (destroy_spec 9 two_waiters_state).2.2.1.mpr (by decide)
    rw [h1, (destroy_spec 9 two_waiters_state).2.2.2 s1 h1]

/-! ## Mutexes: the ownership assertions -/

theorem schedule_result_returns (s : Kernel) : (schedule_result s).returns = schedule s := by
  unfold schedule_result schedule
  dsimp only
  cases schedule_dispose (interrupts_disable s).2 <;> rfl

theorem wait_on_result_returns (k : head_t) (s : Kernel) :
    (wait_on_result k s).returns = wait_on k s := by
  unfold wait_on_result wait_on
  exact schedule_result_returns _

theorem wake_first_result_returns (k : head_t) (s : Kernel) :
    (wake_first_result k s).returns = wake_first k s := by
  unfold wake_first_result wake_first
  split
  · rfl
  · dsimp only
    split <;> rfl

theorem mutex_lock_result_returns (m : Nat) (s : Kernel) :
    (mutex_lock_result m s).returns = mutex_lock m s := by
  unfold mutex_lock_result mutex_lock mutex_lock_loop
  dsimp only
  split
  · rfl
  · split
    · exact wait_on_result_returns _ _
    · rfl

theorem mutex_unlock_result_returns (m : Nat) (s : Kernel) :
    (mutex_unlock_result m s).returns = mutex_unlock m s := by
  unfold mutex_unlock_result mutex_unlock
  dsimp only
  split
  · rw [← wake_first_result_returns]
    cases wake_first_result (.mutex m) (interrupts_disable s).2 <;> rfl
  · rfl

/-- A thread that has just been marked Blocked does not reach the `assert(0)`
of `schedule`. -/
theorem wait_on_result_returned (k : head_t) (s : Kernel) :
    ∃ s1, wait_on_result k s = .returned s1 := by
  unfold wait_on_result schedule_result interrupts_disable
  dsimp only
  have h : ∃ x, schedule_dispose { set_status (set_waitqueue s k (list_append s.current
      (waitqueue s k))) (set_waitqueue s k (list_append s.current (waitqueue s k))).current
      BLOCKED with eflags_if := false } = some x := by
    unfold schedule_dispose
    dsimp only
    split
    · simp [RUNNABLE, BLOCKED]
    · exact ⟨_, rfl⟩
  obtain ⟨x, hx⟩ := h
  rw [hx]
  exact ⟨_, rfl⟩


/-- The only assertion that can fail in `wake_first` is the one of line 250. -/
theorem wake_first_result_line (k : head_t) (s : Kernel) (l : Nat) (s1 : Kernel)
    (h : wake_first_result k s = .halted l s1) : l = 250 := by
  unfold wake_first_result at h
  split at h
  · cases h
  · dsimp only at h
    split at h
    · cases h
    · injection h with h1 _
      exact h1.symm

/-- C15. The ownership assertions.  `mutex_lock` halts in a failing assertion
exactly when the caller is the owner of the mutex at entry, and then at its own
assertion (line 299); in every other case it returns or blocks.  `mutex_unlock`
halts at its own assertion (line 329) exactly when the caller is not the owner,
which includes a mutex with no owner.  In both failing cases the state at the
assertion has the mutexes (owners and wait-queues), the condition variables,
the ready queue and the threads (so the status of every waiter) as they were
at the call.  Forgetting the halting state gives `mutex_lock` and
`mutex_unlock`. -/
theorem ownership_assertions (m : Nat) (s : Kernel) :
    ((∃ l s1, mutex_lock_result m s = .halted l s1) ↔ (s.mutexes m).owner = s.current) ∧
    (∀ l s1, mutex_lock_result m s = .halted l s1 →
      l = 299 ∧ s1.mutexes = s.mutexes ∧ s1.conds = s.conds ∧
      s1.run_queue = s.run_queue ∧ s1.threads = s.threads) ∧
    ((∃ s1, mutex_unlock_result m s = .halted 329 s1) ↔ (s.mutexes m).owner ≠ s.current) ∧
    (∀ s1, mutex_unlock_result m s = .halted 329 s1 →
      s1.mutexes = s.mutexes ∧ s1.conds = s.conds ∧
      s1.run_queue = s.run_queue ∧ s1.threads = s.threads) ∧
    ((s.mutexes m).owner = 0 → s.current ≠ 0 →
      ∃ s1, mutex_unlock_result m s = .halted 329 s1) ∧
    (mutex_lock_result m s).returns = mutex_lock m s ∧
    (mutex_unlock_result m s).returns = mutex_unlock m s := by
  have hlock : ∀ l s1, mutex_lock_result m s = .halted l s1 →
      (s.mutexes m).owner = s.current ∧ l = 299 ∧ s1 = { s with eflags_if := false } := by
    intro l s1 h
    unfold mutex_lock_result interrupts_disable at h
    dsimp only at h
    split at h
    · rename_i e
      injection h with h1 h2
      exact ⟨e, h1.symm, h2.symm⟩
    · split at h
      · obtain ⟨x, hx⟩ := wait_on_result_returned (.mutex m)
          (push_frame (.mutex_lock m (if s.eflags_if then 0x200 else 0))
            { s with eflags_if := false })
        rw [hx] at h
        cases h
      · cases h
  have hunlock : ∀ s1, mutex_unlock_result m s = .halted 329 s1 →
      (s.mutexes m).owner ≠ s.current ∧ s1 = { s with eflags_if := false } := by
    intro s1 h
    unfold mutex_unlock_result interrupts_disable at h
    dsimp only at h
    split at h
    · cases hw : wake_first_result (.mutex m) { s with eflags_if := false } with
      | returned x =>
        rw [hw] at h
        cases h
      | halted l x =>
        rw [hw] at h
        injection h with h1 _
        have h250 := wake_first_result_line _ _ l x hw
        omega
    · rename_i e
      injection h with _ h2
      exact ⟨e, h2.symm⟩
  have hhalt : (s.mutexes m).owner ≠ s.current →
      mutex_unlock_result m s = .halted 329 { s with eflags_if := false } := by
    intro e
    unfold mutex_unlock_result interrupts_disable
    dsimp only
    rw [if_neg e]
  refine ⟨⟨?_, ?_⟩, ?_, ⟨?_, ?_⟩, ?_, ?_, mutex_lock_result_returns m s,
    mutex_unlock_result_returns m s⟩
  · rintro ⟨l, s1, h⟩
    exact (hlock l s1 h).1
  · intro e
    refine ⟨299, { s with eflags_if := false }, ?_⟩
    unfold mutex_lock_result interrupts_disable
    dsimp only
    rw [if_pos e]
  · intro l s1 h
    obtain ⟨_, h1, rfl⟩ := hlock l s1 h
    exact ⟨h1, rfl, rfl, rfl, rfl⟩
  · rintro ⟨s1, h⟩
    exact (hunlock s1 h).1
  · intro e
    exact ⟨_, hhalt e⟩
  · intro s1 h
    obtain ⟨_, rfl⟩ := hunlock s1 h
    exact ⟨rfl, rfl, rfl, rfl⟩
  · intro e hc
    exact ⟨_, hhalt (fun h => hc (h.symm.trans e))⟩

/-- The theorem `ownership_assertions` at the state where the kernel thread
(thread 1) owns mutex 7 and mutex 8 has no owner: `mutex_lock(7)` halts, and
`mutex_unlock(8)` halts at line 329. -/
theorem ownership_assertions_witness :
    (∃ l s1, mutex_lock_result 7 locked_state = .halted l s1) ∧
    (∃ s1, mutex_unlock_result 8 locked_state = .halted 329 s1) :=
  ⟨(ownership_assertions 7 locked_state).1.mpr (by decide),
    (ownership_assertions 8 locked_state).2.2.2.2.1 (by decide) (by decide)⟩

/-! ## Mutexes: unlock wakes the first waiter only -/

theorem released_state_reachable : Reachable any_call released_state :=
  reachable_of_trace [.thread_create 4, .thread_create 5, .mutex_init 7, .mutex_lock 7,
    .thread_yield, .idle_loop, .reaper_entry, .mutex_lock 7, .mutex_lock 7, .mutex_unlock 7]
    init_state released_state init_state_reachable rfl

/-- The pair `interrupts_disable`, `interrupts_restore` leaves the state as it was. -/
theorem interrupts_disable_restore (s : Kernel) :
    interrupts_restore (interrupts_disable s).1 (interrupts_disable s).2 = s := by
  unfold interrupts_restore interrupts_disable interrupts_enable
  cases s with
  | mk a b c d e f g h i j k l =>
    cases h <;> simp

/-- What `mutex_unlock` does when it returns. -/
theorem mutex_unlock_view (m : Nat) (s s1 : Kernel) (h : mutex_unlock m s = some s1) :
    (s.mutexes m).owner = s.current ∧ (s1.mutexes m).owner = 0 ∧
    s1.eflags_if = s.eflags_if ∧ s1.current = s.current ∧
    (∀ n, n ≠ m → (s1.mutexes n).owner = (s.mutexes n).owner) ∧
    ((waitqueue s (.mutex m) = [] ∧ s1.run_queue = s.run_queue ∧
        (∀ k, waitqueue s1 k = waitqueue s k) ∧
        ∀ u, (s1.threads u).status = (s.threads u).status) ∨
      ∃ t l, waitqueue s (.mutex m) = t :: l ∧ (s.threads t).status = BLOCKED ∧
        s1.run_queue = s.run_queue ++ [t] ∧
        (∀ j, waitqueue s1 j = if j = .mutex m then l else waitqueue s j) ∧
        ∀ u, (s1.threads u).status = if u = t then RUNNABLE else (s.threads u).status) := by
  unfold mutex_unlock at h
  dsimp only at h
  split at h
  swap
  · simp at h
  rename_i ho
  split at h
  · simp at h
  rename_i x hw
  obtain rfl := Option.some.inj h
  have hif : (interrupts_restore (interrupts_disable s).1 (set_owner x m 0)).eflags_if
      = s.eflags_if := by
    have hx : x.eflags_if = false := by
      rcases wake_first_view _ _ _ hw with ⟨_, rfl⟩ | ⟨_, _, _, _, _, _, _, _, _, _, _, _, _, e, _⟩
      · rfl
      · exact e
    unfold interrupts_restore interrupts_disable interrupts_enable
    cases hf : s.eflags_if <;> simp [hx]
  have hon : ∀ n, n ≠ m → ((set_owner x m 0).mutexes n).owner = (x.mutexes n).owner := by
    intro n hn
    simp [hn]
  refine ⟨ho, by simp, hif, ?_, ?_, ?_⟩
  · simpa [interrupts_disable] using (wake_first_same _ _ _ hw).1
  · intro n hn
    rcases wake_first_view _ _ _ hw with ⟨_, rfl⟩ |
      ⟨_, _, _, _, _, _, _, _, _, _, _, _, _, _, _, _, e, _⟩
    · simp [hn, interrupts_disable]
    · simp only [interrupts_restore_mutexes, hon n hn, (e n).1]
      rfl
  · rcases wake_first_view _ _ _ hw with ⟨hq, rfl⟩ |
      ⟨t, l, hq, hb, hrq, hwq, _, _, _, _, _, _, _, _, hst, _⟩
    · left
      refine ⟨?_, by simp [interrupts_disable], fun k => ?_, fun u => by simp [interrupts_disable]⟩
      · simpa [waitqueue, interrupts_disable] using hq
      · simp only [waitqueue_interrupts_restore, waitqueue_set_owner]
        cases k <;> rfl
    · right
      refine ⟨t, l, ?_, ?_, ?_, fun j => ?_, fun u => ?_⟩
      · simpa [waitqueue, interrupts_disable] using hq
      · simpa [interrupts_disable] using hb
      · simpa [interrupts_disable] using hrq
      · simp only [waitqueue_interrupts_restore, waitqueue_set_owner, hwq]
        split
        · rfl
        · cases j <;> rfl
      · simp only [interrupts_restore_threads, set_owner_threads, hst]
        rfl

/-- The function `mutex_unlock` returns when the caller is the owner and the
first waiter, if there is one, is Blocked. -/
theorem mutex_unlock_returns (m : Nat) (s : Kernel) (ho : (s.mutexes m).owner = s.current)
    (hb : ∀ t l, waitqueue s (.mutex m) = t :: l → (s.threads t).status = BLOCKED) :
    ∃ s1, mutex_unlock m s = some s1 := by
  unfold mutex_unlock
  dsimp only
  rw [if_pos (by simpa [interrupts_disable] using ho)]
  have hw : ∃ x, wake_first (.mutex m) (interrupts_disable s).2 = some x := by
    unfold wake_first
    split
    · exact ⟨_, rfl⟩
    · rename_i t l hq
      have hq1 : waitqueue s (.mutex m) = t :: l := by
        simpa [waitqueue, interrupts_disable] using hq
      dsimp only
      rw [if_pos (by simpa [interrupts_disable] using hb t l hq1)]
      exact ⟨_, rfl⟩
  obtain ⟨x, hx⟩ := hw
  rw [hx]
  exact ⟨_, rfl⟩

/-- C12, counterexample. In the state where the kernel thread owns mutex 7 and
threads 4 and 5 wait for it, which is reachable, `mutex_unlock(7)` by the owner
returns with owner none and thread 5 still in the wait-queue; the state it
returns in is reachable, and there no call of `mutex_unlock` is in progress. -/
theorem unlock_leaves_waiters_counterexample :
    Reachable any_call two_waiters_state ∧
    (two_waiters_state.mutexes 7).owner = two_waiters_state.current ∧
    waitqueue two_waiters_state (.mutex 7) = [4, 5] ∧
    mutex_unlock 7 two_waiters_state = some released_state ∧
    Reachable any_call released_state ∧
    (released_state.mutexes 7).owner = 0 ∧ waitqueue released_state (.mutex 7) = [5] ∧
    (released_state.threads released_state.current).frames = [] :=
  ⟨two_waiters_state_reachable, by decide, by decide, rfl, released_state_reachable,
    by decide, by decide, by decide⟩

/-- C12, amended. When `mutex_unlock` is called by the owner, with any number
of threads waiting, it returns (provided the first waiter is Blocked, as the
assertion of `wake_first` requires) with owner none and with the wait-queue of
the call less its first thread: that thread alone has been made Runnable and
appended to the ready queue, the other waiters stay in the wait-queue.  So the
wait-queue is empty when `mutex_unlock` returns exactly when at most one thread
was waiting. -/
theorem mutex_unlock_wakes_head (m : Nat) (s : Kernel)
    (ho : (s.mutexes m).owner = s.current)
    (hb : ∀ t l, waitqueue s (.mutex m) = t :: l → (s.threads t).status = BLOCKED) :
    ∃ s1, mutex_unlock m s = some s1 ∧ (s1.mutexes m).owner = 0 ∧
      waitqueue s1 (.mutex m) = (waitqueue s (.mutex m)).tail ∧
      s1.run_queue = s.run_queue ++ (waitqueue s (.mutex m)).take 1 ∧
      (∀ u, (s1.threads u).status =
        if u ∈ (waitqueue s (.mutex m)).take 1 then RUNNABLE else (s.threads u).status) ∧
      (waitqueue s1 (.mutex m) = [] ↔ (waitqueue s (.mutex m)).length ≤ 1) := by
  obtain ⟨s1, h1⟩ := mutex_unlock_returns m s ho hb
  obtain ⟨_, h0, _, _, _, hcase⟩ := mutex_unlock_view m s s1 h1
  refine ⟨s1, h1, h0, ?_⟩
  rcases hcase with ⟨hq, hrq, hwq, hst⟩ | ⟨t, l, hq, _, hrq, hwq, hst⟩
  · rw [hwq, hq, hrq]
    simp [hst]
  · rw [hwq, hq, hrq]
    refine ⟨by simp, by simp, fun u => ?_, ?_⟩
    · rw [hst]
      simp
    · cases l <;> simp

/-- The theorem `mutex_unlock_wakes_head` at the state with the waiters 4 and
5 on mutex 7: after `mutex_unlock(7)` thread 5 still waits. -/
theorem mutex_unlock_wakes_head_witness :
    ∃ s1, mutex_unlock 7 two_waiters_state = some s1 ∧ (s1.mutexes 7).owner = 0 ∧
      waitqueue s1 (.mutex 7) = [5] ∧ s1.run_queue = two_waiters_state.run_queue ++ [4] := by
  obtain ⟨s1, h1, h2, h3, h4, _⟩ := mutex_unlock_wakes_head 7 two_waiters_state (by decide)
    (by
      intro t l h
      have h2 : waitqueue two_waiters_state (.mutex 7) = [4, 5] := by decide
      rw [h2] at h
      injection h with e _
      subst e
      decide)
  have hq : waitqueue two_waiters_state (.mutex 7) = [4, 5] := by decide
  rw [hq] at h3 h4
  exact ⟨s1, h1, h2, h3, h4⟩

/-! ## Mutexes: lock followed by unlock -/

/-- C13, counterexample. In the reachable state where mutex 7 has no owner and
thread 5 waits for it, `mutex_lock(7)` followed at once by `mutex_unlock(7)`
leaves the wait-queue empty and thread 5 on the ready queue, where before the
pair the wait-queue was `[5]` and the ready queue `[4]`. -/
theorem lock_unlock_counterexample :
    Reachable any_call released_state ∧ (released_state.mutexes 7).owner = 0 ∧
    ∃ s1 s2, mutex_lock 7 released_state = some s1 ∧ mutex_unlock 7 s1 = some s2 ∧
      waitqueue released_state (.mutex 7) = [5] ∧ waitqueue s2 (.mutex 7) = [] ∧
      released_state.run_queue = [4] ∧ s2.run_queue = [4, 5] :=
  ⟨released_state_reachable, by decide, _, _, rfl, rfl, by decide, by decide, by decide,
    by decide⟩

/-- C13, amended. For every mutex whose owner is none and whose wait-queue is
empty, and every calling thread (a thread record, not the null pointer),
`mutex_lock` returns without blocking, with the caller as owner, and the
`mutex_unlock` that follows returns in the state before the pair: the owner and
the wait-queue of the mutex, the ready queue and everything else are exactly as
they were. -/
theorem lock_unlock_restores (m : Nat) (s : Kernel) (ho : (s.mutexes m).owner = 0)
    (hc : s.current ≠ 0) (hq : (s.mutexes m).waitqueue_head = []) :
    ∃ s1, mutex_lock m s = some s1 ∧ (s1.mutexes m).owner = s.current ∧
      s1.run_queue = s.run_queue ∧ s1.current = s.current ∧ mutex_unlock m s1 = some s := by
  have hne : ¬ (s.mutexes m).owner = s.current := fun e => hc (e.symm.trans ho)
  have hjm : ({ waitqueue_head := [], owner := 0, id := (s.mutexes m).id } : mutex_t)
      = s.mutexes m := by
    cases hx : s.mutexes m with
    | mk w o n =>
      rw [hx] at ho hq
      simp only at ho hq
      rw [ho, hq]
  have hl : mutex_lock m s = some (interrupts_restore (interrupts_disable s).1
      (set_owner (interrupts_disable s).2 m s.current)) := by
    unfold mutex_lock mutex_lock_loop
    dsimp only
    rw [if_neg (by simpa [interrupts_disable] using hne),
      if_neg (by simp [interrupts_disable, ho])]
    rfl
  refine ⟨_, hl, by simp, by simp [interrupts_disable], by simp [interrupts_disable], ?_⟩
  cases s with
  | mk a b c d e f g h i j k l =>
    simp only at hq hjm
    cases h <;>
      simp [mutex_unlock, interrupts_disable, interrupts_restore, interrupts_enable,
        set_owner, wake_first, waitqueue, hq, hjm]

/-- The theorem `lock_unlock_restores` at the state after `thread_init`, on
mutex 7. -/
theorem lock_unlock_restores_witness :
    ∃ s1, mutex_lock 7 init_state = some s1 ∧ (s1.mutexes 7).owner = init_state.current ∧
      s1.run_queue = init_state.run_queue ∧ s1.current = init_state.current ∧
      mutex_unlock 7 s1 = some init_state :=
  lock_unlock_restores 7 init_state (by decide) (by decide) (by decide)

/-! ## Broadcast: `wake_all` is `wake_first` repeated -/

/-- The function `wake_first` returns when the first waiter is Blocked. -/
theorem wake_first_returns (k : head_t) (s : Kernel) (t : thread_t) (l : List thread_t)
    (hq : waitqueue s k = t :: l) (hb : (s.threads t).status = BLOCKED) :
    ∃ s1, wake_first k s = some s1 := by
  unfold wake_first
  rw [hq]
  dsimp only
  rw [if_pos (by simpa using hb)]
  exact ⟨_, rfl⟩

theorem wake_all_loop_nil (k : head_t) (n : Nat) (s : Kernel) (hq : waitqueue s k = []) :
    wake_all_loop k n s = some s := by
  cases n with
  | zero => simp [wake_all_loop, list_empty, hq]
  | succ n => rw [wake_all_loop_succ, hq]

/-- The loop of `wake_all` and the repetition of `wake_first` agree at every
fuel. -/
theorem wake_all_loop_repeat (k : head_t) :
    ∀ n s, wake_all_loop k n s = wake_first_until_empty k n s := by
  intro n
  induction n with
  | zero =>
    intro s
    rfl
  | succ n ih =>
    intro s
    rw [wake_all_loop_succ, wake_first_until_empty]
    cases hq : waitqueue s k with
    | nil => simp [list_empty]
    | cons t l =>
      simp only [list_empty, List.isEmpty_cons, Bool.false_eq_true, if_false]
      cases wake_first k s with
      | none => rfl
      | some s1 => exact ih s1

/-- With as many iterations as the wait-queue is long, or more, the loop of
`wake_all` does not run out of fuel. -/
theorem wake_all_loop_enough (k : head_t) : ∀ (w : List thread_t) (s : Kernel) (n : Nat),
    waitqueue s k = w → w.length ≤ n → wake_all_loop k n s = wake_all_loop k w.length s := by
  intro w
  induction w with
  | nil =>
    intro s n hq _
    rw [wake_all_loop_nil k n s hq, wake_all_loop_nil k _ s hq]
  | cons t l ih =>
    intro s n hq hn
    cases n with
    | zero => simp at hn
    | succ n =>
      rw [List.length_cons, wake_all_loop_succ, wake_all_loop_succ, hq]
      dsimp only
      cases hw : wake_first k s with
      | none => rfl
      | some s1 =>
        rcases wake_first_view k s s1 hw with ⟨e, _⟩ | ⟨t1, l1, e, _, _, hwq, _⟩
        · rw [hq] at e
          cases e
        · rw [hq] at e
          injection e with e1 e2
          subst e1 e2
          exact ih s1 n (by simp [hwq]) (by simpa using hn)

/-- What the loop of `wake_all` does to a wait-queue of distinct Blocked
threads. -/
theorem wake_all_loop_view (k : head_t) : ∀ (w : List thread_t) (s : Kernel),
    waitqueue s k = w → w.Nodup → (∀ t ∈ w, (s.threads t).status = BLOCKED) →
    ∃ s1, wake_all_loop k w.length s = some s1 ∧ waitqueue s1 k = [] ∧
      s1.run_queue = s.run_queue ++ w ∧
      (∀ u, (s1.threads u).status = if u ∈ w then RUNNABLE else (s.threads u).status) ∧
      (∀ j, j ≠ k → waitqueue s1 j = waitqueue s j) ∧
      s1.current = s.current ∧ s1.eflags_if = s.eflags_if ∧
      s1.zombie_list = s.zombie_list ∧
      ∀ m, (s1.mutexes m).owner = (s.mutexes m).owner := by
  intro w
  induction w with
  | nil =>
    intro s hq _ _
    exact ⟨s, wake_all_loop_nil k _ s hq, hq, by simp, by simp, fun _ _ => rfl, rfl, rfl, rfl,
      fun _ => rfl⟩
  | cons t l ih =>
    intro s hq hn hb
    obtain ⟨s1, hw⟩ := wake_first_returns k s t l hq (hb t (List.mem_cons_self t l))
    rcases wake_first_view k s s1 hw with ⟨e, _⟩ |
      ⟨t1, l1, e, _, hrq, hwq, hz, hc, _, _, _, _, _, hif, hst, _, hmu, _⟩
    · rw [hq] at e
      cases e
    rw [hq] at e
    injection e with e1 e2
    subst e1 e2
    have hn2 := List.nodup_cons.mp hn
    obtain ⟨s2, h2, hq2, hrq2, hst2, hwq2, hc2, hif2, hz2, hmu2⟩ := ih s1 (by simp [hwq]) hn2.2
      (by
        intro u hu
        rw [hst, if_neg (fun (e : u = t) => hn2.1 (e ▸ hu))]
        exact hb u (List.mem_cons_of_mem _ hu))
    refine ⟨s2, ?_, hq2, ?_, ?_, ?_, hc2.trans hc, hif2.trans hif, hz2.trans hz, ?_⟩
    · rw [List.length_cons, wake_all_loop_succ, hq]
      dsimp only
      rw [hw]
      exact h2
    · rw [hrq2, hrq, List.append_assoc, List.singleton_append]
    · intro u
      rw [hst2, hst]
      by_cases e1 : u = t
      · simp [e1]
      · by_cases e2 : u ∈ l <;> simp [e1, e2]
    · intro j hj
      rw [hwq2 j hj, hwq, if_neg hj]
    · intro m
      rw [hmu2, (hmu m).1]

theorem waitqueue_interrupts_disable (s : Kernel) (k : head_t) :
    waitqueue (interrupts_disable s).2 k = waitqueue s k := by
  cases k <;> rfl

/-- C19. `cond_broadcast` (`wake_all`) terminates and produces the state
reached by applying `wake_first` repeatedly until the wait-queue is empty: the
loop of `wake_all` agrees with the repetition of `wake_first` at every bound on
the number of iterations, and as many iterations as the wait-queue is long, or
more, give the result of `wake_all`.  When the waiters are distinct and Blocked
(otherwise the assertion of line 269 halts the loop), `wake_all` and
`cond_broadcast` return: the wait-queue ends empty, every former waiter is
Runnable, the waiters are appended to the ready queue in their wait-queue
order, and the other threads, the other wait-queues, the current thread and
the interrupt flag are as before.  On an empty condition variable
`cond_broadcast` changes nothing. -/
theorem wake_all_refines (s : Kernel) :
    (∀ k n, wake_all_loop k n s = wake_first_until_empty k n s) ∧
    (∀ k n, (waitqueue s k).length ≤ n → wake_first_until_empty k n s = wake_all k s) ∧
    (∀ k, (waitqueue s k).Nodup → (∀ t ∈ waitqueue s k, (s.threads t).status = BLOCKED) →
      ∃ s1, wake_all k s = some s1 ∧ waitqueue s1 k = [] ∧
        s1.run_queue = s.run_queue ++ waitqueue s k ∧
        (∀ u, (s1.threads u).status =
          if u ∈ waitqueue s k then RUNNABLE else (s.threads u).status) ∧
        (∀ j, j ≠ k → waitqueue s1 j = waitqueue s j) ∧ s1.current = s.current) ∧
    (∀ c, (waitqueue s (.cond c)).Nodup →
      (∀ t ∈ waitqueue s (.cond c), (s.threads t).status = BLOCKED) →
      ∃ s1, cond_broadcast c s = some s1 ∧ waitqueue s1 (.cond c) = [] ∧
        s1.run_queue = s.run_queue ++ waitqueue s (.cond c) ∧
        (∀ u, (s1.threads u).status =
          if u ∈ waitqueue s (.cond c) then RUNNABLE else (s.threads u).status) ∧
        (∀ j, j ≠ .cond c → waitqueue s1 j = waitqueue s j) ∧ s1.current = s.current ∧
        s1.eflags_if = s.eflags_if) ∧
    (∀ c, waitqueue s (.cond c) = [] → cond_broadcast c s = some s) := by
  refine ⟨fun k n => wake_all_loop_repeat k n s, ?_, ?_, ?_, ?_⟩
  · intro k n hn
    rw [← wake_all_loop_repeat]
    exact wake_all_loop_enough k _ s n rfl hn
  · intro k hn hb
    obtain ⟨s1, h1, h2, h3, h4, h5, h6, _⟩ := wake_all_loop_view k _ s rfl hn hb
    exact ⟨s1, h1, h2, h3, h4, h5, h6⟩
  · intro c hn hb
    have hq := waitqueue_interrupts_disable s (.cond c)
    obtain ⟨s1, h1, h2, h3, h4, h5, h6, h7, _⟩ :=
      wake_all_loop_view (.cond c) _ (interrupts_disable s).2 hq hn hb
    have hwa : wake_all (.cond c) (interrupts_disable s).2 = some s1 := by
      unfold wake_all
      rw [hq]
      exact h1
    refine ⟨interrupts_restore (interrupts_disable s).1 s1, ?_, by simpa using h2,
      by simpa using h3, fun u => by simpa using h4 u, fun j hj => ?_, by simpa using h6, ?_⟩
    · unfold cond_broadcast
      dsimp only
      rw [hwa]
    · rw [waitqueue_interrupts_restore, h5 j hj]
      exact waitqueue_interrupts_disable s j
    · have h8 : s1.eflags_if = false := h7
      unfold interrupts_restore interrupts_disable interrupts_enable
      cases hf : s.eflags_if <;> simp [h8]
  · intro c hq
    unfold cond_broadcast wake_all
    dsimp only
    rw [wake_all_loop_nil _ _ _ ((waitqueue_interrupts_disable s (.cond c)).trans hq)]
    exact congrArg some (interrupts_disable_restore s)

/-- The theorem `wake_all_refines` at the state where threads 4 and 5 wait on
condition variable 9: `cond_broadcast(9)` empties the wait-queue and appends 4
and 5, in that order, to the ready queue. -/
theorem wake_all_refines_witness :
    ∃ s1, cond_broadcast 9 cond_waiters_state = some s1 ∧ waitqueue s1 (.cond 9) = [] ∧
      s1.run_queue = cond_waiters_state.run_queue ++ [4, 5] ∧
      (s1.threads 4).status = RUNNABLE ∧ (s1.threads 5).status = RUNNABLE := by
  have hq : waitqueue cond_waiters_state (.cond 9) = [4, 5] := by decide
  obtain ⟨s1, h1, h2, h3, h4, _⟩ := (wake_all_refines cond_waiters_state).2.2.2.1 9
    (by rw [hq]; decide)
    (by
      rw [hq]
      intro t ht
      simp only [List.mem_cons, List.mem_singleton, List.not_mem_nil, or_false] at ht
      rcases ht with rfl | rfl <;> decide)
  rw [hq] at h3 h4
  exact ⟨s1, h1, h2, h3, by simpa using h4 4, by simpa using h4 5⟩

/-! ## Condition variables: release and block with interrupts off -/

/-- The last of the states of `wake_first_steps` is the state `wake_first`
returns, no step touches the interrupt flag, and `wake_first` halts where the
steps halt. -/
theorem wake_first_steps_view (k : head_t) (s : Kernel) :
    (∀ l, wake_first_steps k s = some l →
      wake_first k s = some (l.getLastD s) ∧ (∀ x ∈ l, x.eflags_if = s.eflags_if)) ∧
    (wake_first_steps k s = none → wake_first k s = none) := by
  unfold wake_first wake_first_steps
  split
  · refine ⟨fun l h => ?_, fun h => by simp at h⟩
    obtain rfl := Option.some.inj h
    exact ⟨rfl, fun x hx => by simp at hx⟩
  · dsimp only
    split
    · refine ⟨fun l h => ?_, fun h => by simp at h⟩
      obtain rfl := Option.some.inj h
      refine ⟨rfl, fun x hx => ?_⟩
      simp only [List.mem_cons, List.mem_singleton, List.not_mem_nil, or_false] at hx
      rcases hx with rfl | rfl | rfl <;> simp
    · exact ⟨fun l h => by simp at h, fun _ => rfl⟩

theorem getLastD_steps (a b u1 u2 w1 w2 d : Kernel) (l1 : List Kernel) :
    ([a, b] ++ l1 ++ [u1, u2, w1, w2]).getLastD d = w2 := by
  have e : [a, b] ++ l1 ++ [u1, u2, w1, w2] = ([a, b] ++ l1 ++ [u1, u2, w1]) ++ [w2] := by
    simp
  rw [e, List.getLastD_eq_getLast?, List.getLast?_append]
  simp

/-- C18. In `cond_wait`, for either value of the interrupt flag at entry, the
`interrupts_disable` nested in `mutex_unlock` returns a zero token, so its
`interrupts_restore` does not enable interrupts; the interrupt flag is clear in
every state from the `interrupts_disable` of `cond_wait` on, through the
release of the mutex, until the caller has been appended at the tail of the
wait-queue of the condition variable and marked Blocked; `schedule` is called
in the last of these states, in which the mutex has no owner; and `cond_wait`
halts where these steps halt. -/
theorem cond_wait_atomic (c m : Nat) (s : Kernel) :
    (interrupts_disable (interrupts_disable s).2).1 = 0 ∧
    (∀ x, interrupts_restore (interrupts_disable (interrupts_disable s).2).1 x = x) ∧
    (∀ l, cond_wait_steps c m s = some l →
      (∀ x ∈ l, x.eflags_if = false) ∧ l.head? = some (interrupts_disable s).2 ∧
      cond_wait c m s = schedule (l.getLastD s) ∧
      ((l.getLastD s).mutexes m).owner = 0 ∧
      waitqueue (l.getLastD s) (.cond c) = waitqueue s (.cond c) ++ [s.current] ∧
      ((l.getLastD s).threads s.current).status = BLOCKED) ∧
    (cond_wait_steps c m s = none → cond_wait c m s = none) := by
  have htok : (interrupts_disable (interrupts_disable s).2).1 = 0 := by
    simp [interrupts_disable]
  have hres : ∀ x, interrupts_restore (interrupts_disable (interrupts_disable s).2).1 x = x := by
    intro x
    rw [htok]
    rfl
  obtain ⟨hsome, hnone⟩ :=
    wake_first_steps_view (.mutex m) (interrupts_disable (interrupts_disable s).2).2
  refine ⟨htok, hres, ?_, ?_⟩
  · intro l hl
    unfold cond_wait_steps at hl
    dsimp only at hl
    split at hl
    swap
    · simp at hl
    rename_i ho
    cases hws : wake_first_steps (.mutex m) (interrupts_disable (interrupts_disable s).2).2 with
    | none =>
      rw [hws] at hl
      simp at hl
    | some l1 =>
      rw [hws] at hl
      simp only [Option.some.injEq] at hl
      obtain ⟨hwf, hfl⟩ := hsome l1 hws
      have hfx : (l1.getLastD (interrupts_disable (interrupts_disable s).2).2).eflags_if
          = false := by
        rcases wake_first_view _ _ _ hwf with ⟨_, e⟩ |
          ⟨_, _, _, _, _, _, _, _, _, _, _, _, _, e, _⟩
        · rw [e]
          rfl
        · exact e
      have hcx : (l1.getLastD (interrupts_disable (interrupts_disable s).2).2).current
          = s.current := (wake_first_same _ _ _ hwf).1
      have hqx : waitqueue (l1.getLastD (interrupts_disable (interrupts_disable s).2).2)
          (.cond c) = waitqueue s (.cond c) := by
        rcases wake_first_view _ _ _ hwf with ⟨_, e⟩ | ⟨_, _, _, _, _, e, _⟩
        · rw [e]
          rfl
        · rw [e, if_neg (by simp)]
          rfl
      rw [hres] at hl
      subst hl
      rw [getLastD_steps]
      generalize l1.getLastD (interrupts_disable (interrupts_disable s).2).2 = y
        at hwf hfx hcx hqx
      refine ⟨?_, rfl, ?_, ?_, ?_, ?_⟩
      · intro x hx
        simp only [List.mem_append, List.mem_cons, List.mem_singleton, List.not_mem_nil,
          or_false] at hx
        rcases hx with ((rfl | rfl) | hx) | rfl | rfl | rfl | rfl
        · rfl
        · rfl
        · exact hfl x hx
        · simpa using hfx
        · simpa using hfx
        · simpa using hfx
        · simpa using hfx
      · have hun : mutex_unlock m (interrupts_disable s).2 = some (set_owner y m 0) := by
          unfold mutex_unlock
          dsimp only
          rw [if_pos ho, hwf]
          dsimp only
          rw [hres]
        unfold cond_wait
        dsimp only
        rw [hun]
        simp [wait_on]
      · simp
      · simp [list_append, hqx, hcx]
      · simp [hcx]
  · intro hl
    unfold cond_wait_steps at hl
    dsimp only at hl
    unfold cond_wait mutex_unlock
    dsimp only
    split at hl
    · rename_i ho
      rw [if_pos ho]
      cases hws : wake_first_steps (.mutex m) (interrupts_disable (interrupts_disable s).2).2 with
      | none => rw [hnone hws]
      | some l1 =>
        rw [hws] at hl
        simp at hl
    · rename_i ho
      rw [if_neg ho]

/-- The theorem `cond_wait_atomic` at a state where thread 4 is current and
owns mutex 7, with interrupts enabled at entry: the steps of `cond_wait(9, 7)`
up to the call of `schedule` all have the interrupt flag clear. -/
theorem cond_wait_atomic_witness :
    worker_locked_state.eflags_if = true ∧ worker_locked_state.current = 4 ∧
    ∃ l, cond_wait_steps 9 7 worker_locked_state = some l ∧
      (∀ x ∈ l, x.eflags_if = false) ∧
      cond_wait 9 7 worker_locked_state = schedule (l.getLastD worker_locked_state) := by
  obtain ⟨l, hl⟩ : ∃ l, cond_wait_steps 9 7 worker_locked_state = some l := ⟨_, rfl⟩
  obtain ⟨h1, _, h3, _⟩ := (cond_wait_atomic 9 7 worker_locked_state).2.2.1 l hl
  exact ⟨by decide, by decide, l, hl, h1, h3⟩

/-! ## Mutexes: waiters are woken first in, first out -/

theorem sleeping_owner_state_reachable : Reachable any_call sleeping_owner_state :=
  reachable_of_trace [.mutex_init 7, .mutex_lock 7, .thread_sleep] init_state
    sleeping_owner_state init_state_reachable rfl

theorem exited_owner_state_reachable : Reachable any_call exited_owner_state :=
  reachable_of_trace [.thread_create 4, .mutex_init 7, .thread_yield, .idle_loop,
    .reaper_entry, .mutex_lock 7, .thread_exit] init_state
    exited_owner_state init_state_reachable rfl

/-- C14, counterexample. After `mutex_lock(7)` followed by `thread_sleep` by
the kernel thread, a reachable state, mutex 7 has the kernel thread as owner
and the owner is Blocked; after `mutex_lock(7)` followed by `thread_exit` by
thread 4, also reachable, mutex 7 has thread 4 as owner and the owner is
Exited. -/
theorem owner_blocked_counterexample :
    (Reachable any_call sleeping_owner_state ∧
      (sleeping_owner_state.mutexes 7).owner = 1 ∧
      (sleeping_owner_state.threads 1).status = BLOCKED) ∧
    (Reachable any_call exited_owner_state ∧
      (exited_owner_state.mutexes 7).owner = 4 ∧
      (exited_owner_state.threads 4).status = EXITED) :=
  ⟨⟨sleeping_owner_state_reachable, by decide, by decide⟩,
    ⟨exited_owner_state_reachable, by decide, by decide⟩⟩

theorem hold_ok_wake_ok (s : Kernel) (c : call_t) (h : hold_ok s c) : wake_ok s c := by
  cases c <;> first | exact h | trivial

theorem pending_keep (s s1 : Kernel) (h : Pending s)
    (hi : s1.idle_thread = s.idle_thread) (hr : s1.reaper_thread = s.reaper_thread)
    (hrq : ∀ t ∈ s1.run_queue, t ∈ s.run_queue ∨ (s1.threads t).status = RUNNABLE)
    (hst : ∀ t, (s1.threads t).status = (s.threads t).status ∨
      (s1.threads t).status = RUNNABLE)
    (hfr : ∀ t, (s1.threads t).frames = (s.threads t).frames ∨ (s1.threads t).frames = [])
    (hown : ∀ m, (s1.mutexes m).owner = (s.mutexes m).owner ∨ (s1.mutexes m).owner = 0) :
    Pending s1 := by
  have hrun : ∀ t, (s.threads t).status = RUNNABLE → (s1.threads t).status = RUNNABLE := by
    intro t ht
    rcases hst t with e | e
    · rw [e, ht]
    · exact e
  have hall : ∀ t, (∀ f ∈ (s.threads t).frames, frame_t.is_restore f = true) →
      ∀ f ∈ (s1.threads t).frames, frame_t.is_restore f = true := by
    intro t ht f hf
    rcases hfr t with e | e
    · exact ht f (e ▸ hf)
    · rw [e] at hf
      simp at hf
  refine ⟨?_, ?_, ?_, ?_, ?_⟩
  · intro t ht
    rcases hrq t ht with e | e
    · exact hrun t (h.ready t e)
    · exact e
  · rw [hi]
    exact hrun _ h.idle_run
  · intro m hm
    rcases hown m with e | e
    · rw [e] at hm ⊢
      exact hrun _ (h.owner_run m hm)
    · exact absurd e hm
  · intro m hm
    rcases hown m with e | e
    · rw [e] at hm ⊢
      rw [hi, hr]
      obtain ⟨h1, h2, h3⟩ := h.owner_body m hm
      exact ⟨h1, h2, hall _ h3⟩
    · exact absurd e hm
  · intro t f hf
    rcases hfr t with e | e
    · exact h.frames_tail t f (e ▸ hf)
    · rw [e] at hf
      simp at hf

theorem disciplined_keep (s s1 : Kernel) (h : Disciplined s) (hc : s1.current = s.current)
    (hi : s1.idle_thread = s.idle_thread) (hr : s1.reaper_thread = s.reaper_thread)
    (hrq : ∀ t ∈ s1.run_queue, t ∈ s.run_queue ∨ (s1.threads t).status = RUNNABLE)
    (hst : ∀ t, (s1.threads t).status = (s.threads t).status ∨
      (s1.threads t).status = RUNNABLE)
    (hfr : ∀ t, (s1.threads t).frames = (s.threads t).frames ∨ (s1.threads t).frames = [])
    (hown : ∀ m, (s1.mutexes m).owner = (s.mutexes m).owner ∨ (s1.mutexes m).owner = 0) :
    Disciplined s1 := by
  refine ⟨pending_keep s s1 h.1 hi hr hrq hst hfr hown, ?_⟩
  rw [hc]
  rcases hst s.current with e | e
  · rw [e]
    exact h.2
  · exact e

/-- The function `schedule` makes a Runnable thread the current thread. -/
theorem schedule_disciplined (s s1 : Kernel) (h : Pending s) (hs : schedule s = some s1) :
    Disciplined s1 := by
  obtain ⟨hi, hr, _, _, _, hmu, _, hfr, rq, hcur, hrq, hcase⟩ := schedule_view s s1 hs
  have hst : ∀ t, (s1.threads t).status = (s.threads t).status ∨
      (s1.threads t).status = RUNNABLE := by
    intro t
    rcases hcase with ⟨_, _, _, e⟩ | ⟨_, _, _, _, e⟩ | ⟨_, _, _, ⟨_, _, e⟩ | ⟨_, _, e⟩⟩
    · exact Or.inl (e t)
    · exact Or.inl (e t)
    · rw [e]
      split
      · exact Or.inr rfl
      · exact Or.inl rfl
    · exact Or.inl (e t)
  have hmem : ∀ t ∈ rq, t ∈ s.run_queue ∨ (s1.threads t).status = RUNNABLE := by
    intro t ht
    rcases hcase with ⟨_, e, _⟩ | ⟨_, hrun, e, _, est⟩ | ⟨_, _, _, ⟨_, e, est⟩ | ⟨_, e, _⟩⟩
    · exact Or.inl (e ▸ ht)
    · rw [e] at ht
      rcases List.mem_append.mp ht with ht | ht
      · exact Or.inl ht
      · rw [List.mem_singleton.mp ht, est, hrun]
        exact Or.inr rfl
    · rw [e] at ht
      rcases List.mem_append.mp ht with ht | ht
      · exact Or.inl ht
      · rw [List.mem_singleton.mp ht, est, if_pos rfl]
        exact Or.inr rfl
    · exact Or.inl (e ▸ ht)
  have hp : Pending s1 := pending_keep s s1 h hi hr
    (fun t ht => hmem t (List.mem_of_mem_tail (hrq ▸ ht))) hst
    (fun t => Or.inl (hfr t).2.2) (fun m => Or.inl (by rw [hmu]))
  refine ⟨hp, ?_⟩
  rw [hcur]
  cases hq : rq with
  | nil =>
    simp only [List.head?_nil, Option.getD_none]
    rw [← hi]
    exact hp.idle_run
  | cons a l =>
    simp only [List.head?_cons, Option.getD_some]
    rcases hmem a (hq ▸ List.mem_cons_self a l) with e | e
    · rcases hst a with e1 | e1
      · rw [e1]
        exact h.ready a e
      · exact e1
    · exact e

/-- A thread that owns no mutex, is not the idle thread and is not on the ready
queue can be marked Blocked or Exited. -/
theorem pending_block (s : Kernel) (v : Nat) (h : Pending s)
    (hn : s.current ∉ s.run_queue) (hi : s.current ≠ s.idle_thread) (hh : holds_none s) :
    Pending (set_status s s.current v) := by
  refine ⟨?_, ?_, ?_, ?_, ?_⟩
  · intro t ht
    have ht1 : t ∈ s.run_queue := by simpa using ht
    have hne : t ≠ s.current := fun e => hn (e ▸ ht1)
    simpa [hne] using h.ready t ht1
  · simpa [Ne.symm hi] using h.idle_run
  · intro m hm
    have hm1 : (s.mutexes m).owner ≠ 0 := by simpa using hm
    simpa [hh m hm1] using h.owner_run m hm1
  · intro m hm
    have hm1 : (s.mutexes m).owner ≠ 0 := by simpa using hm
    simpa using h.owner_body m hm1
  · intro t f hf
    exact h.frames_tail t f (by simpa using hf)

/-- The current thread, with no frame pending but the final restore of
`cond_wait`, can push that frame, or any frame if it owns no mutex. -/
theorem pending_push (s : Kernel) (f : frame_t) (h : Pending s)
    (hall : ∀ g ∈ (s.threads s.current).frames, frame_t.is_restore g = true)
    (hf : frame_t.is_restore f = true ∨ holds_none s) : Pending (push_frame f s) := by
  have hfr : ∀ t, ((push_frame f s).threads t).frames =
      if t = s.current then f :: (s.threads s.current).frames else (s.threads t).frames := by
    intro t
    unfold push_frame
    rw [set_frames_threads_frames]
  refine ⟨?_, ?_, ?_, ?_, ?_⟩
  · intro t ht
    simpa using h.ready t (by simpa using ht)
  · simpa using h.idle_run
  · intro m hm
    have hm1 : (s.mutexes m).owner ≠ 0 := by simpa using hm
    simpa using h.owner_run m hm1
  · intro m hm
    have hm1 : (s.mutexes m).owner ≠ 0 := by simpa using hm
    obtain ⟨h1, h2, h3⟩ := h.owner_body m hm1
    refine ⟨by simpa using h1, by simpa using h2, ?_⟩
    intro g hg
    simp only [push_frame_mutexes] at hg
    rw [hfr] at hg
    split at hg
    · rename_i e
      rcases hf with hf | hf
      · rcases List.mem_cons.mp hg with e1 | e1
        · rw [e1]
          exact hf
        · exact hall g e1
      · exact absurd e (hf m hm1)
    · exact h3 g hg
  · intro t g hg
    rw [hfr] at hg
    split at hg
    · exact hall g (by simpa using hg)
    · exact h.frames_tail t g hg

/-- The current thread pops its innermost frame: the frames left are final
restores of `cond_wait`, and a thread whose innermost frame was another one
owns no mutex. -/
theorem pending_pop (s : Kernel) (f : frame_t) (rest : List frame_t) (h : Pending s)
    (hfr : (s.threads s.current).frames = f :: rest) :
    Pending (set_frames s s.current rest) ∧
    (∀ g ∈ rest, frame_t.is_restore g = true) ∧
    (frame_t.is_restore f = false → holds_none s) := by
  have hrest : ∀ g ∈ rest, frame_t.is_restore g = true := by
    intro g hg
    refine h.frames_tail s.current g ?_
    rw [hfr]
    exact hg
  refine ⟨⟨?_, ?_, ?_, ?_, ?_⟩, hrest, ?_⟩
  · intro t ht
    simpa using h.ready t (by simpa using ht)
  · simpa using h.idle_run
  · intro m hm
    have hm1 : (s.mutexes m).owner ≠ 0 := by simpa using hm
    simpa using h.owner_run m hm1
  · intro m hm
    have hm1 : (s.mutexes m).owner ≠ 0 := by simpa using hm
    obtain ⟨h1, h2, h3⟩ := h.owner_body m hm1
    refine ⟨by simpa using h1, by simpa using h2, ?_⟩
    intro g hg
    simp only [set_frames_mutexes, set_frames_threads_frames] at hg
    split at hg
    · exact hrest g hg
    · exact h3 g hg
  · intro t g hg
    simp only [set_frames_threads_frames] at hg
    split at hg
    · exact hrest g (List.mem_of_mem_tail hg)
    · exact h.frames_tail t g hg
  · intro hf m hm e
    have h3 := (h.owner_body m hm).2.2 f (by rw [e, hfr]; exact List.mem_cons_self f rest)
    rw [hf] at h3
    cases h3

/-- A Runnable current thread in a thread body, with no frame pending but the
final restore of `cond_wait`, can take a mutex. -/
theorem disciplined_acquire (s : Kernel) (m : Nat) (h : Disciplined s)
    (hi : s.current ≠ s.idle_thread) (hr : s.current ≠ s.reaper_thread)
    (hall : ∀ g ∈ (s.threads s.current).frames, frame_t.is_restore g = true) :
    Disciplined (set_owner s m s.current) := by
  have hown : ∀ n, ((set_owner s m s.current).mutexes n).owner =
      if n = m then s.current else (s.mutexes n).owner := by
    intro n
    rw [set_owner_mutexes_owner]
  refine ⟨⟨?_, ?_, ?_, ?_, ?_⟩, by simpa using h.2⟩
  · intro t ht
    simpa using h.1.ready t (by simpa using ht)
  · simpa using h.1.idle_run
  · intro n hn
    rw [hown] at hn ⊢
    split
    · simpa using h.2
    · rename_i e
      rw [if_neg e] at hn
      simpa using h.1.owner_run n hn
  · intro n hn
    rw [hown] at hn ⊢
    split
    · exact ⟨by simpa using hi, by simpa using hr, by simpa using hall⟩
    · rename_i e
      rw [if_neg e] at hn
      simpa using h.1.owner_body n hn
  · intro t g hg
    exact h.1.frames_tail t g (by simpa using hg)

theorem disciplined_eflags_if (s : Kernel) (b : Bool) (h : Disciplined s) :
    Disciplined { s with eflags_if := b } :=
  disciplined_keep s _ h rfl rfl rfl (fun _ ht => Or.inl ht) (fun _ => Or.inl rfl)
    (fun _ => Or.inl rfl) (fun _ => Or.inl rfl)

theorem disciplined_interrupts_restore (s : Kernel) (i : Nat) (h : Disciplined s) :
    Disciplined (interrupts_restore i s) := by
  rcases interrupts_restore_cases i s with e | e <;> rw [e]
  · exact h
  · exact disciplined_eflags_if s true h

theorem disciplined_release (s : Kernel) (m : Nat) (h : Disciplined s) :
    Disciplined (set_owner s m 0) := by
  refine disciplined_keep s _ h rfl rfl rfl (fun _ ht => Or.inl ht) (fun _ => Or.inl (by simp))
    (fun _ => Or.inl (by simp)) (fun n => ?_)
  rw [set_owner_mutexes_owner]
  split
  · exact Or.inr rfl
  · exact Or.inl rfl

theorem wake_first_disciplined (k : head_t) (s s1 : Kernel) (h : Disciplined s)
    (hw : wake_first k s = some s1) : Disciplined s1 := by
  rcases wake_first_view k s s1 hw with ⟨_, rfl⟩ |
    ⟨t, l, _, _, hrq, _, _, hc, hi, hr, _, _, _, _, hst, hth, hmu, _⟩
  · exact h
  · refine disciplined_keep s s1 h hc hi hr ?_ ?_ (fun u => Or.inl (hth u).2.2.1)
      (fun m => Or.inl (hmu m).1)
    · intro u hu
      rw [hrq] at hu
      rcases List.mem_append.mp hu with hu | hu
      · exact Or.inl hu
      · rw [List.mem_singleton.mp hu, hst, if_pos rfl]
        exact Or.inr rfl
    · intro u
      rw [hst]
      split
      · exact Or.inr rfl
      · exact Or.inl rfl

/-- A thread that owns no mutex can block in `wait_on`. -/
theorem wait_on_disciplined (k : head_t) (s s1 : Kernel) (h : Pending s)
    (hn : s.current ∉ s.run_queue) (hi : s.current ≠ s.idle_thread) (hh : holds_none s)
    (hw : wait_on k s = some s1) : Disciplined s1 := by
  unfold wait_on at hw
  refine schedule_disciplined _ s1 ?_ hw
  have hp : Pending (set_waitqueue s k (list_append s.current (waitqueue s k))) :=
    pending_keep s _ h (by simp) (by simp) (fun t ht => Or.inl (by simpa using ht))
      (fun _ => Or.inl (by simp)) (fun _ => Or.inl (by simp)) (fun _ => Or.inl (by simp))
  refine pending_block _ BLOCKED hp (by simpa using hn) (by simpa using hi) ?_
  intro m hm
  have hm1 : (s.mutexes m).owner ≠ 0 := by simpa using hm
  simpa using hh m hm1

theorem mutex_lock_loop_disciplined (m i : Nat) (s s1 : Kernel) (h : Disciplined s)
    (hn : s.current ∉ s.run_queue) (hi : s.current ≠ s.idle_thread)
    (hr : s.current ≠ s.reaper_thread)
    (hall : ∀ g ∈ (s.threads s.current).frames, frame_t.is_restore g = true)
    (hk : (s.mutexes m).owner ≠ 0 → holds_none s)
    (hl : mutex_lock_loop m i s = some s1) : Disciplined s1 := by
  unfold mutex_lock_loop at hl
  split at hl
  · rename_i ho
    have hh : holds_none (push_frame (.mutex_lock m i) s) := by
      intro n hn1
      have hn2 : (s.mutexes n).owner ≠ 0 := by simpa using hn1
      simpa using hk ho n hn2
    exact wait_on_disciplined _ _ s1 (pending_push s _ h.1 hall (Or.inr (hk ho)))
      (by simpa using hn) (by simpa using hi) hh hl
  · obtain rfl := Option.some.inj hl
    exact disciplined_interrupts_restore _ _ (disciplined_acquire s m h hi hr hall)

theorem mutex_unsafe_lock_loop_disciplined (m i : Nat) (s s1 : Kernel) (h : Disciplined s)
    (hn : s.current ∉ s.run_queue) (hi : s.current ≠ s.idle_thread)
    (hr : s.current ≠ s.reaper_thread)
    (hall : ∀ g ∈ (s.threads s.current).frames, frame_t.is_restore g = true)
    (hk : (s.mutexes m).owner ≠ 0 → holds_none s)
    (hl : mutex_unsafe_lock_loop m i s = some s1) : Disciplined s1 := by
  unfold mutex_unsafe_lock_loop at hl
  split at hl
  · rename_i ho
    have hh : holds_none (push_frame (.mutex_unsafe_lock m i) s) := by
      intro n hn1
      have hn2 : (s.mutexes n).owner ≠ 0 := by simpa using hn1
      simpa using hk ho n hn2
    exact wait_on_disciplined _ _ s1 (pending_push s _ h.1 hall (Or.inr (hk ho)))
      (by simpa using hn) (by simpa using hi) hh hl
  · obtain rfl := Option.some.inj hl
    exact disciplined_interrupts_restore _ _ (disciplined_acquire s m h hi hr hall)

theorem mutex_lock_disciplined (m : Nat) (s s1 : Kernel) (h : Disciplined s)
    (hn : s.current ∉ s.run_queue) (hi : s.current ≠ s.idle_thread)
    (hr : s.current ≠ s.reaper_thread)
    (hall : ∀ g ∈ (s.threads s.current).frames, frame_t.is_restore g = true)
    (hk : (s.mutexes m).owner ≠ 0 → holds_none s)
    (hl : mutex_lock m s = some s1) : Disciplined s1 := by
  unfold mutex_lock interrupts_disable at hl
  dsimp only at hl
  split at hl
  · simp at hl
  · exact mutex_lock_loop_disciplined m _ _ s1 (disciplined_eflags_if s false h) hn hi hr hall
      hk hl

/-- The function `mutex_unlock` keeps the discipline, the current thread and
the frames, and leaves the mutex without owner and the other owners alone. -/
theorem mutex_unlock_disciplined (m : Nat) (s s1 : Kernel) (h : Disciplined s)
    (hu : mutex_unlock m s = some s1) :
    Disciplined s1 ∧ (s1.mutexes m).owner = 0 ∧
    (∀ n, n ≠ m → (s1.mutexes n).owner = (s.mutexes n).owner) ∧
    ∀ t, (s1.threads t).frames = (s.threads t).frames := by
  unfold mutex_unlock interrupts_disable at hu
  dsimp only at hu
  split at hu
  swap
  · simp at hu
  cases hw : wake_first (.mutex m) { s with eflags_if := false } with
  | none => simp [hw] at hu
  | some x =>
    rw [hw] at hu
    obtain rfl := Option.some.inj hu
    have hx := wake_first_disciplined _ _ x (disciplined_eflags_if s false h) hw
    refine ⟨disciplined_interrupts_restore _ _ (disciplined_release x m hx), by simp, ?_, ?_⟩
    · intro n hn
      simp only [interrupts_restore_mutexes, set_owner_mutexes_owner, if_neg hn]
      rcases wake_first_view _ _ _ hw with ⟨_, rfl⟩ |
        ⟨_, _, _, _, _, _, _, _, _, _, _, _, _, _, _, _, e, _⟩
      · rfl
      · exact (e n).1
    · intro t
      simp only [interrupts_restore_threads_frames, set_owner_threads]
      rcases wake_first_view _ _ _ hw with ⟨_, rfl⟩ |
        ⟨_, _, _, _, _, _, _, _, _, _, _, _, _, _, _, e, _⟩
      · rfl
      · exact (e t).2.2.1

theorem mutex_unsafe_unlock_disciplined (m : Nat) (s s1 : Kernel) (h : Disciplined s)
    (hu : mutex_unsafe_unlock m s = some s1) : Disciplined s1 := by
  unfold mutex_unsafe_unlock interrupts_disable at hu
  dsimp only at hu
  cases hw : wake_first (.mutex m) { s with eflags_if := false } with
  | none => simp [hw] at hu
  | some x =>
    rw [hw] at hu
    obtain rfl := Option.some.inj hu
    exact disciplined_interrupts_restore _ _ (disciplined_release x m
      (wake_first_disciplined _ _ x (disciplined_eflags_if s false h) hw))

theorem cond_wait_disciplined (c m : Nat) (s s1 : Kernel) (hg : Separated s ∧ CurrentFree s)
    (h : Disciplined s) (hi : s.current ≠ s.idle_thread)
    (hfr : (s.threads s.current).frames = [])
    (hk : ∀ n, n ≠ m → (s.mutexes n).owner ≠ 0 → (s.mutexes n).owner ≠ s.current)
    (hw : cond_wait c m s = some s1) : Disciplined s1 := by
  unfold cond_wait interrupts_disable at hw
  dsimp only at hw
  cases hu : mutex_unlock m { s with eflags_if := false } with
  | none => simp [hu] at hw
  | some x =>
    rw [hu] at hw
    obtain ⟨hgx, hc, hix, _⟩ := mutex_unlock_good m _ x (good_eflags_if s false hg) hu
    obtain ⟨hdx, ho, hon, hfx⟩ :=
      mutex_unlock_disciplined m _ x (disciplined_eflags_if s false h) hu
    have hc1 : x.current = s.current := hc
    have hh : holds_none x := by
      intro n hn
      by_cases e : n = m
      · subst e
        exact absurd ho hn
      · rw [hon n e] at hn ⊢
        rw [hc1]
        exact hk n e hn
    have hall : ∀ g ∈ (x.threads x.current).frames, frame_t.is_restore g = true := by
      intro g hg1
      rw [hfx, hc1] at hg1
      have hfr1 : ({ s with eflags_if := false }.threads s.current).frames = [] := hfr
      rw [hfr1] at hg1
      simp at hg1
    refine wait_on_disciplined _ _ s1 (pending_push x _ hdx.1 hall (Or.inr hh)) ?_ ?_ ?_ hw
    · simpa using hgx.2 .run
    · have hix1 : x.idle_thread = s.idle_thread := hix
      simpa [hc1, hix1] using hi
    · intro n hn
      have hn1 : (x.mutexes n).owner ≠ 0 := by simpa using hn
      simpa using hh n hn1

theorem resume_disciplined (s s1 : Kernel) (hg : Separated s ∧ CurrentFree s)
    (h : Disciplined s) (hi : s.current ≠ s.idle_thread) (hr : s.current ≠ s.reaper_thread)
    (hl : resume s = some s1) : Disciplined s1 := by
  unfold resume at hl
  split at hl
  · simp at hl
  · rename_i f rest hfr
    obtain ⟨hp, hrest, hnone⟩ := pending_pop s f rest h.1 hfr
    have hd : Disciplined (set_frames s s.current rest) := ⟨hp, by simpa using h.2⟩
    have hn : s.current ∉ s.run_queue := hg.2 .run
    have hall : ∀ g ∈ ((set_frames s s.current rest).threads
        (set_frames s s.current rest).current).frames, frame_t.is_restore g = true := by
      intro g hg1
      exact hrest g (by simpa using hg1)
    have hh : frame_t.is_restore f = false → holds_none (set_frames s s.current rest) := by
      intro hf n hn1
      have hn2 : (s.mutexes n).owner ≠ 0 := by simpa using hn1
      simpa using hnone hf n hn2
    cases f with
    | mutex_lock m i =>
      exact mutex_lock_loop_disciplined m i _ s1 hd (by simpa using hn) (by simpa using hi)
        (by simpa using hr) hall (fun _ => hh rfl) hl
    | mutex_unsafe_lock m i =>
      exact mutex_unsafe_lock_loop_disciplined m i _ s1 hd (by simpa using hn)
        (by simpa using hi) (by simpa using hr) hall (fun _ => hh rfl) hl
    | cond_wait m i =>
      have hp2 := pending_push _ (.cond_wait_restore i) hp hall (Or.inl rfl)
      have hd2 : Disciplined (push_frame (.cond_wait_restore i) (set_frames s s.current rest)) :=
        ⟨hp2, by simpa using h.2⟩
      refine mutex_lock_disciplined m _ s1 hd2 (by simpa using hn) (by simpa using hi)
        (by simpa using hr) ?_ ?_ hl
      · intro g hg1
        simp only [push_frame, set_frames_current, set_frames_threads_frames, if_true] at hg1
        rcases List.mem_cons.mp hg1 with e | e
        · rw [e]
          rfl
        · exact hrest g e
      · intro _ n hn1
        have hn2 : (s.mutexes n).owner ≠ 0 := by simpa using hn1
        simpa using hnone rfl n hn2
    | cond_wait_restore i =>
      obtain rfl := Option.some.inj hl
      exact disciplined_interrupts_restore _ _ hd
    | thread_exit => simp at hl

theorem do_reaper_pass_disciplined (s s1 : Kernel) (hg : Separated s ∧ CurrentFree s)
    (h : Disciplined s) (hc : s.current = s.reaper_thread)
    (hir : s.idle_thread ≠ s.reaper_thread)
    (hl : do_reaper_pass s = some s1) : Disciplined s1 := by
  unfold do_reaper_pass at hl
  rw [reaper_loop_eq s.zombie_list s rfl _ le_rfl] at hl
  refine schedule_disciplined _ s1 ?_ hl
  have hp : Pending { s with
      zombie_list := [], all_threads := s.all_threads.diff s.zombie_list,
      freed := s.zombie_list.reverse ++ s.freed } :=
    pending_keep s _ h.1 rfl rfl (fun _ ht => Or.inl ht) (fun _ => Or.inl rfl)
      (fun _ => Or.inl rfl) (fun _ => Or.inl rfl)
  refine pending_block _ BLOCKED hp (hg.2 .run) ?_ ?_
  · intro e
    exact hir ((e.symm.trans hc))
  · intro m hm e
    exact (h.1.owner_body m hm).2.1 (e.trans hc)

/-- Every enabled call that respects the discipline keeps it. -/
theorem disciplined_step (s s1 : Kernel) (c : call_t) (hg : Separated s ∧ CurrentFree s)
    (hir : s.idle_thread ≠ s.reaper_thread) (h : Disciplined s)
    (hk : hold_ok s c) (he : exec c s = some s1) : Disciplined s1 := by
  unfold exec at he
  split at he
  swap
  · simp at he
  rename_i hen
  have hn : s.current ∉ s.run_queue := hg.2 .run
  have hbody : in_thread_body s = true →
      s.current ≠ s.idle_thread ∧ s.current ≠ s.reaper_thread ∧
      (s.threads s.current).frames = [] := by
    intro hb
    refine ⟨(in_thread_body_ne s hb).1, (in_thread_body_ne s hb).2, ?_⟩
    simp only [in_thread_body, Bool.and_eq_true, List.isEmpty_iff] at hb
    exact hb.2
  have hnil : (s.threads s.current).frames = [] →
      ∀ g ∈ (s.threads s.current).frames, frame_t.is_restore g = true := by
    intro e g hg1
    rw [e] at hg1
    simp at hg1
  cases c with
  | thread_create a =>
    obtain rfl := Option.some.inj he
    obtain ⟨h1, _, _, h4, h5, h6, _, _, _, h10, _, h12⟩ := thread_create_view a s
    have hst : ∀ t, ((thread_create a s).threads t).status = (s.threads t).status ∨
        ((thread_create a s).threads t).status = RUNNABLE := by
      intro t
      rw [h12]
      by_cases e : t = a
      · subst e
        exact Or.inr (by simp)
      · exact Or.inl (by rw [Function.update_noteq e])
    refine disciplined_keep s _ h h4 h5 h6 ?_ hst ?_ (fun m => Or.inl (by rw [h10]))
    · intro t ht
      rw [h1] at ht
      rcases List.mem_append.mp ht with ht | ht
      · exact Or.inl ht
      · right
        rw [List.mem_singleton.mp ht, h12]
        simp
    · intro t
      rw [h12]
      by_cases e : t = a
      · subst e
        exact Or.inr (by simp)
      · exact Or.inl (by rw [Function.update_noteq e])
  | thread_yield => exact schedule_disciplined s s1 h.1 he
  | thread_exit =>
    obtain ⟨hi, _, hfr⟩ := hbody hen
    refine schedule_disciplined _ s1 ?_ he
    refine pending_push _ _ (pending_block s EXITED h.1 hn hi hk) ?_ (Or.inr ?_)
    · simpa using hnil hfr
    · intro m hm
      have hm1 : (s.mutexes m).owner ≠ 0 := by simpa using hm
      simpa using hk m hm1
  | thread_sleep =>
    obtain ⟨hi, _, _⟩ := hbody hen
    exact schedule_disciplined _ s1 (pending_block s BLOCKED h.1 hn hi hk) he
  | thread_wake t =>
    obtain rfl := Option.some.inj he
    refine disciplined_keep s _ h (by simp [thread_wake]) (by simp [thread_wake])
      (by simp [thread_wake]) ?_ ?_ (fun u => Or.inl (by simp [thread_wake]))
      (fun m => Or.inl (by simp [thread_wake]))
    · intro u hu
      simp only [thread_wake, list_append, set_status_run_queue, List.mem_append,
        List.mem_singleton] at hu
      rcases hu with hu | hu
      · exact Or.inl hu
      · right
        simp [thread_wake, hu]
    · intro u
      simp only [thread_wake, set_status_threads_status]
      split
      · exact Or.inr rfl
      · exact Or.inl rfl
  | thread_setspecific d =>
    obtain rfl := Option.some.inj he
    exact disciplined_keep s _ h (by simp [thread_setspecific]) (by simp [thread_setspecific])
      (by simp [thread_setspecific])
      (fun u hu => Or.inl (by simpa [thread_setspecific] using hu))
      (fun u => Or.inl (by simp [thread_setspecific]))
      (fun u => Or.inl (by simp [thread_setspecific]))
      (fun m => Or.inl (by simp [thread_setspecific]))
  | idle_loop => exact schedule_disciplined s s1 h.1 he
  | reaper_entry =>
    have hc : s.current = s.reaper_thread := by simpa [enabled] using hen
    exact do_reaper_pass_disciplined _ s1 (good_eflags_if s false hg)
      (disciplined_eflags_if s false h) hc hir he
  | reaper_pass =>
    have hc : s.current = s.reaper_thread := by simpa [enabled] using hen
    exact do_reaper_pass_disciplined s s1 hg h hc hir he
  | mutex_init m =>
    obtain rfl := Option.some.inj he
    refine disciplined_keep s _ h rfl rfl rfl (fun _ ht => Or.inl ht) (fun _ => Or.inl rfl)
      (fun _ => Or.inl rfl) (fun n => ?_)
    by_cases e : n = m
    · subst e
      exact Or.inr (by simp [mutex_init])
    · exact Or.inl (by simp [mutex_init, Function.update_noteq e])
  | mutex_destroy m =>
    simp only [run, mutex_destroy] at he
    split at he
    · obtain rfl := Option.some.inj he
      exact h
    · simp at he
  | mutex_lock m =>
    obtain ⟨hi, hr, hfr⟩ := hbody hen
    exact mutex_lock_disciplined m s s1 h hn hi hr (hnil hfr) hk he
  | mutex_unsafe_lock m =>
    obtain ⟨hi, hr, hfr⟩ := hbody hen
    exact mutex_unsafe_lock_loop_disciplined m _ _ s1 (disciplined_eflags_if s false h) hn hi hr
      (hnil hfr) hk he
  | mutex_unlock m => exact (mutex_unlock_disciplined m s s1 h he).1
  | mutex_unsafe_unlock m => exact mutex_unsafe_unlock_disciplined m s s1 h he
  | mutex_trylock m =>
    obtain ⟨hi, hr, hfr⟩ := hbody hen
    obtain rfl := Option.some.inj he
    unfold mutex_trylock interrupts_disable
    dsimp only
    split
    · exact disciplined_interrupts_restore _ _
        (disciplined_acquire _ m (disciplined_eflags_if s false h) hi hr (hnil hfr))
    · exact disciplined_interrupts_restore _ _ (disciplined_eflags_if s false h)
  | cond_init c =>
    obtain rfl := Option.some.inj he
    exact disciplined_keep s _ h rfl rfl rfl (fun _ ht => Or.inl ht) (fun _ => Or.inl rfl)
      (fun _ => Or.inl rfl) (fun _ => Or.inl rfl)
  | cond_destroy c =>
    simp only [run, cond_destroy] at he
    split at he
    · obtain rfl := Option.some.inj he
      exact h
    · simp at he
  | cond_wait c m =>
    obtain ⟨hi, _, hfr⟩ := hbody hen
    exact cond_wait_disciplined c m s s1 hg h hi hfr hk he
  | cond_signal c =>
    simp only [run, cond_signal, interrupts_disable] at he
    cases hw : wake_first (.cond c) { s with eflags_if := false } with
    | none => simp [hw] at he
    | some s2 =>
      rw [hw] at he
      obtain rfl := Option.some.inj he
      exact disciplined_interrupts_restore _ _
        (wake_first_disciplined _ _ s2 (disciplined_eflags_if s false h) hw)
  | cond_broadcast c =>
    simp only [run, cond_broadcast, interrupts_disable, wake_all] at he
    cases hw : wake_all_loop (.cond c)
        (waitqueue { s with eflags_if := false } (.cond c)).length
        { s with eflags_if := false } with
    | none => simp [hw] at he
    | some s2 =>
      rw [hw] at he
      obtain rfl := Option.some.inj he
      exact disciplined_interrupts_restore _ _
        (wake_all_loop_keeps (.cond c) Disciplined
          (fun a b ha hb => wake_first_disciplined _ a b ha hb) _ _ s2
          (disciplined_eflags_if s false h) hw)
  | resume =>
    have hc : s.current ≠ s.idle_thread ∧ s.current ≠ s.reaper_thread := by
      simpa [enabled] using hen
    exact resume_disciplined s s1 hg h hc.1 hc.2 he

theorem thread_init_disciplined (idle reaper : thread_t) :
    Disciplined (thread_init idle reaper boot) := by
  obtain ⟨_, _, _, _, _, _, _, _, _, hmu, _, hst⟩ := thread_init_view idle reaper
  refine ⟨⟨fun t _ => (hst t).1, (hst _).1, fun m hm => absurd (hmu m).1 hm,
    fun m hm => absurd (hmu m).1 hm, ?_⟩, (hst _).1⟩
  intro t f hf
  rw [(hst t).2.1] at hf
  simp at hf

/-- In every state reached under the discipline, the discipline holds. -/
theorem reachable_disciplined (s : Kernel) (h : Reachable hold_ok s) : Disciplined s := by
  induction h with
  | init idle reaper _ _ _ _ _ => exact thread_init_disciplined idle reaper
  | step c hreach _ hk he ih =>
    exact disciplined_step _ _ c
      (reachable_good _ (reachable_mono hold_ok wake_ok hold_ok_wake_ok _ hreach))
      (idle_ne_reaper hold_ok _ hreach) ih hk he

/-- C14, amended. In every state reachable through the thread, mutex and
condition-variable operations under the following discipline, a mutex whose
owner is not none has an owner whose status is Runnable, never Blocked, Exited
or Killed: `thread_wake` is applied only to a live thread that is not the
current thread and is on no queue; a thread calls `thread_sleep` or
`thread_exit` only while it owns no mutex; it calls `mutex_lock` or
`mutex_unsafe_lock` on a mutex that has an owner only while it owns no mutex;
and it calls `cond_wait(c, m)` only while it owns no mutex other than `m`.
Moreover the owner is then neither the idle nor the reaper thread. -/
theorem owner_runnable (s : Kernel) (h : Reachable hold_ok s) (m : Nat)
    (ho : (s.mutexes m).owner ≠ 0) :
    (s.threads (s.mutexes m).owner).status = RUNNABLE ∧
    (s.threads (s.mutexes m).owner).status ≠ BLOCKED ∧
    (s.threads (s.mutexes m).owner).status ≠ EXITED ∧
    (s.threads (s.mutexes m).owner).status ≠ KILLED ∧
    (s.mutexes m).owner ≠ s.idle_thread ∧ (s.mutexes m).owner ≠ s.reaper_thread := by
  have hd := reachable_disciplined s h
  have h1 := hd.1.owner_run m ho
  have h2 := hd.1.owner_body m ho
  rw [h1]
  exact ⟨rfl, by decide, by decide, by decide, h2.1, h2.2.1⟩

theorem worker_ready_state_disciplined : Reachable hold_ok worker_ready_state :=
  reachable_of_trace_with hold_ok hold_ok_check
    (fun s c hc => by
      cases c <;> simp_all [hold_ok_check, hold_ok])
    [.thread_create 4, .mutex_init 7, .mutex_lock 7, .thread_yield, .idle_loop, .reaper_entry]
    init_state _
    (Reachable.init 2 3 (by decide) (by decide) (by decide) (by decide) (by decide)) rfl

/-- In `worker_ready_state` the only mutex with an owner is mutex 7, owned by
the kernel thread, so thread 4 may block. -/
theorem worker_ready_state_holds_none : holds_none worker_ready_state := by
  intro n hn
  have hc : worker_ready_state.current = 4 := by decide
  rw [hc]
  by_cases e : n = 7
  · subst e
    decide
  · exfalso
    apply hn
    show ((Function.update (Function.update boot.mutexes 7
      { waitqueue_head := [], owner := 0, id := 4 }) 7
      { waitqueue_head := [], owner := 1, id := 4 }) n).owner = 0
    simp [Function.update, e, boot]

theorem contended_state_disciplined : Reachable hold_ok contended_state :=
  Reachable.step (.mutex_lock 7) worker_ready_state_disciplined trivial
    (fun _ => worker_ready_state_holds_none) rfl

/-- The theorem `owner_runnable` at the state where the kernel thread owns
mutex 7 and thread 4 has blocked in `mutex_lock(7)`, reached under the
discipline: the owner is Runnable, the waiter is Blocked and owns nothing. -/
theorem owner_runnable_witness :
    (contended_state.mutexes 7).owner = 1 ∧ (contended_state.threads 1).status = RUNNABLE ∧
    (contended_state.threads 4).status = BLOCKED := by
  have ho : (contended_state.mutexes 7).owner = 1 := by decide
  have h := (owner_runnable contended_state contended_state_disciplined 7 (by decide)).1
  rw [ho] at h
  exact ⟨ho, h, by decide⟩

/-! ## The shadow mask: bits -/

theorem testBit_one_shiftLeft (n i : Nat) : (1 <<< n).testBit i = decide (n = i) := by
  rw [Nat.one_shiftLeft, Nat.testBit_two_pow]

theorem testBit_bitnot32 (x i : Nat) :
    (bitnot32 x).testBit i = (decide (i < 32) && !x.testBit i) := by
  unfold bitnot32
  rw [Nat.testBit_xor, Nat.testBit_two_pow_sub_one, Nat.testBit_mod_two_pow]
  by_cases h : i < 32 <;> simp [h]

/-- Bit `i` of the shadow mask after `unmask_irq(irq)`. -/
theorem unmask_irq_testBit (irq : Nat) (s : Irq) (i : Nat) :
    (unmask_irq irq s).signal_mask.testBit i =
      (decide (i < 16) && s.signal_mask.testBit i && !decide (irq = i) &&
        !(decide (8 ≤ irq) && decide (i = 2))) := by
  unfold unmask_irq
  dsimp only
  split
  · rename_i h
    simp only [Nat.testBit_mod_two_pow, Nat.testBit_and, testBit_bitnot32,
      testBit_one_shiftLeft]
    by_cases h1 : i < 16
    · have h2 : i < 32 := by omega
      by_cases h3 : i = 2 <;> by_cases h4 : irq = i <;> simp [h, h1, h2, h3, h4, eq_comm]
    · simp [h1]
  · rename_i h
    simp only [Nat.testBit_mod_two_pow, Nat.testBit_and, testBit_bitnot32,
      testBit_one_shiftLeft]
    by_cases h1 : i < 16
    · have h2 : i < 32 := by omega
      by_cases h4 : irq = i <;> simp [h, h1, h2, h4]
    · simp [h1]

/-- Bit `i` of the shadow mask after `mask_irq(irq)`. -/
theorem mask_irq_testBit (irq : Nat) (s : Irq) (i : Nat) :
    (mask_irq irq s).signal_mask.testBit i =
      (decide (i < 16) && (s.signal_mask.testBit i || decide (irq = i))) := by
  unfold mask_irq
  simp only [Nat.testBit_mod_two_pow, Nat.testBit_or, testBit_one_shiftLeft]
  by_cases h1 : i < 16
  · have h2 : i < 32 := by omega
    simp [h1, h2]
  · simp [h1]

/-- C22. Cascade mask.  For every shadow mask and every `irq` in 0..15,
`unmask_irq(irq)` clears bit `irq`, clears bit 2 as well when `irq >= 8`, and
changes no other bit; `mask_irq(irq)` sets bit `irq` and changes no other bit;
neither touches the descriptors, the handlers or the ports.  Hence after
unmasking IRQ10 and IRQ12 bits 2, 10 and 12 are clear, and after remasking
IRQ12 bit 12 is set while bits 2 and 10 are still clear. -/
theorem cascade_mask (s : Irq) (hm : s.signal_mask < 2 ^ 16) :
    (∀ irq, irq < 16 →
      (unmask_irq irq s).signal_mask.testBit irq = false ∧
      (8 ≤ irq → (unmask_irq irq s).signal_mask.testBit 2 = false) ∧
      (∀ i, i ≠ irq → ¬ (8 ≤ irq ∧ i = 2) →
        (unmask_irq irq s).signal_mask.testBit i = s.signal_mask.testBit i) ∧
      (unmask_irq irq s).signal_mask < 2 ^ 16 ∧
      (unmask_irq irq s).port_log = s.port_log ∧
      (mask_irq irq s).signal_mask.testBit irq = true ∧
      (∀ i, i ≠ irq → (mask_irq irq s).signal_mask.testBit i = s.signal_mask.testBit i) ∧
      (mask_irq irq s).signal_mask < 2 ^ 16 ∧
      (mask_irq irq s).port_log = s.port_log) ∧
    ((unmask_irq 12 (unmask_irq 10 s)).signal_mask.testBit 2 = false ∧
      (unmask_irq 12 (unmask_irq 10 s)).signal_mask.testBit 10 = false ∧
      (unmask_irq 12 (unmask_irq 10 s)).signal_mask.testBit 12 = false) ∧
    ((mask_irq 12 (unmask_irq 12 (unmask_irq 10 s))).signal_mask.testBit 12 = true ∧
      (mask_irq 12 (unmask_irq 12 (unmask_irq 10 s))).signal_mask.testBit 2 = false ∧
      (mask_irq 12 (unmask_irq 12 (unmask_irq 10 s))).signal_mask.testBit 10 = false) := by
  have hhi : ∀ i, ¬ i < 16 → s.signal_mask.testBit i = false := by
    intro i hi
    exact Nat.testBit_lt_two_pow (lt_of_lt_of_le hm (Nat.pow_le_pow_right (by norm_num)
      (Nat.le_of_not_lt hi)))
  refine ⟨?_, ?_, ?_⟩
  · intro irq hirq
    refine ⟨?_, ?_, ?_, ?_, ?_, ?_, ?_, ?_, ?_⟩
    · simp [unmask_irq_testBit]
    · intro h8
      simp [unmask_irq_testBit, h8]
    · intro i hi h2
      rw [unmask_irq_testBit]
      by_cases h16 : i < 16
      · have h3 : ¬ (8 ≤ irq ∧ i = 2) := h2
        by_cases h8 : 8 ≤ irq
        · have h4 : i ≠ 2 := fun e => h3 ⟨h8, e⟩
          simp [h16, Ne.symm hi, h4]
        · simp [h16, Ne.symm hi, h8]
      · simp [h16, hhi i h16]
    · unfold unmask_irq
      dsimp only
      split <;> exact Nat.mod_lt _ (by norm_num)
    · unfold unmask_irq
      dsimp only
      split <;> rfl
    · simp [mask_irq_testBit, hirq]
    · intro i hi
      rw [mask_irq_testBit]
      by_cases h16 : i < 16
      · simp [h16, Ne.symm hi]
      · simp [h16, hhi i h16]
    · exact Nat.mod_lt _ (by norm_num)
    · rfl
  · simp [unmask_irq_testBit]
  · simp [mask_irq_testBit, unmask_irq_testBit]

/-- The theorem `cascade_mask` at the initial mask `0xFFFF`: unmasking IRQ12
gives `0xEFFB`; after IRQ10 and IRQ12 are unmasked and IRQ12 is masked again,
bit 12 is set and bits 2 and 10 are clear. -/
theorem cascade_mask_witness :
    (unmask_irq 12 (irq_boot example_symbols)).signal_mask = 0xEFFB ∧
    (unmask_irq 12 (irq_boot example_symbols)).signal_mask.testBit 12 = false ∧
    ((mask_irq 12 (unmask_irq 12 (unmask_irq 10
        (irq_boot example_symbols)))).signal_mask.testBit 12 = true ∧
      (mask_irq 12 (unmask_irq 12 (unmask_irq 10
        (irq_boot example_symbols)))).signal_mask.testBit 2 = false ∧
      (mask_irq 12 (unmask_irq 12 (unmask_irq 10
        (irq_boot example_symbols)))).signal_mask.testBit 10 = false) :=
  ⟨by decide, ((cascade_mask (irq_boot example_symbols) (by decide)).1 12 (by decide)).1,
    (cascade_mask (irq_boot example_symbols) (by decide)).2.2⟩

/-! ## The shadow mask: the cascade line -/

theorem update_mask_signal_mask (s : Irq) : (update_mask s).signal_mask = s.signal_mask := rfl

/-- Bit `i` of the shadow mask after `set_irq(irq, handler)`. -/
theorem set_irq_testBit (irq handler : Nat) (s : Irq) (i : Nat) :
    (set_irq irq handler s).signal_mask.testBit i =
      (decide (i < 16) && s.signal_mask.testBit i && !decide (irq = i)) := by
  have hm : (set_irq irq handler s).signal_mask
      = (s.signal_mask &&& bitnot32 (1 <<< irq)) % 2 ^ 16 := by
    unfold set_irq
    dsimp only
    split <;> rfl
  rw [hm]
  simp only [Nat.testBit_mod_two_pow, Nat.testBit_and, testBit_bitnot32, testBit_one_shiftLeft]
  by_cases h1 : i < 16
  · have h2 : i < 32 := by omega
    simp [h1, h2]
  · simp [h1]

/-- Bit `i` of the word libc.c reads: below 16 a bit of the shadow mask, from
16 to 31 a bit of the two bytes after it. -/
theorem mask_word_testBit (s : Irq) (i : Nat) :
    (mask_word s).testBit i =
      if i < 16 then s.signal_mask.testBit i
      else (decide (i < 32) && s.mask_high.testBit (i - 16)) := by
  unfold mask_word
  rw [Nat.add_comm, Nat.testBit_mul_pow_two_add _ (Nat.mod_lt _ (by decide))]
  by_cases h1 : i < 16
  · rw [if_pos h1, if_pos h1, Nat.testBit_mod_two_pow]
    simp [h1]
  · rw [if_neg h1, if_neg h1, Nat.testBit_mod_two_pow]
    by_cases h2 : i < 32
    · have h3 : i - 16 < 16 := by omega
      simp [h2, h3]
    · have h3 : ¬ i - 16 < 16 := by omega
      simp [h2, h3]

/-- Bit `i` of the shadow mask after `sigprocmask`. -/
theorem sigprocmask_testBit (mask : mask_t) (set : Nat) (oldset : Bool) (s : Irq) (i : Nat) :
    (sigprocmask mask set oldset s).1.signal_mask.testBit i =
      (decide (i < 16) &&
        match mask with
        | .SIG_BLOCK => s.signal_mask.testBit i || set.testBit i
        | .SIG_UNBLOCK => s.signal_mask.testBit i && !set.testBit i
        | .SIG_SETMASK => set.testBit i) := by
  unfold sigprocmask
  simp only [update_mask_signal_mask]
  rw [Nat.testBit_mod_two_pow]
  by_cases h1 : i < 16
  · have h2 : i < 32 := by omega
    cases mask <;> dsimp only <;> rw [Nat.testBit_mod_two_pow] <;>
      simp [h1, h2, testBit_bitnot32, mask_word_testBit]
  · simp [h1]

/-- Bit `i` of a set after `sigaddset`. -/
theorem sigaddset_testBit (set signum i : Nat) :
    (sigaddset set signum).testBit i =
      (decide (i < 32) &&
        (set.testBit i || decide (signum = i) || (decide (8 ≤ signum) && decide (i = 2)))) := by
  unfold sigaddset
  dsimp only
  split
  · rename_i h
    simp only [Nat.testBit_mod_two_pow, Nat.testBit_or, testBit_one_shiftLeft]
    by_cases h1 : i < 32 <;> by_cases h3 : i = 2 <;> simp [h, h1, h3, eq_comm]
  · rename_i h
    simp only [Nat.testBit_mod_two_pow, Nat.testBit_or, testBit_one_shiftLeft]
    by_cases h1 : i < 32 <;> simp [h, h1]

/-- Bit `i` of the shadow mask after `sigaction`: as after `unmask_irq`. -/
theorem sigaction_testBit (sym : symbols_t) (signum : Nat) (sa oldsa : Option sigaction_t)
    (s : Irq) (i : Nat) :
    (sigaction sym signum sa oldsa s).2.1.signal_mask.testBit i =
      (decide (i < 16) && s.signal_mask.testBit i && !decide (signum = i) &&
        !(decide (8 ≤ signum) && decide (i = 2))) := by
  unfold sigaction
  dsimp only
  rw [sigprocmask_testBit]
  simp only [sigaddset_testBit, sigemptyset, Nat.zero_testBit, Bool.false_or]
  have hs : (set_signal_handler sym signum sa oldsa s).1.signal_mask = s.signal_mask := rfl
  rw [hs]
  by_cases h1 : i < 16
  · have h2 : i < 32 := by omega
    by_cases h3 : signum = i <;> by_cases h4 : 8 ≤ signum <;> by_cases h5 : i = 2 <;>
      simp [h1, h2, h3, h4, h5]
  · simp [h1]

theorem idt_init_signal_mask (sym : symbols_t) (s : Irq) :
    (idt_init sym s).signal_mask = 0xFFFF := rfl

/-- Each operation allowed by `cascade_ok` keeps the cascade line open for the
lines of the slave PIC. -/
theorem cascade_step (sym : symbols_t) (s : Irq) (c : irq_call_t)
    (h : CascadeOpen s.signal_mask) (hk : cascade_ok s c) :
    CascadeOpen (irq_run sym c s).signal_mask := by
  intro i h8 h16 hi
  have h32 : i < 32 := by omega
  have hi2 : i ≠ 2 := by omega
  cases c with
  | unmask_irq irq =>
    simp only [irq_run, unmask_irq_testBit] at hi ⊢
    by_cases e : irq = i
    · have : 8 ≤ irq := by omega
      simp [this]
    · have h1 := h i h8 h16 (by simpa [h16, e, hi2] using hi)
      simp [h1]
  | mask_irq irq =>
    have hk1 : irq ≠ 2 := hk
    simp only [irq_run, mask_irq_testBit] at hi ⊢
    have h1 := h i h8 h16 (by
      cases hb : s.signal_mask.testBit i
      · rfl
      · simp [h16, hb] at hi)
    simp [h1, hk1]
  | update_mask => exact h i h8 h16 hi
  | set_irq irq handler =>
    have hk1 : irq < 8 := hk
    simp only [irq_run, set_irq_testBit] at hi ⊢
    have e : irq ≠ i := by omega
    have h1 := h i h8 h16 (by simpa [h16, e] using hi)
    simp [h1]
  | sigprocmask mask set oldset =>
    simp only [irq_run, sigprocmask_testBit] at hi ⊢
    cases mask with
    | SIG_BLOCK =>
      have hk1 : set.testBit 2 = false := hk
      simp only [h16, decide_True, Bool.true_and, Bool.or_eq_false_iff] at hi
      simp [h i h8 h16 hi.1, hk1]
    | SIG_UNBLOCK =>
      have hk1 : (∃ i, 8 ≤ i ∧ i < 16 ∧ set.testBit i = true) → set.testBit 2 = true := hk
      simp only [h16, decide_True, Bool.true_and] at hi
      cases hb : s.signal_mask.testBit i
      · simp [h i h8 h16 hb]
      · have hs : set.testBit i = true := by simpa [hb] using hi
        simp [hk1 ⟨i, h8, h16, hs⟩]
    | SIG_SETMASK =>
      have hk1 : CascadeOpen set := hk
      simp only [h16, decide_True, Bool.true_and] at hi
      simp [hk1 i h8 h16 hi]
  | sigaction signum sa oldsa =>
    simp only [irq_run, sigaction_testBit] at hi ⊢
    by_cases e : signum = i
    · have : 8 ≤ signum := by omega
      simp [this]
    · have h1 := h i h8 h16 (by simpa [h16, e, hi2] using hi)
      simp [h1]
  | idt_init =>
    simp only [irq_run, idt_init_signal_mask] at hi
    have e : (0xFFFF : Nat) = 2 ^ 16 - 1 := by norm_num
    rw [e, Nat.testBit_two_pow_sub_one] at hi
    simp [h16] at hi

/-- A list of operations that are all in range and allowed leads from
reachable states to reachable states. -/
theorem irq_reachable_of_trace (sym : symbols_t) (ok : Irq → irq_call_t → Prop) :
    ∀ (cs : List irq_call_t) (s : Irq), IrqReachable sym ok s →
    (∀ c ∈ cs, irq_in_range c ∧ ∀ x, ok x c) → IrqReachable sym ok (irq_trace sym cs s) := by
  intro cs
  induction cs with
  | nil =>
    intro s hs _
    exact hs
  | cons c cs ih =>
    intro s hs hc
    have h1 := hc c (List.mem_cons_self c cs)
    exact ih _ (IrqReachable.step c hs h1.1 (h1.2 s))
      (fun d hd => hc d (List.mem_cons_of_mem c hd))

/-- C21, counterexample. From the initial shadow mask `0xFFFF`,
`unmask_irq(10)` gives `0xFBFB`, where bit 2 is clear and the OR of bits 8..15
is 1; `mask_irq(10)` then gives `0xFFFB`, where bit 2 is still clear although
every one of bits 8..15 is set, so that bit 2 mirrors them in neither sense.
Both states are reachable by the operations of the claim.  Moreover
`set_irq(10, _)`, `mask_irq(2)` after `unmask_irq(10)`, `SIG_BLOCK` of the set
`sigaddset` builds for signal 12 while IRQ10 is unmasked, and `SIG_UNBLOCK` of
the bare bit 10 each give `0xFBFF`, where IRQ10 is unmasked and bit 2 is set. -/
theorem cascade_mirror_counterexample :
    IrqReachable example_symbols mask_op
      (irq_trace example_symbols [.unmask_irq 10] (irq_boot example_symbols)) ∧
    (irq_trace example_symbols [.unmask_irq 10] (irq_boot example_symbols)).signal_mask
      = 0xFBFB ∧
    (0xFBFB : Nat).testBit 2 = false ∧ or_bits_8_15 0xFBFB = true ∧
    IrqReachable example_symbols mask_op
      (irq_trace example_symbols [.unmask_irq 10, .mask_irq 10] (irq_boot example_symbols)) ∧
    (irq_trace example_symbols [.unmask_irq 10, .mask_irq 10]
      (irq_boot example_symbols)).signal_mask = 0xFFFB ∧
    (0xFFFB : Nat).testBit 2 = false ∧ or_bits_8_15 0xFFFB = true ∧
    (∀ i, 8 ≤ i → i < 16 → (0xFFFB : Nat).testBit i = true) ∧
    (set_irq 10 (example_symbols.irq 10) (irq_boot example_symbols)).signal_mask = 0xFBFF ∧
    (mask_irq 2 (unmask_irq 10 (irq_boot example_symbols))).signal_mask = 0xFBFF ∧
    (sigprocmask .SIG_BLOCK (sigaddset sigemptyset 12) false
      (unmask_irq 12 (unmask_irq 10 (irq_boot example_symbols)))).1.signal_mask = 0xFBFF ∧
    (sigprocmask .SIG_UNBLOCK (1 <<< 10) false (irq_boot example_symbols)).1.signal_mask
      = 0xFBFF ∧
    (0xFBFF : Nat).testBit 10 = false ∧ (0xFBFF : Nat).testBit 2 = true := by
  refine ⟨?_, by decide, by decide, by decide, ?_, by decide, by decide, by decide, by decide,
    by decide, by decide, by decide, by decide, by decide, by decide⟩
  · refine irq_reachable_of_trace _ _ _ _ IrqReachable.init ?_
    intro c hc
    simp only [List.mem_singleton] at hc
    subst hc
    exact ⟨by simp [irq_in_range], fun _ => trivial⟩
  · refine irq_reachable_of_trace _ _ _ _ IrqReachable.init ?_
    intro c hc
    simp only [List.mem_cons, List.mem_singleton, List.not_mem_nil, or_false] at hc
    rcases hc with rfl | rfl
    · exact ⟨by simp [irq_in_range], fun _ => trivial⟩
    · exact ⟨by simp [irq_in_range], fun _ => trivial⟩

/-- C21, amended. In every state reachable from the initial shadow mask
`0xFFFF` by `unmask_irq`, `mask_irq` on a line other than 2, `set_irq` on a
line of the master PIC, `sigaction`, `update_mask`, `idt_init`, and
`sigprocmask` with `SIG_BLOCK` of a set without bit 2, `SIG_UNBLOCK` of a set
that has bit 2 whenever it has one of bits 8..15, or `SIG_SETMASK` of a mask of
this same form (IRQ and signal numbers in 0..15): if one of bits 8..15 of the
shadow mask is clear, then bit 2 is clear; and the mask fits in 16 bits. -/
theorem cascade_open (sym : symbols_t) (s : Irq) (h : IrqReachable sym cascade_ok s) :
    CascadeOpen s.signal_mask ∧ s.signal_mask < 2 ^ 16 := by
  induction h with
  | init =>
    refine ⟨?_, by show (0xFFFF : Nat) < 2 ^ 16; norm_num⟩
    intro i _ h16 hi
    have e : (irq_boot sym).signal_mask = 2 ^ 16 - 1 := by
      show (0xFFFF : Nat) = 2 ^ 16 - 1
      norm_num
    rw [e, Nat.testBit_two_pow_sub_one] at hi
    simp [h16] at hi
  | step c _ _ hk ih =>
    refine ⟨cascade_step sym _ c ih.1 hk, ?_⟩
    cases c with
    | unmask_irq irq =>
      simp only [irq_run, unmask_irq]
      split <;> exact Nat.mod_lt _ (by norm_num)
    | mask_irq irq => exact Nat.mod_lt _ (by norm_num)
    | update_mask => exact ih.2
    | set_irq irq handler =>
      simp only [irq_run, set_irq]
      split <;> exact Nat.mod_lt _ (by norm_num)
    | sigprocmask mask set oldset => exact Nat.mod_lt _ (by norm_num)
    | sigaction signum sa oldsa => exact Nat.mod_lt _ (by norm_num)
    | idt_init =>
      show (0xFFFF : Nat) < 2 ^ 16
      norm_num

/-- The theorem `cascade_open` after `unmask_irq(10)`, `unmask_irq(12)`,
`mask_irq(12)` and `sigaction(9, NULL, NULL)`: the mask is `0xF9FB`, with IRQ9
and IRQ10 unmasked and bit 2 clear. -/
theorem cascade_open_witness :
    (irq_trace example_symbols [.unmask_irq 10, .unmask_irq 12, .mask_irq 12,
      .sigaction 9 none none] (irq_boot example_symbols)).signal_mask = 0xF9FB ∧
    CascadeOpen (irq_trace example_symbols [.unmask_irq 10, .unmask_irq 12, .mask_irq 12,
      .sigaction 9 none none] (irq_boot example_symbols)).signal_mask :=
  ⟨by decide, (cascade_open example_symbols _
    (irq_reachable_of_trace example_symbols cascade_ok _ _ IrqReachable.init (by
      intro c hc
      simp only [List.mem_cons, List.mem_singleton, List.not_mem_nil, or_false] at hc
      rcases hc with rfl | rfl | rfl | rfl
      · exact ⟨by simp [irq_in_range], fun _ => trivial⟩
      · exact ⟨by simp [irq_in_range], fun _ => trivial⟩
      · exact ⟨by simp [irq_in_range], fun _ => by simp [cascade_ok]⟩
      · exact ⟨by simp [irq_in_range], fun _ => trivial⟩))).1⟩

/-! ## The PIC data ports and the shadow mask -/

theorem last_write_out8 (p q b : Nat) (s : Irq) :
    last_write p (out8 q b s) = if q % 2 ^ 16 = p then some (b % 2 ^ 8) else last_write p s := by
  unfold last_write out8
  simp only [List.reverse_append, List.reverse_cons, List.reverse_nil, List.nil_append,
    List.singleton_append, List.find?_cons]
  by_cases h : q % 65536 = p
  · simp [h]
  · have hb : (q % 65536 == p) = false := by simpa using h
    simp [h, hb]

/-- What `update_mask` does: two bytes go to the data ports, nothing else
changes, and the ports then agree with the shadow mask. -/
theorem update_mask_view (s : Irq) :
    (update_mask s).signal_mask = s.signal_mask ∧
    (update_mask s).descriptors = s.descriptors ∧
    (update_mask s).signal_handlers = s.signal_handlers ∧
    (update_mask s).port_log =
      s.port_log ++ [(0x21, s.signal_mask % 2 ^ 8), (0xA1, s.signal_mask / 2 ^ 8 % 2 ^ 8)] ∧
    Lockstep (update_mask s) := by
  have h1 : (s.signal_mask &&& 0xFF) % 2 ^ 8 = s.signal_mask % 2 ^ 8 := by
    have e : (0xFF : Nat) = 2 ^ 8 - 1 := by norm_num
    rw [e, Nat.and_pow_two_sub_one_eq_mod, Nat.mod_mod]
  have h2 : (s.signal_mask >>> 8) % 2 ^ 8 = s.signal_mask / 2 ^ 8 % 2 ^ 8 := by
    rw [Nat.shiftRight_eq_div_pow]
  refine ⟨rfl, rfl, rfl, ?_, ?_, ?_⟩
  · simp only [update_mask, out8, PICMI, PICSI, h1, h2, List.append_assoc]
    rfl
  · unfold update_mask
    rw [last_write_out8, last_write_out8, if_neg (by decide), if_pos (by decide), h1]
    rfl
  · unfold update_mask
    rw [last_write_out8, if_pos (by decide), h2]
    rfl

set_option maxRecDepth 1000000 in
/-- C23, counterexample. With the ports in step with the initial mask `0xFFFF`
(after `update_mask`), `unmask_irq(0)` returns with the shadow mask `0xFFFE`
while the byte last written to port 0x21 is still `0xFF`: `unmask_irq` writes
no port, and neither does `mask_irq`.  And `idt_init` returns with the shadow
mask `0xFFFF` while the bytes last written to ports 0x21 and 0xA1 are 0 and
0, from its last `set_irq`. -/
theorem lockstep_counterexample :
    Lockstep (update_mask (irq_boot example_symbols)) ∧
    (unmask_irq 0 (update_mask (irq_boot example_symbols))).signal_mask = 0xFFFE ∧
    last_write PICMI (unmask_irq 0 (update_mask (irq_boot example_symbols))) = some 0xFF ∧
    ¬ Lockstep (unmask_irq 0 (update_mask (irq_boot example_symbols))) ∧
    ¬ Lockstep (mask_irq 0 (update_mask (unmask_irq 0 (irq_boot example_symbols)))) ∧
    (idt_init example_symbols (irq_boot example_symbols)).signal_mask = 0xFFFF ∧
    last_write PICMI (idt_init example_symbols (irq_boot example_symbols)) = some 0 ∧
    last_write PICSI (idt_init example_symbols (irq_boot example_symbols)) = some 0 ∧
    ¬ Lockstep (idt_init example_symbols (irq_boot example_symbols)) := by
  refine ⟨(update_mask_view _).2.2.2.2, by decide, by decide, ?_, ?_, by decide, by decide,
    by decide, ?_⟩
  · unfold Lockstep
    decide
  · unfold Lockstep
    decide
  · unfold Lockstep
    decide

/-- C23, amended. `update_mask` writes the low 8 bits of the shadow mask to
port 0x21 and its high 8 bits to port 0xA1 and changes nothing else, so that
when it has returned the bytes most recently written to the two ports are the
low and the high byte of the shadow mask.  `set_irq`, `sigprocmask` and
`sigaction` end with `update_mask`: when they have returned, the ports agree
with the shadow mask.  `unmask_irq` and `mask_irq` change the shadow mask only
and write no port: the ports agree with the shadow mask once the caller has
called `update_mask`, as the boot code does after `unmask_irq(0)`. -/
theorem lockstep (sym : symbols_t) (s : Irq) :
    ((update_mask s).signal_mask = s.signal_mask ∧
      (update_mask s).descriptors = s.descriptors ∧
      (update_mask s).signal_handlers = s.signal_handlers ∧
      (update_mask s).port_log =
        s.port_log ++ [(0x21, s.signal_mask % 2 ^ 8), (0xA1, s.signal_mask / 2 ^ 8 % 2 ^ 8)] ∧
      Lockstep (update_mask s)) ∧
    (∀ irq handler, Lockstep (set_irq irq handler s)) ∧
    (∀ mask set oldset, Lockstep (sigprocmask mask set oldset s).1) ∧
    (∀ signum sa oldsa, Lockstep (sigaction sym signum sa oldsa s).2.1) ∧
    (∀ irq, (unmask_irq irq s).port_log = s.port_log ∧
      (mask_irq irq s).port_log = s.port_log ∧
      Lockstep (update_mask (unmask_irq irq s)) ∧
      Lockstep (update_mask (mask_irq irq s))) := by
  refine ⟨update_mask_view s, ?_, ?_, ?_, ?_⟩
  · intro irq handler
    exact (update_mask_view _).2.2.2.2
  · intro mask set oldset
    exact (update_mask_view _).2.2.2.2
  · intro signum sa oldsa
    exact (update_mask_view _).2.2.2.2
  · intro irq
    refine ⟨?_, rfl, (update_mask_view _).2.2.2.2, (update_mask_view _).2.2.2.2⟩
    unfold unmask_irq
    dsimp only
    split <;> rfl

/-- The theorem `lockstep` at the boot sequence `unmask_irq(0)`,
`update_mask()` from the initial mask: the ports receive `0xFE` and `0xFF`. -/
theorem lockstep_witness :
    Lockstep (update_mask (unmask_irq 0 (irq_boot example_symbols))) ∧
    last_write PICMI (update_mask (unmask_irq 0 (irq_boot example_symbols))) = some 0xFE ∧
    last_write PICSI (update_mask (unmask_irq 0 (irq_boot example_symbols))) = some 0xFF :=
  ⟨((lockstep example_symbols (irq_boot example_symbols)).2.2.2.2 0).2.2.1, by decide,
    by decide⟩

/-! ## The function `sigprocmask` -/

/-- The word libc.c reads, when the shadow mask and the two bytes after it are
16-bit values. -/
theorem mask_word_eq (s : Irq) (hm : s.signal_mask < 2 ^ 16) (hh : s.mask_high < 2 ^ 16) :
    mask_word s = s.signal_mask + 2 ^ 16 * s.mask_high := by
  unfold mask_word
  rw [Nat.mod_eq_of_lt hm, Nat.mod_eq_of_lt hh]

/-- A bit at position 16 or above of a 16-bit value is clear. -/
theorem testBit_of_lt_16 (m i : Nat) (hm : m < 2 ^ 16) (hi : ¬ i < 16) :
    m.testBit i = false := by
  apply Nat.testBit_eq_false_of_lt
  calc m < 2 ^ 16 := hm
    _ ≤ 2 ^ i := Nat.pow_le_pow_right (by decide) (by omega)

/-- Bit `j` of the two bytes after the shadow mask, after `sigprocmask`. -/
theorem sigprocmask_high_testBit (mask : mask_t) (set : Nat) (oldset : Bool) (s : Irq)
    (j : Nat) :
    (sigprocmask mask set oldset s).1.mask_high.testBit j =
      (decide (j < 16) &&
        match mask with
        | .SIG_BLOCK => s.mask_high.testBit j || set.testBit (16 + j)
        | .SIG_UNBLOCK => s.mask_high.testBit j && !set.testBit (16 + j)
        | .SIG_SETMASK => set.testBit (16 + j)) := by
  have hs : ∀ m : Nat, (m / 2 ^ 16).testBit j = m.testBit (16 + j) := by
    intro m
    rw [← Nat.shiftRight_eq_div_pow, Nat.testBit_shiftRight]
  have hsub : 16 + j - 16 = j := by omega
  have h16 : ¬ 16 + j < 16 := by omega
  have hst : (sigprocmask mask set oldset s).1.mask_high =
      (match mask with
        | .SIG_BLOCK => (mask_word s ||| set) % 2 ^ 32
        | .SIG_UNBLOCK => (mask_word s &&& bitnot32 set) % 2 ^ 32
        | .SIG_SETMASK => set % 2 ^ 32) / 2 ^ 16 := rfl
  rw [hst, hs]
  by_cases h1 : j < 16
  · have h2 : 16 + j < 32 := by omega
    cases mask <;> dsimp only <;> rw [Nat.testBit_mod_two_pow] <;>
      simp [h1, h2, h16, hsub, testBit_bitnot32, mask_word_testBit]
  · have h2 : ¬ 16 + j < 32 := by omega
    cases mask <;> dsimp only <;> rw [Nat.testBit_mod_two_pow] <;> simp [h1, h2]

/-- C24. What `sigprocmask` does, for every shadow mask `m` (16 bits), every
value `h` of the two bytes after it and every set `S`.  The shadow mask
becomes `m OR S` with `SIG_BLOCK`, `m AND NOT S` with `SIG_UNBLOCK` and `S`
with `SIG_SETMASK`, each cut to the 16 bits of the mask; so bit `i < 16` of the
new mask is `m_i ∨ S_i`, `m_i ∧ ¬S_i`, `S_i`.  libc.c declares `signal_mask`
as `unsigned int`, so a non-null `old` receives the 32-bit word
`m + 2^16 * h`, which is `m` only when `h` is 0, and bits 16..31 of what is
stored go to the two bytes after the mask: `SIG_SETMASK` leaves the high half
of `S` there, and a 16-bit `S` leaves them as they are with `SIG_BLOCK` and
`SIG_UNBLOCK`.  `update_mask` is then performed on the new mask: its low and
high byte are the last bytes written to ports 0x21 and 0xA1, and the
descriptors and the signal handlers are unchanged. -/
theorem sigprocmask_spec (s : Irq) (set : Nat) (oldset : Bool) (hm : s.signal_mask < 2 ^ 16)
    (hh : s.mask_high < 2 ^ 16) :
    (sigprocmask .SIG_BLOCK set oldset s).1.signal_mask = (s.signal_mask ||| set) % 2 ^ 16 ∧
    (sigprocmask .SIG_UNBLOCK set oldset s).1.signal_mask = s.signal_mask &&& bitnot32 set ∧
    (sigprocmask .SIG_SETMASK set oldset s).1.signal_mask = set % 2 ^ 16 ∧
    (set < 2 ^ 16 →
      (sigprocmask .SIG_BLOCK set oldset s).1.signal_mask = s.signal_mask ||| set ∧
      (sigprocmask .SIG_SETMASK set oldset s).1.signal_mask = set) ∧
    (∀ i, i < 16 →
      (sigprocmask .SIG_BLOCK set oldset s).1.signal_mask.testBit i =
        (s.signal_mask.testBit i || set.testBit i) ∧
      (sigprocmask .SIG_UNBLOCK set oldset s).1.signal_mask.testBit i =
        (s.signal_mask.testBit i && !set.testBit i) ∧
      (sigprocmask .SIG_SETMASK set oldset s).1.signal_mask.testBit i = set.testBit i) ∧
    (∀ mask, (sigprocmask mask set oldset s).2 =
      if oldset then some (s.signal_mask + 2 ^ 16 * s.mask_high) else none) ∧
    (s.mask_high = 0 →
      ∀ mask, (sigprocmask mask set oldset s).2 = if oldset then some s.signal_mask else none) ∧
    (sigprocmask .SIG_SETMASK set oldset s).1.mask_high = set / 2 ^ 16 % 2 ^ 16 ∧
    (set < 2 ^ 16 →
      (sigprocmask .SIG_BLOCK set oldset s).1.mask_high = s.mask_high ∧
      (sigprocmask .SIG_UNBLOCK set oldset s).1.mask_high = s.mask_high) ∧
    (∀ mask, (sigprocmask mask set oldset s).1 =
        update_mask
          { s with
            signal_mask := (sigprocmask mask set oldset s).1.signal_mask
            mask_high := (sigprocmask mask set oldset s).1.mask_high } ∧
      Lockstep (sigprocmask mask set oldset s).1 ∧
      (sigprocmask mask set oldset s).1.signal_mask < 2 ^ 16 ∧
      (sigprocmask mask set oldset s).1.mask_high < 2 ^ 16 ∧
      (sigprocmask mask set oldset s).1.descriptors = s.descriptors ∧
      (sigprocmask mask set oldset s).1.signal_handlers = s.signal_handlers) := by
  have hold : ∀ mask, (sigprocmask mask set oldset s).2 =
      if oldset then some (s.signal_mask + 2 ^ 16 * s.mask_high) else none := by
    intro mask
    show (if oldset then some (mask_word s) else none) = _
    rw [mask_word_eq s hm hh]
  have hblock : (sigprocmask .SIG_BLOCK set oldset s).1.signal_mask
      = (s.signal_mask ||| set) % 2 ^ 16 := by
    apply Nat.eq_of_testBit_eq
    intro i
    rw [sigprocmask_testBit, Nat.testBit_mod_two_pow, Nat.testBit_or]
  have hunblock : (sigprocmask .SIG_UNBLOCK set oldset s).1.signal_mask
      = s.signal_mask &&& bitnot32 set := by
    apply Nat.eq_of_testBit_eq
    intro i
    rw [sigprocmask_testBit, Nat.testBit_and, testBit_bitnot32]
    by_cases h1 : i < 16
    · have h2 : i < 32 := by omega
      simp [h1, h2]
    · rw [testBit_of_lt_16 _ i hm h1]
      simp [h1]
  have hset : (sigprocmask .SIG_SETMASK set oldset s).1.signal_mask = set % 2 ^ 16 := by
    apply Nat.eq_of_testBit_eq
    intro i
    rw [sigprocmask_testBit, Nat.testBit_mod_two_pow]
  have hlt : ∀ mask, (sigprocmask mask set oldset s).1.signal_mask < 2 ^ 16 :=
    fun _ => Nat.mod_lt _ (by norm_num)
  have hhlt : ∀ mask, (sigprocmask mask set oldset s).1.mask_high < 2 ^ 16 := by
    intro mask
    have hst : (sigprocmask mask set oldset s).1.mask_high =
        (match mask with
          | .SIG_BLOCK => (mask_word s ||| set) % 2 ^ 32
          | .SIG_UNBLOCK => (mask_word s &&& bitnot32 set) % 2 ^ 32
          | .SIG_SETMASK => set % 2 ^ 32) / 2 ^ 16 := rfl
    rw [hst]
    have hb : ∀ x : Nat, x % 2 ^ 32 / 2 ^ 16 < 2 ^ 16 := by
      intro x
      have := Nat.mod_lt x (show 0 < 2 ^ 32 by norm_num)
      omega
    cases mask <;> exact hb _
  refine ⟨hblock, hunblock, hset, ?_, ?_, hold, ?_, ?_, ?_, ?_⟩
  · intro hs
    refine ⟨?_, by rw [hset, Nat.mod_eq_of_lt hs]⟩
    rw [hblock]
    exact Nat.mod_eq_of_lt (Nat.or_lt_two_pow hm hs)
  · intro i hi
    refine ⟨?_, ?_, ?_⟩ <;> rw [sigprocmask_testBit] <;> simp [hi]
  · intro h0 mask
    rw [hold mask, h0]
    rfl
  · apply Nat.eq_of_testBit_eq
    intro j
    rw [sigprocmask_high_testBit, Nat.testBit_mod_two_pow, ← Nat.shiftRight_eq_div_pow,
      Nat.testBit_shiftRight]
  · intro hs
    constructor
    · apply Nat.eq_of_testBit_eq
      intro j
      rw [sigprocmask_high_testBit, testBit_of_lt_16 set (16 + j) hs (by omega)]
      by_cases h1 : j < 16
      · simp [h1]
      · rw [testBit_of_lt_16 _ j hh h1]
        simp [h1]
    · apply Nat.eq_of_testBit_eq
      intro j
      rw [sigprocmask_high_testBit, testBit_of_lt_16 set (16 + j) hs (by omega)]
      by_cases h1 : j < 16
      · simp [h1]
      · rw [testBit_of_lt_16 _ j hh h1]
        simp [h1]
  · intro mask
    exact ⟨rfl, (update_mask_view _).2.2.2.2, hlt mask, hhlt mask, rfl, rfl⟩

/-- The theorem `sigprocmask_spec` after `sigprocmask(SIG_SETMASK, 0x12345678,
NULL)` on the static initial state: the shadow mask is `0x5678` and the two
bytes after it hold `0x1234`; the next call, `SIG_BLOCK` of the empty set with
a non-null `old`, leaves the shadow mask `0x5678` and stores `0x12345678` in
`old`, which is not the shadow mask. -/
theorem sigprocmask_spec_witness :
    (sigprocmask .SIG_SETMASK 0x12345678 false (irq_boot example_symbols)).1.signal_mask
      = 0x5678 ∧
    (sigprocmask .SIG_SETMASK 0x12345678 false (irq_boot example_symbols)).1.mask_high
      = 0x1234 ∧
    (sigprocmask .SIG_BLOCK 0 true
      (sigprocmask .SIG_SETMASK 0x12345678 false (irq_boot example_symbols)).1).1.signal_mask
      = 0x5678 ∧
    (sigprocmask .SIG_BLOCK 0 true
      (sigprocmask .SIG_SETMASK 0x12345678 false (irq_boot example_symbols)).1).2
      = some 0x12345678 ∧
    (0x12345678 : Nat) ≠ 0x5678 := by
  have h := sigprocmask_spec
    (sigprocmask .SIG_SETMASK 0x12345678 false (irq_boot example_symbols)).1 0 true
    (by decide) (by decide)
  exact ⟨by decide, by decide, h.1.trans (by decide), (h.2.2.2.2.2.1 .SIG_BLOCK).trans (by decide),
    by decide⟩

/-- C26. What the round trip does, for every shadow mask `m0` (16 bits), every
value `h0` of the two bytes after it and every set `M`:
`sigprocmask(SIG_SETMASK, M, &O)` stores in `O` the 32-bit word
`m0 + 2^16 * h0`, which is `m0` only when `h0` is 0, and
`sigprocmask(SIG_SETMASK, O, _)` then leaves the shadow mask equal to `m0` and
the two bytes after it equal to `h0`; the last bytes written to ports 0x21 and
0xA1 are the low and the high byte of `m0`; the descriptors and the signal
handlers are untouched. -/
theorem setmask_round_trip (s : Irq) (M : Nat) (oldset : Bool) (hm : s.signal_mask < 2 ^ 16)
    (hh : s.mask_high < 2 ^ 16) :
    (sigprocmask .SIG_SETMASK M true s).2 = some (s.signal_mask + 2 ^ 16 * s.mask_high) ∧
    (s.mask_high = 0 → (sigprocmask .SIG_SETMASK M true s).2 = some s.signal_mask) ∧
    (sigprocmask .SIG_SETMASK (s.signal_mask + 2 ^ 16 * s.mask_high) oldset
      (sigprocmask .SIG_SETMASK M true s).1).1.signal_mask = s.signal_mask ∧
    (sigprocmask .SIG_SETMASK (s.signal_mask + 2 ^ 16 * s.mask_high) oldset
      (sigprocmask .SIG_SETMASK M true s).1).1.mask_high = s.mask_high ∧
    last_write PICMI (sigprocmask .SIG_SETMASK (s.signal_mask + 2 ^ 16 * s.mask_high) oldset
      (sigprocmask .SIG_SETMASK M true s).1).1 = some (s.signal_mask % 2 ^ 8) ∧
    last_write PICSI (sigprocmask .SIG_SETMASK (s.signal_mask + 2 ^ 16 * s.mask_high) oldset
      (sigprocmask .SIG_SETMASK M true s).1).1 = some (s.signal_mask / 2 ^ 8) ∧
    (sigprocmask .SIG_SETMASK (s.signal_mask + 2 ^ 16 * s.mask_high) oldset
      (sigprocmask .SIG_SETMASK M true s).1).1.descriptors = s.descriptors ∧
    (sigprocmask .SIG_SETMASK (s.signal_mask + 2 ^ 16 * s.mask_high) oldset
      (sigprocmask .SIG_SETMASK M true s).1).1.signal_handlers = s.signal_handlers := by
  have hO : (sigprocmask .SIG_SETMASK M true s).2
      = some (s.signal_mask + 2 ^ 16 * s.mask_high) := by
    show some (mask_word s) = _
    rw [mask_word_eq s hm hh]
  have h1 : (sigprocmask .SIG_SETMASK (s.signal_mask + 2 ^ 16 * s.mask_high) oldset
      (sigprocmask .SIG_SETMASK M true s).1).1.signal_mask = s.signal_mask := by
    show (s.signal_mask + 2 ^ 16 * s.mask_high) % 2 ^ 32 % 2 ^ 16 = s.signal_mask
    omega
  have h1h : (sigprocmask .SIG_SETMASK (s.signal_mask + 2 ^ 16 * s.mask_high) oldset
      (sigprocmask .SIG_SETMASK M true s).1).1.mask_high = s.mask_high := by
    show (s.signal_mask + 2 ^ 16 * s.mask_high) % 2 ^ 32 / 2 ^ 16 = s.mask_high
    omega
  have h2 := (update_mask_view
    { (sigprocmask .SIG_SETMASK M true s).1 with
      signal_mask := (s.signal_mask + 2 ^ 16 * s.mask_high) % 2 ^ 32 % 2 ^ 16
      mask_high := (s.signal_mask + 2 ^ 16 * s.mask_high) % 2 ^ 32 / 2 ^ 16 }).2.2.2.2
  have h3 : s.signal_mask / 2 ^ 8 % 2 ^ 8 = s.signal_mask / 2 ^ 8 :=
    Nat.mod_eq_of_lt (by omega)
  have hmod : (s.signal_mask + 2 ^ 16 * s.mask_high) % 2 ^ 32 % 2 ^ 16 = s.signal_mask := by
    omega
  refine ⟨hO, ?_, h1, h1h, ?_, ?_, rfl, rfl⟩
  · intro h0
    rw [hO, h0]
    rfl
  · refine h2.1.trans (congrArg some ?_)
    show (s.signal_mask + 2 ^ 16 * s.mask_high) % 2 ^ 32 % 2 ^ 16 % 2 ^ 8 = s.signal_mask % 2 ^ 8
    rw [hmod]
  · refine h2.2.trans (congrArg some ?_)
    show (s.signal_mask + 2 ^ 16 * s.mask_high) % 2 ^ 32 % 2 ^ 16 / 2 ^ 8 % 2 ^ 8
      = s.signal_mask / 2 ^ 8
    rw [hmod, h3]

/-- The theorem `setmask_round_trip` in the state that
`sigprocmask(SIG_SETMASK, 0x12345678, NULL)` leaves from the static initial
state, with `M = 0`: the shadow mask is `0x5678`, `O` receives `0x12345678`,
and the second call restores the shadow mask `0x5678` and writes `0x78` to
port 0x21. -/
theorem setmask_round_trip_witness :
    (sigprocmask .SIG_SETMASK 0x12345678 false (irq_boot example_symbols)).1.signal_mask
      = 0x5678 ∧
    (sigprocmask .SIG_SETMASK 0 true
      (sigprocmask .SIG_SETMASK 0x12345678 false (irq_boot example_symbols)).1).2
      = some 0x12345678 ∧
    (sigprocmask .SIG_SETMASK 0x12345678 false
      (sigprocmask .SIG_SETMASK 0 true
        (sigprocmask .SIG_SETMASK 0x12345678 false
          (irq_boot example_symbols)).1).1).1.signal_mask = 0x5678 ∧
    last_write PICMI (sigprocmask .SIG_SETMASK 0x12345678 false
      (sigprocmask .SIG_SETMASK 0 true
        (sigprocmask .SIG_SETMASK 0x12345678 false
          (irq_boot example_symbols)).1).1).1 = some 0x78 := by
  have h := setmask_round_trip
    (sigprocmask .SIG_SETMASK 0x12345678 false (irq_boot example_symbols)).1 0 false
    (by decide) (by decide)
  have e : (sigprocmask .SIG_SETMASK 0x12345678 false
      (irq_boot example_symbols)).1.signal_mask + 2 ^ 16 *
      (sigprocmask .SIG_SETMASK 0x12345678 false (irq_boot example_symbols)).1.mask_high
      = 0x12345678 := by decide
  have em : (sigprocmask .SIG_SETMASK 0x12345678 false
      (irq_boot example_symbols)).1.signal_mask = 0x5678 := by decide
  rw [e] at h
  rw [em] at h
  exact ⟨em, h.1, h.2.2.1, h.2.2.2.2.1⟩

/-! ## Signal sets and the cascade bit -/

/-- C25, counterexample. On the mask `0xFFFF`, `SIG_UNBLOCK` of the set
`0x1000` (bit 12 alone, a bit in 8..15) gives `0xEFFF`, with bit 2 still set,
where the same call with the set `0x1000 OR (1<<2)` gives `0xEFFB`; and such a
set comes out of the set functions too: `sigdelset(12)` after `sigaddset(10)`
and `sigaddset(12)` leaves `0x400`, bit 10 without bit 2. -/
theorem sigprocmask_raw_set_counterexample :
    (0x1000 : Nat).testBit 12 = true ∧
    (sigprocmask .SIG_UNBLOCK 0x1000 false (irq_boot example_symbols)).1.signal_mask = 0xEFFF ∧
    (sigprocmask .SIG_UNBLOCK (0x1000 ||| 1 <<< 2) false
      (irq_boot example_symbols)).1.signal_mask = 0xEFFB ∧
    (0xEFFF : Nat).testBit 2 = true ∧
    sigdelset (sigaddset (sigaddset sigemptyset 10) 12) 12 = 0x400 ∧
    (sigprocmask .SIG_UNBLOCK 0x400 false (irq_boot example_symbols)).1.signal_mask = 0xFBFF ∧
    (sigprocmask .SIG_UNBLOCK (0x400 ||| 1 <<< 2) false
      (irq_boot example_symbols)).1.signal_mask = 0xFBFB := by
  decide

/-- A set built by `sigaddset` alone has bit 2 whenever it has a bit from 8 on. -/
theorem sigset_of_closed (l : List Nat) :
    ∀ i, 8 ≤ i → (sigset_of l).testBit i = true → (sigset_of l).testBit 2 = true := by
  have key : ∀ (l : List Nat) (S : Nat),
      (∀ i, 8 ≤ i → S.testBit i = true → S.testBit 2 = true) →
      ∀ i, 8 ≤ i → (l.foldl sigaddset S).testBit i = true →
        (l.foldl sigaddset S).testBit 2 = true := by
    intro l
    induction l with
    | nil =>
      intro S hS
      exact hS
    | cons a l ih =>
      intro S hS
      refine ih (sigaddset S a) ?_
      intro i h8 hi
      rw [sigaddset_testBit] at hi ⊢
      simp only [Bool.and_eq_true, decide_eq_true_eq, Bool.or_eq_true] at hi
      have hi2 : i ≠ 2 := by omega
      rcases hi.2 with (h1 | h1) | h1
      · simp [hS i h8 h1]
      · have : 8 ≤ a := by omega
        simp [this]
      · exact absurd h1.2 hi2
  intro i h8 hi
  exact key l sigemptyset (fun j _ hj => by simp [sigemptyset] at hj) i h8 hi

/-- C25, amended. The cascade bit is added by `sigaddset`, not by
`sigprocmask`: `sigaddset(set, signum)` with `signum >= 8` also sets bit 2, so a
set `S` built from the empty set by `sigaddset` calls alone has bit 2 whenever
it has a bit in 8..15.  For every such set, every operation and every current
mask, `S OR (1<<2)` is `S`, the resulting shadow mask equals the result of the
same call with `S OR (1<<2)`, and `SIG_UNBLOCK` leaves bit 2 clear.
`sigprocmask` applies any other set as it is given. -/
theorem sigprocmask_cascade (l : List Nat) (s : Irq)
    (hl : ∃ i, 8 ≤ i ∧ i < 16 ∧ (sigset_of l).testBit i = true) :
    (sigset_of l).testBit 2 = true ∧
    sigset_of l ||| 1 <<< 2 = sigset_of l ∧
    (∀ mask oldset, sigprocmask mask (sigset_of l ||| 1 <<< 2) oldset s =
      sigprocmask mask (sigset_of l) oldset s) ∧
    (∀ oldset, (sigprocmask .SIG_UNBLOCK (sigset_of l) oldset s).1.signal_mask.testBit 2
      = false) ∧
    (∀ set signum, 8 ≤ signum → signum < 32 →
      (sigaddset set signum).testBit signum = true ∧ (sigaddset set signum).testBit 2 = true) := by
  obtain ⟨i, h8, _, hi⟩ := hl
  have h2 := sigset_of_closed l i h8 hi
  have he : sigset_of l ||| 1 <<< 2 = sigset_of l := by
    apply Nat.eq_of_testBit_eq
    intro j
    rw [Nat.testBit_or, testBit_one_shiftLeft]
    by_cases e : 2 = j
    · subst e
      simp [h2]
    · simp [e]
  refine ⟨h2, he, fun mask oldset => by rw [he], fun oldset => ?_, ?_⟩
  · rw [sigprocmask_testBit]
    simp [h2]
  · intro set signum hs h32
    simp [sigaddset_testBit, hs, h32]

/-- The theorem `sigprocmask_cascade` for the set built by `sigaddset(12)`:
it is `0x1004`, and `SIG_UNBLOCK` on the mask `0xFFFF` gives `0xEFFB`. -/
theorem sigprocmask_cascade_witness :
    sigset_of [12] = 0x1004 ∧
    (sigprocmask .SIG_UNBLOCK (sigset_of [12]) false
      (irq_boot example_symbols)).1.signal_mask = 0xEFFB ∧
    (sigprocmask .SIG_UNBLOCK (sigset_of [12]) false
      (irq_boot example_symbols)).1.signal_mask.testBit 2 = false :=
  ⟨by decide, by decide,
    (sigprocmask_cascade [12] (irq_boot example_symbols) ⟨12, by decide, by decide,
      by decide⟩).2.2.2.1 false⟩

/-! ## The function `sigaction` -/

/-- The signal handlers after `sigaction`: the entry `signum` is written by
`set_signal_handler`, the others are left alone. -/
theorem sigaction_signal_handlers (sym : symbols_t) (signum : Nat)
    (sa oldsa : Option sigaction_t) (s : Irq) :
    (sigaction sym signum sa oldsa s).2.1.signal_handlers =
      Function.update s.signal_handlers signum
        (match sa with
        | some a =>
          if a.sa_handler = SIG_DFL then sym.default_handler
          else if a.sa_handler = SIG_IGN then sym.ignore_handler
          else a.sa_handler
        | none => sym.default_handler) := rfl

/-- What `sigaction` stores through a non-null `oldsa`. -/
theorem sigaction_old (sym : symbols_t) (signum : Nat) (sa : Option sigaction_t)
    (o : sigaction_t) (x : Irq) :
    (sigaction sym signum sa (some o) x).2.2 =
      some (if x.signal_handlers signum = sym.default_handler then
          { o with sa_handler := SIG_DFL }
        else if x.signal_handlers signum = sym.ignore_handler then
          { o with sa_handler := SIG_IGN }
        else { o with sa_handler := x.signal_handlers signum }) := rfl

/-- C29. For every `signum` in 0..15, every new and old action (null or not)
and every prior shadow mask, when `sigaction(signum, new, old)` has returned,
bit `signum` of the shadow mask is clear, bit 2 is also clear when
`signum >= 8`, every other bit is unchanged, and the new mask has been written
to the PIC data ports: its low byte to port 0x21, then its high byte to port
0xA1, the last two writes. -/
theorem sigaction_unblocks (sym : symbols_t) (signum : Nat) (sa oldsa : Option sigaction_t)
    (s : Irq) (_ : signum < 16) (hm : s.signal_mask < 2 ^ 16) :
    (sigaction sym signum sa oldsa s).2.1.signal_mask.testBit signum = false ∧
    (8 ≤ signum → (sigaction sym signum sa oldsa s).2.1.signal_mask.testBit 2 = false) ∧
    (∀ i, i ≠ signum → ¬ (8 ≤ signum ∧ i = 2) →
      (sigaction sym signum sa oldsa s).2.1.signal_mask.testBit i = s.signal_mask.testBit i) ∧
    (sigaction sym signum sa oldsa s).2.1.port_log = s.port_log ++
      [(0x21, (sigaction sym signum sa oldsa s).2.1.signal_mask % 2 ^ 8),
        (0xA1, (sigaction sym signum sa oldsa s).2.1.signal_mask / 2 ^ 8)] ∧
    Lockstep (sigaction sym signum sa oldsa s).2.1 := by
  have hlt : (sigaction sym signum sa oldsa s).2.1.signal_mask < 2 ^ 16 :=
    Nat.mod_lt _ (by norm_num)
  have hhi : (sigaction sym signum sa oldsa s).2.1.signal_mask / 2 ^ 8 % 2 ^ 8 =
      (sigaction sym signum sa oldsa s).2.1.signal_mask / 2 ^ 8 :=
    Nat.mod_eq_of_lt (by omega)
  refine ⟨?_, ?_, ?_, ?_, (update_mask_view _).2.2.2.2⟩
  · simp [sigaction_testBit]
  · intro h8
    simp [sigaction_testBit, h8]
  · intro i hi h2
    rw [sigaction_testBit]
    by_cases h16 : i < 16
    · by_cases h8 : 8 ≤ signum
      · have h4 : i ≠ 2 := fun e => h2 ⟨h8, e⟩
        simp [h16, Ne.symm hi, h4]
      · simp [h16, Ne.symm hi, h8]
    · have : s.signal_mask.testBit i = false :=
        Nat.testBit_lt_two_pow (lt_of_lt_of_le hm (Nat.pow_le_pow_right (by norm_num)
          (Nat.le_of_not_lt h16)))
      simp [h16, this]
  · rw [← hhi]
    exact (update_mask_view _).2.2.2.1

/-- The theorem `sigaction_unblocks` for signal 12 on the initial mask: the
mask becomes `0xEFFB`, and `0xFB`, `0xEF` go to the ports. -/
theorem sigaction_unblocks_witness :
    (sigaction example_symbols 12 none none (irq_boot example_symbols)).2.1.signal_mask
      = 0xEFFB ∧
    (sigaction example_symbols 12 none none (irq_boot example_symbols)).2.1.port_log
      = [(0x21, 0xFB), (0xA1, 0xEF)] := by
  have h := (sigaction_unblocks example_symbols 12 none none (irq_boot example_symbols)
    (by decide) (by decide)).2.2.2.1
  have e : (sigaction example_symbols 12 none none (irq_boot example_symbols)).2.1.signal_mask
      = 0xEFFB := by decide
  rw [e] at h
  exact ⟨e, h⟩

/-! ## The function `set_irq` -/

/-- C30. For every `irq` in 0..15 and every 32-bit handler address,
`set_irq(irq, handler)` installs the handler at vector `32 + irq` as an
interrupt gate (flags `0x8E00`, selector `0x08`, the address in two halves),
leaves every other descriptor and the signal handlers unchanged, clears bit
`irq` of the shadow mask and leaves its other bits unchanged, and then writes
the low byte of the new mask to port 0x21 and its high byte to port 0xA1. -/
theorem set_irq_spec (irq handler : Nat) (s : Irq) (hi : irq < 16) (hh : handler < 2 ^ 32)
    (hm : s.signal_mask < 2 ^ 16) :
    (set_irq irq handler s).descriptors (32 + irq) =
      { offset_lo := handler % 2 ^ 16, selector := 0x08, flags := 0x8E00,
        offset_hi := handler / 2 ^ 16 } ∧
    (∀ v, v ≠ 32 + irq → (set_irq irq handler s).descriptors v = s.descriptors v) ∧
    (set_irq irq handler s).signal_handlers = s.signal_handlers ∧
    (set_irq irq handler s).signal_mask.testBit irq = false ∧
    (∀ i, i ≠ irq →
      (set_irq irq handler s).signal_mask.testBit i = s.signal_mask.testBit i) ∧
    (set_irq irq handler s).port_log = s.port_log ++
      [(0x21, (set_irq irq handler s).signal_mask % 2 ^ 8),
        (0xA1, (set_irq irq handler s).signal_mask / 2 ^ 8)] ∧
    Lockstep (set_irq irq handler s) := by
  have hd : (set_irq irq handler s).descriptors = Function.update s.descriptors (32 + irq)
      { offset_lo := handler % 2 ^ 16, selector := 0x08, flags := 0x8E00,
        offset_hi := handler / 2 ^ 16 } := by
    have h1 : handler / 2 ^ 16 % 2 ^ 16 = handler / 2 ^ 16 := Nat.mod_eq_of_lt (by omega)
    unfold set_irq
    dsimp only
    split
    · have e : (irq + SLAVE - 8) % 256 = 32 + irq := by
        unfold SLAVE
        omega
      show Function.update s.descriptors ((irq + SLAVE - 8) % 256) _ = _
      rw [e, h1]
      rfl
    · have e : (irq + MASTER) % 256 = 32 + irq := by
        unfold MASTER
        omega
      show Function.update s.descriptors ((irq + MASTER) % 256) _ = _
      rw [e, h1]
      rfl
  have hlt : (set_irq irq handler s).signal_mask < 2 ^ 16 := by
    unfold set_irq
    dsimp only
    split <;> exact Nat.mod_lt _ (by norm_num)
  have hhi : (set_irq irq handler s).signal_mask / 2 ^ 8 % 2 ^ 8 =
      (set_irq irq handler s).signal_mask / 2 ^ 8 := Nat.mod_eq_of_lt (by omega)
  have hp : (set_irq irq handler s).port_log = s.port_log ++
      [(0x21, (set_irq irq handler s).signal_mask % 2 ^ 8),
        (0xA1, (set_irq irq handler s).signal_mask / 2 ^ 8 % 2 ^ 8)] := by
    unfold set_irq
    dsimp only
    split <;> exact (update_mask_view _).2.2.2.1
  refine ⟨?_, ?_, ?_, ?_, ?_, ?_, (update_mask_view _).2.2.2.2⟩
  · rw [hd, Function.update_same]
  · intro v hv
    rw [hd, Function.update_noteq hv]
  · unfold set_irq
    dsimp only
    split <;> rfl
  · simp [set_irq_testBit]
  · intro i hne
    rw [set_irq_testBit]
    by_cases h16 : i < 16
    · simp [h16, Ne.symm hne]
    · have : s.signal_mask.testBit i = false :=
        Nat.testBit_lt_two_pow (lt_of_lt_of_le hm (Nat.pow_le_pow_right (by norm_num)
          (Nat.le_of_not_lt h16)))
      simp [h16, this]
  · rw [← hhi]
    exact hp

/-- The theorem `set_irq_spec` for IRQ 10 and a handler at `0x12345678`, on the
initial state: vector 42 gets the gate, the mask becomes `0xFBFF`. -/
theorem set_irq_spec_witness :
    (set_irq 10 0x12345678 (irq_boot example_symbols)).descriptors 42 =
      { offset_lo := 0x5678, selector := 0x08, flags := 0x8E00, offset_hi := 0x1234 } ∧
    (set_irq 10 0x12345678 (irq_boot example_symbols)).signal_mask = 0xFBFF ∧
    (set_irq 10 0x12345678 (irq_boot example_symbols)).port_log
      = [(0x21, 0xFF), (0xA1, 0xFB)] := by
  obtain ⟨h1, _, _, _, _, h6, _⟩ :=
    set_irq_spec 10 0x12345678 (irq_boot example_symbols) (by decide) (by decide) (by decide)
  have e : (set_irq 10 0x12345678 (irq_boot example_symbols)).signal_mask = 0xFBFF := by
    decide
  rw [e] at h6
  exact ⟨h1, e, h6⟩

/-! ## The interrupt flag -/

/-- C34. For both values of the interrupt flag: `interrupts_disable` returns
0x200 if the flag was set and 0 otherwise, leaves the flag clear and changes
nothing else; `interrupts_restore(t)` sets the flag when `t` is not 0 and
leaves the state unchanged when `t` is 0; so `interrupts_restore` applied to
what `interrupts_disable` returned leaves the state as it was before the pair;
and for a nested pair the inner `interrupts_disable` returns 0, the flag is
clear after the inner `interrupts_restore`, and the outer one gives back the
state before the two pairs. -/
theorem interrupts_pair (s : Kernel) :
    (interrupts_disable s).1 = (if s.eflags_if then 0x200 else 0) ∧
    (interrupts_disable s).2.eflags_if = false ∧
    (interrupts_disable s).2 = { s with eflags_if := false } ∧
    (∀ t : Nat, t ≠ 0 → (interrupts_restore t s).eflags_if = true) ∧
    interrupts_restore 0 s = s ∧
    interrupts_restore (interrupts_disable s).1 (interrupts_disable s).2 = s ∧
    (interrupts_disable (interrupts_disable s).2).1 = 0 ∧
    (interrupts_restore (interrupts_disable (interrupts_disable s).2).1
      (interrupts_disable (interrupts_disable s).2).2).eflags_if = false ∧
    interrupts_restore (interrupts_disable s).1
      (interrupts_restore (interrupts_disable (interrupts_disable s).2).1
        (interrupts_disable (interrupts_disable s).2).2) = s := by
  refine ⟨rfl, rfl, rfl, ?_, ?_, interrupts_disable_restore s, rfl, rfl, ?_⟩
  · intro t ht
    simp [interrupts_restore, interrupts_enable, ht]
  · simp [interrupts_restore]
  · exact interrupts_disable_restore s

/-- The theorem `interrupts_pair` at the state where a thread started through
the trampoline holds mutex 7, where the flag is set: `interrupts_disable`
returns 0x200 and clears the flag, and `interrupts_restore(0x200)` sets it
again. -/
theorem interrupts_pair_witness :
    worker_locked_state.eflags_if = true ∧
    (interrupts_disable worker_locked_state).1 = 0x200 ∧
    (interrupts_disable worker_locked_state).2.eflags_if = false ∧
    (interrupts_restore 0x200 (interrupts_disable worker_locked_state).2).eflags_if = true :=
  ⟨by decide, (interrupts_pair worker_locked_state).1,
    (interrupts_pair worker_locked_state).2.1,
    (interrupts_pair (interrupts_disable worker_locked_state).2).2.2.2.1 0x200 (by decide)⟩

/-! ## Descriptors -/

/-- C35. For every vector `v` in 0..255 and every 32-bit handler address `h`,
`set_vector(v, h, type)` stores in descriptor `v` the low half of `h` in
`offset_lo` and the high half in `offset_hi`, so that
`offset_hi * 2^16 + offset_lo = h`, the selector 0x08, and the flags 0x8E00
for an interrupt gate and 0x8F00, which is `0x8E00 | 0x100`, for a trap gate;
every other descriptor and every other global is unchanged. -/
theorem set_vector_spec (v h : Nat) (type : gate_type) (s : Irq) (hv : v < 256)
    (hh : h < 2 ^ 32) :
    ((set_vector v h type s).descriptors v).offset_lo = h % 2 ^ 16 ∧
    ((set_vector v h type s).descriptors v).offset_hi = h / 2 ^ 16 ∧
    ((set_vector v h type s).descriptors v).offset_hi * 2 ^ 16 +
      ((set_vector v h type s).descriptors v).offset_lo = h ∧
    ((set_vector v h type s).descriptors v).selector = 0x08 ∧
    (type = .interrupt → ((set_vector v h type s).descriptors v).flags = 0x8E00) ∧
    (type = .trap → ((set_vector v h type s).descriptors v).flags = 0x8F00) ∧
    (0x8F00 : Nat) = 0x8E00 ||| 0x100 ∧
    (∀ w, w ≠ v → (set_vector v h type s).descriptors w = s.descriptors w) ∧
    (set_vector v h type s).signal_mask = s.signal_mask ∧
    (set_vector v h type s).signal_handlers = s.signal_handlers ∧
    (set_vector v h type s).port_log = s.port_log ∧
    (set_vector v h type s).idtr_limit = s.idtr_limit := by
  have hd : (set_vector v h type s).descriptors v =
      { offset_lo := h % 2 ^ 16, selector := 0x08,
        flags := if type = .interrupt then 0x8E00 else 0x8F00,
        offset_hi := h / 2 ^ 16 % 2 ^ 16 } := by
    have e : v % 256 = v := Nat.mod_eq_of_lt hv
    unfold set_vector
    rw [e]
    exact Function.update_same _ _ _
  have hhi : h / 2 ^ 16 % 2 ^ 16 = h / 2 ^ 16 := by
    apply Nat.mod_eq_of_lt
    omega
  refine ⟨by rw [hd], by rw [hd]; exact hhi, ?_, by rw [hd], ?_, ?_, by decide, ?_,
    rfl, rfl, rfl, rfl⟩
  · rw [hd]
    show h / 2 ^ 16 % 2 ^ 16 * 2 ^ 16 + h % 2 ^ 16 = h
    rw [hhi]
    omega
  · intro ht
    rw [hd, ht]
    rfl
  · intro ht
    rw [hd, ht]
    rfl
  · intro w hw
    have e : v % 256 = v := Nat.mod_eq_of_lt hv
    unfold set_vector
    rw [e]
    exact Function.update_noteq hw _ _

/-- The theorem `set_vector_spec` for vector 14 and the address `0x1002C0` as
a trap gate on the static initial state. -/
theorem set_vector_spec_witness :
    ((set_vector 14 0x1002C0 .trap (irq_boot example_symbols)).descriptors 14).offset_lo
      = 0x02C0 ∧
    ((set_vector 14 0x1002C0 .trap (irq_boot example_symbols)).descriptors 14).offset_hi
      = 0x10 ∧
    ((set_vector 14 0x1002C0 .trap (irq_boot example_symbols)).descriptors 14).flags
      = 0x8F00 :=
  ⟨(set_vector_spec 14 0x1002C0 .trap (irq_boot example_symbols) (by decide) (by decide)).1,
    (set_vector_spec 14 0x1002C0 .trap (irq_boot example_symbols) (by decide) (by decide)).2.1,
    (set_vector_spec 14 0x1002C0 .trap (irq_boot example_symbols) (by decide)
      (by decide)).2.2.2.2.2.1 rfl⟩

/-! ## Signal sets -/

/-- Bit `i` of a set after `sigdelset`. -/
theorem sigdelset_testBit (set signum i : Nat) :
    (sigdelset set signum).testBit i =
      (decide (i < 32) && set.testBit i && !decide (signum = i) &&
        !(decide (8 ≤ signum) && decide (i = 2))) := by
  unfold sigdelset
  dsimp only
  split
  · rename_i h
    simp only [Nat.testBit_mod_two_pow, Nat.testBit_and, testBit_bitnot32,
      testBit_one_shiftLeft]
    by_cases h1 : i < 32 <;> by_cases h3 : i = 2 <;> by_cases h4 : signum = i <;>
      simp [h, h1, h3, h4, eq_comm]
  · rename_i h
    simp only [Nat.testBit_mod_two_pow, Nat.testBit_and, testBit_bitnot32,
      testBit_one_shiftLeft]
    by_cases h1 : i < 32 <;> by_cases h4 : signum = i <;> simp [h, h1, h4]

/-- A bit at position 32 or above of a 32-bit value is clear. -/
theorem testBit_of_lt_32 (set i : Nat) (hs : set < 2 ^ 32) (hi : ¬ i < 32) :
    set.testBit i = false := by
  apply Nat.testBit_eq_false_of_lt
  calc set < 2 ^ 32 := hs
    _ ≤ 2 ^ i := Nat.pow_le_pow_right (by decide) (by omega)

/-- C36. On a 32-bit set and for every `signum` in 0..30: `sigemptyset` yields
0; `sigaddset(set, signum)` sets bit `signum` and, when `signum >= 8`, also bit
2; `sigdelset(set, signum)` clears bit `signum` and, when `signum >= 8`, also
bit 2, whatever the other bits 8..15 are; every other bit is as it was and the
results are 32-bit values; `sigaddset` is idempotent; and `sigdelset(signum)`
after `sigaddset(signum)` on the empty set gives the empty set. -/
theorem sigset_spec (set signum : Nat) (hs : set < 2 ^ 32) (hn : signum ≤ 30) :
    sigemptyset = 0 ∧
    (sigaddset set signum).testBit signum = true ∧
    (8 ≤ signum → (sigaddset set signum).testBit 2 = true) ∧
    (∀ i, i ≠ signum → ¬ (8 ≤ signum ∧ i = 2) →
      (sigaddset set signum).testBit i = set.testBit i) ∧
    (sigdelset set signum).testBit signum = false ∧
    (8 ≤ signum → (sigdelset set signum).testBit 2 = false) ∧
    (∀ i, i ≠ signum → ¬ (8 ≤ signum ∧ i = 2) →
      (sigdelset set signum).testBit i = set.testBit i) ∧
    sigaddset set signum < 2 ^ 32 ∧ sigdelset set signum < 2 ^ 32 ∧
    sigaddset (sigaddset set signum) signum = sigaddset set signum ∧
    sigdelset (sigaddset sigemptyset signum) signum = sigemptyset := by
  have h32 : signum < 32 := by omega
  have hadd_lt : sigaddset set signum < 2 ^ 32 := by
    unfold sigaddset
    dsimp only
    split <;> exact Nat.mod_lt _ (by decide)
  have hdel_lt : sigdelset set signum < 2 ^ 32 := by
    unfold sigdelset
    dsimp only
    split <;> exact Nat.mod_lt _ (by decide)
  refine ⟨rfl, ?_, ?_, ?_, ?_, ?_, ?_, hadd_lt, hdel_lt, ?_, ?_⟩
  · rw [sigaddset_testBit]
    simp [h32]
  · intro h8
    rw [sigaddset_testBit]
    simp [h8]
  · intro i hi h2
    rw [sigaddset_testBit]
    by_cases h1 : i < 32
    · have hi2 : ¬ signum = i := fun e => hi e.symm
      by_cases h8 : 8 ≤ signum
      · have : ¬ i = 2 := fun e => h2 ⟨h8, e⟩
        simp [h1, hi2, this]
      · simp [h1, hi2, h8]
    · rw [testBit_of_lt_32 set i hs h1]
      simp [h1]
  · rw [sigdelset_testBit]
    simp
  · intro h8
    rw [sigdelset_testBit]
    simp [h8]
  · intro i hi h2
    rw [sigdelset_testBit]
    by_cases h1 : i < 32
    · have hi2 : ¬ signum = i := fun e => hi e.symm
      by_cases h8 : 8 ≤ signum
      · have : ¬ i = 2 := fun e => h2 ⟨h8, e⟩
        simp [h1, hi2, this]
      · simp [h1, hi2, h8]
    · rw [testBit_of_lt_32 set i hs h1]
      simp [h1]
  · apply Nat.eq_of_testBit_eq
    intro i
    simp only [sigaddset_testBit]
    by_cases h1 : i < 32 <;> by_cases h3 : signum = i <;> by_cases h8 : 8 ≤ signum <;>
      by_cases h5 : i = 2 <;> simp [h1, h3, h8, h5]
  · apply Nat.eq_of_testBit_eq
    intro i
    simp only [sigdelset_testBit, sigaddset_testBit, sigemptyset, Nat.zero_testBit]
    by_cases h1 : i < 32 <;> by_cases h3 : signum = i <;> by_cases h8 : 8 ≤ signum <;>
      by_cases h5 : i = 2 <;> simp [h1, h3, h8, h5]

/-- The theorem `sigset_spec` for the set with bits 2, 8 and 9 and signal 8:
`sigdelset` clears bits 8 and 2 and leaves bit 9, which is the value 0x200;
`sigaddset` on that set changes nothing. -/
theorem sigset_spec_witness :
    (0x304 : Nat) < 2 ^ 32 ∧
    (sigdelset 0x304 8).testBit 2 = false ∧ (sigdelset 0x304 8).testBit 9 = true ∧
    sigdelset 0x304 8 = 0x200 ∧ sigaddset 0x304 8 = 0x304 :=
  ⟨by decide, (sigset_spec 0x304 8 (by decide) (by decide)).2.2.2.2.2.1 (by decide),
    ((sigset_spec 0x304 8 (by decide) (by decide)).2.2.2.2.2.2.1 9 (by decide)
      (by decide)).trans (by decide),
    by decide, by decide⟩

/-! ## sigaction with a null new action -/

/-- C38. For every `signum` in 0..15, `sigaction(signum, NULL, old)` is not a
query only: when `old` is not null it stores there the binding that was in
entry `signum` of the handler table (`SIG_DFL` for the default handler,
`SIG_IGN` for the ignore handler, the handler itself otherwise) and leaves the
other fields of `old` alone; it sets entry `signum` to the default handler,
whatever was installed, and leaves the other entries; it clears bit `signum`
of the shadow mask; and it returns 0. -/
theorem sigaction_null_resets (sym : symbols_t) (signum : Nat) (o : sigaction_t) (s : Irq)
    (_ : signum < 16) :
    (sigaction sym signum none (some o) s).2.2 =
      some (if s.signal_handlers signum = sym.default_handler then
          { o with sa_handler := SIG_DFL }
        else if s.signal_handlers signum = sym.ignore_handler then
          { o with sa_handler := SIG_IGN }
        else { o with sa_handler := s.signal_handlers signum }) ∧
    (sigaction sym signum none none s).2.2 = none ∧
    (∀ oldsa, (sigaction sym signum none oldsa s).2.1.signal_handlers signum
      = sym.default_handler) ∧
    (∀ oldsa n, n ≠ signum →
      (sigaction sym signum none oldsa s).2.1.signal_handlers n = s.signal_handlers n) ∧
    (∀ oldsa, (sigaction sym signum none oldsa s).2.1.signal_mask.testBit signum = false) ∧
    (∀ oldsa, (sigaction sym signum none oldsa s).1 = 0) := by
  refine ⟨sigaction_old sym signum none o s, rfl, ?_, ?_, ?_, fun _ => rfl⟩
  · intro oldsa
    rw [sigaction_signal_handlers, Function.update_same]
  · intro oldsa n hn
    rw [sigaction_signal_handlers, Function.update_noteq hn]
  · intro oldsa
    rw [sigaction_testBit]
    simp

/-- The theorem `sigaction_null_resets` for signal 3 after a handler at address
`0x200000` was installed for it and the signal was blocked again: the call
with a null new action reports `0x200000`, and afterwards entry 3 is the
default handler and bit 3 of the shadow mask is clear. -/
theorem sigaction_null_resets_witness :
    (sigaction example_symbols 3 none (some { sa_handler := 7, sa_flags := 0, sa_mask := 0 })
      (mask_irq 3 (sigaction example_symbols 3
        (some { sa_handler := 0x200000, sa_flags := 0, sa_mask := 0 })
        none (irq_boot example_symbols)).2.1)).2.2
      = some { sa_handler := 0x200000, sa_flags := 0, sa_mask := 0 } ∧
    (sigaction example_symbols 3 none (some { sa_handler := 7, sa_flags := 0, sa_mask := 0 })
      (mask_irq 3 (sigaction example_symbols 3
        (some { sa_handler := 0x200000, sa_flags := 0, sa_mask := 0 })
        none (irq_boot example_symbols)).2.1)).2.1.signal_handlers 3
      = example_symbols.default_handler ∧
    (mask_irq 3 (sigaction example_symbols 3
        (some { sa_handler := 0x200000, sa_flags := 0, sa_mask := 0 })
        none (irq_boot example_symbols)).2.1).signal_mask.testBit 3 = true ∧
    (sigaction example_symbols 3 none (some { sa_handler := 7, sa_flags := 0, sa_mask := 0 })
      (mask_irq 3 (sigaction example_symbols 3
        (some { sa_handler := 0x200000, sa_flags := 0, sa_mask := 0 })
        none (irq_boot example_symbols)).2.1)).2.1.signal_mask.testBit 3 = false :=
  ⟨(sigaction_null_resets example_symbols 3 { sa_handler := 7, sa_flags := 0, sa_mask := 0 }
      (mask_irq 3 (sigaction example_symbols 3
        (some { sa_handler := 0x200000, sa_flags := 0, sa_mask := 0 })
        none (irq_boot example_symbols)).2.1) (by decide)).1.trans (by decide),
    (sigaction_null_resets example_symbols 3 { sa_handler := 7, sa_flags := 0, sa_mask := 0 }
      (mask_irq 3 (sigaction example_symbols 3
        (some { sa_handler := 0x200000, sa_flags := 0, sa_mask := 0 })
        none (irq_boot example_symbols)).2.1) (by decide)).2.2.1 _,
    by decide,
    (sigaction_null_resets example_symbols 3 { sa_handler := 7, sa_flags := 0, sa_mask := 0 }
      (mask_irq 3 (sigaction example_symbols 3
        (some { sa_handler := 0x200000, sa_flags := 0, sa_mask := 0 })
        none (irq_boot example_symbols)).2.1) (by decide)).2.2.2.2.1 _⟩

/-! ## The default handler and the ignore handler -/

/-- C33. What the handlers write: for every `n` in 0..7 the only port write of
`default_handler` is the byte 0x20 to the master command port 0x20; for every
`n` in 8..15 it writes the byte 0x20 to port 0x20 and then, by the call
`out8(0x20, 0xA0)`, the byte 0xA0 to port 0x20 again, and nothing to the slave
command port 0xA0; `ignore_handler` writes to no port; neither changes
another global. -/
theorem default_handler_writes (s : Irq) :
    (∀ n : Int, 0 ≤ n → n ≤ 7 →
      default_handler n s = { s with port_log := s.port_log ++ [(0x20, 0x20)] }) ∧
    (∀ n : Int, 8 ≤ n → n ≤ 15 →
      default_handler n s =
        { s with port_log := s.port_log ++ [(0x20, 0x20), (0x20, 0xA0)] }) ∧
    (∀ n : Int, ignore_handler n s = s) := by
  refine ⟨?_, ?_, fun _ => rfl⟩
  · intro n _ h7
    have h16 : n < 16 := by omega
    have h8 : ¬ n > 7 := by omega
    unfold default_handler
    rw [if_pos h16]
    dsimp only
    rw [if_neg h8]
    rfl
  · intro n h8 h15
    have h16 : n < 16 := by omega
    have h7 : n > 7 := by omega
    unfold default_handler
    rw [if_pos h16]
    dsimp only
    rw [if_pos h7]
    show ({ s with port_log := (s.port_log ++ [(0x20 % 2 ^ 16, 0x20 % 2 ^ 8)]) ++
      [(0x20 % 2 ^ 16, 0xA0 % 2 ^ 8)] } : Irq) = _
    rw [List.append_assoc]
    rfl

/-- The theorem `default_handler_writes` for `n = 8` on the static initial
state: the two writes are 0x20 to port 0x20 and 0xA0 to port 0x20; no byte has
been written to port 0xA0, and the byte last written to port 0x20 is 0xA0. -/
theorem default_handler_writes_witness :
    (default_handler 8 (irq_boot example_symbols)).port_log = [(0x20, 0x20), (0x20, 0xA0)] ∧
    last_write 0xA0 (default_handler 8 (irq_boot example_symbols)) = none ∧
    last_write 0x20 (default_handler 8 (irq_boot example_symbols)) = some 0xA0 :=
  ⟨congrArg Irq.port_log
      ((default_handler_writes (irq_boot example_symbols)).2.1 8 (by decide) (by decide)),
    by decide, by decide⟩

/-! ## idt_init: port writes -/

theorem set_vector_port_log (v h : Nat) (t : gate_type) (s : Irq) :
    (set_vector v h t s).port_log = s.port_log := rfl

theorem set_irq_port_log (irq handler : Nat) (s : Irq) :
    ∃ r, (set_irq irq handler s).port_log = s.port_log ++ r := by
  unfold set_irq
  dsimp only
  split
  · exact ⟨_, List.append_assoc _ _ _⟩
  · exact ⟨_, List.append_assoc _ _ _⟩

/-- A loop whose body keeps the port log an extension of `base` keeps it
one. -/
theorem foldl_port_log {α : Type} (base : List (Nat × Nat)) (f : α → Irq → Irq)
    (hf : ∀ a x, (∃ r, x.port_log = base ++ r) → ∃ r, (f a x).port_log = base ++ r)
    (l : List α) (s : Irq) (hs : ∃ r, s.port_log = base ++ r) :
    ∃ r, (l.foldl (fun x a => f a x) s).port_log = base ++ r := by
  induction l generalizing s with
  | nil => exact hs
  | cons a l ih => exact ih (f a s) (hf a s hs)

theorem set_irq_extends (base : List (Nat × Nat)) (irq handler : Nat) (s : Irq)
    (hs : ∃ r, s.port_log = base ++ r) :
    ∃ r, (set_irq irq handler s).port_log = base ++ r := by
  obtain ⟨r, hr⟩ := hs
  obtain ⟨r1, h1⟩ := set_irq_port_log irq handler s
  exact ⟨r ++ r1, by rw [h1, hr, List.append_assoc]⟩

/-- The port log after the ten calls of `out8` that open `idt_init`. -/
theorem idt_init_icw (s : Irq) :
    (out8 PICSI 0xFF (out8 PICMI 0xFB (out8 PICSI ICW4 (out8 PICMI ICW4
      (out8 PICSI 2 (out8 PICMI 4 (out8 PICSI SLAVE (out8 PICMI MASTER
      (out8 PICS ICW1 (out8 PICM ICW1 s)))))))))).port_log =
    s.port_log ++
      [(0x20, 0x11), (0xA0, 0x11), (0x21, 32), (0xA1, 40), (0x21, 0x04), (0xA1, 2),
        (0x21, 0x01), (0xA1, 0x01), (0x21, 0xFB), (0xA1, 0xFF)] := by
  simp only [out8, List.append_assoc, List.cons_append, List.nil_append]
  rfl

/-- C32. The first ten port writes of `idt_init` are, in order: 0x11 to port
0x20 and 0x11 to port 0xA0, 32 to 0x21 and 40 to 0xA1, 0x04 to 0x21 and 2 to
0xA1, 0x01 to 0x21 and 0x01 to 0xA1, then 0xFB to 0x21 and 0xFF to 0xA1: the
port log after `idt_init` is the log before it, these ten writes, and what
the rest of `idt_init` writes. -/
theorem idt_init_first_writes (sym : symbols_t) (s : Irq) :
    ∃ rest, (idt_init sym s).port_log = s.port_log ++
      [(0x20, 0x11), (0xA0, 0x11), (0x21, 32), (0xA1, 40), (0x21, 0x04), (0xA1, 2),
        (0x21, 0x01), (0xA1, 0x01), (0x21, 0xFB), (0xA1, 0xFF)] ++ rest := by
  have h1 := idt_init_icw s
  generalize s.port_log ++
      [(0x20, 0x11), (0xA0, 0x11), (0x21, 32), (0xA1, 40), (0x21, 0x04), (0xA1, 2),
        (0x21, 0x01), (0xA1, 0x01), (0x21, 0xFB), (0xA1, 0xFF)] = base at h1 ⊢
  unfold idt_init
  dsimp only
  generalize (out8 PICSI 0xFF (out8 PICMI 0xFB (out8 PICSI ICW4 (out8 PICMI ICW4
      (out8 PICSI 2 (out8 PICMI 4 (out8 PICSI SLAVE (out8 PICMI MASTER
      (out8 PICS ICW1 (out8 PICM ICW1 s)))))))))) = s1 at h1 ⊢
  have p1 : ∃ r, s1.port_log = base ++ r := ⟨[], by rw [h1, List.append_nil]⟩
  have p2 := foldl_port_log base (fun n x => E sym n x) (fun _ _ hx => hx) (List.range 13) s1 p1
  generalize List.foldl (fun x n => E sym n x) s1 (List.range 13) = s2 at p2 ⊢
  have p4 : ∃ r, (E sym 16 (E sym 15 (set_vector 14 (sym.exception 14) .trap
      (set_vector 13 (sym.exception 13) .trap s2)))).port_log = base ++ r := p2
  generalize E sym 16 (E sym 15 (set_vector 14 (sym.exception 14) .trap
      (set_vector 13 (sym.exception 13) .trap s2))) = s4 at p4 ⊢
  have p5 := foldl_port_log base (fun (_ : Nat) x => E sym 15 x) (fun _ _ hx => hx)
    (List.range' 17 15) s4 p4
  generalize List.foldl (fun x (_ : Nat) => E sym 15 x) s4 (List.range' 17 15) = s5 at p5 ⊢
  have p6 := foldl_port_log base (fun i x => set_vector i sym.default_handler .interrupt x)
    (fun _ _ hx => hx) (List.range' 32 224) s5 p5
  generalize List.foldl (fun x i => set_vector i sym.default_handler .interrupt x) s5
    (List.range' 32 224) = s6 at p6 ⊢
  have p7 := foldl_port_log base (fun n x => I sym n x)
    (fun a x hx => set_irq_extends base a (sym.irq a) x hx) (List.range 16) s6 p6
  exact p7

/-! ## idt_init: descriptors -/

theorem set_vector_descriptors (v h : Nat) (t : gate_type) (s : Irq) (hv : v < 256) (w : Nat) :
    (set_vector v h t s).descriptors w = if w = v then gate_of h t else s.descriptors w := by
  have e : v % 256 = v := Nat.mod_eq_of_lt hv
  unfold set_vector
  rw [e]
  by_cases hw : w = v
  · rw [if_pos hw, hw]
    exact Function.update_same _ _ _
  · rw [if_neg hw]
    exact Function.update_noteq hw _ _

theorem set_irq_descriptors (irq h : Nat) (s : Irq) (hi : irq < 16) (w : Nat) :
    (set_irq irq h s).descriptors w =
      if w = 32 + irq then gate_of h .interrupt else s.descriptors w := by
  have hd : (set_irq irq h s).descriptors = (set_vector (32 + irq) h .interrupt s).descriptors := by
    unfold set_irq
    dsimp only
    split
    · have e : irq + SLAVE - 8 = 32 + irq := by
        show irq + 40 - 8 = 32 + irq
        omega
      rw [e]
      rfl
    · have e : irq + MASTER = 32 + irq := by
        show irq + 32 = 32 + irq
        omega
      rw [e]
      rfl
  rw [hd]
  exact set_vector_descriptors (32 + irq) h .interrupt s (by omega) w

theorem out8_descriptors (port byte : Nat) (s : Irq) :
    (out8 port byte s).descriptors = s.descriptors := rfl

/-- The descriptors after a loop of `set_vector(i, h i, t)` for `i` from `a`,
`n` times. -/
theorem foldl_set_vector (h : Nat → Nat) (t : gate_type) (n : Nat) :
    ∀ (a : Nat) (s : Irq), a + n ≤ 256 → ∀ v,
      ((List.range' a n).foldl (fun x i => set_vector i (h i) t x) s).descriptors v =
        if a ≤ v ∧ v < a + n then gate_of (h v) t else s.descriptors v := by
  induction n with
  | zero =>
    intro a s _ v
    have : ¬ (a ≤ v ∧ v < a + 0) := by omega
    rw [if_neg this]
    rfl
  | succ n ih =>
    intro a s ha v
    rw [List.range'_succ, List.foldl_cons, ih (a + 1) _ (by omega) v,
      set_vector_descriptors a (h a) t s (by omega) v]
    by_cases h1 : a + 1 ≤ v ∧ v < a + 1 + n
    · have h2 : a ≤ v ∧ v < a + (n + 1) := by omega
      rw [if_pos h1, if_pos h2]
    · rw [if_neg h1]
      by_cases h3 : v = a
      · have h2 : a ≤ v ∧ v < a + (n + 1) := by omega
        rw [if_pos h3, if_pos h2, h3]
      · have h2 : ¬ (a ≤ v ∧ v < a + (n + 1)) := by omega
        rw [if_neg h3, if_neg h2]

/-- The descriptors after a loop of `I(i)` for `i` from `a`, `n` times. -/
theorem foldl_I (sym : symbols_t) (n : Nat) :
    ∀ (a : Nat) (s : Irq), a + n ≤ 16 → ∀ v,
      ((List.range' a n).foldl (fun x i => I sym i x) s).descriptors v =
        if 32 + a ≤ v ∧ v < 32 + a + n then gate_of (sym.irq (v - 32)) .interrupt
        else s.descriptors v := by
  induction n with
  | zero =>
    intro a s _ v
    have : ¬ (32 + a ≤ v ∧ v < 32 + a + 0) := by omega
    rw [if_neg this]
    rfl
  | succ n ih =>
    intro a s ha v
    rw [List.range'_succ, List.foldl_cons, ih (a + 1) _ (by omega) v]
    unfold I
    rw [set_irq_descriptors a (sym.irq a) s (by omega) v]
    by_cases h1 : 32 + (a + 1) ≤ v ∧ v < 32 + (a + 1) + n
    · have h2 : 32 + a ≤ v ∧ v < 32 + a + (n + 1) := by omega
      rw [if_pos h1, if_pos h2]
    · rw [if_neg h1]
      by_cases h3 : v = 32 + a
      · have h2 : 32 + a ≤ v ∧ v < 32 + a + (n + 1) := by omega
        have h4 : v - 32 = a := by omega
        rw [if_pos h3, if_pos h2, h4]
      · have h2 : ¬ (32 + a ≤ v ∧ v < 32 + a + (n + 1)) := by omega
        rw [if_neg h3, if_neg h2]

/-- The loop of idt.c over 17..31 repeats `E(15)`: it leaves the descriptors
as they are once descriptor 15 is the gate of `exception15`. -/
theorem foldl_E15 (sym : symbols_t) (l : List Nat) :
    ∀ (s : Irq), s.descriptors 15 = gate_of (sym.exception 15) .trap → ∀ v,
      (l.foldl (fun x _ => E sym 15 x) s).descriptors v = s.descriptors v := by
  induction l with
  | nil =>
    intro s _ v
    rfl
  | cons a l ih =>
    intro s hs v
    have hE : ∀ w, (E sym 15 s).descriptors w = s.descriptors w := by
      intro w
      unfold E
      rw [set_vector_descriptors 15 _ _ s (by decide) w]
      by_cases hw : w = 15
      · rw [if_pos hw, hw, hs]
      · rw [if_neg hw]
    rw [List.foldl_cons, ih (E sym 15 s) ((hE 15).trans hs) v, hE v]

/-- Every descriptor after `idt_init`. -/
theorem idt_init_descriptors_eq (sym : symbols_t) (s : Irq) (v : Nat) :
    (idt_init sym s).descriptors v =
      if 32 ≤ v ∧ v < 48 then gate_of (sym.irq (v - 32)) .interrupt
      else if 48 ≤ v ∧ v < 256 then gate_of sym.default_handler .interrupt
      else if v ≤ 16 then gate_of (sym.exception v) .trap
      else s.descriptors v := by
  have h1 : (out8 PICSI 0xFF (out8 PICMI 0xFB (out8 PICSI ICW4 (out8 PICMI ICW4
      (out8 PICSI 2 (out8 PICMI 4 (out8 PICSI SLAVE (out8 PICMI MASTER
      (out8 PICS ICW1 (out8 PICM ICW1 s)))))))))).descriptors = s.descriptors := by
    simp only [out8_descriptors]
  unfold idt_init
  dsimp only
  generalize (out8 PICSI 0xFF (out8 PICMI 0xFB (out8 PICSI ICW4 (out8 PICMI ICW4
      (out8 PICSI 2 (out8 PICMI 4 (out8 PICSI SLAVE (out8 PICMI MASTER
      (out8 PICS ICW1 (out8 PICM ICW1 s)))))))))) = s1 at h1 ⊢
  have h2 : ∀ w, (List.foldl (fun x n => E sym n x) s1 (List.range 13)).descriptors w =
      if 0 ≤ w ∧ w < 0 + 13 then gate_of (sym.exception w) .trap else s1.descriptors w := by
    intro w
    rw [List.range_eq_range']
    exact foldl_set_vector sym.exception .trap 13 0 s1 (by decide) w
  generalize List.foldl (fun x n => E sym n x) s1 (List.range 13) = s2 at h2 ⊢
  have h4 : ∀ w, (E sym 16 (E sym 15 (set_vector 14 (sym.exception 14) .trap
      (set_vector 13 (sym.exception 13) .trap s2)))).descriptors w =
      if w = 16 then gate_of (sym.exception 16) .trap
      else if w = 15 then gate_of (sym.exception 15) .trap
      else if w = 14 then gate_of (sym.exception 14) .trap
      else if w = 13 then gate_of (sym.exception 13) .trap
      else s2.descriptors w := by
    intro w
    unfold E
    rw [set_vector_descriptors 16 _ _ _ (by decide), set_vector_descriptors 15 _ _ _ (by decide),
      set_vector_descriptors 14 _ _ _ (by decide), set_vector_descriptors 13 _ _ _ (by decide)]
  generalize E sym 16 (E sym 15 (set_vector 14 (sym.exception 14) .trap
      (set_vector 13 (sym.exception 13) .trap s2))) = s4 at h4 ⊢
  have h5 := foldl_E15 sym (List.range' 17 15) s4 ((h4 15).trans (by simp))
  generalize List.foldl (fun x (_ : Nat) => E sym 15 x) s4 (List.range' 17 15) = s5 at h5 ⊢
  have h6 := foldl_set_vector (fun _ => sym.default_handler) .interrupt 224 32 s5 (by decide)
  generalize List.foldl (fun x i => set_vector i sym.default_handler .interrupt x) s5
    (List.range' 32 224) = s6 at h6 ⊢
  have h7 : ∀ w, (List.foldl (fun x n => I sym n x) s6 (List.range 16)).descriptors w =
      if 32 + 0 ≤ w ∧ w < 32 + 0 + 16 then gate_of (sym.irq (w - 32)) .interrupt
      else s6.descriptors w := by
    intro w
    rw [List.range_eq_range']
    exact foldl_I sym 16 0 s6 (by decide) w
  generalize List.foldl (fun x n => I sym n x) s6 (List.range 16) = s7 at h7 ⊢
  show s7.descriptors v = _
  rw [h7, h6, h5, h4, h2, h1]
  by_cases c1 : 32 ≤ v ∧ v < 48
  · have a1 : 32 + 0 ≤ v ∧ v < 32 + 0 + 16 := by omega
    rw [if_pos a1, if_pos c1]
  · have a1 : ¬ (32 + 0 ≤ v ∧ v < 32 + 0 + 16) := by omega
    rw [if_neg a1, if_neg c1]
    by_cases c2 : 48 ≤ v ∧ v < 256
    · have a2 : 32 ≤ v ∧ v < 32 + 224 := by omega
      rw [if_pos a2, if_pos c2]
    · have a2 : ¬ (32 ≤ v ∧ v < 32 + 224) := by omega
      rw [if_neg a2, if_neg c2]
      by_cases c3 : v ≤ 16
      · rw [if_pos c3]
        by_cases e16 : v = 16
        · rw [if_pos e16, e16]
        · rw [if_neg e16]
          by_cases e15 : v = 15
          · rw [if_pos e15, e15]
          · rw [if_neg e15]
            by_cases e14 : v = 14
            · rw [if_pos e14, e14]
            · rw [if_neg e14]
              by_cases e13 : v = 13
              · rw [if_pos e13, e13]
              · have a3 : 0 ≤ v ∧ v < 0 + 13 := by omega
                rw [if_neg e13, if_pos a3]
      · have e16 : ¬ v = 16 := by omega
        have e15 : ¬ v = 15 := by omega
        have e14 : ¬ v = 14 := by omega
        have e13 : ¬ v = 13 := by omega
        have a3 : ¬ (0 ≤ v ∧ v < 0 + 13) := by omega
        rw [if_neg c3, if_neg e16, if_neg e15, if_neg e14, if_neg e13, if_neg a3]

/-- C31. The descriptors after `idt_init`, for all function addresses and
every state before the call.  The vectors 0..16 hold trap gates (flags 0x8F00,
selector 0x08) for the exception handlers `exception0` to `exception16`; the
vectors 32..47 hold interrupt gates (flags 0x8E00, selector 0x08) for the IRQ
stubs `irq0` to `irq15`; every vector in 48..255 holds an interrupt gate whose
handler is the default handler.  The loop over 17..31 calls `E(15)` each time,
which writes vector 15: the vectors 17..31 are not written, and hold after
`idt_init` what they held before it. -/
theorem idt_init_descriptors (sym : symbols_t) (s : Irq) :
    (∀ v, 48 ≤ v → v < 256 →
      (idt_init sym s).descriptors v = gate_of sym.default_handler .interrupt) ∧
    (∀ v, v ≤ 16 → (idt_init sym s).descriptors v = gate_of (sym.exception v) .trap) ∧
    (∀ n, n < 16 → (idt_init sym s).descriptors (32 + n) = gate_of (sym.irq n) .interrupt) ∧
    (∀ v, 17 ≤ v → v < 32 → (idt_init sym s).descriptors v = s.descriptors v) ∧
    (∀ h, (gate_of h .interrupt).flags = 0x8E00 ∧ (gate_of h .interrupt).selector = 0x08 ∧
      (gate_of h .trap).flags = 0x8F00 ∧ (gate_of h .trap).selector = 0x08 ∧
      (h < 2 ^ 32 → ∀ t, (gate_of h t).offset_hi * 2 ^ 16 + (gate_of h t).offset_lo = h)) := by
  refine ⟨?_, ?_, ?_, ?_, ?_⟩
  · intro v h1 h2
    rw [idt_init_descriptors_eq, if_neg (by omega), if_pos ⟨h1, h2⟩]
  · intro v h1
    rw [idt_init_descriptors_eq, if_neg (by omega), if_neg (by omega), if_pos h1]
  · intro n hn
    rw [idt_init_descriptors_eq, if_pos (by omega)]
    have e : 32 + n - 32 = n := by omega
    rw [e]
  · intro v h1 h2
    rw [idt_init_descriptors_eq, if_neg (by omega), if_neg (by omega), if_neg (by omega)]
  · intro h
    refine ⟨rfl, rfl, rfl, rfl, ?_⟩
    intro hh t
    show h / 2 ^ 16 % 2 ^ 16 * 2 ^ 16 + h % 2 ^ 16 = h
    have hhi : h / 2 ^ 16 % 2 ^ 16 = h / 2 ^ 16 := by
      apply Nat.mod_eq_of_lt
      omega
    rw [hhi]
    omega

/-- The theorem `idt_init_descriptors` from the static initial state: vector
17 is still the zero descriptor, with flags 0 and selector 0, and so is not an
interrupt gate; vector 255 holds the interrupt gate of the default handler at
`0x100000`, vector 14 the trap gate of `exception14` at `0x1002C0`, and vector
33 the interrupt gate of `irq1` at `0x100420`. -/
theorem idt_init_descriptors_witness :
    (idt_init example_symbols (irq_boot example_symbols)).descriptors 17
      = { offset_lo := 0, selector := 0, flags := 0, offset_hi := 0 } ∧
    (idt_init example_symbols (irq_boot example_symbols)).descriptors 17
      ≠ gate_of example_symbols.default_handler .interrupt ∧
    (idt_init example_symbols (irq_boot example_symbols)).descriptors 255
      = { offset_lo := 0, selector := 0x08, flags := 0x8E00, offset_hi := 0x10 } ∧
    (idt_init example_symbols (irq_boot example_symbols)).descriptors 14
      = { offset_lo := 0x02C0, selector := 0x08, flags := 0x8F00, offset_hi := 0x10 } ∧
    (idt_init example_symbols (irq_boot example_symbols)).descriptors 33
      = { offset_lo := 0x0420, selector := 0x08, flags := 0x8E00, offset_hi := 0x10 } := by
  have h17 := (idt_init_descriptors example_symbols (irq_boot example_symbols)).2.2.2.1 17
    (by decide) (by decide)
  refine ⟨h17, ?_,
    ((idt_init_descriptors example_symbols (irq_boot example_symbols)).1 255 (by decide)
      (by decide)).trans (by decide),
    ((idt_init_descriptors example_symbols (irq_boot example_symbols)).2.1 14
      (by decide)).trans (by decide),
    ((idt_init_descriptors example_symbols (irq_boot example_symbols)).2.2.1 1
      (by decide)).trans (by decide)⟩
  rw [h17]
  decide

/-! ## Mutual exclusion: who changes the owner of a mutex -/

theorem schedule_owner (s s1 : Kernel) (h : schedule s = some s1) (n : Nat) :
    (s1.mutexes n).owner = (s.mutexes n).owner := by
  rw [(schedule_view s s1 h).2.2.2.2.2.1]

theorem wait_on_owner (k : head_t) (s s1 : Kernel) (h : wait_on k s = some s1) (n : Nat) :
    (s1.mutexes n).owner = (s.mutexes n).owner := by
  unfold wait_on at h
  dsimp only at h
  rw [schedule_owner _ s1 h n]
  simp

theorem wake_first_owner (k : head_t) (s s1 : Kernel) (h : wake_first k s = some s1) (n : Nat) :
    (s1.mutexes n).owner = (s.mutexes n).owner := by
  rcases wake_first_view k s s1 h with ⟨_, rfl⟩ | ⟨t, l, _, _, _, _, _, _, _, _, _, _, _, _, _, _, hm, _⟩
  · rfl
  · exact (hm n).1

/-- The loops of `mutex_lock` and `mutex_unsafe_lock` change an owner only by
giving a mutex that has none to the current thread. -/
theorem mutex_lock_loop_owner (m i : Nat) (s s1 : Kernel)
    (h : mutex_lock_loop m i s = some s1) (n : Nat) :
    (s1.mutexes n).owner = (s.mutexes n).owner ∨
      (n = m ∧ (s.mutexes m).owner = 0 ∧ (s1.mutexes m).owner = s.current) := by
  unfold mutex_lock_loop at h
  split at h
  · left
    rw [wait_on_owner _ _ s1 h n]
    simp
  · rename_i ho
    obtain rfl := Option.some.inj h
    by_cases e : n = m
    · right
      subst e
      exact ⟨rfl, not_not.mp ho, by simp⟩
    · left
      simp [e]

theorem mutex_unsafe_lock_loop_owner (m i : Nat) (s s1 : Kernel)
    (h : mutex_unsafe_lock_loop m i s = some s1) (n : Nat) :
    (s1.mutexes n).owner = (s.mutexes n).owner ∨
      (n = m ∧ (s.mutexes m).owner = 0 ∧ (s1.mutexes m).owner = s.current) := by
  unfold mutex_unsafe_lock_loop at h
  split at h
  · left
    rw [wait_on_owner _ _ s1 h n]
    simp
  · rename_i ho
    obtain rfl := Option.some.inj h
    by_cases e : n = m
    · right
      subst e
      exact ⟨rfl, not_not.mp ho, by simp⟩
    · left
      simp [e]

theorem mutex_lock_owner (m : Nat) (s s1 : Kernel) (h : mutex_lock m s = some s1) (n : Nat) :
    (s1.mutexes n).owner = (s.mutexes n).owner ∨
      (n = m ∧ (s.mutexes m).owner = 0 ∧ (s1.mutexes m).owner = s.current) := by
  unfold mutex_lock at h
  dsimp only at h
  split at h
  · simp at h
  · exact mutex_lock_loop_owner m _ _ s1 h n

theorem mutex_unsafe_unlock_owner (m : Nat) (s s1 : Kernel)
    (h : mutex_unsafe_unlock m s = some s1) (n : Nat) :
    (s1.mutexes n).owner = if n = m then 0 else (s.mutexes n).owner := by
  unfold mutex_unsafe_unlock at h
  dsimp only at h
  split at h
  · simp at h
  · rename_i s2 hw
    obtain rfl := Option.some.inj h
    have h2 := wake_first_owner _ _ s2 hw n
    simp only [interrupts_restore_mutexes, set_owner_mutexes_owner]
    rw [h2]
    rfl

theorem do_reaper_pass_owner (s s1 : Kernel) (h : do_reaper_pass s = some s1) (n : Nat) :
    (s1.mutexes n).owner = (s.mutexes n).owner := by
  unfold do_reaper_pass at h
  rw [reaper_loop_eq s.zombie_list s rfl _ (Nat.le_refl _)] at h
  dsimp only at h
  rw [schedule_owner _ s1 h n]
  simp

/-- What one call does to the owner of a mutex: nothing; or the mutex had no
owner and the call is an acquisition by the current thread, which becomes the
owner; or the call is one of the releasing calls and the mutex has no owner
afterwards, where `mutex_unlock` and `cond_wait` are calls of the owner. -/
theorem owner_step (c : call_t) (s s1 : Kernel) (m : Nat) (h : run c s = some s1) :
    (s1.mutexes m).owner = (s.mutexes m).owner ∨
    ((s.mutexes m).owner = 0 ∧ (s1.mutexes m).owner = s.current ∧ acquires c m s) ∨
    ((s1.mutexes m).owner = 0 ∧ releases c m ∧
      (c ≠ .mutex_unsafe_unlock m → c ≠ .mutex_init m → (s.mutexes m).owner = s.current)) := by
  cases c with
  | thread_create a =>
    obtain rfl := Option.some.inj h
    left
    rw [(thread_create_view a s).2.2.2.2.2.2.2.2.2.1]
  | thread_yield => exact Or.inl (schedule_owner s s1 h m)
  | thread_exit =>
    left
    have := schedule_owner _ s1 h m
    simpa using this
  | thread_sleep =>
    left
    have := schedule_owner _ s1 h m
    simpa using this
  | thread_wake t =>
    obtain rfl := Option.some.inj h
    left
    simp [thread_wake]
  | thread_setspecific d =>
    obtain rfl := Option.some.inj h
    left
    simp [thread_setspecific]
  | idle_loop => exact Or.inl (schedule_owner s s1 h m)
  | reaper_entry =>
    left
    have := do_reaper_pass_owner _ s1 h m
    simpa [interrupts_disable] using this
  | reaper_pass => exact Or.inl (do_reaper_pass_owner s s1 h m)
  | mutex_init n =>
    obtain rfl := Option.some.inj h
    by_cases e : n = m
    · subst e
      right
      right
      refine ⟨by simp [mutex_init], rfl, fun _ h2 => absurd rfl h2⟩
    · left
      have e2 : m ≠ n := fun x => e x.symm
      simp [mutex_init, Function.update, e2]
  | mutex_destroy n =>
    left
    replace h : mutex_destroy n s = some s1 := h
    unfold mutex_destroy at h
    split at h
    · obtain rfl := Option.some.inj h
      rfl
    · simp at h
  | mutex_lock n =>
    rcases mutex_lock_owner n s s1 h m with h1 | ⟨rfl, h2, h3⟩
    · exact Or.inl h1
    · exact Or.inr (Or.inl ⟨h2, h3, rfl⟩)
  | mutex_unsafe_lock n =>
    rcases mutex_unsafe_lock_loop_owner n _ _ s1 h m with h1 | ⟨rfl, h2, h3⟩
    · exact Or.inl h1
    · exact Or.inr (Or.inl ⟨h2, h3, rfl⟩)
  | mutex_unlock n =>
    obtain ⟨h1, h2, _, _, h5, _⟩ := mutex_unlock_view n s s1 h
    by_cases e : m = n
    · subst e
      exact Or.inr (Or.inr ⟨h2, rfl, fun _ _ => h1⟩)
    · exact Or.inl (h5 m e)
  | mutex_unsafe_unlock n =>
    have h1 := mutex_unsafe_unlock_owner n s s1 h m
    by_cases e : m = n
    · subst e
      rw [if_pos rfl] at h1
      exact Or.inr (Or.inr ⟨h1, rfl, fun h2 _ => absurd rfl h2⟩)
    · rw [if_neg e] at h1
      exact Or.inl h1
  | mutex_trylock n =>
    obtain rfl := Option.some.inj h
    unfold mutex_trylock
    dsimp only
    split
    · rename_i ho
      by_cases e : m = n
      · subst e
        exact Or.inr (Or.inl ⟨ho, by simp [interrupts_disable], rfl⟩)
      · left
        simp [interrupts_disable, e]
    · left
      simp [interrupts_disable]
  | cond_init c =>
    obtain rfl := Option.some.inj h
    exact Or.inl rfl
  | cond_destroy c =>
    left
    replace h : cond_destroy c s = some s1 := h
    unfold cond_destroy at h
    split at h
    · obtain rfl := Option.some.inj h
      rfl
    · simp at h
  | cond_wait c n =>
    replace h : cond_wait c n s = some s1 := h
    unfold cond_wait at h
    dsimp only at h
    split at h
    · simp at h
    · rename_i s2 hu
      obtain ⟨h1, h2, _, _, h5, _⟩ := mutex_unlock_view n _ s2 hu
      have hw := wait_on_owner _ _ s1 h m
      simp only [push_frame_mutexes] at hw
      by_cases e : m = n
      · subst e
        rw [h2] at hw
        exact Or.inr (Or.inr ⟨hw, rfl, fun _ _ => h1⟩)
      · rw [h5 m e] at hw
        exact Or.inl hw
  | cond_signal c =>
    left
    replace h : cond_signal c s = some s1 := h
    unfold cond_signal at h
    dsimp only at h
    split at h
    · simp at h
    · rename_i s2 hw
      obtain rfl := Option.some.inj h
      have := wake_first_owner _ _ s2 hw m
      simpa [interrupts_disable] using this
  | cond_broadcast c =>
    left
    replace h : cond_broadcast c s = some s1 := h
    unfold cond_broadcast at h
    dsimp only at h
    split at h
    · simp at h
    · rename_i s2 hw
      obtain rfl := Option.some.inj h
      have := wake_all_loop_keeps (.cond c)
        (fun x => (x.mutexes m).owner = (s.mutexes m).owner)
        (fun a b ha hb => (wake_first_owner _ a b hb m).trans ha) _ (interrupts_disable s).2 s2
        rfl hw
      simpa using this
  | resume =>
    replace h : resume s = some s1 := h
    unfold resume at h
    split at h
    · simp at h
    · rename_i f rest hf
      dsimp only at h
      cases f with
      | mutex_lock n i =>
        rcases mutex_lock_loop_owner n i _ s1 h m with h1 | ⟨rfl, h2, h3⟩
        · exact Or.inl (by simpa using h1)
        · refine Or.inr (Or.inl ⟨by simpa using h2, by simpa using h3, ?_⟩)
          simp [acquires, hf]
      | mutex_unsafe_lock n i =>
        rcases mutex_unsafe_lock_loop_owner n i _ s1 h m with h1 | ⟨rfl, h2, h3⟩
        · exact Or.inl (by simpa using h1)
        · refine Or.inr (Or.inl ⟨by simpa using h2, by simpa using h3, ?_⟩)
          simp [acquires, hf]
      | cond_wait n i =>
        rcases mutex_lock_owner n _ s1 h m with h1 | ⟨rfl, h2, h3⟩
        · exact Or.inl (by simpa using h1)
        · refine Or.inr (Or.inl ⟨by simpa using h2, by simpa using h3, ?_⟩)
          simp [acquires, hf]
      | cond_wait_restore i =>
        obtain rfl := Option.some.inj h
        left
        simp
      | thread_exit => simp at h

theorem run_of_exec (c : call_t) (s s1 : Kernel) (h : exec c s = some s1) :
    run c s = some s1 := by
  unfold exec at h
  split at h
  · exact h
  · simp at h

/-- A call that takes a mutex is not one of the releasing calls. -/
theorem acquires_not_releases (c : call_t) (m : Nat) (s : Kernel) (h : acquires c m s) :
    ¬ releases c m := by
  cases c <;> simp [acquires, releases] at h ⊢

/-- While no releasing call for mutex `m` is made, its owner stays. -/
theorem owner_kept (m : Nat) (t : thread_t) (ht : t ≠ 0) :
    ∀ (cs : List call_t) (s : Kernel) (ss : List Kernel), path cs s = some ss →
      (s.mutexes m).owner = t → (∀ c ∈ cs, ¬ releases c m) →
      ∀ x ∈ ss, (x.mutexes m).owner = t := by
  intro cs
  induction cs with
  | nil =>
    intro s ss hp _ _ x hx
    simp only [path] at hp
    obtain rfl := Option.some.inj hp
    simp at hx
  | cons c cs ih =>
    intro s ss hp ho hr x hx
    simp only [path] at hp
    split at hp
    · simp at hp
    · rename_i s1 he
      split at hp
      · simp at hp
      · rename_i ss1 hp1
        obtain rfl := Option.some.inj hp
        have h1 : (s1.mutexes m).owner = t := by
          rcases owner_step c s s1 m (run_of_exec c s s1 he) with h1 | ⟨h0, _, _⟩ | ⟨_, h2, _⟩
          · exact h1.trans ho
          · exact absurd (ho.symm.trans h0) ht
          · exact absurd h2 (hr c (List.mem_cons_self _ _))
        rcases List.mem_cons.mp hx with rfl | hx
        · exact h1
        · exact ih s1 ss1 hp1 h1 (fun d hd => hr d (List.mem_cons_of_mem _ hd)) x hx

/-- C37, counterexample. The kernel thread holds mutex 7 and calls no unlock;
`mutex_init(7)` sets the owner back to none, and thread 4 then takes the mutex
by `mutex_lock(7)`. -/
theorem mutex_init_counterexample :
    (locked_state.mutexes 7).owner = 1 ∧ locked_state.current = 1 ∧
    (exec (.mutex_init 7) locked_state).map (fun x => (x.mutexes 7).owner) = some 0 ∧
    (trace [.mutex_init 7, .thread_create 4, .thread_yield, .idle_loop, .reaper_entry,
      .mutex_lock 7] locked_state).map (fun x => ((x.mutexes 7).owner, x.current))
      = some (4, 4) := by
  decide

/-- C37, amended. Mutual exclusion: a call changes the owner of a mutex in two
ways only. Either the mutex had no owner and the call is `mutex_lock`,
`mutex_unsafe_lock`, `mutex_trylock` or the continuation of a blocked
`mutex_lock`, `mutex_unsafe_lock` or `cond_wait`, and the owner becomes the
caller; or the owner becomes none and the call is `mutex_unlock` by the owner,
`cond_wait` by the owner, `mutex_unsafe_unlock`, or `mutex_init` of that
mutex. No acquiring call changes an owner that is not none. So the owner of a
mutex stays the same along every run in which none of these four releasing
calls is made for it. -/
theorem owner_exclusive :
    (∀ (c : call_t) (s s1 : Kernel) (m : Nat), exec c s = some s1 →
      (s1.mutexes m).owner ≠ (s.mutexes m).owner →
      ((s.mutexes m).owner = 0 ∧ (s1.mutexes m).owner = s.current ∧ acquires c m s) ∨
      ((s1.mutexes m).owner = 0 ∧ releases c m ∧
        (c ≠ .mutex_unsafe_unlock m → c ≠ .mutex_init m →
          (s.mutexes m).owner = s.current))) ∧
    (∀ (c : call_t) (s s1 : Kernel) (m : Nat), exec c s = some s1 → acquires c m s →
      (s.mutexes m).owner ≠ 0 → (s1.mutexes m).owner = (s.mutexes m).owner) ∧
    (∀ (cs : List call_t) (s : Kernel) (ss : List Kernel) (m : Nat) (t : thread_t),
      path cs s = some ss → t ≠ 0 → (s.mutexes m).owner = t →
      (∀ c ∈ cs, ¬ releases c m) → ∀ x ∈ ss, (x.mutexes m).owner = t) := by
  refine ⟨?_, ?_, ?_⟩
  · intro c s s1 m he hne
    rcases owner_step c s s1 m (run_of_exec c s s1 he) with h1 | h2 | h3
    · exact absurd h1 hne
    · exact Or.inl h2
    · exact Or.inr h3
  · intro c s s1 m he ha ho
    rcases owner_step c s s1 m (run_of_exec c s s1 he) with h1 | ⟨h0, _, _⟩ | ⟨_, h2, _⟩
    · exact h1
    · exact absurd h0 ho
    · exact absurd h2 (acquires_not_releases c m s ha)
  · intro cs s ss m t hp ht ho hr
    exact owner_kept m t ht cs s ss hp ho hr

/-- The theorem `owner_exclusive` at the state where the kernel thread holds
mutex 7: the kernel thread creates thread 4 and yields, the idle and the
reaper thread run, and thread 4 calls `mutex_lock(7)` and blocks; the owner is
the kernel thread in every state of the run. When the kernel thread then
unlocks, the owner changes to none by a `mutex_unlock` of the owner. -/
theorem owner_exclusive_witness :
    (∃ ss, path [.thread_create 4, .thread_yield, .idle_loop, .reaper_entry, .mutex_lock 7]
        locked_state = some ss ∧ ss.length = 5 ∧ ∀ x ∈ ss, (x.mutexes 7).owner = 1) ∧
    (∃ s1, exec (.mutex_unlock 7) locked_state = some s1 ∧ (s1.mutexes 7).owner = 0 ∧
      (locked_state.mutexes 7).owner = locked_state.current) := by
  refine ⟨⟨_, rfl, by decide, ?_⟩, ?_⟩
  · refine owner_exclusive.2.2 [.thread_create 4, .thread_yield, .idle_loop, .reaper_entry,
      .mutex_lock 7] locked_state _ 7 1 rfl (by decide) (by decide) ?_
    intro c hc
    simp only [List.mem_cons, List.mem_singleton, List.not_mem_nil, or_false] at hc
    rcases hc with rfl | rfl | rfl | rfl | rfl <;> simp [releases]
  · obtain ⟨s1, h1⟩ : ∃ s1, exec (.mutex_unlock 7) locked_state = some s1 := ⟨_, rfl⟩
    have hne : (s1.mutexes 7).owner ≠ (locked_state.mutexes 7).owner := by
      have e : (exec (.mutex_unlock 7) locked_state).map (fun x => (x.mutexes 7).owner)
          = some 0 := by decide
      rw [h1] at e
      have e0 : (s1.mutexes 7).owner = 0 := Option.some.inj e
      rw [e0]
      decide
    rcases owner_exclusive.1 (.mutex_unlock 7) locked_state s1 7 h1 hne with ⟨h0, _, _⟩ |
      ⟨h2, _, h4⟩
    · exact absurd h0 (by decide)
    · exact ⟨s1, h1, h2, h4 (by simp) (by simp)⟩

end Snowflake
